import Mathlib

/-! # Bloch: semantic analyser and runtime evaluator

A shallow embedding of `src/bloch/semantics/semantic_analyser.cpp` and of
`src/bloch/runtime/runtime_evaluator.cpp`, and the properties of them that the
specification states.

Conventions of the embedding

* `std::unique_ptr<T>` fields that the source tests for null are `Option T`.
* `std::unordered_map<std::string, V>` is an association list with unique keys
  (`mapFind`, `mapSet`); `std::unordered_set<std::string>` is a list of names.
* `m_scopes` is a `std::vector` used as a stack: the head of the list is
  `m_scopes.back()`, so a walk from `rbegin()` to `rend()` is a walk down the list.
* `throw BlochRuntimeError(...)` is the `error` result.  An error raised while a
  statement is visited also records the analyser state at the moment of the throw
  (the C++ object keeps that state, nothing is unwound).
* `line` and `column` are natural numbers.
-/

namespace Bloch

/-! ## AST -/

/-- Type nodes: `PrimitiveType`, `LogicalType`, `ArrayType`, `VoidType`, `ObjectType`.
The passes only look at the node kind and, for primitive and object types, at the name. -/
inductive Ty where
  | primitive (name : String)
  | logical
  | array
  | void
  | object (className : String)
  deriving DecidableEq, Repr

/-- Expression nodes. -/
inductive Expression where
  | literal (line column : Nat) (value literalType : String)
  | variable (line column : Nat) (name : String)
  | binary (line column : Nat) (op : String) (left right : Option Expression)
  | unary (line column : Nat) (op : String) (right : Option Expression)
  | call (line column : Nat) (callee : Option Expression) (arguments : List Expression)
  | index (line column : Nat) (collection index : Option Expression)
  | parenthesized (line column : Nat) (expression : Option Expression)
  | measure (line column : Nat) (qubit : Option Expression)
  | assignment (line column : Nat) (name : String) (value : Option Expression)
  | constructorCall (line column : Nat) (className : String) (arguments : List Expression)
  | memberAccess (line column : Nat) (object : Option Expression) (member : String)

/-- The node `VariableDeclaration`. -/
structure VariableDeclaration where
  line : Nat
  column : Nat
  name : String
  varType : Option Ty
  initializer : Option Expression
  isFinal : Bool

/-- Statement nodes. -/
inductive Statement where
  | variableDeclaration (node : VariableDeclaration)
  | block (line column : Nat) (statements : List Statement)
  | expression (line column : Nat) (expression : Option Expression)
  | ret (line column : Nat) (value : Option Expression)
  | ifStatement (line column : Nat) (condition : Option Expression)
      (thenBranch elseBranch : Option Statement)
  | forStatement (line column : Nat) (initializer : Option Statement)
      (condition increment : Option Expression) (body : Option Statement)
  | echo (line column : Nat) (value : Option Expression)
  | reset (line column : Nat) (target : Option Expression)
  | measure (line column : Nat) (qubit : Option Expression)
  | assignment (line column : Nat) (name : String) (value : Option Expression)

/-- The node `Parameter`. -/
structure Parameter where
  line : Nat
  column : Nat
  name : String
  type : Option Ty

/-- The node `FunctionDeclaration`; `body` is a `BlockStatement`, given by its statements. -/
structure FunctionDeclaration where
  line : Nat
  column : Nat
  name : String
  params : List Parameter
  returnType : Option Ty
  body : Option (List Statement)
  hasQuantumAnnotation : Bool

/-- The node `ClassDeclaration`. -/
structure ClassDeclaration where
  name : String
  members : List VariableDeclaration
  methods : List FunctionDeclaration

/-- The node `ImportStatement`. -/
structure ImportStatement where
  module : String

/-- The node `Program`. -/
structure Program where
  imports : List ImportStatement
  functions : List FunctionDeclaration
  classes : List ClassDeclaration
  statements : List Statement

/-! ## Maps -/

/-- The call `m.find(k)` on an `unordered_map`. -/
def mapFind {β : Type} : List (String × β) → String → Option β
  | [], _ => none
  | (k', v) :: rest, k => if k' = k then some v else mapFind rest k

/-- The assignment `m[k] = v` on an `unordered_map`. -/
def mapSet {β : Type} : List (String × β) → String → β → List (String × β)
  | [], k, v => [(k, v)]
  | (k', v') :: rest, k, v =>
    if k' = k then (k, v) :: rest else (k', v') :: mapSet rest k v

/-! ## Analyser state -/

/-- The struct `VariableInfo`. -/
structure VariableInfo where
  isFinal : Bool
  typeName : String
  deriving DecidableEq, Repr

/-- The struct `FunctionInfo`; `returnType` is the (possibly null) pointer to the type node. -/
structure FunctionInfo where
  returnType : Option Ty
  paramTypes : List String
  deriving DecidableEq, Repr

/-- One frame of the scope stack. -/
abbrev Frame := List (String × VariableInfo)

/-- The data members of `SemanticAnalyser`. -/
structure SemanticAnalyser where
  m_scopes : List Frame
  m_functions : List String
  m_functionInfo : List (String × FunctionInfo)
  m_currentReturnType : Option Ty
  deriving DecidableEq, Repr

/-- A freshly constructed analyser. -/
def SemanticAnalyser.fresh : SemanticAnalyser :=
  { m_scopes := [], m_functions := [], m_functionInfo := [], m_currentReturnType := none }

/-- The exception `BlochRuntimeError(category, line, column, message)`. -/
structure BlochRuntimeError where
  category : String
  line : Nat
  column : Nat
  message : String
  deriving DecidableEq, Repr

/-- Every throw of the analyser uses the category "Bloch Semantic Error". -/
def semanticError (line column : Nat) (message : String) : BlochRuntimeError :=
  { category := "Bloch Semantic Error", line := line, column := column, message := message }

/-- An exception together with the analyser state at the throw. -/
structure Raised where
  error : BlochRuntimeError
  state : SemanticAnalyser
  deriving DecidableEq, Repr

/-- Result of visiting an expression: the visitors of expressions only call `const`
members, so they either return or throw. -/
abbrev Check := Except BlochRuntimeError Unit

/-- Result of visiting a statement or declaration. -/
abbrev Outcome := Except Raised SemanticAnalyser

instance instDecidableEqExcept {ε α : Type} [DecidableEq ε] [DecidableEq α] :
    DecidableEq (Except ε α)
  | .ok a, .ok b => if h : a = b then isTrue (by rw [h]) else isFalse (by intro h2; cases h2; exact h rfl)
  | .error a, .error b =>
    if h : a = b then isTrue (by rw [h]) else isFalse (by intro h2; cases h2; exact h rfl)
  | .ok _, .error _ => isFalse (by intro h; cases h)
  | .error _, .ok _ => isFalse (by intro h; cases h)

/-- Sequencing of two expression visits: the second runs only if the first returned. -/
def Check.andThen (a b : Check) : Check :=
  match a with
  | .error e => .error e
  | .ok _ => b

/-- Sequencing of statement visits. -/
def Outcome.andThen (a : Outcome) (k : SemanticAnalyser → Outcome) : Outcome :=
  match a with
  | .error r => .error r
  | .ok s => k s

/-- An expression visited in state `s` as part of a statement. -/
def Check.toOutcome (c : Check) (s : SemanticAnalyser) : Outcome :=
  match c with
  | .error e => .error ⟨e, s⟩
  | .ok _ => .ok s

/-! ## Built-in gates -/

/-- The struct of one entry of `builtInGates`. -/
structure BuiltInGate where
  paramTypes : List String
  returnType : String
  deriving DecidableEq, Repr

/-- Modelled from the spec: the table `builtInGates` of `built_ins.hpp`, which is not part of
the sources at hand.  The gate set is h, x, y, z, rx, ry, rz, cx; h/x/y/z take one qubit,
rx/ry/rz one qubit and one float angle, cx two qubits; every gate returns "void". -/
def builtInGates : List (String × BuiltInGate) :=
  [ ("h", ⟨["qubit"], "void"⟩), ("x", ⟨["qubit"], "void"⟩),
    ("y", ⟨["qubit"], "void"⟩), ("z", ⟨["qubit"], "void"⟩),
    ("rx", ⟨["qubit", "float"], "void"⟩), ("ry", ⟨["qubit", "float"], "void"⟩),
    ("rz", ⟨["qubit", "float"], "void"⟩), ("cx", ⟨["qubit", "qubit"], "void"⟩) ]

/-! ## Scope stack and registries -/

/-- Method `SemanticAnalyser::beginScope`. -/
def beginScope (s : SemanticAnalyser) : SemanticAnalyser :=
  { s with m_scopes := [] :: s.m_scopes }

/-- Method `SemanticAnalyser::endScope` (`pop_back`; every call follows a `beginScope`). -/
def endScope (s : SemanticAnalyser) : SemanticAnalyser :=
  { s with m_scopes := s.m_scopes.tail }

/-- Method `SemanticAnalyser::declare`. -/
def declare (s : SemanticAnalyser) (name : String) (isFinalVar : Bool) (typeName : String) :
    SemanticAnalyser :=
  match s.m_scopes with
  | [] => s
  | top :: rest => { s with m_scopes := mapSet top name ⟨isFinalVar, typeName⟩ :: rest }

/-- The loop of `isDeclared`, `isFinal` and `getVariableType`: the entry of `name` in the
innermost frame that has one. -/
def findVariable : List Frame → String → Option VariableInfo
  | [], _ => none
  | frame :: rest, name =>
    match mapFind frame name with
    | some info => some info
    | none => findVariable rest name

/-- Method `SemanticAnalyser::isDeclared`. -/
def isDeclared (s : SemanticAnalyser) (name : String) : Bool :=
  (findVariable s.m_scopes name).isSome

/-- Method `SemanticAnalyser::declareFunction`. -/
def declareFunction (s : SemanticAnalyser) (name : String) : SemanticAnalyser :=
  { s with m_functions := if name ∈ s.m_functions then s.m_functions else name :: s.m_functions }

/-- Method `SemanticAnalyser::isFunctionDeclared`. -/
def isFunctionDeclared (s : SemanticAnalyser) (name : String) : Bool :=
  decide (name ∈ s.m_functions) || (mapFind builtInGates name).isSome

/-- Method `SemanticAnalyser::isFinal`. -/
def isFinal (s : SemanticAnalyser) (name : String) : Bool :=
  match findVariable s.m_scopes name with
  | some info => info.isFinal
  | none => false

/-- Method `SemanticAnalyser::getFunctionParamCount`. -/
def getFunctionParamCount (s : SemanticAnalyser) (name : String) : Nat :=
  match mapFind s.m_functionInfo name with
  | some info => info.paramTypes.length
  | none =>
    match mapFind builtInGates name with
    | some gate => gate.paramTypes.length
    | none => 0

/-- Method `SemanticAnalyser::getFunctionParamTypes`. -/
def getFunctionParamTypes (s : SemanticAnalyser) (name : String) : List String :=
  match mapFind s.m_functionInfo name with
  | some info => info.paramTypes
  | none =>
    match mapFind builtInGates name with
    | some gate => gate.paramTypes
    | none => []

/-- Method `SemanticAnalyser::getVariableType`. -/
def getVariableType (s : SemanticAnalyser) (name : String) : String :=
  match findVariable s.m_scopes name with
  | some info => info.typeName
  | none => ""

/-- Method `SemanticAnalyser::returnsVoid`. -/
def returnsVoid (s : SemanticAnalyser) (name : String) : Bool :=
  match mapFind s.m_functionInfo name with
  | some info => decide (info.returnType = some Ty.void)
  | none =>
    match mapFind builtInGates name with
    | some gate => decide (gate.returnType = "void")
    | none => false

/-! ## Visitors -/

/-- The type name kept for a declared variable or parameter: the chain of
`dynamic_cast`s on the type node (`PrimitiveType`, `VoidType`, `ObjectType`, else empty). -/
def typeNameOf : Option Ty → String
  | some (.primitive name) => name
  | some .void => "void"
  | some (.object className) => className
  | _ => ""

/-- The test `dynamic_cast<VariableExpression*>(e)`: line, column and name when it succeeds. -/
def asVariable : Option Expression → Option (Nat × Nat × String)
  | some (.variable line column name) => some (line, column, name)
  | _ => none

/-- The nested test of the three assignment forms: the value is a `CallExpression` whose
callee is a `VariableExpression` naming something for which `returnsVoid` holds. -/
def isVoidCall (s : SemanticAnalyser) : Option Expression → Bool
  | some (.call _ _ callee _) =>
    match asVariable callee with
    | some (_, _, name) => returnsVoid s name
    | none => false
  | _ => false

/-- The message of the argument-type error. -/
def argumentTypeMessage (i : Nat) (fname expectedType : String) : String :=
  "Argument " ++ toString (i + 1) ++ " of '" ++ fname ++ "' expects type '" ++ expectedType ++ "'"

/-- The check of one argument against its expected type, inside the loop of
`visit(CallExpression&)`. -/
def checkArgumentType (s : SemanticAnalyser) (fname : String) (i : Nat) (expectedType : String) :
    Expression → Check
  | .variable line column name =>
    if getVariableType s name ≠ "" ∧ getVariableType s name ≠ expectedType then
      .error (semanticError line column (argumentTypeMessage i fname expectedType))
    else .ok ()
  | .literal line column _ literalType =>
    if literalType ≠ "" ∧ literalType ≠ expectedType then
      .error (semanticError line column (argumentTypeMessage i fname expectedType))
    else .ok ()
  | _ => .ok ()

/-- The loop `for (i = 0; i < arguments.size() && i < types.size(); ++i)` of
`visit(CallExpression&)`, from index `i` on. -/
def checkArgumentTypes (s : SemanticAnalyser) (fname : String) :
    Nat → List Expression → List String → Check
  | i, arg :: args, expectedType :: types =>
    if expectedType = "" then checkArgumentTypes s fname (i + 1) args types
    else (checkArgumentType s fname i expectedType arg).andThen
      (checkArgumentTypes s fname (i + 1) args types)
  | _, _, _ => .ok ()

/-- The two checks that open `visit(AssignmentStatement&)` and `visit(AssignmentExpression&)`,
and the void-call check on the value. -/
def checkAssignment (s : SemanticAnalyser) (line column : Nat) (name : String)
    (value : Option Expression) : Check :=
  if !isDeclared s name then
    .error (semanticError line column ("Variable '" ++ name ++ "' not declared"))
  else if isFinal s name then
    .error (semanticError line column ("Cannot assign to final variable '" ++ name ++ "'"))
  else if isVoidCall s value then
    .error (semanticError line column "Cannot assign result of void function")
  else .ok ()

/-- The checks of `visit(CallExpression&)` when the callee is a `VariableExpression`. -/
def checkCall (s : SemanticAnalyser) (line column : Nat) (vline vcolumn : Nat) (name : String)
    (arguments : List Expression) : Check :=
  if !isDeclared s name && !isFunctionDeclared s name then
    .error (semanticError vline vcolumn ("Variable '" ++ name ++ "' not declared"))
  else if getFunctionParamCount s name ≠ arguments.length then
    .error (semanticError line column
      ("Function '" ++ name ++ "' expects " ++ toString (getFunctionParamCount s name) ++
        " argument(s)"))
  else checkArgumentTypes s name 0 arguments (getFunctionParamTypes s name)

mutual
/-- The overloads of `SemanticAnalyser::visit` on expression nodes. -/
def visitExpression (s : SemanticAnalyser) : Expression → Check
  | .literal _ _ _ _ => .ok ()
  | .variable line column name =>
    if !isDeclared s name then
      .error (semanticError line column ("Variable '" ++ name ++ "' not declared"))
    else .ok ()
  | .binary _ _ _ left right =>
    (visitOptExpression s left).andThen (visitOptExpression s right)
  | .unary _ _ _ right => visitOptExpression s right
  | .call line column callee arguments =>
    match asVariable callee with
    | some (vline, vcolumn, name) =>
      (checkCall s line column vline vcolumn name arguments).andThen
        (visitExpressionList s arguments)
    | none => (visitOptExpression s callee).andThen (visitExpressionList s arguments)
  | .index _ _ collection index =>
    (visitOptExpression s collection).andThen (visitOptExpression s index)
  | .parenthesized _ _ expression => visitOptExpression s expression
  | .measure _ _ qubit => visitOptExpression s qubit
  | .assignment line column name value =>
    (checkAssignment s line column name value).andThen (visitOptExpression s value)
  | .constructorCall _ _ _ arguments => visitExpressionList s arguments
  | .memberAccess _ _ object _ => visitOptExpression s object
/-- The guarded call `if (e) e->accept(*this)`. -/
def visitOptExpression (s : SemanticAnalyser) : Option Expression → Check
  | none => .ok ()
  | some e => visitExpression s e
/-- The loop `for (auto& arg : arguments) arg->accept(*this)`. -/
def visitExpressionList (s : SemanticAnalyser) : List Expression → Check
  | [] => .ok ()
  | e :: rest => (visitExpression s e).andThen (visitExpressionList s rest)
end

/-- Method `SemanticAnalyser::visit(VariableDeclaration&)`. -/
def visitVariableDeclaration (node : VariableDeclaration) (s : SemanticAnalyser) : Outcome :=
  if isDeclared s node.name then
    .error ⟨semanticError node.line node.column ("Variable '" ++ node.name ++ "' redeclared"), s⟩
  else
    let s1 := declare s node.name node.isFinal (typeNameOf node.varType)
    match node.initializer with
    | none => .ok s1
    | some e =>
      if isVoidCall s1 (some e) then
        .error ⟨semanticError node.line node.column "Cannot assign result of void function", s1⟩
      else (visitExpression s1 e).toOutcome s1

/-- Method `SemanticAnalyser::visit(ReturnStatement&)`. -/
def visitReturn (line column : Nat) (value : Option Expression) (s : SemanticAnalyser) :
    Outcome :=
  let isVoid := decide (s.m_currentReturnType = some Ty.void)
  if value.isSome && isVoid then
    .error ⟨semanticError line column "Void function cannot return a value", s⟩
  else if !value.isSome && !isVoid then
    .error ⟨semanticError line column "Non-void function must return a value", s⟩
  else (visitOptExpression s value).toOutcome s

mutual
/-- The overloads of `SemanticAnalyser::visit` on statement nodes. -/
def visitStatement : Statement → SemanticAnalyser → Outcome
  | .variableDeclaration node, s => visitVariableDeclaration node s
  | .block _ _ statements, s =>
    (visitStatementList statements (beginScope s)).andThen fun s1 => .ok (endScope s1)
  | .expression _ _ expression, s => (visitOptExpression s expression).toOutcome s
  | .ret line column value, s => visitReturn line column value s
  | .ifStatement _ _ condition thenBranch elseBranch, s =>
    ((visitOptExpression s condition).toOutcome s).andThen fun s1 =>
      (visitOptStatement thenBranch s1).andThen fun s2 => visitOptStatement elseBranch s2
  | .forStatement _ _ initializer condition increment body, s =>
    (visitOptStatement initializer (beginScope s)).andThen fun s1 =>
      ((visitOptExpression s1 condition).toOutcome s1).andThen fun s2 =>
        ((visitOptExpression s2 increment).toOutcome s2).andThen fun s3 =>
          (visitOptStatement body s3).andThen fun s4 => .ok (endScope s4)
  | .echo _ _ value, s => (visitOptExpression s value).toOutcome s
  | .reset _ _ target, s => (visitOptExpression s target).toOutcome s
  | .measure _ _ qubit, s => (visitOptExpression s qubit).toOutcome s
  | .assignment line column name value, s =>
    ((checkAssignment s line column name value).andThen (visitOptExpression s value)).toOutcome s
/-- The guarded call `if (st) st->accept(*this)`. -/
def visitOptStatement : Option Statement → SemanticAnalyser → Outcome
  | none, s => .ok s
  | some st, s => visitStatement st s
/-- The loop `for (auto& stmt : statements) stmt->accept(*this)`. -/
def visitStatementList : List Statement → SemanticAnalyser → Outcome
  | [], s => .ok s
  | st :: rest, s => (visitStatement st s).andThen fun s1 => visitStatementList rest s1
end

/-- The validity test of `visit(FunctionDeclaration&)` for a `@quantum` function: the return
type node is a `VoidType`, or a `PrimitiveType` named "bit". -/
def quantumReturnValid : Option Ty → Bool
  | some .void => true
  | some (.primitive name) => decide (name = "bit")
  | _ => false

/-- The parameter loop of `visit(FunctionDeclaration&)`; `visit(Parameter&)` only reaches the
empty visitors of the type nodes. -/
def declareParams : List Parameter → SemanticAnalyser → Outcome
  | [], s => .ok s
  | param :: rest, s =>
    if isDeclared s param.name then
      .error ⟨semanticError param.line param.column
        ("Parameter '" ++ param.name ++ "' redeclared"), s⟩
    else declareParams rest (declare s param.name false (typeNameOf param.type))

/-- The `FunctionInfo` built by `visit(FunctionDeclaration&)`. -/
def functionInfoOf (node : FunctionDeclaration) : FunctionInfo :=
  { returnType := node.returnType, paramTypes := node.params.map fun p => typeNameOf p.type }

/-- The guarded call `if (node.body) node.body->accept(*this)` of `visit(FunctionDeclaration&)`:
the body is a `BlockStatement`, so `visit(BlockStatement&)` runs on its statements. -/
def visitBody : Option (List Statement) → SemanticAnalyser → Outcome
  | none, s => .ok s
  | some statements, s =>
    (visitStatementList statements (beginScope s)).andThen fun s1 => .ok (endScope s1)

/-- Method `SemanticAnalyser::visit(FunctionDeclaration&)`. -/
def visitFunctionDeclaration (node : FunctionDeclaration) (s : SemanticAnalyser) : Outcome :=
  if node.hasQuantumAnnotation && !quantumReturnValid node.returnType then
    .error ⟨semanticError node.line node.column
      "@quantum functions must return 'bit' or 'void'", s⟩
  else
    let prevReturn := s.m_currentReturnType
    let s1 := { s with m_currentReturnType := node.returnType,
                       m_functionInfo := mapSet s.m_functionInfo node.name (functionInfoOf node) }
    (declareParams node.params (beginScope s1)).andThen fun s2 =>
      (visitBody node.body s2).andThen fun s3 =>
        .ok { endScope s3 with m_currentReturnType := prevReturn }

/-- The loop `for (auto& fn : functions) fn->accept(*this)`. -/
def visitFunctions : List FunctionDeclaration → SemanticAnalyser → Outcome
  | [], s => .ok s
  | fn :: rest, s => (visitFunctionDeclaration fn s).andThen fun s1 => visitFunctions rest s1

/-- The loop `for (auto& member : node.members) member->accept(*this)`. -/
def visitMembers : List VariableDeclaration → SemanticAnalyser → Outcome
  | [], s => .ok s
  | member :: rest, s => (visitVariableDeclaration member s).andThen fun s1 => visitMembers rest s1

/-- Method `SemanticAnalyser::visit(ClassDeclaration&)`. -/
def visitClassDeclaration (node : ClassDeclaration) (s : SemanticAnalyser) : Outcome :=
  (visitMembers node.members s).andThen fun s1 => visitFunctions node.methods s1

/-- The loop `for (auto& cls : node.classes) cls->accept(*this)`. -/
def visitClasses : List ClassDeclaration → SemanticAnalyser → Outcome
  | [], s => .ok s
  | cls :: rest, s => (visitClassDeclaration cls s).andThen fun s1 => visitClasses rest s1

/-- One hoisting loop of `visit(Program&)`, over the functions of the program or the methods of
one class. -/
def hoistFunctions : List FunctionDeclaration → SemanticAnalyser → Outcome
  | [], s => .ok s
  | fn :: rest, s =>
    if isFunctionDeclared s fn.name then
      .error ⟨semanticError fn.line fn.column ("Function '" ++ fn.name ++ "' redeclared"), s⟩
    else hoistFunctions rest (declareFunction s fn.name)

/-- The hoisting loop of `visit(Program&)` over the classes. -/
def hoistClasses : List ClassDeclaration → SemanticAnalyser → Outcome
  | [], s => .ok s
  | cls :: rest, s => (hoistFunctions cls.methods s).andThen fun s1 => hoistClasses rest s1

/-- Method `SemanticAnalyser::visit(Program&)`; `visit(ImportStatement&)` is empty. -/
def visitProgram (node : Program) (s : SemanticAnalyser) : Outcome :=
  (hoistFunctions node.functions s).andThen fun s1 =>
    (hoistClasses node.classes s1).andThen fun s2 =>
      (visitFunctions node.functions s2).andThen fun s3 =>
        (visitClasses node.classes s3).andThen fun s4 => visitStatementList node.statements s4

/-- Method `SemanticAnalyser::analyse`. -/
def analyse (program : Program) (s : SemanticAnalyser) : Outcome :=
  (visitProgram program (beginScope s)).andThen fun s1 => .ok (endScope s1)

/-! ## Runtime evaluator: values, state and collaborators

A shallow embedding of `src/bloch/runtime/runtime_evaluator.cpp`.

* `int` fields are integers; the results of `+`, `-`, `*` and unary `-` are reduced to the
  32-bit two's complement range (`wrapInt`).
* The `double` field `floatValue` is a rational number: the evaluator only copies it.
* What C++ leaves undefined (`back()` of an empty vector, `args[i]` past the end, division by
  zero and of the least `int` by -1) and the exceptions of `std::stoi` are faults of the run.
* `eval`, `exec` and `call` recurse through loops and calls of the program, so they take a bound
  `fuel` on the nesting of their recursive calls and report `outOfFuel` when it is used up.
-/

/-- How a run of the evaluator can fail to return. -/
inductive Fault where
  | outOfFuel
  | undefinedBehaviour
  | invalidArgument
  | outOfRange
  deriving DecidableEq, Repr

/-- Result of a step of the evaluator. -/
abbrev Run (α : Type) := Except Fault α

/-- The enum `Value::Type`. -/
inductive ValueTag where
  | Int
  | Float
  | Bit
  | Qubit
  | Void
  deriving DecidableEq, Repr

/-- The struct `Value` with its default member initializers. -/
structure Value where
  type : ValueTag := .Void
  intValue : Int := 0
  floatValue : Rat := 0
  bitValue : Int := 0
  qubit : Int := -1
  deriving DecidableEq, Repr

/-- The struct `QubitInfo`. -/
structure QubitInfo where
  name : String
  measured : Bool
  deriving DecidableEq, Repr

/-- One call received by the simulator. -/
inductive SimCall where
  | allocateQubit
  | h (q : Int)
  | x (q : Int)
  | y (q : Int)
  | z (q : Int)
  | rx (q : Int) (angle : Rat)
  | ry (q : Int) (angle : Rat)
  | rz (q : Int) (angle : Rat)
  | cx (control target : Int)
  | measure (q : Int)
  deriving DecidableEq, Repr

/-- Modelled from the spec: the simulator `QasmSimulator` of `qasm_simulator.hpp`, which is not
part of the sources at hand.  The evaluator uses `allocateQubit() -> index`, the gates
h, x, y, z, rx, ry, rz, cx and `measure(index) -> bit`.  The simulator is kept as the list of the
calls it received (`m_sim`); what it answers to `allocateQubit` and to `measure` is given by
these two functions of the calls received before. -/
structure SimulatorAnswers where
  allocateQubit : List SimCall → Int
  measure : List SimCall → Int → Int

/-- One frame of the runtime environment. -/
abbrev EnvFrame := List (String × Value)

/-- The data members of `RuntimeEvaluator`.  `m_env` has `back()` at the head.
`m_measurements` is the list of the assignments `m_measurements[e] = bit` in the order they
were made (the entry of a node is the last one for it).  `output` is what was written to
`std::cout`, line by line. -/
structure RuntimeEvaluator where
  m_sim : List SimCall
  m_functions : List (String × FunctionDeclaration)
  m_env : List EnvFrame
  m_returnValue : Value
  m_hasReturn : Bool
  m_measurements : List (Expression × Int)
  m_qubits : List QubitInfo
  output : List String

/-- A freshly constructed evaluator. -/
def RuntimeEvaluator.fresh : RuntimeEvaluator :=
  { m_sim := [], m_functions := [], m_env := [], m_returnValue := {}, m_hasReturn := false,
    m_measurements := [], m_qubits := [], output := [] }

/-- Reduction of an integer to the range of a 32-bit `int`. -/
def wrapInt (n : Int) : Int := (n + 2147483648) % 4294967296 - 2147483648

/-- The test `std::isspace` of the C locale. -/
def isSpace (c : Char) : Bool :=
  c = ' ' || c = '\t' || c = '\n' || c = '\x0b' || c = '\x0c' || c = '\r'

/-- The value of a list of decimal digits. -/
def digitsValue (digits : List Char) : Int :=
  digits.foldl (fun acc c => acc * 10 + ((c.toNat : Int) - 48)) 0

/-- The library function `std::stoi(str)`: leading white space is skipped, an optional sign and
the longest run of decimal digits are read, the rest is ignored; without a digit it throws
`std::invalid_argument`, outside the range of `int` it throws `std::out_of_range`. -/
def stoi (str : String) : Run Int :=
  let rest := str.data.dropWhile isSpace
  let (negative, body) :=
    match rest with
    | '-' :: tail => (true, tail)
    | '+' :: tail => (false, tail)
    | _ => (false, rest)
  let digits := body.takeWhile Char.isDigit
  if digits.isEmpty then .error .invalidArgument
  else
    let n := if negative then -digitsValue digits else digitsValue digits
    if n < -2147483648 ∨ 2147483647 < n then .error .outOfRange else .ok n

/-- The loop of `lookup`: the value of `name` in the innermost frame that binds it. -/
def findValue : List EnvFrame → String → Option Value
  | [], _ => none
  | frame :: rest, name =>
    match mapFind frame name with
    | some v => some v
    | none => findValue rest name

/-- Method `RuntimeEvaluator::lookup`. -/
def RuntimeEvaluator.lookup (σ : RuntimeEvaluator) (name : String) : Value :=
  match findValue σ.m_env name with
  | some v => v
  | none => {}

/-- The loop of `assign`: the frames after the innermost binding of `name` was overwritten, if
some frame binds it. -/
def assignFrames : List EnvFrame → String → Value → Option (List EnvFrame)
  | [], _, _ => none
  | frame :: rest, name, v =>
    if (mapFind frame name).isSome then some (mapSet frame name v :: rest)
    else (assignFrames rest name v).map fun rest' => frame :: rest'

/-- The assignment `m_env.back()[name] = v`; `back()` of an empty vector is undefined. -/
def RuntimeEvaluator.bindInnermost (σ : RuntimeEvaluator) (name : String) (v : Value) :
    Run RuntimeEvaluator :=
  match σ.m_env with
  | [] => .error .undefinedBehaviour
  | top :: rest => .ok { σ with m_env := mapSet top name v :: rest }

/-- Method `RuntimeEvaluator::assign`. -/
def RuntimeEvaluator.assign (σ : RuntimeEvaluator) (name : String) (v : Value) :
    Run RuntimeEvaluator :=
  match assignFrames σ.m_env name v with
  | some env => .ok { σ with m_env := env }
  | none => σ.bindInnermost name v

/-- Method `RuntimeEvaluator::allocateTrackedQubit`: the index the simulator hands out, and the
state with the new table entry. -/
def RuntimeEvaluator.allocateTrackedQubit (answers : SimulatorAnswers) (σ : RuntimeEvaluator)
    (name : String) : Int × RuntimeEvaluator :=
  (answers.allocateQubit σ.m_sim,
    { σ with m_sim := σ.m_sim ++ [.allocateQubit],
             m_qubits := σ.m_qubits ++ [⟨name, false⟩] })

/-- The assignment `m_qubits[index].measured = true` on the table. -/
def setMeasured : List QubitInfo → Nat → List QubitInfo
  | [], _ => []
  | q :: rest, 0 => { q with measured := true } :: rest
  | q :: rest, n + 1 => q :: setMeasured rest n

/-- Method `RuntimeEvaluator::markMeasured`. -/
def RuntimeEvaluator.markMeasured (σ : RuntimeEvaluator) (index : Int) : RuntimeEvaluator :=
  if 0 ≤ index ∧ index < (σ.m_qubits.length : Int) then
    { σ with m_qubits := setMeasured σ.m_qubits index.toNat }
  else σ

/-- The call `m_sim.measure(index)`: the bit the simulator answers, and the state with the call
received. -/
def RuntimeEvaluator.simMeasure (answers : SimulatorAnswers) (σ : RuntimeEvaluator)
    (index : Int) : Int × RuntimeEvaluator :=
  (answers.measure σ.m_sim index, { σ with m_sim := σ.m_sim ++ [.measure index] })

/-- Truth of a value in `if` and `for`: `c.intValue || c.bitValue`. -/
def Value.truthy (v : Value) : Bool := v.intValue ≠ 0 || v.bitValue ≠ 0

/-- Conversion of a comparison result to `int`. -/
def boolToInt (b : Bool) : Int := if b then 1 else 0

/-- The chain of tests on `bin->op` in `eval`, on the integer fields `a` and `b` of the operands;
an operator not in the chain falls through to the final `return {}`. -/
def binaryResult (op : String) (a b : Int) : Run Value :=
  if op = "+" then .ok { type := .Int, intValue := wrapInt (a + b) }
  else if op = "-" then .ok { type := .Int, intValue := wrapInt (a - b) }
  else if op = "*" then .ok { type := .Int, intValue := wrapInt (a * b) }
  else if op = "/" then
    if b = 0 ∨ (a = -2147483648 ∧ b = -1) then .error .undefinedBehaviour
    else .ok { type := .Int, intValue := Int.tdiv a b }
  else if op = "%" then
    if b = 0 ∨ (a = -2147483648 ∧ b = -1) then .error .undefinedBehaviour
    else .ok { type := .Int, intValue := Int.tmod a b }
  else if op = ">" then .ok { type := .Bit, bitValue := boolToInt (decide (a > b)) }
  else if op = "<" then .ok { type := .Bit, bitValue := boolToInt (decide (a < b)) }
  else if op = ">=" then .ok { type := .Bit, bitValue := boolToInt (decide (a ≥ b)) }
  else if op = "<=" then .ok { type := .Bit, bitValue := boolToInt (decide (a ≤ b)) }
  else if op = "==" then .ok { type := .Bit, bitValue := boolToInt (decide (a = b)) }
  else if op = "!=" then .ok { type := .Bit, bitValue := boolToInt (decide (a ≠ b)) }
  else .ok {}

/-- The access `args[i]`; past the end it is undefined. -/
def argumentAt (args : List Value) (i : Nat) : Run Value :=
  match args[i]? with
  | some v => .ok v
  | none => .error .undefinedBehaviour

/-- The dispatch of a built-in gate to the simulator, by name. -/
def dispatchGate (name : String) (args : List Value) : Run (Option SimCall) :=
  if name = "h" then do let a ← argumentAt args 0; pure (some (.h a.qubit))
  else if name = "x" then do let a ← argumentAt args 0; pure (some (.x a.qubit))
  else if name = "y" then do let a ← argumentAt args 0; pure (some (.y a.qubit))
  else if name = "z" then do let a ← argumentAt args 0; pure (some (.z a.qubit))
  else if name = "rx" then do
    let a ← argumentAt args 0; let b ← argumentAt args 1; pure (some (.rx a.qubit b.floatValue))
  else if name = "ry" then do
    let a ← argumentAt args 0; let b ← argumentAt args 1; pure (some (.ry a.qubit b.floatValue))
  else if name = "rz" then do
    let a ← argumentAt args 0; let b ← argumentAt args 1; pure (some (.rz a.qubit b.floatValue))
  else if name = "cx" then do
    let a ← argumentAt args 0; let b ← argumentAt args 1; pure (some (.cx a.qubit b.qubit))
  else pure none

/-- The simulator after the dispatch of a gate. -/
def RuntimeEvaluator.applyGate (σ : RuntimeEvaluator) (name : String) (args : List Value) :
    Run RuntimeEvaluator :=
  match dispatchGate name args with
  | .error f => .error f
  | .ok (some c) => .ok { σ with m_sim := σ.m_sim ++ [c] }
  | .ok none => .ok σ

/-- The default value a `VariableDeclaration` builds from the declared type, and the state after
the allocation a qubit type asks for. -/
def declaredDefault (answers : SimulatorAnswers) (σ : RuntimeEvaluator) (name : String) :
    Option Ty → Value × RuntimeEvaluator
  | some (.primitive typeName) =>
    if typeName = "int" then ({ type := .Int }, σ)
    else if typeName = "bit" then ({ type := .Bit }, σ)
    else if typeName = "float" then ({ type := .Float }, σ)
    else if typeName = "qubit" then
      let (idx, σ1) := σ.allocateTrackedQubit answers name
      ({ type := .Qubit, qubit := idx }, σ1)
    else ({}, σ)
  | _ => ({}, σ)

/-- The loop `for (i = 0; i < params.size() && i < args.size(); ++i)` of `call`, on the new
frame. -/
def bindParams : List Parameter → List Value → EnvFrame → EnvFrame
  | param :: params, arg :: args, frame => bindParams params args (mapSet frame param.name arg)
  | _, _, frame => frame

/-- The loops `for (auto& st : statements) { exec(st); if (m_hasReturn) break; }` of `call` and
of the block statement. -/
def execStatements (step : Option Statement → RuntimeEvaluator → Run RuntimeEvaluator) :
    List Statement → RuntimeEvaluator → Run RuntimeEvaluator
  | [], σ => .ok σ
  | st :: rest, σ =>
    match step (some st) σ with
    | .error f => .error f
    | .ok σ1 => if σ1.m_hasReturn then .ok σ1 else execStatements step rest σ1

/-- The loop `for (auto& a : arguments) args.push_back(eval(a.get()))`. -/
def evalArguments
    (step : Option Expression → RuntimeEvaluator → Run (Value × RuntimeEvaluator)) :
    List Expression → RuntimeEvaluator → Run (List Value × RuntimeEvaluator)
  | [], σ => .ok ([], σ)
  | a :: rest, σ =>
    match step (some a) σ with
    | .error f => .error f
    | .ok (v, σ1) =>
      match evalArguments step rest σ1 with
      | .error f => .error f
      | .ok (vs, σ2) => .ok (v :: vs, σ2)

/-! ## Runtime evaluator: `eval`, `exec`, `call`, `execute` -/

mutual
/-- Method `RuntimeEvaluator::eval`. -/
def eval (answers : SimulatorAnswers) :
    Nat → Option Expression → RuntimeEvaluator → Run (Value × RuntimeEvaluator)
  | 0, _, _ => .error .outOfFuel
  | _ + 1, none, σ => .ok ({}, σ)
  | fuel + 1, some e, σ =>
    match e with
    | .literal _ _ value literalType =>
      match stoi value with
      | .error f => .error f
      | .ok n =>
        if literalType = "bit" then .ok ({ type := .Bit, intValue := n, bitValue := n }, σ)
        else .ok ({ type := .Int, intValue := n }, σ)
    | .variable _ _ name => .ok (σ.lookup name, σ)
    | .binary _ _ op left right =>
      match eval answers fuel left σ with
      | .error f => .error f
      | .ok (l, σ1) =>
        match eval answers fuel right σ1 with
        | .error f => .error f
        | .ok (r, σ2) =>
          match binaryResult op l.intValue r.intValue with
          | .error f => .error f
          | .ok v => .ok (v, σ2)
    | .unary _ _ op right =>
      match eval answers fuel right σ with
      | .error f => .error f
      | .ok (r, σ1) =>
        if op = "-" then .ok ({ type := .Int, intValue := wrapInt (-r.intValue) }, σ1)
        else .ok (r, σ1)
    | .call _ _ callee arguments =>
      match asVariable callee with
      | none => .ok ({}, σ)
      | some (_, _, name) =>
        match evalArguments (eval answers fuel) arguments σ with
        | .error f => .error f
        | .ok (args, σ1) =>
          if (mapFind builtInGates name).isSome then
            match σ1.applyGate name args with
            | .error f => .error f
            | .ok σ2 => .ok ({}, σ2)
          else
            match mapFind σ1.m_functions name with
            | none => .ok ({}, σ1)
            | some fn =>
              match call answers fuel fn args σ1 with
              | .error f => .error f
              | .ok (res, σ2) =>
                if fn.hasQuantumAnnotation && decide (res.type = .Bit) then
                  .ok (res, { σ2 with m_measurements := σ2.m_measurements ++ [(e, res.bitValue)] })
                else .ok (res, σ2)
    | .measure _ _ qubit =>
      match eval answers fuel qubit σ with
      | .error f => .error f
      | .ok (q, σ1) =>
        let (bit, σ2) := σ1.simMeasure answers q.qubit
        let σ3 := σ2.markMeasured q.qubit
        .ok ({ type := .Bit, bitValue := bit },
          { σ3 with m_measurements := σ3.m_measurements ++ [(e, bit)] })
    | .assignment _ _ name value =>
      match eval answers fuel value σ with
      | .error f => .error f
      | .ok (v, σ1) =>
        match σ1.assign name v with
        | .error f => .error f
        | .ok σ2 => .ok (v, σ2)
    | _ => .ok ({}, σ)
/-- Method `RuntimeEvaluator::exec`. -/
def exec (answers : SimulatorAnswers) :
    Nat → Option Statement → RuntimeEvaluator → Run RuntimeEvaluator
  | 0, _, _ => .error .outOfFuel
  | _ + 1, none, σ => .ok σ
  | fuel + 1, some st, σ =>
    match st with
    | .variableDeclaration node =>
      let (v0, σ1) := declaredDefault answers σ node.name node.varType
      match node.initializer with
      | none => σ1.bindInnermost node.name v0
      | some init =>
        match eval answers fuel (some init) σ1 with
        | .error f => .error f
        | .ok (v, σ2) => σ2.bindInnermost node.name v
    | .block _ _ statements =>
      match execStatements (exec answers fuel) statements { σ with m_env := [] :: σ.m_env } with
      | .error f => .error f
      | .ok σ1 => .ok { σ1 with m_env := σ1.m_env.tail }
    | .expression _ _ expression =>
      match eval answers fuel expression σ with
      | .error f => .error f
      | .ok (_, σ1) => .ok σ1
    | .ret _ _ value =>
      match value with
      | none => .ok { σ with m_hasReturn := true }
      | some e =>
        match eval answers fuel (some e) σ with
        | .error f => .error f
        | .ok (v, σ1) => .ok { σ1 with m_returnValue := v, m_hasReturn := true }
    | .ifStatement _ _ condition thenBranch elseBranch =>
      match eval answers fuel condition σ with
      | .error f => .error f
      | .ok (cond, σ1) =>
        if cond.truthy then exec answers fuel thenBranch σ1
        else exec answers fuel elseBranch σ1
    | .forStatement _ _ initializer condition increment body =>
      match exec answers fuel initializer { σ with m_env := [] :: σ.m_env } with
      | .error f => .error f
      | .ok σ1 =>
        match forLoop answers fuel condition increment body σ1 with
        | .error f => .error f
        | .ok σ2 => .ok { σ2 with m_env := σ2.m_env.tail }
    | .echo _ _ value =>
      match eval answers fuel value σ with
      | .error f => .error f
      | .ok (v, σ1) =>
        .ok { σ1 with output := σ1.output ++
          [if v.type = .Int then toString v.intValue else toString v.bitValue] }
    | .reset _ _ _ => .ok σ
    | .measure _ _ qubit =>
      match eval answers fuel qubit σ with
      | .error f => .error f
      | .ok (q, σ1) => .ok ((σ1.simMeasure answers q.qubit).2.markMeasured q.qubit)
    | .assignment _ _ name value =>
      match eval answers fuel value σ with
      | .error f => .error f
      | .ok (val, σ1) => σ1.assign name val
/-- The loop `while (true)` of the for statement in `exec`, from one test of the condition
on. -/
def forLoop (answers : SimulatorAnswers) :
    Nat → Option Expression → Option Expression → Option Statement → RuntimeEvaluator →
      Run RuntimeEvaluator
  | 0, _, _, _, _ => .error .outOfFuel
  | fuel + 1, condition, increment, body, σ =>
    match
      (match condition with
        | none => (.ok ({ type := .Bit }, σ) : Run (Value × RuntimeEvaluator))
        | some c => eval answers fuel (some c) σ) with
    | .error f => .error f
    | .ok (c, σ1) =>
      if !c.truthy then .ok σ1
      else
        match exec answers fuel body σ1 with
        | .error f => .error f
        | .ok σ2 =>
          if σ2.m_hasReturn then .ok σ2
          else
            match
              (match increment with
                | none => (.ok σ2 : Run RuntimeEvaluator)
                | some i =>
                  match eval answers fuel (some i) σ2 with
                  | .error f => .error f
                  | .ok (_, σ3) => .ok σ3) with
            | .error f => .error f
            | .ok σ3 => forLoop answers fuel condition increment body σ3
/-- Method `RuntimeEvaluator::call`. -/
def call (answers : SimulatorAnswers) :
    Nat → FunctionDeclaration → List Value → RuntimeEvaluator → Run (Value × RuntimeEvaluator)
  | 0, _, _, _ => .error .outOfFuel
  | fuel + 1, fn, args, σ =>
    let σ1 : RuntimeEvaluator :=
      { σ with m_env := bindParams fn.params args [] :: σ.m_env, m_hasReturn := false }
    match
      (match fn.body with
        | none => (.ok σ1 : Run RuntimeEvaluator)
        | some statements => execStatements (exec answers fuel) statements σ1) with
    | .error f => .error f
    | .ok σ2 => .ok (σ2.m_returnValue, { σ2 with m_env := σ2.m_env.tail })
end

/-- The loop `for (auto& fn : program.functions) m_functions[fn->name] = fn.get()`. -/
def registerFunctions :
    List FunctionDeclaration → List (String × FunctionDeclaration) →
      List (String × FunctionDeclaration)
  | [], registry => registry
  | fn :: rest, registry => registerFunctions rest (mapSet registry fn.name fn)

/-- Method `RuntimeEvaluator::execute`. -/
def execute (answers : SimulatorAnswers) (fuel : Nat) (program : Program)
    (σ : RuntimeEvaluator) : Run RuntimeEvaluator :=
  let σ1 := { σ with m_functions := registerFunctions program.functions σ.m_functions }
  match mapFind σ1.m_functions "main" with
  | none => .ok σ1
  | some main =>
    match call answers fuel main [] σ1 with
    | .error f => .error f
    | .ok (_, σ2) => .ok σ2

/-! ## Symbol table (`type_system.cpp`) -/

/-- The enum `ValueType`, with the members named in `type_system.cpp`. -/
inductive ValueType where
  | Int | Float | String | Char | Qubit | Bit | Void | Custom | Unknown
  deriving DecidableEq, Repr

/-- The struct `SymbolInfo`, with the three fields `SymbolTable::declare` initialises in order:
the final flag, the type and the custom type name. -/
structure SymbolInfo where
  isFinal : Bool
  type : ValueType
  customName : String
  deriving DecidableEq, Repr

/-- The class `SymbolTable`: its scope stack, innermost frame first. -/
structure SymbolTable where
  m_scopes : List (List (String × SymbolInfo))
  deriving DecidableEq, Repr

/-- Method `SymbolTable::beginScope`. -/
def SymbolTable.beginScope (t : SymbolTable) : SymbolTable :=
  { t with m_scopes := [] :: t.m_scopes }

/-- Method `SymbolTable::endScope`. -/
def SymbolTable.endScope (t : SymbolTable) : SymbolTable :=
  { t with m_scopes := t.m_scopes.tail }

/-- Method `SymbolTable::declare`. -/
def SymbolTable.declare (t : SymbolTable) (name : String) (isFinal : Bool) (type : ValueType)
    (customName : String) : SymbolTable :=
  match t.m_scopes with
  | [] => t
  | top :: rest => { t with m_scopes := mapSet top name ⟨isFinal, type, customName⟩ :: rest }

/-- The loop of `SymbolTable::isDeclared`, `isFinal` and `getType`: the entry of `name` in the
innermost frame that has one. -/
def findSymbol : List (List (String × SymbolInfo)) → String → Option SymbolInfo
  | [], _ => none
  | frame :: rest, name =>
    match mapFind frame name with
    | some info => some info
    | none => findSymbol rest name

/-- Method `SymbolTable::isDeclared`. -/
def SymbolTable.isDeclared (t : SymbolTable) (name : String) : Bool :=
  (findSymbol t.m_scopes name).isSome

/-- Method `SymbolTable::isFinal`. -/
def SymbolTable.isFinal (t : SymbolTable) (name : String) : Bool :=
  match findSymbol t.m_scopes name with
  | some info => info.isFinal
  | none => false

/-- Method `SymbolTable::getType`. -/
def SymbolTable.getType (t : SymbolTable) (name : String) : ValueType :=
  match findSymbol t.m_scopes name with
  | some info => info.type
  | none => .Unknown

/-! ## Lexer (`lexer.cpp`, `token.hpp`)

* The source is a list of `Char`, one for each `char` of the `string_view`, and `m_position`
  an index into it.  The tests `isdigit`, `isalpha`, `isalnum`, `isspace` are those of the
  C locale, where no `char` outside ASCII is a digit, a letter or a space.
* The counters `m_line` and `m_column` are integers.
* `m_source[m_position]` past the end is undefined, so `advance` there is a fault of the run; the
  loops take a bound `fuel` on the number of their rounds and report `outOfFuel` when it is
  used up.
-/

/-- The enum `TokenType`. -/
inductive TokenType where
  | Identifier | IntegerLiteral | FloatLiteral | StringLiteral | CharLiteral
  | Int | Float | String | Char | Qubit | Bit | Logical | Void | Function | Import | Return
  | If | Else | For | Class | Measure | Final | Reset | Public | Private
  | At | Quantum | State | Adjoint | Members | Methods
  | Equals | Plus | Minus | Star | Slash | Percent | Greater | GreaterEqual | Less | LessEqual
  | EqualEqual | Bang | BangEqual | Semicolon | Comma | Dot | Colon | Arrow
  | LParen | RParen | LBrace | RBrace | LBracket | RBracket
  | Echo | Eof | Unknown
  deriving DecidableEq, Repr

/-- The struct `Token`. -/
structure Token where
  type : TokenType
  value : String
  line : Int
  column : Int
  deriving DecidableEq, Repr

/-- How a run of the lexer can fail to return: an exception thrown by `reportError`, an access
the language leaves undefined, or the bound on the rounds of a loop used up. -/
inductive LexFault where
  | thrown (e : BlochRuntimeError)
  | undefinedBehaviour
  | outOfFuel
  deriving DecidableEq, Repr

/-- Result of a step of the lexer. -/
abbrev Lex (α : Type) := Except LexFault α

/-- The data members of `Lexer`. -/
structure Lexer where
  m_source : List Char
  m_position : Nat
  m_line : Int
  m_column : Int
  deriving DecidableEq, Repr

/-- The constructor `Lexer::Lexer(source)`. -/
def Lexer.create (source : String) : Lexer :=
  { m_source := source.data, m_position := 0, m_line := 1, m_column := 1 }

/-- The double quote character. -/
def doubleQuote : Char := Char.ofNat 34

/-- The single quote character. -/
def singleQuote : Char := Char.ofNat 39

/-- Method `Lexer::peek`. -/
def Lexer.peek (l : Lexer) : Char := l.m_source.getD l.m_position (Char.ofNat 0)

/-- Method `Lexer::peekNext`. -/
def Lexer.peekNext (l : Lexer) : Char := l.m_source.getD (l.m_position + 1) (Char.ofNat 0)

/-- Method `Lexer::advance`: the character read and the lexer after it. -/
def Lexer.advance (l : Lexer) : Lex (Char × Lexer) :=
  match l.m_source[l.m_position]? with
  | some c => .ok (c, { l with m_position := l.m_position + 1, m_column := l.m_column + 1 })
  | none => .error .undefinedBehaviour

/-- Method `Lexer::match`. -/
def Lexer.matchChar (l : Lexer) (expected : Char) : Bool × Lexer :=
  if l.m_position ≥ l.m_source.length ∨ l.peek ≠ expected then (false, l)
  else (true, { l with m_position := l.m_position + 1, m_column := l.m_column + 1 })

/-- Method `Lexer::skipComment`. -/
def Lexer.skipComment : Nat → Lexer → Lex Lexer
  | 0, _ => .error .outOfFuel
  | fuel + 1, l =>
    if l.m_position < l.m_source.length ∧ l.peek ≠ '\n' then
      match l.advance with
      | .error f => .error f
      | .ok (_, l1) => Lexer.skipComment fuel l1
    else .ok l

/-- Method `Lexer::skipWhitespace`; `fuel` bounds the loop of `skipComment`, the second
argument the loop of `skipWhitespace` itself. -/
def Lexer.skipWhitespace (fuel : Nat) : Nat → Lexer → Lex Lexer
  | 0, _ => .error .outOfFuel
  | rounds + 1, l =>
    if l.m_position < l.m_source.length then
      if isSpace l.peek then
        if l.peek = '\n' then
          match l.advance with
          | .error f => .error f
          | .ok (_, l1) =>
            Lexer.skipWhitespace fuel rounds { l1 with m_line := l1.m_line + 1, m_column := 1 }
        else
          match l.advance with
          | .error f => .error f
          | .ok (_, l1) => Lexer.skipWhitespace fuel rounds l1
      else if l.peek = '/' ∧ l.peekNext = '/' then
        match l.advance with
        | .error f => .error f
        | .ok (_, l1) =>
          match l1.advance with
          | .error f => .error f
          | .ok (_, l2) =>
            match l2.skipComment fuel with
            | .error f => .error f
            | .ok l3 => Lexer.skipWhitespace fuel rounds l3
      else .ok l
    else .ok l

/-- Method `Lexer::reportError`: the exception it throws. -/
def Lexer.reportError (l : Lexer) (msg : String) : BlochRuntimeError :=
  { category := "Bloch Lexer Error", line := l.m_line.toNat, column := l.m_column.toNat,
    message := msg }

/-- Method `Lexer::makeToken`. -/
def Lexer.makeToken (l : Lexer) (type : TokenType) (value : String) : Token :=
  { type := type, value := value, line := l.m_line, column := l.m_column - value.length }

/-- The call `m_source.substr(start, count)`. -/
def Lexer.substr (l : Lexer) (start count : Nat) : String :=
  String.mk ((l.m_source.drop start).take count)

/-- The loops `while (test(peek())) advance();` of `scanNumber` and
`scanIdentifierOrKeyword`. -/
def Lexer.advanceWhile (test : Char → Bool) : Nat → Lexer → Lex Lexer
  | 0, _ => .error .outOfFuel
  | fuel + 1, l =>
    if test l.peek then
      match l.advance with
      | .error f => .error f
      | .ok (_, l1) => Lexer.advanceWhile test fuel l1
    else .ok l

/-- Method `Lexer::scanNumber`. -/
def Lexer.scanNumber (fuel : Nat) (l : Lexer) : Lex (Token × Lexer) :=
  let start := l.m_position - 1
  match l.advanceWhile Char.isDigit fuel with
  | .error f => .error f
  | .ok l1 =>
    if l1.peek = '.' then
      match l1.advance with
      | .error f => .error f
      | .ok (_, l2) =>
        match l2.advanceWhile Char.isDigit fuel with
        | .error f => .error f
        | .ok l3 =>
          if l3.peek = 'f' then
            match l3.advance with
            | .error f => .error f
            | .ok (_, l4) =>
              .ok (l4.makeToken .FloatLiteral (l4.substr start (l4.m_position - start)), l4)
          else .error (.thrown (l3.reportError "Float literal must end with 'f'"))
    else .ok (l1.makeToken .IntegerLiteral (l1.substr start (l1.m_position - start)), l1)

/-- The map `keywords` of `scanIdentifierOrKeyword`. -/
def keywords : List (String × TokenType) :=
  [ ("int", .Int), ("float", .Float), ("string", .String), ("char", .Char), ("qubit", .Qubit),
    ("bit", .Bit), ("logical", .Logical), ("void", .Void), ("function", .Function),
    ("import", .Import), ("return", .Return), ("if", .If), ("else", .Else), ("for", .For),
    ("class", .Class), ("measure", .Measure), ("final", .Final), ("reset", .Reset),
    ("public", .Public), ("private", .Private), ("quantum", .Quantum), ("adjoint", .Adjoint),
    ("state", .State), ("members", .Members), ("methods", .Methods), ("echo", .Echo) ]

/-- Method `Lexer::scanIdentifierOrKeyword`. -/
def Lexer.scanIdentifierOrKeyword (fuel : Nat) (l : Lexer) : Lex (Token × Lexer) :=
  let start := l.m_position - 1
  match l.advanceWhile (fun c => c.isAlphanum || c = '_') fuel with
  | .error f => .error f
  | .ok l1 =>
    match mapFind keywords (l1.substr start (l1.m_position - start)) with
    | some type => .ok (l1.makeToken type (l1.substr start (l1.m_position - start)), l1)
    | none => .ok (l1.makeToken .Identifier (l1.substr start (l1.m_position - start)), l1)

/-- The loop of `Lexer::scanString`. -/
def Lexer.scanStringLoop : Nat → Lexer → Lex Lexer
  | 0, _ => .error .outOfFuel
  | fuel + 1, l =>
    if l.m_position < l.m_source.length ∧ l.peek ≠ doubleQuote then
      match Lexer.advance (if l.peek = '\n' then { l with m_line := l.m_line + 1 } else l) with
      | .error f => .error f
      | .ok (_, l1) => Lexer.scanStringLoop fuel l1
    else .ok l

/-- Method `Lexer::scanString`. -/
def Lexer.scanString (fuel : Nat) (l : Lexer) : Lex (Token × Lexer) :=
  let start := l.m_position
  match l.scanStringLoop fuel with
  | .error f => .error f
  | .ok l1 =>
    if l1.peek = doubleQuote then
      match l1.advance with
      | .error f => .error f
      | .ok (_, l2) =>
        .ok (l2.makeToken .StringLiteral (l2.substr (start - 1) (l2.m_position - start + 1)),
          l2)
    else .error (.thrown (l1.reportError "Unterminated string literal"))

/-- Method `Lexer::scanChar`. -/
def Lexer.scanChar (l : Lexer) : Lex (Token × Lexer) :=
  let start := l.m_position
  match (if l.m_position < l.m_source.length then
      match l.advance with
      | .error f => (.error f : Lex Lexer)
      | .ok (_, l1) => .ok l1
    else .ok l) with
  | .error f => .error f
  | .ok l1 =>
    if l1.peek = singleQuote then
      match l1.advance with
      | .error f => .error f
      | .ok (_, l2) => .ok (l2.makeToken .CharLiteral (l2.substr (start - 1) 3), l2)
    else .error (.thrown (l1.reportError "Unterminated char literal"))

/-- The statements `return match(expected) ? makeToken(both, ..) : makeToken(single, ..)` of
`scanToken`. -/
def Lexer.matchOr (l : Lexer) (expected : Char) (both : TokenType) (bothText : String)
    (single : TokenType) (singleText : String) : Token × Lexer :=
  if (l.matchChar expected).1 then
    ((l.matchChar expected).2.makeToken both bothText, (l.matchChar expected).2)
  else ((l.matchChar expected).2.makeToken single singleText, (l.matchChar expected).2)

/-- The `switch (c)` of `Lexer::scanToken`. -/
def Lexer.scanPunctuation (fuel : Nat) (c : Char) (l : Lexer) : Lex (Token × Lexer) :=
  if c = '=' then .ok (l.matchOr '=' .EqualEqual "==" .Equals "=")
  else if c = '!' then .ok (l.matchOr '=' .BangEqual "!=" .Bang "!")
  else if c = '+' then .ok (l.makeToken .Plus "+", l)
  else if c = '-' then .ok (l.matchOr '>' .Arrow "->" .Minus "-")
  else if c = '*' then .ok (l.makeToken .Star "*", l)
  else if c = '/' then .ok (l.makeToken .Slash "/", l)
  else if c = '%' then .ok (l.makeToken .Percent "%", l)
  else if c = '>' then .ok (l.matchOr '=' .GreaterEqual ">=" .Greater ">")
  else if c = '<' then .ok (l.matchOr '=' .LessEqual "<=" .Less "<")
  else if c = ';' then .ok (l.makeToken .Semicolon ";", l)
  else if c = ',' then .ok (l.makeToken .Comma ",", l)
  else if c = '.' then .ok (l.makeToken .Dot ".", l)
  else if c = ':' then .ok (l.makeToken .Colon ":", l)
  else if c = '@' then .ok (l.makeToken .At "@", l)
  else if c = doubleQuote then l.scanString fuel
  else if c = singleQuote then l.scanChar
  else if c = '(' then .ok (l.makeToken .LParen "(", l)
  else if c = ')' then .ok (l.makeToken .RParen ")", l)
  else if c = Char.ofNat 123 then .ok (l.makeToken .LBrace "\x7b", l)
  else if c = Char.ofNat 125 then .ok (l.makeToken .RBrace "\x7d", l)
  else if c = '[' then .ok (l.makeToken .LBracket "[", l)
  else if c = ']' then .ok (l.makeToken .RBracket "]", l)
  else .ok (l.makeToken .Unknown (String.singleton c), l)

/-- Method `Lexer::scanToken`. -/
def Lexer.scanToken (fuel : Nat) (l : Lexer) : Lex (Token × Lexer) :=
  match l.advance with
  | .error f => .error f
  | .ok (c, l1) =>
    if c.isDigit then l1.scanNumber fuel
    else if c.isAlpha ∨ c = '_' then l1.scanIdentifierOrKeyword fuel
    else l1.scanPunctuation fuel c

/-- The loop of `Lexer::tokenize`; `fuel` bounds the loops inside `skipWhitespace` and
`scanToken`, the second argument the loop of `tokenize` itself. -/
def Lexer.tokenizeLoop (fuel : Nat) : Nat → Lexer → List Token → Lex (List Token × Lexer)
  | 0, _, _ => .error .outOfFuel
  | rounds + 1, l, tokens =>
    if l.m_position < l.m_source.length then
      match l.skipWhitespace fuel fuel with
      | .error f => .error f
      | .ok l1 =>
        if l1.m_position < l1.m_source.length then
          match l1.scanToken fuel with
          | .error f => .error f
          | .ok (token, l2) => Lexer.tokenizeLoop fuel rounds l2 (tokens ++ [token])
        else Lexer.tokenizeLoop fuel rounds l1 tokens
    else .ok (tokens, l)

/-- Method `Lexer::tokenize`: the tokens returned, and the lexer afterwards. -/
def Lexer.tokenize (fuel : Nat) (l : Lexer) : Lex (List Token × Lexer) :=
  match l.tokenizeLoop fuel fuel [] with
  | .error f => .error f
  | .ok (tokens, l1) => .ok (tokens ++ [l1.makeToken .Eof ""], l1)

/-! ## Notions used to state the properties -/

/-- The relation between the state before and after a visit that returns: the registries and the
return-type context are the same, the scope stack has the same depth and the same frames below
the top one, and every variable entry that was visible is still visible, unchanged. -/
def Extends (s s' : SemanticAnalyser) : Prop :=
  s'.m_functions = s.m_functions ∧ s'.m_functionInfo = s.m_functionInfo ∧
    s'.m_currentReturnType = s.m_currentReturnType ∧
    s'.m_scopes.length = s.m_scopes.length ∧ s'.m_scopes.tail = s.m_scopes.tail ∧
    ∀ n info, findVariable s.m_scopes n = some info → findVariable s'.m_scopes n = some info

/-- The messages an expression visit can throw in state `s`, with what the state satisfies when
it does. -/
def ExpressionError (s : SemanticAnalyser) (m : String) : Prop :=
  (∃ y, isDeclared s y = false ∧ m = "Variable '" ++ y ++ "' not declared") ∨
    (∃ y, isDeclared s y = true ∧ isFinal s y = true ∧
      m = "Cannot assign to final variable '" ++ y ++ "'") ∨
    m = "Cannot assign result of void function" ∨
    (∃ (n : String) (k : Nat), m = "Function '" ++ n ++ "' expects " ++ toString k ++ " argument(s)") ∨
    (∃ (i : Nat) (n t : String), m = argumentTypeMessage i n t)

/-- The methods of all classes, in order. -/
def classMethods : List ClassDeclaration → List FunctionDeclaration
  | [] => []
  | cls :: rest => cls.methods ++ classMethods rest

/-- The sequence the hoisting loops of `visit(Program&)` walk through: the top-level functions
followed by the methods of all classes. -/
def hoistedEntries (p : Program) : List FunctionDeclaration :=
  p.functions ++ classMethods p.classes

/-- The name cannot be hoisted after the entries `earlier` when `declared` was registered
before: it is registered already, or a built-in gate, or the name of an earlier entry. -/
def Clash (declared : List String) (earlier : List FunctionDeclaration) (name : String) : Prop :=
  name ∈ declared ∨ (mapFind builtInGates name).isSome = true ∨
    name ∈ earlier.map fun e => e.name

/-- The error of an outcome, if it is one. -/
def thrownError : Outcome → Option BlochRuntimeError
  | .error r => some r.error
  | .ok _ => none

/-- The analyser state at the throw of an outcome, if it is an error. -/
def stateAtThrow : Outcome → Option SemanticAnalyser
  | .error r => some r.state
  | .ok _ => none

/-- The state `a` lies inside the analysis that started in `s`: the registries and the
return-type context are the same, and every variable entry visible in `s` is visible in `a`,
unchanged. -/
def Within (s a : SemanticAnalyser) : Prop :=
  a.m_functions = s.m_functions ∧ a.m_functionInfo = s.m_functionInfo ∧
    a.m_currentReturnType = s.m_currentReturnType ∧
    ∀ n info, findVariable s.m_scopes n = some info → findVariable a.m_scopes n = some info

/-- The messages a statement visit can throw, with what the state `a` at the throw satisfies. -/
def StatementErrorAt (a : SemanticAnalyser) (m : String) : Prop :=
  ExpressionError a m ∨
    (∃ y, isDeclared a y = true ∧ m = "Variable '" ++ y ++ "' redeclared") ∨
    (a.m_currentReturnType = some Ty.void ∧ m = "Void function cannot return a value") ∨
    (a.m_currentReturnType ≠ some Ty.void ∧ m = "Non-void function must return a value")

/-- Line and column of an expression node. -/
def Expression.position : Expression → Nat × Nat
  | .literal line column _ _ => (line, column)
  | .variable line column _ => (line, column)
  | .binary line column _ _ _ => (line, column)
  | .unary line column _ _ => (line, column)
  | .call line column _ _ => (line, column)
  | .index line column _ _ => (line, column)
  | .parenthesized line column _ => (line, column)
  | .measure line column _ => (line, column)
  | .assignment line column _ _ => (line, column)
  | .constructorCall line column _ _ => (line, column)
  | .memberAccess line column _ _ => (line, column)

/-- The argument does not fit the expected type name `t`, in the words of the specification: it
is a bare variable whose declared type name is known (non-empty) and different from `t`, or a
literal whose literal-type tag is non-empty and different from `t`. -/
def argumentMismatch (s : SemanticAnalyser) (t : String) : Expression → Bool
  | .variable _ _ name => decide (getVariableType s name ≠ "" ∧ getVariableType s name ≠ t)
  | .literal _ _ _ literalType => decide (literalType ≠ "" ∧ literalType ≠ t)
  | _ => false

/-- The last function of the list that has the given name. -/
def lastNamed : List FunctionDeclaration → String → Option FunctionDeclaration
  | [], _ => none
  | fn :: rest, name =>
    match lastNamed rest name with
    | some later => some later
    | none => if fn.name = name then some fn else none

/-- The expression is a comparison (a binary expression with one of the operators >, <, >=, <=,
==, !=) or a measure expression. -/
def isComparisonOrMeasure : Expression → Bool
  | .binary _ _ op _ _ => decide (op ∈ [">", "<", ">=", "<=", "==", "!="])
  | .measure _ _ _ => true
  | _ => false

/-- The entry of `name` in the innermost frame of a stack of maps that has one (the head of the
list is the innermost frame). -/
def findInnermost {β : Type} : List (List (String × β)) → String → Option β
  | [], _ => none
  | frame :: rest, name =>
    match mapFind frame name with
    | some b => some b
    | none => findInnermost rest name

/-- The frame `frame` is the innermost frame of `frames` that contains `name`: the stack is
`pre ++ frame :: post`, no frame of `pre` contains `name`, and `frame` does. -/
def InnermostWith {β : Type} (frames pre : List (List (String × β))) (frame : List (String × β))
    (post : List (List (String × β))) (name : String) : Prop :=
  frames = pre ++ frame :: post ∧ (∀ f ∈ pre, mapFind f name = none) ∧
    (mapFind frame name).isSome = true

/-- The type of the argument is not compared with the expected type name `t`, in the words of
the specification: the argument is neither a bare variable nor a literal, or the expected type
name is empty, or the variable's declared type name or the literal's type tag is empty. -/
def typeNotCompared (s : SemanticAnalyser) (t : String) : Expression → Bool
  | .variable _ _ name => decide (t = "" ∨ getVariableType s name = "")
  | .literal _ _ _ literalType => decide (t = "" ∨ literalType = "")
  | _ => true

/-- The scope stack of `s'` has the depth of the one of `s` and the same frames below the top
one. -/
def SameBelow (s s' : SemanticAnalyser) : Prop :=
  s'.m_scopes.length = s.m_scopes.length ∧ s'.m_scopes.tail = s.m_scopes.tail

/-- The check failed. -/
def Check.fails : Check → Bool
  | .error _ => true
  | .ok _ => false

/-- The visit threw. -/
def Outcome.rejects : Outcome → Bool
  | .error _ => true
  | .ok _ => false

mutual
/-- The expression reads or assigns the name `x` somewhere inside: it contains a variable
expression `x` that is not the callee of a call, or an assignment expression to `x`. -/
def readsName (x : String) : Expression → Bool
  | .literal _ _ _ _ => false
  | .variable _ _ name => decide (name = x)
  | .binary _ _ _ left right => readsNameOpt x left || readsNameOpt x right
  | .unary _ _ _ right => readsNameOpt x right
  | .call _ _ callee arguments =>
    ((asVariable callee).isNone && readsNameOpt x callee) || readsNameList x arguments
  | .index _ _ collection index => readsNameOpt x collection || readsNameOpt x index
  | .parenthesized _ _ expression => readsNameOpt x expression
  | .measure _ _ qubit => readsNameOpt x qubit
  | .assignment _ _ name value => decide (name = x) || readsNameOpt x value
  | .constructorCall _ _ _ arguments => readsNameList x arguments
  | .memberAccess _ _ object _ => readsNameOpt x object
/-- The same for an expression that may be absent. -/
def readsNameOpt (x : String) : Option Expression → Bool
  | none => false
  | some e => readsName x e
/-- The same for some expression of a list. -/
def readsNameList (x : String) : List Expression → Bool
  | [] => false
  | e :: rest => readsName x e || readsNameList x rest
end

mutual
/-- The statement reads or assigns the name `x` somewhere inside, at any depth. -/
def usesName (x : String) : Statement → Bool
  | .variableDeclaration node => readsNameOpt x node.initializer
  | .block _ _ statements => usesNameList x statements
  | .expression _ _ expression => readsNameOpt x expression
  | .ret _ _ value => readsNameOpt x value
  | .ifStatement _ _ condition thenBranch elseBranch =>
    readsNameOpt x condition || usesNameOpt x thenBranch || usesNameOpt x elseBranch
  | .forStatement _ _ initializer condition increment body =>
    usesNameOpt x initializer || readsNameOpt x condition || readsNameOpt x increment ||
      usesNameOpt x body
  | .echo _ _ value => readsNameOpt x value
  | .reset _ _ target => readsNameOpt x target
  | .measure _ _ qubit => readsNameOpt x qubit
  | .assignment _ _ name value => decide (name = x) || readsNameOpt x value
/-- The same for a statement that may be absent. -/
def usesNameOpt (x : String) : Option Statement → Bool
  | none => false
  | some st => usesName x st
/-- The same for some statement of a list. -/
def usesNameList (x : String) : List Statement → Bool
  | [] => false
  | st :: rest => usesName x st || usesNameList x rest
end

mutual
/-- The statement contains a variable declaration of the name `x`, at any depth. -/
def declaresName (x : String) : Statement → Bool
  | .variableDeclaration node => decide (node.name = x)
  | .block _ _ statements => declaresNameList x statements
  | .ifStatement _ _ _ thenBranch elseBranch =>
    declaresNameOpt x thenBranch || declaresNameOpt x elseBranch
  | .forStatement _ _ initializer _ _ body =>
    declaresNameOpt x initializer || declaresNameOpt x body
  | _ => false
/-- The same for a statement that may be absent. -/
def declaresNameOpt (x : String) : Option Statement → Bool
  | none => false
  | some st => declaresName x st
/-- The same for some statement of a list. -/
def declaresNameList (x : String) : List Statement → Bool
  | [] => false
  | st :: rest => declaresName x st || declaresNameList x rest
end

/-- The statement is a use of the name `x` that is checked first when the statement is
visited: an assignment statement to `x`, or an expression statement or echo whose expression is
the variable `x`, or an expression statement that is an assignment expression to `x`.  The
result is the line and column of the node that names `x`. -/
def directUse (x : String) : Statement → Option (Nat × Nat)
  | .assignment line column name _ => if name = x then some (line, column) else none
  | .expression _ _ (some (.variable line column name)) =>
    if name = x then some (line, column) else none
  | .expression _ _ (some (.assignment line column name _)) =>
    if name = x then some (line, column) else none
  | .echo _ _ (some (.variable line column name)) =>
    if name = x then some (line, column) else none
  | _ => none

/-- The qubit table `qs'` keeps every entry of `qs`: at each index where `qs` has an entry,
`qs'` has an entry with the same source name, and measured if the entry of `qs` is. -/
def TableGrows (qs qs' : List QubitInfo) : Prop :=
  ∀ (i : Nat) (info : QubitInfo), qs[i]? = some info →
    ∃ info', qs'[i]? = some info' ∧ info'.name = info.name ∧
      (info.measured = true → info'.measured = true)

/-- The angle a call hands to the simulator: the second argument of rx, ry, rz; no other call
has one, and 0 stands for that. -/
def SimCall.angle : SimCall → Rat
  | .rx _ a => a
  | .ry _ a => a
  | .rz _ a => a
  | _ => 0

/-- No float has been written in the state: every value stored in a frame of the environment
and the kept return value have float field 0, and every call the simulator received has
angle 0. -/
def FloatsZero (σ : RuntimeEvaluator) : Prop :=
  (∀ frame ∈ σ.m_env, ∀ entry ∈ frame, entry.2.floatValue = 0) ∧
    σ.m_returnValue.floatValue = 0 ∧ ∀ c ∈ σ.m_sim, c.angle = 0

/-- The lexer `l'` is the lexer `l` after it has read on: the source is the same, the position
is not before the one of `l` and not past the end. -/
def Lexer.Ahead (l l' : Lexer) : Prop :=
  l'.m_source = l.m_source ∧ l.m_position ≤ l'.m_position ∧
    l'.m_position ≤ l'.m_source.length

/-- What a scanner started on `l` can do: throw an exception, or return a token that is not
`Eof` together with a lexer that has read on from `l`. -/
def ScansFrom (l : Lexer) (r : Lex (Token × Lexer)) : Prop :=
  (∃ e, r = .error (.thrown e)) ∨
    ∃ t l', r = .ok (t, l') ∧ t.type ≠ .Eof ∧ l.Ahead l'

/-- The character starts a token that `scanToken` knows: a digit, a letter, an underscore, or
one of the characters of its `switch`. -/
def startsKnownToken (c : Char) : Bool :=
  c.isDigit || c.isAlpha || c = '_' ||
    decide (c ∈ ['=', '!', '+', '-', '*', '/', '%', '>', '<', ';', ',', '.', ':', '@',
      doubleQuote, singleQuote, '(', ')', Char.ofNat 123, Char.ofNat 125, '[', ']'])

/-- One step of the search for the first use of a name in a sequence of two expression visits:
the use found in what is visited first; when there is none there and that visit is accepted,
the use found in what is visited next; none when the first visit throws for another reason. -/
def firstAfterCheck (found : Option (Nat × Nat)) (visit : Check) (next : Option (Nat × Nat)) :
    Option (Nat × Nat) :=
  match found with
  | some position => some position
  | none =>
    match visit with
    | .ok _ => next
    | .error _ => none

/-- The same step for statement visits, where what is visited next sees the state the first
visit returned. -/
def firstAfterVisit (found : Option (Nat × Nat)) (visit : Outcome)
    (next : SemanticAnalyser → Option (Nat × Nat)) : Option (Nat × Nat) :=
  match found with
  | some position => some position
  | none =>
    match visit with
    | .ok s1 => next s1
    | .error _ => none

mutual
/-- The first use of the name `x` that the visit of the expression reaches in state `s`, with
the line and column of the node that names `x`: a variable expression `x`, an assignment
expression to `x`, or a call whose callee is the variable `x` when `x` is no function name.
A use counts only if everything visited before it is accepted: the checks of an enclosing call
or assignment and the sub-expressions to its left. -/
def firstRead (x : String) (s : SemanticAnalyser) : Expression → Option (Nat × Nat)
  | .literal _ _ _ _ => none
  | .variable line column name => if name = x then some (line, column) else none
  | .binary _ _ _ left right =>
    firstAfterCheck (firstReadOpt x s left) (visitOptExpression s left) (firstReadOpt x s right)
  | .unary _ _ _ right => firstReadOpt x s right
  | .call line column callee arguments =>
    match asVariable callee with
    | some (vline, vcolumn, name) =>
      if name = x ∧ isFunctionDeclared s x = false then some (vline, vcolumn)
      else firstAfterCheck none (checkCall s line column vline vcolumn name arguments)
        (firstReadList x s arguments)
    | none =>
      firstAfterCheck (firstReadOpt x s callee) (visitOptExpression s callee)
        (firstReadList x s arguments)
  | .index _ _ collection index =>
    firstAfterCheck (firstReadOpt x s collection) (visitOptExpression s collection)
      (firstReadOpt x s index)
  | .parenthesized _ _ expression => firstReadOpt x s expression
  | .measure _ _ qubit => firstReadOpt x s qubit
  | .assignment line column name value =>
    if name = x then some (line, column)
    else firstAfterCheck none (checkAssignment s line column name value)
      (firstReadOpt x s value)
  | .constructorCall _ _ _ arguments => firstReadList x s arguments
  | .memberAccess _ _ object _ => firstReadOpt x s object
/-- The same for an expression that may be absent. -/
def firstReadOpt (x : String) (s : SemanticAnalyser) : Option Expression → Option (Nat × Nat)
  | none => none
  | some e => firstRead x s e
/-- The same for a list of expressions visited in order. -/
def firstReadList (x : String) (s : SemanticAnalyser) : List Expression → Option (Nat × Nat)
  | [] => none
  | e :: rest =>
    firstAfterCheck (firstRead x s e) (visitExpression s e) (firstReadList x s rest)
end

mutual
/-- The first use of the name `x` that the visit of the statement reaches from state `s`, at
any depth, with the line and column of the node that names `x`: an assignment statement to `x`
or a use inside an expression (`firstRead`).  A use counts only if everything visited before it
is accepted: the statements, conditions and initializers before it, and the checks of the
enclosing declaration, return or assignment statement. -/
def firstUse (x : String) : Statement → SemanticAnalyser → Option (Nat × Nat)
  | .variableDeclaration node, s =>
    if isDeclared s node.name then none
    else
      match node.initializer with
      | none => none
      | some e =>
        if isVoidCall (declare s node.name node.isFinal (typeNameOf node.varType)) (some e)
        then none
        else firstRead x (declare s node.name node.isFinal (typeNameOf node.varType)) e
  | .block _ _ statements, s => firstUseList x statements (beginScope s)
  | .expression _ _ expression, s => firstReadOpt x s expression
  | .ret _ _ value, s =>
    if s.m_currentReturnType = some Ty.void then none else firstReadOpt x s value
  | .ifStatement _ _ condition thenBranch elseBranch, s =>
    firstAfterVisit (firstReadOpt x s condition) ((visitOptExpression s condition).toOutcome s)
      fun s1 =>
        firstAfterVisit (firstUseOpt x thenBranch s1) (visitOptStatement thenBranch s1)
          fun s2 => firstUseOpt x elseBranch s2
  | .forStatement _ _ initializer condition increment body, s =>
    firstAfterVisit (firstUseOpt x initializer (beginScope s))
      (visitOptStatement initializer (beginScope s)) fun s1 =>
        firstAfterVisit (firstReadOpt x s1 condition)
          ((visitOptExpression s1 condition).toOutcome s1) fun s2 =>
            firstAfterVisit (firstReadOpt x s2 increment)
              ((visitOptExpression s2 increment).toOutcome s2) fun s3 =>
                firstUseOpt x body s3
  | .echo _ _ value, s => firstReadOpt x s value
  | .reset _ _ target, s => firstReadOpt x s target
  | .measure _ _ qubit, s => firstReadOpt x s qubit
  | .assignment line column name value, s =>
    if name = x then some (line, column)
    else firstAfterCheck none (checkAssignment s line column name value)
      (firstReadOpt x s value)
/-- The same for a statement that may be absent. -/
def firstUseOpt (x : String) : Option Statement → SemanticAnalyser → Option (Nat × Nat)
  | none, _ => none
  | some st, s => firstUse x st s
/-- The same for a list of statements visited in order. -/
def firstUseList (x : String) : List Statement → SemanticAnalyser → Option (Nat × Nat)
  | [], _ => none
  | st :: rest, s =>
    firstAfterVisit (firstUse x st s) (visitStatement st s) fun s1 => firstUseList x rest s1
end

/-! ## States and programs the properties are tried on

The programs are those of `tests/test_semantics.cpp` and variations of them, as trees. -/

/-- The literal `5` of type int. -/
def intLit (value : String) : Expression := .literal 1 1 value "int"

/-- Source `int x; x = 5;`. -/
def progDeclareAssign : Program :=
  { imports := [], functions := [], classes := [],
    statements := [ .variableDeclaration ⟨1, 1, "x", some (.primitive "int"), none, false⟩,
                    .assignment 1 8 "x" (some (intLit "5")) ] }

/-- Source `x = 5;`. -/
def progUndeclared : Program :=
  { imports := [], functions := [], classes := [],
    statements := [ .assignment 1 1 "x" (some (intLit "5")) ] }

/-- A state in the middle of an analysis: `y` is declared in the outer frame, `x` nowhere. -/
def stateWithY : SemanticAnalyser :=
  { m_scopes := [[], [("y", ⟨false, "int"⟩)]], m_functions := ["foo"], m_functionInfo := [],
    m_currentReturnType := none }

/-- The state of `analyse` right after its `beginScope()`, on a fresh analyser. -/
def topLevel : SemanticAnalyser := beginScope SemanticAnalyser.fresh

/-- The declaration `int x;` at the given column. -/
def declIntX (column : Nat) : VariableDeclaration :=
  ⟨1, column, "x", some (.primitive "int"), none, false⟩

/-- The state after `int x;` at top level. -/
def afterIntX : SemanticAnalyser :=
  { topLevel with m_scopes := [[("x", ⟨false, "int"⟩)]] }

/-- The declaration `int y;`. -/
def declIntY : VariableDeclaration := ⟨1, 3, "y", some (.primitive "int"), none, false⟩

/-- Source `int x; int x;`. -/
def progRedeclare : Program :=
  { imports := [], functions := [], classes := [],
    statements := [.variableDeclaration (declIntX 1), .variableDeclaration (declIntX 8)] }

/-- Source `int x; { int x; }`. -/
def progRedeclareInner : Program :=
  { imports := [], functions := [], classes := [],
    statements := [.variableDeclaration (declIntX 1),
      .block 1 8 [.variableDeclaration (declIntX 10)]] }

/-- Source `{ int y; } y = 1;`. -/
def progInnerNotVisible : Program :=
  { imports := [], functions := [], classes := [],
    statements := [.block 1 1 [.variableDeclaration declIntY],
      .assignment 1 12 "y" (some (intLit "1"))] }

/-- The declaration `final int x = 1;`. -/
def declFinalX : VariableDeclaration :=
  ⟨1, 1, "x", some (.primitive "int"), some (intLit "1"), true⟩

/-- The state after `final int x = 1;` at top level. -/
def afterFinalX : SemanticAnalyser :=
  { topLevel with m_scopes := [[("x", ⟨true, "int"⟩)]] }

/-- A function `function <name>() -> void { }` at the given line. -/
def emptyVoidFunction (line : Nat) (name : String) : FunctionDeclaration :=
  ⟨line, 1, name, [], some .void, some [], false⟩

/-- Source `function foo() -> void { } function foo() -> void { }`, one function per line. -/
def progDuplicateFunction : Program :=
  { imports := [], functions := [emptyVoidFunction 1 "foo", emptyVoidFunction 2 "foo"],
    classes := [], statements := [] }

/-- Source `class Foo { @methods: function bar() -> void { } function bar() -> void { } }`. -/
def progDuplicateMethod : Program :=
  { imports := [], functions := [],
    classes := [ { name := "Foo", members := [],
                   methods := [ ⟨1, 22, "bar", [], some .void, some [], false⟩,
                                ⟨1, 49, "bar", [], some .void, some [], false⟩ ] } ],
    statements := [] }

/-- Three functions `h`, `foo`, `foo`, one per line. -/
def progGateThenDuplicate : Program :=
  { imports := [],
    functions := [emptyVoidFunction 1 "h", emptyVoidFunction 2 "foo", emptyVoidFunction 3 "foo"],
    classes := [], statements := [] }

/-- Source `@quantum function q() -> int { return 0; }`. -/
def quantumIntFunction : FunctionDeclaration :=
  ⟨1, 1, "q", [], some (.primitive "int"), some [.ret 1 30 (some (intLit "0"))], true⟩

/-- Source `@quantum function q() -> bit { return 0; }`. -/
def quantumBitFunction : FunctionDeclaration :=
  ⟨1, 1, "q", [], some (.primitive "bit"), some [.ret 1 30 (some (intLit "0"))], true⟩

/-- The function `function b(int p) -> void { }` on line 2. -/
def functionB : FunctionDeclaration :=
  ⟨2, 1, "b", [⟨2, 12, "p", some (.primitive "int")⟩], some .void, some [], false⟩

/-- Source `function a() -> void { b(1); }` / `function b(int p) -> void { }`: the call of `b`
stands in the body of a function declared before `b` and has one int argument, as `b`
declares. -/
def progForwardCallInBody : Program :=
  { imports := [],
    functions := [ ⟨1, 1, "a", [], some .void,
                     some [.expression 1 24 (some (.call 1 25 (some (.variable 1 24 "b"))
                       [.literal 1 26 "1" "int"]))], false⟩,
                   functionB ],
    classes := [], statements := [] }

/-- Source `b(1);` / `function b(int p) -> void { }`: the same call as a top-level statement. -/
def progForwardCallAtTopLevel : Program :=
  { imports := [], functions := [functionB], classes := [],
    statements := [.expression 1 1 (some (.call 1 2 (some (.variable 1 1 "b"))
      [.literal 1 3 "1" "int"]))] }

/-- Source `function a() -> void { b(); }` / `function b(int p) -> void { }`: the call of `b`
has no argument although `b` declares one parameter. -/
def progForwardCallNoArgument : Program :=
  { imports := [],
    functions := [ ⟨1, 1, "a", [], some .void,
                     some [.expression 1 24 (some (.call 1 25 (some (.variable 1 24 "b")) []))],
                     false⟩,
                   functionB ],
    classes := [], statements := [] }

/-- Source `b();` / `function b(int p) -> void { }`: the same call as a top-level statement. -/
def progCallNoArgumentAtTopLevel : Program :=
  { imports := [], functions := [functionB], classes := [],
    statements := [.expression 1 1 (some (.call 1 2 (some (.variable 1 1 "b")) []))] }

/-- Source `function a() -> void { int x = v(); }` / `function v() -> void { }`: the
initializer is a direct call of the void function `v`, declared after `a`. -/
def progForwardVoidCall : Program :=
  { imports := [],
    functions := [ ⟨1, 1, "a", [], some .void,
                     some [.variableDeclaration ⟨1, 24, "x", some (.primitive "int"),
                       some (.call 1 33 (some (.variable 1 32 "v")) []), false⟩], false⟩,
                   emptyVoidFunction 2 "v" ],
    classes := [], statements := [] }

/-- Source `function v() -> void { }` / `int x = v();`: the test `AssignFromVoidFunctionFails`. -/
def progVoidCallAtTopLevel : Program :=
  { imports := [], functions := [emptyVoidFunction 1 "v"], classes := [],
    statements := [.variableDeclaration ⟨2, 1, "x", some (.primitive "int"),
      some (.call 2 10 (some (.variable 2 9 "v")) []), false⟩] }

/-- Source `function foo() -> void { return 1; }`. -/
def voidFunctionReturningValue : FunctionDeclaration :=
  ⟨1, 1, "foo", [], some .void, some [.ret 1 26 (some (intLit "1"))], false⟩

/-- Source `function foo() -> int { return; }`. -/
def intFunctionReturningNothing : FunctionDeclaration :=
  ⟨1, 1, "foo", [], some (.primitive "int"), some [.ret 1 25 none], false⟩

/-- Source `function foo() -> int { if (1) { return; } }`: the return is nested in a block inside
an if statement. -/
def intFunctionNestedReturn : FunctionDeclaration :=
  ⟨1, 1, "foo", [], some (.primitive "int"),
    some [.ifStatement 1 25 (some (intLit "1")) (some (.block 1 32 [.ret 1 34 none])) none],
    false⟩

/-- The state after `string s = "hello";` at top level. -/
def afterStringS : SemanticAnalyser :=
  { topLevel with m_scopes := [[("s", ⟨false, "string"⟩)]] }

/-- The call `cx(s, s)`. -/
def callCxSS : Expression :=
  .call 1 24 (some (.variable 1 22 "cx")) [.variable 1 25 "s", .variable 1 28 "s"]

/-- The state after `qubit q;` at top level. -/
def afterQubitQ : SemanticAnalyser :=
  { topLevel with m_scopes := [[("q", ⟨false, "qubit"⟩)]] }

/-- Source `function foo(int a) -> void { a = 1; }`. -/
def functionAssigningParameter : FunctionDeclaration :=
  ⟨1, 1, "foo", [⟨1, 14, "a", some (.primitive "int")⟩], some .void,
    some [.assignment 1 31 "a" (some (intLit "1"))], false⟩

/-- A simulator that hands out the indices 0, 1, 2, ... and measures 1 every time. -/
def countingSimulator : SimulatorAnswers :=
  { allocateQubit := fun calls => ((calls.filter fun c => c = SimCall.allocateQubit).length : Nat),
    measure := fun _ _ => 1 }

/-- An evaluator inside a call: one empty frame. -/
def insideCall : RuntimeEvaluator := { RuntimeEvaluator.fresh with m_env := [[]] }

/-- The declaration `int i = 0;`. -/
def declIntI : VariableDeclaration :=
  ⟨1, 6, "i", some (.primitive "int"), some (intLit "0"), false⟩

/-- Source `for (int i = 0; ; i = i + 1) { echo(1); }`. -/
def forWithoutCondition : Statement :=
  .forStatement 1 1 (some (.variableDeclaration declIntI)) none
    (some (.assignment 1 18 "i" (some (.binary 1 24 "+" (some (.variable 1 22 "i"))
      (some (intLit "1"))))))
    (some (.block 1 29 [.echo 1 31 (some (intLit "1"))]))

/-- The state after `int i = 0;` in the frame pushed by a for statement inside a call. -/
def afterDeclI : RuntimeEvaluator :=
  { insideCall with m_env := [("i", { type := .Int, intValue := 0 })] :: [] :: [] }

/-- Source `function five() -> int { return 5; }`. -/
def functionFive : FunctionDeclaration :=
  ⟨1, 1, "five", [], some (.primitive "int"), some [.ret 1 26 (some (intLit "5"))], false⟩

/-- Source `function nothing() -> void { }`. -/
def functionNothing : FunctionDeclaration := emptyVoidFunction 2 "nothing"

/-- The call `<name>()` at the given column of line 3. -/
def callNoArguments (column : Nat) (name : String) : Expression :=
  .call 3 (column + name.length) (some (.variable 3 column name)) []

/-- Source, one function per line:
`function five() -> int { return 5; }`,
`function nothing() -> void { }`,
`function main() -> void { echo(five() + nothing()); }`. -/
def progStaleReturnValue : Program :=
  { imports := [],
    functions := [ functionFive, functionNothing,
      ⟨3, 1, "main", [], some .void,
        some [.echo 3 27 (some (.binary 3 39 "+" (some (callNoArguments 32 "five"))
          (some (callNoArguments 41 "nothing"))))], false⟩ ],
    classes := [], statements := [] }

/-- Source `function five() -> int { return 5; }` and
`function main() -> void { int x = five(); echo(x); }`. -/
def progCallThenEcho : Program :=
  { imports := [],
    functions := [ functionFive,
      ⟨3, 1, "main", [], some .void,
        some [ .variableDeclaration ⟨3, 27, "x", some (.primitive "int"),
                 some (callNoArguments 35 "five"), false⟩,
               .echo 3 43 (some (.variable 3 48 "x")) ], false⟩ ],
    classes := [], statements := [] }

/-- Source `function main() -> void { int x = 5; echo(x); }`. -/
def progAssignThenEcho : Program :=
  { imports := [],
    functions := [
      ⟨3, 1, "main", [], some .void,
        some [ .variableDeclaration ⟨3, 27, "x", some (.primitive "int"),
                 some (intLit "5"), false⟩,
               .echo 3 38 (some (.variable 3 43 "x")) ], false⟩ ],
    classes := [], statements := [] }

/-- What a run wrote to `std::cout`. -/
def outputOf (r : Run RuntimeEvaluator) : Run (List String) := r.map fun σ => σ.output

/-- The declaration `qubit q;`. -/
def declQubitQ : VariableDeclaration := ⟨1, 1, "q", some (.primitive "qubit"), none, false⟩

/-- The call `h(q)`. -/
def callHQ : Expression := .call 1 11 (some (.variable 1 10 "h")) [.variable 1 12 "q"]

/-- Source `qubit q; h(q);`: two top-level statements, no functions. -/
def progQubitH : Program :=
  { imports := [], functions := [], classes := [],
    statements := [.variableDeclaration declQubitQ, .expression 1 10 (some callHQ)] }

/-- The function `function main() -> void { qubit q; h(q); }`. -/
def mainQubitH : FunctionDeclaration :=
  ⟨1, 1, "main", [], some .void,
    some [.variableDeclaration declQubitQ, .expression 1 10 (some callHQ)], false⟩

/-- Source `function main() -> void { qubit q; h(q); }`. -/
def progMainQubitH : Program :=
  { imports := [], functions := [mainQubitH], classes := [], statements := [] }

/-- The evaluator after `qubit q;` inside a call, with the simulator counting from 0. -/
def afterQubitDeclaration : RuntimeEvaluator :=
  { insideCall with
    m_sim := [.allocateQubit],
    m_qubits := [⟨"q", false⟩],
    m_env := [[("q", { type := .Qubit, qubit := 0 })]] }

/-- The expression `measure q`. -/
def measureQ : Expression := .measure 1 17 (some (.variable 1 25 "q"))

/-- The declaration `bit b = measure q;`. -/
def declBitMeasure : VariableDeclaration :=
  ⟨1, 10, "b", some (.primitive "bit"), some measureQ, false⟩

/-- The expression `(0 - 2147483647 - 1) / (0 - 1)`: the least `int` divided by -1. -/
def leastIntDividedByMinusOne : Expression :=
  .binary 1 22 "/"
    (some (.binary 1 16 "-"
      (some (.binary 1 4 "-" (some (intLit "0")) (some (intLit "2147483647"))))
      (some (intLit "1"))))
    (some (.binary 1 27 "-" (some (intLit "0")) (some (intLit "1"))))

/-- The comparison `1 < 2`. -/
def oneLessThanTwo : Expression := .binary 1 3 "<" (some (intLit "1")) (some (intLit "2"))

/-- A runtime state with two frames: the inner binds `a`, the outer binds `a` and `b`. -/
def twoFrames : RuntimeEvaluator :=
  { RuntimeEvaluator.fresh with
    m_env := [[("a", { type := .Int, intValue := 1 })],
      [("a", { type := .Int, intValue := 2 }), ("b", { type := .Int, intValue := 3 })]] }

/-- An analyser whose scope stack has two frames: the inner declares `a` final of type `int`,
the outer declares `a` and `b` non-final of type `bit`. -/
def twoScopes : SemanticAnalyser :=
  { SemanticAnalyser.fresh with
    m_scopes := [[("a", ⟨true, "int"⟩)], [("a", ⟨false, "bit"⟩), ("b", ⟨false, "bit"⟩)]] }

/-- A symbol table with the same two frames. -/
def twoSymbolScopes : SymbolTable :=
  { m_scopes := [[("a", ⟨true, .Int, ""⟩)], [("a", ⟨false, .Bit, ""⟩), ("b", ⟨false, .Bit, ""⟩)]] }

/-- The call `rx(q, (1))`: the second argument is a parenthesized `int` literal. -/
def callRxParenthesized : Expression :=
  .call 1 12 (some (.variable 1 10 "rx"))
    [.variable 1 13 "q", .parenthesized 1 16 (some (.literal 1 17 "1" "int"))]

/-- The call `rx(q, (y))`: the second argument is a parenthesized undeclared variable. -/
def callRxUndeclared : Expression :=
  .call 1 12 (some (.variable 1 10 "rx"))
    [.variable 1 13 "q", .parenthesized 1 16 (some (.variable 1 17 "y"))]

/-- Source `int x; function foo(int a) -> void { a = 1; } for (int i = 0; ; i = i + 1)
{ echo(1); }`, the function on the first line. -/
def progFunctionAndLoop : Program :=
  { imports := [], functions := [functionAssigningParameter], classes := [],
    statements := [.variableDeclaration (declIntX 1), forWithoutCondition] }

/-- The function `function f() -> void { x = 1; }` on line 2. -/
def functionAssigningX : FunctionDeclaration :=
  ⟨2, 1, "f", [], some .void, some [.assignment 2 24 "x" (some (intLit "1"))], false⟩

/-- Source `int x;` on line 1 and `function f() -> void { x = 1; }` on line 2. -/
def progTopLevelNameInFunction : Program :=
  { imports := [], functions := [functionAssigningX], classes := [],
    statements := [.variableDeclaration (declIntX 1)] }

/-- Source `int x;` on line 1, `function f() -> void { x = 1; }` on line 2 and
`function f() -> void { }` on line 3. -/
def progTopLevelNameAndDuplicate : Program :=
  { imports := [], functions := [functionAssigningX, emptyVoidFunction 3 "f"], classes := [],
    statements := [.variableDeclaration (declIntX 1)] }

/-- The function `function g() -> void { y = 1; x = 2; }` on line 2. -/
def functionAssigningYThenX : FunctionDeclaration :=
  ⟨2, 1, "g", [], some .void,
    some [.assignment 2 24 "y" (some (intLit "1")), .assignment 2 31 "x" (some (intLit "2"))],
    false⟩

/-- Source `int x;` on line 1 and `function g() -> void { y = 1; x = 2; }` on line 2. -/
def progOtherNameFirst : Program :=
  { imports := [], functions := [functionAssigningYThenX], classes := [],
    statements := [.variableDeclaration (declIntX 1)] }

/-- Source `function rx() -> void { }`: the only function of the program has a gate name. -/
def progGateNamedFunction : Program :=
  { imports := [], functions := [emptyVoidFunction 1 "rx"], classes := [], statements := [] }

/-- The declaration `int x = x;`. -/
def declIntXFromX : VariableDeclaration :=
  ⟨1, 1, "x", some (.primitive "int"), some (.variable 1 9 "x"), false⟩

/-- The declaration `int x = v();`. -/
def declIntXFromCall : VariableDeclaration :=
  ⟨1, 1, "x", some (.primitive "int"), some (.call 1 10 (some (.variable 1 9 "v")) []), false⟩

/-- The top-level state in which `function v() -> void { }` has been visited. -/
def afterVoidFunctionV : SemanticAnalyser :=
  { topLevel with m_functions := ["v"], m_functionInfo := [("v", ⟨some .void, []⟩)] }

/-- The call `rx(q, 1.5f)`. -/
def callRxQ : Expression :=
  .call 1 12 (some (.variable 1 10 "rx")) [.variable 1 13 "q", .literal 1 16 "1.5f" "float"]

/-- The source `h(q) # 1.5f`: an identifier, punctuation, a character that starts no token and
a float literal. -/
def sourceWithUnknown : String := "h(q) # 1.5f"

/-- The function `function f() -> <returnType> { <body> }` on line 2. -/
def functionWithBody (returnType : Ty) (body : List Statement) : FunctionDeclaration :=
  ⟨2, 1, "f", [], some returnType, some body, false⟩

/-- Source `int x;` on line 1 and `function f() -> <returnType> { <body> }` on line 2. -/
def progWithBody (returnType : Ty) (body : List Statement) : Program :=
  { imports := [], functions := [functionWithBody returnType body], classes := [],
    statements := [.variableDeclaration (declIntX 1)] }

/-- The body `echo(1 + x);`. -/
def bodyEchoSum : List Statement :=
  [.echo 2 24 (some (.binary 2 31 "+" (some (intLit "1")) (some (.variable 2 33 "x"))))]

/-- The body `int y = x;`. -/
def bodyDeclarationFromX : List Statement :=
  [.variableDeclaration ⟨2, 24, "y", some (.primitive "int"), some (.variable 2 32 "x"), false⟩]

/-- The body `{ x = 1; }`: the assignment is inside a nested block. -/
def bodyNestedAssignment : List Statement :=
  [.block 2 24 [.assignment 2 26 "x" (some (intLit "1"))]]

/-- The body `if (x) { }`. -/
def bodyIfX : List Statement :=
  [.ifStatement 2 24 (some (.variable 2 28 "x")) (some (.block 2 31 [])) none]

/-- The body `return x;`. -/
def bodyReturnX : List Statement := [.ret 2 24 (some (.variable 2 31 "x"))]

/-- The state in which the body of the only function `f` of a program is visited on a fresh
analyser: the top-level frame, the frame of the parameters and the frame of the body. -/
def insideBodyOfF (returnType : Ty) : SemanticAnalyser :=
  { m_scopes := [[], [], []], m_functions := ["f"],
    m_functionInfo := [("f", ⟨some returnType, []⟩)], m_currentReturnType := some returnType }

/-! # Properties -/

/-! ## Lemmas on maps and the scope stack -/

theorem mapFind_mapSet_self {β : Type} (m : List (String × β)) (k : String) (v : β) :
    mapFind (mapSet m k v) k = some v := by
  induction m with
  | nil => simp [mapSet, mapFind]
  | cons p rest ih =>
    obtain ⟨k', v'⟩ := p
    by_cases h : k' = k
    · simp [mapSet, mapFind, h]
    · simp [mapSet, mapFind, h, ih]

theorem mapFind_mapSet_ne {β : Type} (m : List (String × β)) (k n : String) (v : β)
    (h : n ≠ k) : mapFind (mapSet m k v) n = mapFind m n := by
  induction m with
  | nil => simp [mapSet, mapFind, Ne.symm h]
  | cons p rest ih =>
    obtain ⟨k', v'⟩ := p
    by_cases hk : k' = k
    · subst hk
      simp [mapSet, mapFind, Ne.symm h]
    · by_cases hn : k' = n
      · subst hn
        simp [mapSet, mapFind, hk]
      · simp [mapSet, mapFind, hk, hn, ih]

theorem findVariable_eq_none_iff (frames : List Frame) (x : String) :
    findVariable frames x = none ↔ ∀ frame ∈ frames, mapFind frame x = none := by
  induction frames with
  | nil => simp [findVariable]
  | cons frame rest ih =>
    cases h : mapFind frame x with
    | none => simp [findVariable, h, ih]
    | some info => simp [findVariable, h]

theorem isDeclared_eq_false_iff (s : SemanticAnalyser) (x : String) :
    isDeclared s x = false ↔ ∀ frame ∈ s.m_scopes, mapFind frame x = none := by
  rw [← findVariable_eq_none_iff]
  cases h : findVariable s.m_scopes x <;> simp [isDeclared, h]

theorem isDeclared_eq_true_iff (s : SemanticAnalyser) (x : String) :
    isDeclared s x = true ↔ ∃ frame ∈ s.m_scopes, (mapFind frame x).isSome = true := by
  constructor
  · intro h
    by_contra hne
    have : isDeclared s x = false := by
      rw [isDeclared_eq_false_iff]
      intro frame hf
      cases hm : mapFind frame x with
      | none => rfl
      | some info => exact absurd ⟨frame, hf, by simp [hm]⟩ hne
    rw [this] at h
    cases h
  · rintro ⟨frame, hf, hsome⟩
    cases hd : isDeclared s x with
    | true => rfl
    | false =>
      rw [isDeclared_eq_false_iff] at hd
      rw [hd frame hf] at hsome
      cases hsome

/-- What the three visitors do on a name that `isDeclared` rejects. -/
theorem undeclared_use_raises_aux (s : SemanticAnalyser) (x : String)
    (hd : isDeclared s x = false) (line column : Nat) (value : Option Expression) :
    visitExpression s (.variable line column x) =
        .error (semanticError line column ("Variable '" ++ x ++ "' not declared")) ∧
      visitStatement (.assignment line column x value) s =
        .error ⟨semanticError line column ("Variable '" ++ x ++ "' not declared"), s⟩ ∧
      visitExpression s (.assignment line column x value) =
        .error (semanticError line column ("Variable '" ++ x ++ "' not declared")) := by
  refine ⟨?_, ?_, ?_⟩
  · simp [visitExpression, hd]
  · simp [visitStatement, checkAssignment, hd, Check.andThen, Check.toOutcome]
  · simp [visitExpression, checkAssignment, hd, Check.andThen]

/-- C1: in an analyser state whose scope stack holds `x` in no frame, visiting a
`VariableExpression x`, an `AssignmentStatement` to `x` or an `AssignmentExpression` to `x`
throws "Variable 'x' not declared" with the line and column of that node; it does not
return. -/
theorem undeclared_use_raises (s : SemanticAnalyser) (x : String)
    (h : ∀ frame ∈ s.m_scopes, mapFind frame x = none)
    (line column : Nat) (value : Option Expression) :
    visitExpression s (.variable line column x) =
        .error (semanticError line column ("Variable '" ++ x ++ "' not declared")) ∧
      visitStatement (.assignment line column x value) s =
        .error ⟨semanticError line column ("Variable '" ++ x ++ "' not declared"), s⟩ ∧
      visitExpression s (.assignment line column x value) =
        .error (semanticError line column ("Variable '" ++ x ++ "' not declared")) := by
  exact undeclared_use_raises_aux s x ((isDeclared_eq_false_iff s x).2 h) line column value

theorem undeclared_use_raises_witness :
    (∀ frame ∈ stateWithY.m_scopes, mapFind frame "x" = none) ∧
    (visitExpression stateWithY (.variable 3 7 "x") =
        .error (semanticError 3 7 ("Variable '" ++ "x" ++ "' not declared")) ∧
      visitStatement (.assignment 3 7 "x" (some (intLit "5"))) stateWithY =
        .error ⟨semanticError 3 7 ("Variable '" ++ "x" ++ "' not declared"), stateWithY⟩ ∧
      visitExpression stateWithY (.assignment 3 7 "x" (some (intLit "5"))) =
        .error (semanticError 3 7 ("Variable '" ++ "x" ++ "' not declared"))) ∧
    thrownError (analyse progUndeclared SemanticAnalyser.fresh) =
      some (semanticError 1 1 "Variable 'x' not declared") :=
  ⟨by decide, undeclared_use_raises stateWithY "x" (by decide) 3 7 (some (intLit "5")),
    by decide⟩

/-! ## Results of sequenced visits -/

theorem outcome_andThen_eq_ok (a : Outcome) (k : SemanticAnalyser → Outcome)
    (s' : SemanticAnalyser) :
    a.andThen k = .ok s' ↔ ∃ s1, a = .ok s1 ∧ k s1 = .ok s' := by
  cases a with
  | error r => simp [Outcome.andThen]
  | ok s1 => simp [Outcome.andThen]

theorem Check.toOutcome_eq_ok (c : Check) (s s' : SemanticAnalyser) :
    c.toOutcome s = .ok s' ↔ c = .ok () ∧ s' = s := by
  cases c with
  | error e => simp [Check.toOutcome]
  | ok u => simp [Check.toOutcome, eq_comm]

theorem check_andThen_eq_ok (a b : Check) :
    a.andThen b = .ok () ↔ a = .ok () ∧ b = .ok () := by
  cases a with
  | error e => simp [Check.andThen]
  | ok u => simp [Check.andThen]

/-! ## The scope stack across a visit -/

theorem Extends.refl (s : SemanticAnalyser) : Extends s s :=
  ⟨rfl, rfl, rfl, rfl, rfl, fun _ _ h => h⟩

theorem Extends.trans {a b c : SemanticAnalyser} (h1 : Extends a b) (h2 : Extends b c) :
    Extends a c := by
  obtain ⟨f1, i1, r1, l1, t1, v1⟩ := h1
  obtain ⟨f2, i2, r2, l2, t2, v2⟩ := h2
  exact ⟨f2.trans f1, i2.trans i1, r2.trans r1, l2.trans l1, t2.trans t1,
    fun n info h => v2 n info (v1 n info h)⟩

/-- A scope opened on `s` and closed on a state that extends the opened one gives `s` back. -/
theorem endScope_of_extends_beginScope {s s1 : SemanticAnalyser}
    (h : Extends (beginScope s) s1) : endScope s1 = s := by
  obtain ⟨f, i, r, _, t, _⟩ := h
  cases s
  cases s1
  simp_all [endScope, beginScope]

theorem declare_extends (s : SemanticAnalyser) (x : String) (fin : Bool) (ty : String)
    (h : isDeclared s x = false) : Extends s (declare s x fin ty) := by
  cases hs : s.m_scopes with
  | nil => 
    have : declare s x fin ty = s := by simp [declare, hs]
    rw [this]; exact Extends.refl s
  | cons top rest =>
    have hd : (declare s x fin ty) = { s with m_scopes := mapSet top x ⟨fin, ty⟩ :: rest } := by
      simp [declare, hs]
    rw [hd]
    refine ⟨rfl, rfl, rfl, by simp [hs], by simp [hs], ?_⟩
    intro n info hn
    have hx : n ≠ x := by
      rintro rfl
      simp [isDeclared, hn] at h
    simp only [hs, findVariable] at hn
    simp only [findVariable, mapFind_mapSet_ne top x n _ hx]
    exact hn

theorem visitVariableDeclaration_extends (node : VariableDeclaration) (s s' : SemanticAnalyser)
    (h : visitVariableDeclaration node s = .ok s') : Extends s s' := by
  unfold visitVariableDeclaration at h
  by_cases hd : isDeclared s node.name = true
  · simp [hd] at h
  · have hd' : isDeclared s node.name = false := by simpa using hd
    simp only [hd', Bool.false_eq_true, ↓reduceIte] at h
    cases hi : node.initializer with
    | none =>
      simp only [hi] at h
      cases h
      exact declare_extends s _ _ _ hd'
    | some e =>
      simp only [hi] at h
      split at h
      · cases h
      · rw [Check.toOutcome_eq_ok] at h
        rw [h.2]
        exact declare_extends s _ _ _ hd'

theorem visitReturn_extends (line column : Nat) (value : Option Expression)
    (s s' : SemanticAnalyser) (h : visitReturn line column value s = .ok s') : Extends s s' := by
  unfold visitReturn at h
  simp only at h
  split at h
  · cases h
  · split at h
    · cases h
    · rw [Check.toOutcome_eq_ok] at h
      rw [h.2]; exact Extends.refl s

mutual
theorem visitStatement_extends : ∀ (st : Statement) (s s' : SemanticAnalyser),
    visitStatement st s = .ok s' → Extends s s'
  | .variableDeclaration node, s, s', h => by
    rw [visitStatement] at h
    exact visitVariableDeclaration_extends node s s' h
  | .block _ _ statements, s, s', h => by
    rw [visitStatement, outcome_andThen_eq_ok] at h
    obtain ⟨s1, h1, h2⟩ := h
    have := visitStatementList_extends statements _ _ h1
    cases h2
    rw [endScope_of_extends_beginScope this]
    exact Extends.refl s
  | .expression _ _ e, s, s', h => by
    rw [visitStatement, Check.toOutcome_eq_ok] at h
    rw [h.2]; exact Extends.refl s
  | .ret line column value, s, s', h => by
    rw [visitStatement] at h
    exact visitReturn_extends line column value s s' h
  | .ifStatement _ _ c t e, s, s', h => by
    rw [visitStatement, outcome_andThen_eq_ok] at h
    obtain ⟨s1, h1, h2⟩ := h
    rw [Check.toOutcome_eq_ok] at h1
    rw [outcome_andThen_eq_ok] at h2
    obtain ⟨s2, h2, h3⟩ := h2
    rw [h1.2] at h2
    exact (visitOptStatement_extends t _ _ h2).trans (visitOptStatement_extends e _ _ h3)
  | .forStatement _ _ i c inc b, s, s', h => by
    rw [visitStatement, outcome_andThen_eq_ok] at h
    obtain ⟨s1, h1, h2⟩ := h
    rw [outcome_andThen_eq_ok] at h2
    obtain ⟨s2, h2, h3⟩ := h2
    rw [Check.toOutcome_eq_ok] at h2
    rw [outcome_andThen_eq_ok] at h3
    obtain ⟨s3, h3, h4⟩ := h3
    rw [Check.toOutcome_eq_ok] at h3
    rw [outcome_andThen_eq_ok] at h4
    obtain ⟨s4, h4, h5⟩ := h4
    rw [h3.2, h2.2] at h4
    have := (visitOptStatement_extends i _ _ h1).trans (visitOptStatement_extends b _ _ h4)
    cases h5
    rw [endScope_of_extends_beginScope this]
    exact Extends.refl s
  | .echo _ _ e, s, s', h => by
    rw [visitStatement, Check.toOutcome_eq_ok] at h
    rw [h.2]; exact Extends.refl s
  | .reset _ _ e, s, s', h => by
    rw [visitStatement, Check.toOutcome_eq_ok] at h
    rw [h.2]; exact Extends.refl s
  | .measure _ _ e, s, s', h => by
    rw [visitStatement, Check.toOutcome_eq_ok] at h
    rw [h.2]; exact Extends.refl s
  | .assignment _ _ _ e, s, s', h => by
    rw [visitStatement, Check.toOutcome_eq_ok] at h
    rw [h.2]; exact Extends.refl s
theorem visitOptStatement_extends : ∀ (st : Option Statement) (s s' : SemanticAnalyser),
    visitOptStatement st s = .ok s' → Extends s s'
  | none, s, s', h => by
    rw [visitOptStatement] at h
    cases h
    exact Extends.refl s
  | some st, s, s', h => by
    rw [visitOptStatement] at h
    exact visitStatement_extends st s s' h
theorem visitStatementList_extends : ∀ (sts : List Statement) (s s' : SemanticAnalyser),
    visitStatementList sts s = .ok s' → Extends s s'
  | [], s, s', h => by
    rw [visitStatementList] at h
    cases h
    exact Extends.refl s
  | st :: rest, s, s', h => by
    rw [visitStatementList, outcome_andThen_eq_ok] at h
    obtain ⟨s1, h1, h2⟩ := h
    exact (visitStatement_extends st _ _ h1).trans (visitStatementList_extends rest _ _ h2)
end

/-! ## Variable declarations -/

theorem visitVariableDeclaration_ok (node : VariableDeclaration) (s s' : SemanticAnalyser)
    (h : visitVariableDeclaration node s = .ok s') :
    isDeclared s node.name = false ∧
      s' = declare s node.name node.isFinal (typeNameOf node.varType) := by
  unfold visitVariableDeclaration at h
  by_cases hd : isDeclared s node.name = true
  · simp [hd] at h
  · have hd' : isDeclared s node.name = false := by simpa using hd
    refine ⟨hd', ?_⟩
    simp only [hd', Bool.false_eq_true, ↓reduceIte] at h
    cases hi : node.initializer with
    | none =>
      simp only [hi] at h
      cases h
      rfl
    | some e =>
      simp only [hi] at h
      split at h
      · cases h
      · rw [Check.toOutcome_eq_ok] at h
        exact h.2

/-- C2: let a `VariableDeclaration` of `x` be accepted in a state with at least one scope, and
let S be the top frame after it.  In every later state whose scope stack still has S on it
(some frame holds all the names of S: S itself, possibly with more names, below any number of
nested scopes), a second `VariableDeclaration` of `x` throws "Variable 'x' redeclared" at its
own line and column. -/
theorem redeclaration_raises (s s1 s2 : SemanticAnalyser) (first second : VariableDeclaration)
    (hscope : s.m_scopes ≠ [])
    (hfirst : visitVariableDeclaration first s = .ok s1)
    (hname : second.name = first.name)
    (hstill : ∃ frame ∈ s2.m_scopes,
      ∀ n, (mapFind (s1.m_scopes.headD []) n).isSome = true → (mapFind frame n).isSome = true) :
    visitStatement (.variableDeclaration second) s2 =
      .error ⟨semanticError second.line second.column
        ("Variable '" ++ second.name ++ "' redeclared"), s2⟩ := by
  obtain ⟨_, hs1⟩ := visitVariableDeclaration_ok first s s1 hfirst
  obtain ⟨frame, hmem, hsub⟩ := hstill
  have hx : (mapFind (s1.m_scopes.headD []) first.name).isSome = true := by
    rw [hs1]
    cases hs : s.m_scopes with
    | nil => exact absurd hs hscope
    | cons top rest => simp [declare, hs, mapFind_mapSet_self]
  have hd : isDeclared s2 second.name = true := by
    rw [hname, isDeclared_eq_true_iff]
    exact ⟨frame, hmem, hsub _ hx⟩
  simp [visitStatement, visitVariableDeclaration, hd]

theorem redeclaration_raises_witness :
    topLevel.m_scopes ≠ [] ∧ visitVariableDeclaration (declIntX 1) topLevel = .ok afterIntX ∧
    (declIntX 8).name = (declIntX 1).name ∧
    visitStatement (.variableDeclaration (declIntX 8)) (beginScope (beginScope afterIntX)) =
      .error ⟨semanticError (declIntX 8).line (declIntX 8).column
        ("Variable '" ++ (declIntX 8).name ++ "' redeclared"), beginScope (beginScope afterIntX)⟩ ∧
    thrownError (analyse progRedeclare SemanticAnalyser.fresh) =
      some (semanticError 1 8 "Variable 'x' redeclared") ∧
    thrownError (analyse progRedeclareInner SemanticAnalyser.fresh) =
      some (semanticError 1 10 "Variable 'x' redeclared") :=
  ⟨by decide, by decide, rfl,
    redeclaration_raises topLevel afterIntX (beginScope (beginScope afterIntX)) (declIntX 1)
      (declIntX 8) (by decide) (by decide) rfl
      ⟨[("x", ⟨false, "int"⟩)], by decide, fun _ h => h⟩, by decide, by decide⟩

/-- C3: when a block statement has been analysed (the visit returned), the scope stack is the
one from before the block, so a name `y` that was not visible before the block is undeclared
after it whatever the block declared: an assignment to `y` and a read of `y` placed after the
block throw "Variable 'y' not declared". -/
theorem block_scope_closes (s s' : SemanticAnalyser) (bline bcolumn : Nat)
    (statements : List Statement) (y : String)
    (hblock : visitStatement (.block bline bcolumn statements) s = .ok s')
    (hbefore : isDeclared s y = false)
    (line column : Nat) (value : Option Expression) :
    s'.m_scopes = s.m_scopes ∧ isDeclared s' y = false ∧
      visitStatement (.assignment line column y value) s' =
        .error ⟨semanticError line column ("Variable '" ++ y ++ "' not declared"), s'⟩ ∧
      visitExpression s' (.variable line column y) =
        .error (semanticError line column ("Variable '" ++ y ++ "' not declared")) := by
  have hs : s' = s := by
    rw [visitStatement, outcome_andThen_eq_ok] at hblock
    obtain ⟨s1, h1, h2⟩ := hblock
    have := visitStatementList_extends statements _ _ h1
    cases h2
    exact endScope_of_extends_beginScope this
  subst hs
  have h := undeclared_use_raises_aux s' y hbefore line column value
  exact ⟨rfl, hbefore, h.2.1, h.1⟩

theorem block_scope_closes_witness :
    visitStatement (.block 1 1 [.variableDeclaration declIntY]) topLevel = .ok topLevel ∧
    isDeclared topLevel "y" = false ∧
    (topLevel.m_scopes = topLevel.m_scopes ∧ isDeclared topLevel "y" = false ∧
      visitStatement (.assignment 1 12 "y" (some (intLit "1"))) topLevel =
        .error ⟨semanticError 1 12 ("Variable '" ++ "y" ++ "' not declared"), topLevel⟩ ∧
      visitExpression topLevel (.variable 1 12 "y") =
        .error (semanticError 1 12 ("Variable '" ++ "y" ++ "' not declared"))) ∧
    thrownError (analyse progInnerNotVisible SemanticAnalyser.fresh) =
      some (semanticError 1 12 "Variable 'y' not declared") :=
  ⟨by decide, by decide,
    block_scope_closes topLevel topLevel 1 1 [.variableDeclaration declIntY] "y" (by decide)
      (by decide) 1 12 (some (intLit "1")), by decide⟩

/-! ## Strings of the messages -/

theorem str_append_left_cancel (a x y : String) (h : a ++ x = a ++ y) : x = y := by
  have := congrArg String.data h
  simp only [String.data_append, List.append_cancel_left_eq] at this
  exact String.ext this

theorem str_append_right_cancel (a x y : String) (h : x ++ a = y ++ a) : x = y := by
  have := congrArg String.data h
  simp only [String.data_append, List.append_cancel_right_eq] at this
  exact String.ext this

/-! ## Errors thrown by expression visits -/

theorem check_andThen_eq_error (a b : Check) (err : BlochRuntimeError)
    (h : a.andThen b = .error err) : a = .error err ∨ b = .error err := by
  cases a with
  | error e => left; simpa [Check.andThen] using h
  | ok u => right; simpa [Check.andThen] using h

theorem checkArgumentType_error (s : SemanticAnalyser) (fname : String) (i : Nat) (t : String)
    (arg : Expression) (err : BlochRuntimeError)
    (h : checkArgumentType s fname i t arg = .error err) :
    err.message = argumentTypeMessage i fname t := by
  cases arg <;> simp only [checkArgumentType] at h
  all_goals first
    | cases h
    | (split at h
       · cases h; rfl
       · cases h)

theorem checkArgumentTypes_error (s : SemanticAnalyser) (fname : String) :
    ∀ (args : List Expression) (types : List String) (i : Nat) (err : BlochRuntimeError),
      checkArgumentTypes s fname i args types = .error err →
      ∃ j t, err.message = argumentTypeMessage j fname t
  | [], _, _, _, h => by simp [checkArgumentTypes] at h
  | _ :: _, [], _, _, h => by simp [checkArgumentTypes] at h
  | arg :: args, t :: types, i, err, h => by
    rw [checkArgumentTypes] at h
    split at h
    · exact checkArgumentTypes_error s fname args types (i + 1) err h
    · rcases check_andThen_eq_error _ _ _ h with h1 | h1
      · exact ⟨i, t, checkArgumentType_error s fname i t arg err h1⟩
      · exact checkArgumentTypes_error s fname args types (i + 1) err h1

theorem checkAssignment_error (s : SemanticAnalyser) (line column : Nat) (name : String)
    (value : Option Expression) (err : BlochRuntimeError)
    (h : checkAssignment s line column name value = .error err) :
    ExpressionError s err.message := by
  unfold checkAssignment at h
  split at h
  · cases h
    unfold ExpressionError
    left
    exact ⟨name, by simpa using ‹(!isDeclared s name) = true›, rfl⟩
  · split at h
    · cases h
      unfold ExpressionError
      right; left
      exact ⟨name, by simpa using ‹¬(!isDeclared s name) = true›, ‹isFinal s name = true›, rfl⟩
    · split at h
      · cases h
        right; right; left; rfl
      · cases h

theorem checkCall_error (s : SemanticAnalyser) (line column vline vcolumn : Nat) (name : String)
    (arguments : List Expression) (err : BlochRuntimeError)
    (h : checkCall s line column vline vcolumn name arguments = .error err) :
    ExpressionError s err.message := by
  unfold checkCall at h
  split at h
  · cases h
    unfold ExpressionError
    left
    refine ⟨name, ?_, rfl⟩
    have := ‹(!isDeclared s name && !isFunctionDeclared s name) = true›
    simp at this
    exact this.1
  · split at h
    · cases h
      unfold ExpressionError
      right; right; right; left
      exact ⟨name, _, rfl⟩
    · obtain ⟨j, t, hm⟩ := checkArgumentTypes_error s name _ _ _ _ h
      unfold ExpressionError
      right; right; right; right
      exact ⟨j, name, t, hm⟩

mutual
theorem visitExpression_error (s : SemanticAnalyser) :
    ∀ (e : Expression) (err : BlochRuntimeError),
      visitExpression s e = .error err → ExpressionError s err.message
  | .literal _ _ _ _, err, h => by simp [visitExpression] at h
  | .variable line column name, err, h => by
    rw [visitExpression] at h
    split at h
    · cases h
      unfold ExpressionError
      left
      exact ⟨name, by simpa using ‹(!isDeclared s name) = true›, rfl⟩
    · cases h
  | .binary _ _ _ l r, err, h => by
    rw [visitExpression] at h
    rcases check_andThen_eq_error _ _ _ h with h1 | h1
    · exact visitOptExpression_error s l err h1
    · exact visitOptExpression_error s r err h1
  | .unary _ _ _ r, err, h => by
    rw [visitExpression] at h
    exact visitOptExpression_error s r err h
  | .call line column callee arguments, err, h => by
    rw [visitExpression] at h
    split at h
    · rcases check_andThen_eq_error _ _ _ h with h1 | h1
      · exact checkCall_error _ _ _ _ _ _ _ _ h1
      · exact visitExpressionList_error s arguments err h1
    · rcases check_andThen_eq_error _ _ _ h with h1 | h1
      · exact visitOptExpression_error s callee err h1
      · exact visitExpressionList_error s arguments err h1
  | .index _ _ c i, err, h => by
    rw [visitExpression] at h
    rcases check_andThen_eq_error _ _ _ h with h1 | h1
    · exact visitOptExpression_error s c err h1
    · exact visitOptExpression_error s i err h1
  | .parenthesized _ _ e, err, h => by
    rw [visitExpression] at h
    exact visitOptExpression_error s e err h
  | .measure _ _ e, err, h => by
    rw [visitExpression] at h
    exact visitOptExpression_error s e err h
  | .assignment line column name value, err, h => by
    rw [visitExpression] at h
    rcases check_andThen_eq_error _ _ _ h with h1 | h1
    · exact checkAssignment_error _ _ _ _ _ _ h1
    · exact visitOptExpression_error s value err h1
  | .constructorCall _ _ _ arguments, err, h => by
    rw [visitExpression] at h
    exact visitExpressionList_error s arguments err h
  | .memberAccess _ _ object _, err, h => by
    rw [visitExpression] at h
    exact visitOptExpression_error s object err h
theorem visitOptExpression_error (s : SemanticAnalyser) :
    ∀ (e : Option Expression) (err : BlochRuntimeError),
      visitOptExpression s e = .error err → ExpressionError s err.message
  | none, err, h => by simp [visitOptExpression] at h
  | some e, err, h => by
    rw [visitOptExpression] at h
    exact visitExpression_error s e err h
theorem visitExpressionList_error (s : SemanticAnalyser) :
    ∀ (es : List Expression) (err : BlochRuntimeError),
      visitExpressionList s es = .error err → ExpressionError s err.message
  | [], err, h => by simp [visitExpressionList] at h
  | e :: rest, err, h => by
    rw [visitExpressionList] at h
    rcases check_andThen_eq_error _ _ _ h with h1 | h1
    · exact visitExpression_error s e err h1
    · exact visitExpressionList_error s rest err h1
end

/-! ## Assignments -/

theorem Check.toOutcome_eq_error (c : Check) (s : SemanticAnalyser) (r : Raised)
    (h : c.toOutcome s = .error r) : c = .error r.error ∧ r.state = s := by
  cases c with
  | error e =>
    simp only [Check.toOutcome, Except.error.injEq] at h
    subst h
    exact ⟨rfl, rfl⟩
  | ok u => simp [Check.toOutcome] at h

/-- No expression visit in a state where `x` is declared and not final throws the not-declared
or the final-variable message for `x`. -/
theorem ExpressionError.not_for_assignable {s : SemanticAnalyser} {m : String}
    (hm : ExpressionError s m) (x : String)
    (hd : isDeclared s x = true) (hf : isFinal s x = false) :
    m ≠ "Variable '" ++ x ++ "' not declared" ∧
      m ≠ "Cannot assign to final variable '" ++ x ++ "'" := by
  rcases hm with ⟨y, hy, rfl⟩ | ⟨y, _, hy, rfl⟩ | rfl | ⟨n, k, rfl⟩ | ⟨i, n, t, rfl⟩
  · constructor
    · intro h
      have := str_append_left_cancel _ _ _ (str_append_right_cancel _ _ _ h)
      subst this
      rw [hd] at hy
      cases hy
    · intro h
      have := congrArg (fun m => m.data.head?) h
      simp [String.data_append] at this
  · constructor
    · intro h
      have := congrArg (fun m => m.data.head?) h
      simp [String.data_append] at this
    · intro h
      have := str_append_left_cancel _ _ _ (str_append_right_cancel _ _ _ h)
      subst this
      rw [hf] at hy
      cases hy
  · constructor
    · intro h
      have := congrArg (fun m => m.data.head?) h
      simp [String.data_append] at this
    · intro h
      have := congrArg (fun m => m.data.take 15) h
      simp [String.data_append] at this
  · constructor <;>
    · intro h
      have := congrArg (fun m => m.data.head?) h
      simp [String.data_append] at this
  · constructor <;>
    · intro h
      have := congrArg (fun m => m.data.head?) h
      simp [String.data_append, argumentTypeMessage] at this

/-- C4: a declaration `final T x = e` is accepted like any declaration (the name is new, `e` is
not a direct call of a void function and is itself accepted in the scope that now holds `x`);
afterwards, in every state where the visible entry of `x` is still the one that declaration
made, an `AssignmentStatement` or `AssignmentExpression` to `x` throws
"Cannot assign to final variable 'x'" at its own position.  An assignment to a variable `v`
that is visible and not final throws neither "Variable 'v' not declared" nor
"Cannot assign to final variable 'v'". -/
theorem final_variable_assignment (s s1 s2 : SemanticAnalyser) (node : VariableDeclaration)
    (hfinal : node.isFinal = true) (hscope : s.m_scopes ≠ [])
    (hnew : isDeclared s node.name = false)
    (hs1 : s1 = declare s node.name node.isFinal (typeNameOf node.varType))
    (hvoid : isVoidCall s1 node.initializer = false)
    (hinit : visitOptExpression s1 node.initializer = .ok ())
    (hvisible : findVariable s2.m_scopes node.name = findVariable s1.m_scopes node.name)
    (t : SemanticAnalyser) (v : String) (hv : isDeclared t v = true) (hnf : isFinal t v = false)
    (line column : Nat) (value : Option Expression) :
    visitStatement (.variableDeclaration node) s = .ok s1 ∧
      visitStatement (.assignment line column node.name value) s2 =
        .error ⟨semanticError line column
          ("Cannot assign to final variable '" ++ node.name ++ "'"), s2⟩ ∧
      visitExpression s2 (.assignment line column node.name value) =
        .error (semanticError line column
          ("Cannot assign to final variable '" ++ node.name ++ "'")) ∧
      (∀ r, visitStatement (.assignment line column v value) t = .error r →
        r.error.message ≠ "Variable '" ++ v ++ "' not declared" ∧
        r.error.message ≠ "Cannot assign to final variable '" ++ v ++ "'") ∧
      (∀ err, visitExpression t (.assignment line column v value) = .error err →
        err.message ≠ "Variable '" ++ v ++ "' not declared" ∧
        err.message ≠ "Cannot assign to final variable '" ++ v ++ "'") := by
  have hfind : findVariable s1.m_scopes node.name =
      some ⟨true, typeNameOf node.varType⟩ := by
    rw [hs1, hfinal]
    cases hs : s.m_scopes with
    | nil => exact absurd hs hscope
    | cons top rest => simp [declare, hs, findVariable, mapFind_mapSet_self]
  have hd2 : isDeclared s2 node.name = true := by simp [isDeclared, hvisible, hfind]
  have hf2 : isFinal s2 node.name = true := by simp [isFinal, hvisible, hfind]
  refine ⟨?_, ?_, ?_, ?_, ?_⟩
  · rw [visitStatement, visitVariableDeclaration]
    simp only [hnew, Bool.false_eq_true, ↓reduceIte, ← hs1]
    cases hi : node.initializer with
    | none => rfl
    | some e =>
      rw [hi] at hvoid hinit
      rw [visitOptExpression] at hinit
      simp [hvoid, hinit, Check.toOutcome]
  · simp [visitStatement, checkAssignment, hd2, hf2, Check.andThen, Check.toOutcome]
  · simp [visitExpression, checkAssignment, hd2, hf2, Check.andThen]
  · intro r hr
    rw [visitStatement] at hr
    obtain ⟨hr, _⟩ := Check.toOutcome_eq_error _ _ _ hr
    rcases check_andThen_eq_error _ _ _ hr with h1 | h1
    · exact (checkAssignment_error _ _ _ _ _ _ h1).not_for_assignable v hv hnf
    · exact (visitOptExpression_error _ _ _ h1).not_for_assignable v hv hnf
  · intro err hr
    rw [visitExpression] at hr
    rcases check_andThen_eq_error _ _ _ hr with h1 | h1
    · exact (checkAssignment_error _ _ _ _ _ _ h1).not_for_assignable v hv hnf
    · exact (visitOptExpression_error _ _ _ h1).not_for_assignable v hv hnf

theorem final_variable_assignment_witness :
    visitStatement (.variableDeclaration declFinalX) topLevel = .ok afterFinalX ∧
      visitStatement (.assignment 1 18 "x" (some (intLit "2"))) (beginScope afterFinalX) =
        .error ⟨semanticError 1 18 "Cannot assign to final variable 'x'",
          beginScope afterFinalX⟩ ∧
      visitStatement (.assignment 1 18 "x" (some (intLit "2"))) afterIntX = .ok afterIntX ∧
      thrownError (analyse progDeclareAssign SemanticAnalyser.fresh) = none :=
  have h := final_variable_assignment topLevel afterFinalX (beginScope afterFinalX) declFinalX
    rfl (by decide) (by decide) (by decide) (by decide) (by decide) (by decide)
    afterIntX "x" (by decide) (by decide) 1 18 (some (intLit "2"))
  ⟨h.1, h.2.1, by decide, by decide⟩

/-! ## Hoisting -/

theorem Outcome.andThen_error (r : Raised) (k : SemanticAnalyser → Outcome) :
    Outcome.andThen (.error r) k = .error r := rfl

theorem hoistFunctions_append (a b : List FunctionDeclaration) (s : SemanticAnalyser) :
    hoistFunctions (a ++ b) s = (hoistFunctions a s).andThen (hoistFunctions b) := by
  induction a generalizing s with
  | nil => simp [hoistFunctions, Outcome.andThen]
  | cons e rest ih =>
    simp only [List.cons_append, hoistFunctions]
    split
    · rfl
    · exact ih _

theorem hoistClasses_eq (cs : List ClassDeclaration) (s : SemanticAnalyser) :
    hoistClasses cs s = hoistFunctions (classMethods cs) s := by
  induction cs generalizing s with
  | nil => simp [hoistClasses, classMethods, hoistFunctions]
  | cons c rest ih =>
    simp only [hoistClasses, classMethods, hoistFunctions_append]
    congr 1
    funext s1
    exact ih s1

theorem Outcome.andThen_assoc (a : Outcome) (f g : SemanticAnalyser → Outcome) :
    (a.andThen f).andThen g = a.andThen fun s => (f s).andThen g := by
  cases a <;> rfl

/-- The two hoisting loops of `visit(Program&)` are one walk through `hoistedEntries`. -/
theorem visitProgram_eq (p : Program) (s : SemanticAnalyser) :
    visitProgram p s = (hoistFunctions (hoistedEntries p) s).andThen fun s2 =>
      (visitFunctions p.functions s2).andThen fun s3 =>
        (visitClasses p.classes s3).andThen fun s4 => visitStatementList p.statements s4 := by
  simp only [visitProgram, hoistedEntries, hoistFunctions_append, Outcome.andThen_assoc,
    hoistClasses_eq]

theorem mem_declareFunction (s : SemanticAnalyser) (x n : String) :
    n ∈ (declareFunction s x).m_functions ↔ n = x ∨ n ∈ s.m_functions := by
  unfold declareFunction
  by_cases h : x ∈ s.m_functions
  · simp only [h, ↓reduceIte]
    constructor
    · exact Or.inr
    · rintro (rfl | h1)
      · exact h
      · exact h1
  · simp [h]

theorem isFunctionDeclared_iff (s : SemanticAnalyser) (n : String) :
    isFunctionDeclared s n = true ↔ Clash s.m_functions [] n := by
  simp [isFunctionDeclared, Clash]

theorem clash_cons (s : SemanticAnalyser) (e0 : FunctionDeclaration)
    (earlier : List FunctionDeclaration) (n : String) :
    Clash s.m_functions (e0 :: earlier) n ↔
      Clash (declareFunction s e0.name).m_functions earlier n := by
  simp only [Clash, mem_declareFunction, List.map_cons, List.mem_cons]
  tauto

/-- The hoisting loop stops at the first entry that clashes, with nothing but `m_functions`
changed. -/
theorem hoistFunctions_first_clash :
    ∀ (entries : List FunctionDeclaration) (s : SemanticAnalyser),
      (∃ j b, entries[j]? = some b ∧ Clash s.m_functions (entries.take j) b.name) →
      ∃ k e st, entries[k]? = some e ∧ Clash s.m_functions (entries.take k) e.name ∧
        (∀ k' e', k' < k → entries[k']? = some e' →
          ¬ Clash s.m_functions (entries.take k') e'.name) ∧
        hoistFunctions entries s = .error ⟨semanticError e.line e.column
          ("Function '" ++ e.name ++ "' redeclared"), st⟩ ∧
        st.m_functionInfo = s.m_functionInfo ∧ st.m_scopes = s.m_scopes
  | [], s, h => by
    obtain ⟨j, b, hb, _⟩ := h
    simp at hb
  | e0 :: rest, s, h => by
    by_cases hd : isFunctionDeclared s e0.name = true
    · refine ⟨0, e0, s, by simp, ?_, ?_, ?_, rfl, rfl⟩
      · simpa using (isFunctionDeclared_iff s e0.name).1 hd
      · intro k' e' hk
        omega
      · simp [hoistFunctions, hd]
    · have hno : ¬ Clash s.m_functions [] e0.name := fun hc =>
        hd ((isFunctionDeclared_iff s e0.name).2 hc)
      obtain ⟨j, b, hb, hc⟩ := h
      cases j with
      | zero =>
        simp only [List.getElem?_cons_zero, Option.some.injEq] at hb
        subst hb
        exact absurd (by simpa using hc) hno
      | succ j' =>
        simp only [List.getElem?_cons_succ] at hb
        simp only [List.take_succ_cons] at hc
        have hc' := (clash_cons s e0 _ _).1 hc
        obtain ⟨k, e, st, hk, hck, hmin, hres, hfi, hsc⟩ :=
          hoistFunctions_first_clash rest (declareFunction s e0.name) ⟨j', b, hb, hc'⟩
        refine ⟨k + 1, e, st, by simpa using hk, ?_, ?_, ?_, hfi, hsc⟩
        · simpa only [List.take_succ_cons] using (clash_cons s e0 _ _).2 hck
        · intro k' e' hlt he'
          cases k' with
          | zero =>
            simp only [List.getElem?_cons_zero, Option.some.injEq] at he'
            subst he'
            simpa using hno
          | succ m =>
            simp only [List.getElem?_cons_succ] at he'
            simp only [List.take_succ_cons]
            intro hcl
            exact hmin m e' (by omega) he' ((clash_cons s e0 _ _).1 hcl)
        · simp only [hoistFunctions, hd, Bool.false_eq_true, ↓reduceIte]
          exact hres

theorem analyse_of_hoist_error (p : Program) (s : SemanticAnalyser) (r : Raised)
    (h : hoistFunctions (hoistedEntries p) (beginScope s) = .error r) :
    analyse p s = .error r := by
  simp [analyse, visitProgram_eq, h, Outcome.andThen]

/-- C5 (amended): when two entries of the sequence (top-level functions, then the methods of
all classes) have the same name, `analyse` on a fresh analyser throws
"Function '<name>' redeclared" at the first entry `e` of the sequence whose name is a built-in
gate name or the name of an earlier entry (no entry before `e` is such, and `e` is at or before
the later one of the two).  Whatever the bodies are, this is the error: at the throw no
signature is registered and the scope stack is the bare top-level scope, so no function or
method declaration has been visited. -/
theorem duplicate_function_raises (p : Program) (i j : Nat) (a b : FunctionDeclaration)
    (hij : i < j) (ha : (hoistedEntries p)[i]? = some a) (hb : (hoistedEntries p)[j]? = some b)
    (hname : a.name = b.name) :
    ∃ k e st, k ≤ j ∧ (hoistedEntries p)[k]? = some e ∧
      Clash [] ((hoistedEntries p).take k) e.name ∧
      (∀ k' e', k' < k → (hoistedEntries p)[k']? = some e' →
        ¬ Clash [] ((hoistedEntries p).take k') e'.name) ∧
      analyse p SemanticAnalyser.fresh = .error ⟨semanticError e.line e.column
        ("Function '" ++ e.name ++ "' redeclared"), st⟩ ∧
      st.m_functionInfo = [] ∧ st.m_scopes = [[]] := by
  have hclash : Clash [] ((hoistedEntries p).take j) b.name := by
    right; right
    rw [← hname]
    refine List.mem_map.2 ⟨a, ?_, rfl⟩
    rw [List.mem_iff_getElem?]
    exact ⟨i, by rw [List.getElem?_take, if_pos hij]; exact ha⟩
  obtain ⟨k, e, st, hk, hck, hmin, hres, hfi, hsc⟩ :=
    hoistFunctions_first_clash (hoistedEntries p) (beginScope SemanticAnalyser.fresh)
      ⟨j, b, hb, hclash⟩
  refine ⟨k, e, st, ?_, hk, hck, hmin, analyse_of_hoist_error p _ _ hres, hfi, hsc⟩
  by_contra hlt
  exact hmin j b (by omega) hb hclash

theorem duplicate_function_raises_witness :
    (∃ k e st, k ≤ 1 ∧ (hoistedEntries progDuplicateFunction)[k]? = some e ∧
      Clash [] ((hoistedEntries progDuplicateFunction).take k) e.name ∧
      (∀ k' e', k' < k → (hoistedEntries progDuplicateFunction)[k']? = some e' →
        ¬ Clash [] ((hoistedEntries progDuplicateFunction).take k') e'.name) ∧
      analyse progDuplicateFunction SemanticAnalyser.fresh = .error ⟨semanticError e.line e.column
        ("Function '" ++ e.name ++ "' redeclared"), st⟩ ∧
      st.m_functionInfo = [] ∧ st.m_scopes = [[]]) ∧
    thrownError (analyse progDuplicateFunction SemanticAnalyser.fresh) =
      some (semanticError 2 1 "Function 'foo' redeclared") ∧
    thrownError (analyse progDuplicateMethod SemanticAnalyser.fresh) =
      some (semanticError 1 49 "Function 'bar' redeclared") :=
  ⟨duplicate_function_raises progDuplicateFunction 0 1 (emptyVoidFunction 1 "foo")
    (emptyVoidFunction 2 "foo") (by decide) rfl rfl rfl, by decide, by decide⟩

/-- C5 as stated fails: in the program with the functions `h`, `foo`, `foo` the second and the
third entry have the same name, yet the error is thrown at the first entry, for `h`, not at the
later `foo`. -/
theorem duplicate_function_later_entry_counterexample :
    (∃ a b, (hoistedEntries progGateThenDuplicate)[1]? = some a ∧
      (hoistedEntries progGateThenDuplicate)[2]? = some b ∧ a.name = b.name) ∧
    analyse progGateThenDuplicate SemanticAnalyser.fresh =
      .error ⟨semanticError 1 1 "Function 'h' redeclared", topLevel⟩ ∧
    ∀ st, analyse progGateThenDuplicate SemanticAnalyser.fresh ≠
      .error ⟨semanticError 3 1 "Function 'foo' redeclared", st⟩ := by
  refine ⟨⟨_, _, rfl, rfl, rfl⟩, by decide, ?_⟩
  intro st h
  have h2 : analyse progGateThenDuplicate SemanticAnalyser.fresh =
      .error ⟨semanticError 1 1 "Function 'h' redeclared", topLevel⟩ := by decide
  rw [h2] at h
  simp [semanticError] at h

/-! ## Errors thrown by statement visits -/

theorem outcome_andThen_eq_error (a : Outcome) (k : SemanticAnalyser → Outcome) (r : Raised)
    (h : a.andThen k = .error r) : a = .error r ∨ ∃ s1, a = .ok s1 ∧ k s1 = .error r := by
  cases a with
  | error e => left; simpa [Outcome.andThen] using h
  | ok s1 => right; exact ⟨s1, rfl, by simpa [Outcome.andThen] using h⟩

theorem ExpressionError.head_ne_at {s : SemanticAnalyser} {m : String}
    (hm : ExpressionError s m) : m.data.head? ≠ some '@' := by
  rcases hm with ⟨y, _, rfl⟩ | ⟨y, _, _, rfl⟩ | rfl | ⟨n, k, rfl⟩ | ⟨i, n, t, rfl⟩ <;>
    simp [String.data_append, argumentTypeMessage]

theorem Check.toOutcome_error_head (c : Check) (s : SemanticAnalyser) (r : Raised)
    (hc : ∀ err, c = .error err → ExpressionError s err.message)
    (h : c.toOutcome s = .error r) : r.error.message.data.head? ≠ some '@' :=
  (hc _ (Check.toOutcome_eq_error c s r h).1).head_ne_at

theorem visitVariableDeclaration_error_head (node : VariableDeclaration) (s : SemanticAnalyser)
    (r : Raised) (h : visitVariableDeclaration node s = .error r) :
    r.error.message.data.head? ≠ some '@' := by
  unfold visitVariableDeclaration at h
  split at h
  · cases h
    simp [semanticError, String.data_append]
  · simp only at h
    split at h
    · cases h
    · split at h
      · cases h
        simp [semanticError]
      · exact Check.toOutcome_error_head _ _ _ (fun err he => visitExpression_error _ _ _ he) h

theorem visitReturn_error_head (line column : Nat) (value : Option Expression)
    (s : SemanticAnalyser) (r : Raised) (h : visitReturn line column value s = .error r) :
    r.error.message.data.head? ≠ some '@' := by
  unfold visitReturn at h
  simp only at h
  split at h
  · cases h
    simp [semanticError]
  · split at h
    · cases h
      simp [semanticError]
    · exact Check.toOutcome_error_head _ _ _ (fun err he => visitOptExpression_error _ _ _ he) h

mutual
theorem visitStatement_error_head : ∀ (st : Statement) (s : SemanticAnalyser) (r : Raised),
    visitStatement st s = .error r → r.error.message.data.head? ≠ some '@'
  | .variableDeclaration node, s, r, h => by
    rw [visitStatement] at h
    exact visitVariableDeclaration_error_head node s r h
  | .block _ _ statements, s, r, h => by
    rw [visitStatement] at h
    rcases outcome_andThen_eq_error _ _ _ h with h1 | ⟨s1, _, h1⟩
    · exact visitStatementList_error_head statements _ r h1
    · cases h1
  | .expression _ _ e, s, r, h => by
    rw [visitStatement] at h
    exact Check.toOutcome_error_head _ _ _ (fun err he => visitOptExpression_error _ _ _ he) h
  | .ret line column value, s, r, h => by
    rw [visitStatement] at h
    exact visitReturn_error_head line column value s r h
  | .ifStatement _ _ c t e, s, r, h => by
    rw [visitStatement] at h
    rcases outcome_andThen_eq_error _ _ _ h with h1 | ⟨s1, _, h1⟩
    · exact Check.toOutcome_error_head _ _ _ (fun err he => visitOptExpression_error _ _ _ he) h1
    · rcases outcome_andThen_eq_error _ _ _ h1 with h2 | ⟨s2, _, h2⟩
      · exact visitOptStatement_error_head t _ r h2
      · exact visitOptStatement_error_head e _ r h2
  | .forStatement _ _ i c inc b, s, r, h => by
    rw [visitStatement] at h
    rcases outcome_andThen_eq_error _ _ _ h with h1 | ⟨s1, _, h1⟩
    · exact visitOptStatement_error_head i _ r h1
    · rcases outcome_andThen_eq_error _ _ _ h1 with h2 | ⟨s2, _, h2⟩
      · exact Check.toOutcome_error_head _ _ _
          (fun err he => visitOptExpression_error _ _ _ he) h2
      · rcases outcome_andThen_eq_error _ _ _ h2 with h3 | ⟨s3, _, h3⟩
        · exact Check.toOutcome_error_head _ _ _
            (fun err he => visitOptExpression_error _ _ _ he) h3
        · rcases outcome_andThen_eq_error _ _ _ h3 with h4 | ⟨s4, _, h4⟩
          · exact visitOptStatement_error_head b _ r h4
          · cases h4
  | .echo _ _ e, s, r, h => by
    rw [visitStatement] at h
    exact Check.toOutcome_error_head _ _ _ (fun err he => visitOptExpression_error _ _ _ he) h
  | .reset _ _ e, s, r, h => by
    rw [visitStatement] at h
    exact Check.toOutcome_error_head _ _ _ (fun err he => visitOptExpression_error _ _ _ he) h
  | .measure _ _ e, s, r, h => by
    rw [visitStatement] at h
    exact Check.toOutcome_error_head _ _ _ (fun err he => visitOptExpression_error _ _ _ he) h
  | .assignment line column name value, s, r, h => by
    rw [visitStatement] at h
    refine Check.toOutcome_error_head _ _ _ (fun err he => ?_) h
    rcases check_andThen_eq_error _ _ _ he with h1 | h1
    · exact checkAssignment_error _ _ _ _ _ _ h1
    · exact visitOptExpression_error _ _ _ h1
theorem visitOptStatement_error_head : ∀ (st : Option Statement) (s : SemanticAnalyser)
    (r : Raised), visitOptStatement st s = .error r → r.error.message.data.head? ≠ some '@'
  | none, s, r, h => by simp [visitOptStatement] at h
  | some st, s, r, h => by
    rw [visitOptStatement] at h
    exact visitStatement_error_head st s r h
theorem visitStatementList_error_head : ∀ (sts : List Statement) (s : SemanticAnalyser)
    (r : Raised), visitStatementList sts s = .error r → r.error.message.data.head? ≠ some '@'
  | [], s, r, h => by simp [visitStatementList] at h
  | st :: rest, s, r, h => by
    rw [visitStatementList] at h
    rcases outcome_andThen_eq_error _ _ _ h with h1 | ⟨s1, _, h1⟩
    · exact visitStatement_error_head st s r h1
    · exact visitStatementList_error_head rest s1 r h1
end

theorem declareParams_error_head : ∀ (params : List Parameter) (s : SemanticAnalyser)
    (r : Raised), declareParams params s = .error r → r.error.message.data.head? ≠ some '@'
  | [], s, r, h => by simp [declareParams] at h
  | param :: rest, s, r, h => by
    rw [declareParams] at h
    split at h
    · cases h
      simp [semanticError, String.data_append]
    · exact declareParams_error_head rest _ r h

theorem visitBody_error_head (body : Option (List Statement)) (s : SemanticAnalyser)
    (r : Raised) (h : visitBody body s = .error r) : r.error.message.data.head? ≠ some '@' := by
  cases body with
  | none => simp [visitBody] at h
  | some statements =>
    rw [visitBody] at h
    rcases outcome_andThen_eq_error _ _ _ h with h1 | ⟨s1, _, h1⟩
    · exact visitStatementList_error_head statements _ r h1
    · cases h1

/-! ## Function declarations -/

theorem quantumReturnValid_eq_false_iff (t : Option Ty) :
    quantumReturnValid t = false ↔ t ≠ some Ty.void ∧ t ≠ some (Ty.primitive "bit") := by
  cases t with
  | none => simp [quantumReturnValid]
  | some ty => cases ty <;> simp [quantumReturnValid]

/-- C10: for a function or method declaration that carries the quantum annotation, the visit
throws "@quantum functions must return 'bit' or 'void'" if and only if the return type is
neither the void type nor the primitive type named bit.  When it is neither, the throw is the
first thing the visit does: the error has the position of the declaration and the analyser
state is the one the visit started in (no signature registered, no scope opened, no parameter
declared), whatever the parameters and the body are. -/
theorem quantum_return_type_check (node : FunctionDeclaration) (s : SemanticAnalyser)
    (hq : node.hasQuantumAnnotation = true) :
    ((∃ r, visitFunctionDeclaration node s = .error r ∧
        r.error.message = "@quantum functions must return 'bit' or 'void'") ↔
      (node.returnType ≠ some Ty.void ∧ node.returnType ≠ some (Ty.primitive "bit"))) ∧
    ((node.returnType ≠ some Ty.void ∧ node.returnType ≠ some (Ty.primitive "bit")) →
      visitFunctionDeclaration node s = .error ⟨semanticError node.line node.column
        "@quantum functions must return 'bit' or 'void'", s⟩) := by
  have hthrow : (node.returnType ≠ some Ty.void ∧ node.returnType ≠ some (Ty.primitive "bit")) →
      visitFunctionDeclaration node s = .error ⟨semanticError node.line node.column
        "@quantum functions must return 'bit' or 'void'", s⟩ := by
    intro hinv
    have := (quantumReturnValid_eq_false_iff node.returnType).2 hinv
    simp [visitFunctionDeclaration, hq, this]
  refine ⟨⟨?_, fun hinv => ⟨_, hthrow hinv, rfl⟩⟩, hthrow⟩
  rintro ⟨r, hr, hmsg⟩
  rw [← quantumReturnValid_eq_false_iff]
  by_contra hvalid
  have hv : quantumReturnValid node.returnType = true := by simpa using hvalid
  have hhead : r.error.message.data.head? ≠ some '@' := by
    simp only [visitFunctionDeclaration, hq, hv, Bool.not_true, Bool.and_false,
      Bool.false_eq_true, ↓reduceIte] at hr
    rcases outcome_andThen_eq_error _ _ _ hr with h1 | ⟨s1, _, h1⟩
    · exact declareParams_error_head _ _ r h1
    · rcases outcome_andThen_eq_error _ _ _ h1 with h2 | ⟨s2, _, h2⟩
      · exact visitBody_error_head _ _ r h2
      · cases h2
  rw [hmsg] at hhead
  exact hhead (by decide)

theorem quantum_return_type_check_witness :
    visitFunctionDeclaration quantumIntFunction topLevel =
      .error ⟨semanticError 1 1 "@quantum functions must return 'bit' or 'void'", topLevel⟩ ∧
    ¬ ∃ r, visitFunctionDeclaration quantumBitFunction topLevel = .error r ∧
      r.error.message = "@quantum functions must return 'bit' or 'void'" :=
  ⟨(quantum_return_type_check quantumIntFunction topLevel rfl).2 (by decide),
    fun h => absurd ((quantum_return_type_check quantumBitFunction topLevel rfl).1.1 h)
      (by decide)⟩

/-! ## Signatures are registered when a declaration is visited, not when names are hoisted -/

/-- C6 fails on the code: in `function a() -> void { b(1); }` / `function b(int p) -> void { }`
the analysis throws inside the body of `a`; in the analyser state at that moment the name `b` is
hoisted (`m_functions`), but the signature registry `m_functionInfo` holds an entry for `a`
only, none for `b`. -/
theorem signature_registry_incomplete_in_first_body :
    (stateAtThrow (analyse progForwardCallInBody SemanticAnalyser.fresh)).map
        (fun st => (decide ("b" ∈ st.m_functions), mapFind st.m_functionInfo "a",
          mapFind st.m_functionInfo "b", st.m_scopes.length)) =
      some (true, some ⟨some Ty.void, []⟩, none, 3) := by
  decide

/-- C7 fails on the code: the call `b(1)` agrees with the declaration `function b(int p)`; as a
top-level statement before the declaration it is accepted, but in the body of the function `a`
declared before `b` the analysis throws "Function 'b' expects 0 argument(s)" at the call. -/
theorem forward_call_in_earlier_body_rejected :
    analyse progForwardCallAtTopLevel SemanticAnalyser.fresh =
      .ok { m_scopes := [], m_functions := ["b"],
            m_functionInfo := [("b", ⟨some Ty.void, ["int"]⟩)], m_currentReturnType := none } ∧
    thrownError (analyse progForwardCallInBody SemanticAnalyser.fresh) =
      some (semanticError 1 25 "Function 'b' expects 0 argument(s)") := by
  decide

/-- C8 fails on the code: in the body of a function declared before `function b(int p)`, the
call `b()` with no argument raises no error (the program is accepted), and the call `b(1)` with
one argument raises the argument-count error; as top-level statements the same calls are
rejected and accepted respectively. -/
theorem forward_call_argument_count_unchecked :
    thrownError (analyse progForwardCallNoArgument SemanticAnalyser.fresh) = none ∧
    thrownError (analyse progForwardCallInBody SemanticAnalyser.fresh) =
      some (semanticError 1 25 "Function 'b' expects 0 argument(s)") ∧
    thrownError (analyse progCallNoArgumentAtTopLevel SemanticAnalyser.fresh) =
      some (semanticError 1 2 "Function 'b' expects 1 argument(s)") ∧
    thrownError (analyse progForwardCallAtTopLevel SemanticAnalyser.fresh) = none := by
  decide

/-- C9 fails on the code: `int x = v();` with `v` a void function is rejected as a top-level
statement, but accepted in the body of a function declared before `v`: the whole program
`function a() -> void { int x = v(); }` / `function v() -> void { }` is accepted. -/
theorem forward_void_call_assignment_accepted :
    thrownError (analyse progForwardVoidCall SemanticAnalyser.fresh) = none ∧
    thrownError (analyse progVoidCallAtTopLevel SemanticAnalyser.fresh) =
      some (semanticError 2 1 "Cannot assign result of void function") := by
  decide

/-! ## The state and the message of a throw inside a statement -/

theorem Within.self (s : SemanticAnalyser) : Within s s := ⟨rfl, rfl, rfl, fun _ _ h => h⟩

theorem Within.chain {a b c : SemanticAnalyser} (h1 : Within a b) (h2 : Within b c) :
    Within a c := by
  obtain ⟨f1, i1, r1, v1⟩ := h1
  obtain ⟨f2, i2, r2, v2⟩ := h2
  exact ⟨f2.trans f1, i2.trans i1, r2.trans r1, fun n info h => v2 n info (v1 n info h)⟩

theorem Extends.within {s s' : SemanticAnalyser} (h : Extends s s') : Within s s' :=
  ⟨h.1, h.2.1, h.2.2.1, h.2.2.2.2.2⟩

theorem within_beginScope (s : SemanticAnalyser) : Within s (beginScope s) :=
  ⟨rfl, rfl, rfl, fun n info h => by simpa [beginScope, findVariable, mapFind] using h⟩

theorem toOutcome_error_at (c : Check) (s : SemanticAnalyser) (r : Raised)
    (hc : ∀ err, c = .error err → ExpressionError s err.message)
    (h : c.toOutcome s = .error r) : r.state = s ∧ StatementErrorAt r.state r.error.message := by
  obtain ⟨h1, h2⟩ := Check.toOutcome_eq_error c s r h
  refine ⟨h2, ?_⟩
  rw [h2]
  exact Or.inl (hc _ h1)

theorem visitVariableDeclaration_error_at (node : VariableDeclaration) (s : SemanticAnalyser)
    (r : Raised) (h : visitVariableDeclaration node s = .error r) :
    Within s r.state ∧ StatementErrorAt r.state r.error.message := by
  unfold visitVariableDeclaration at h
  split at h
  · cases h
    exact ⟨Within.self s, Or.inr (Or.inl ⟨node.name, ‹isDeclared s node.name = true›, rfl⟩)⟩
  · have hd : isDeclared s node.name = false := by simpa using ‹¬isDeclared s node.name = true›
    have hw := (declare_extends s node.name node.isFinal (typeNameOf node.varType) hd).within
    simp only at h
    split at h
    · cases h
    · split at h
      · cases h
        exact ⟨hw, Or.inl (Or.inr (Or.inr (Or.inl rfl)))⟩
      · obtain ⟨h1, h2⟩ :=
          toOutcome_error_at _ _ _ (fun err he => visitExpression_error _ _ _ he) h
        rw [h1]
        rw [h1] at h2
        exact ⟨hw, h2⟩

theorem visitReturn_error_at (line column : Nat) (value : Option Expression)
    (s : SemanticAnalyser) (r : Raised) (h : visitReturn line column value s = .error r) :
    Within s r.state ∧ StatementErrorAt r.state r.error.message := by
  unfold visitReturn at h
  simp only at h
  split at h
  · cases h
    have := ‹(value.isSome && decide (s.m_currentReturnType = some Ty.void)) = true›
    simp only [Bool.and_eq_true, decide_eq_true_eq] at this
    exact ⟨Within.self s, Or.inr (Or.inr (Or.inl ⟨this.2, rfl⟩))⟩
  · split at h
    · cases h
      have := ‹(!value.isSome && !decide (s.m_currentReturnType = some Ty.void)) = true›
      simp only [Bool.and_eq_true, Bool.not_eq_true', decide_eq_false_iff_not] at this
      exact ⟨Within.self s, Or.inr (Or.inr (Or.inr ⟨this.2, rfl⟩))⟩
    · obtain ⟨h1, h2⟩ :=
        toOutcome_error_at _ _ _ (fun err he => visitOptExpression_error _ _ _ he) h
      rw [h1]
      rw [h1] at h2
      exact ⟨Within.self s, h2⟩

theorem expression_statement_error_at (c : Check) (s : SemanticAnalyser) (r : Raised)
    (hc : ∀ err, c = .error err → ExpressionError s err.message)
    (h : c.toOutcome s = .error r) :
    Within s r.state ∧ StatementErrorAt r.state r.error.message := by
  obtain ⟨h1, h2⟩ := toOutcome_error_at c s r hc h
  rw [h1]
  rw [h1] at h2
  exact ⟨Within.self s, h2⟩

mutual
theorem visitStatement_error_at : ∀ (st : Statement) (s : SemanticAnalyser) (r : Raised),
    visitStatement st s = .error r →
      Within s r.state ∧ StatementErrorAt r.state r.error.message
  | .variableDeclaration node, s, r, h => by
    rw [visitStatement] at h
    exact visitVariableDeclaration_error_at node s r h
  | .block _ _ statements, s, r, h => by
    rw [visitStatement] at h
    rcases outcome_andThen_eq_error _ _ _ h with h1 | ⟨s1, _, h1⟩
    · obtain ⟨hw, he⟩ := visitStatementList_error_at statements _ r h1
      exact ⟨(within_beginScope s).chain hw, he⟩
    · cases h1
  | .expression _ _ e, s, r, h => by
    rw [visitStatement] at h
    exact expression_statement_error_at _ _ _ (fun err he => visitOptExpression_error _ _ _ he) h
  | .ret line column value, s, r, h => by
    rw [visitStatement] at h
    exact visitReturn_error_at line column value s r h
  | .ifStatement _ _ c t e, s, r, h => by
    rw [visitStatement] at h
    rcases outcome_andThen_eq_error _ _ _ h with h1 | ⟨s1, hs1, h1⟩
    · exact expression_statement_error_at _ _ _
        (fun err he => visitOptExpression_error _ _ _ he) h1
    · rw [Check.toOutcome_eq_ok] at hs1
      obtain ⟨_, rfl⟩ := hs1
      rcases outcome_andThen_eq_error _ _ _ h1 with h2 | ⟨s2, hs2, h2⟩
      · exact visitOptStatement_error_at t _ r h2
      · obtain ⟨hw, he⟩ := visitOptStatement_error_at e _ r h2
        exact ⟨(visitOptStatement_extends t _ _ hs2).within.chain hw, he⟩
  | .forStatement _ _ i c inc b, s, r, h => by
    rw [visitStatement] at h
    rcases outcome_andThen_eq_error _ _ _ h with h1 | ⟨s1, hs1, h1⟩
    · obtain ⟨hw, he⟩ := visitOptStatement_error_at i _ r h1
      exact ⟨(within_beginScope s).chain hw, he⟩
    · have hw1 : Within s s1 :=
        (within_beginScope s).chain (visitOptStatement_extends i _ _ hs1).within
      rcases outcome_andThen_eq_error _ _ _ h1 with h2 | ⟨s2, hs2, h2⟩
      · obtain ⟨hw, he⟩ := expression_statement_error_at _ _ _
          (fun err he => visitOptExpression_error _ _ _ he) h2
        exact ⟨hw1.chain hw, he⟩
      · rw [Check.toOutcome_eq_ok] at hs2
        obtain ⟨_, rfl⟩ := hs2
        rcases outcome_andThen_eq_error _ _ _ h2 with h3 | ⟨s3, hs3, h3⟩
        · obtain ⟨hw, he⟩ := expression_statement_error_at _ _ _
            (fun err he => visitOptExpression_error _ _ _ he) h3
          exact ⟨hw1.chain hw, he⟩
        · rw [Check.toOutcome_eq_ok] at hs3
          obtain ⟨_, rfl⟩ := hs3
          rcases outcome_andThen_eq_error _ _ _ h3 with h4 | ⟨s4, _, h4⟩
          · obtain ⟨hw, he⟩ := visitOptStatement_error_at b _ r h4
            exact ⟨hw1.chain hw, he⟩
          · cases h4
  | .echo _ _ e, s, r, h => by
    rw [visitStatement] at h
    exact expression_statement_error_at _ _ _ (fun err he => visitOptExpression_error _ _ _ he) h
  | .reset _ _ e, s, r, h => by
    rw [visitStatement] at h
    exact expression_statement_error_at _ _ _ (fun err he => visitOptExpression_error _ _ _ he) h
  | .measure _ _ e, s, r, h => by
    rw [visitStatement] at h
    exact expression_statement_error_at _ _ _ (fun err he => visitOptExpression_error _ _ _ he) h
  | .assignment line column name value, s, r, h => by
    rw [visitStatement] at h
    refine expression_statement_error_at _ _ _ (fun err he => ?_) h
    rcases check_andThen_eq_error _ _ _ he with h1 | h1
    · exact checkAssignment_error _ _ _ _ _ _ h1
    · exact visitOptExpression_error _ _ _ h1
theorem visitOptStatement_error_at : ∀ (st : Option Statement) (s : SemanticAnalyser)
    (r : Raised), visitOptStatement st s = .error r →
      Within s r.state ∧ StatementErrorAt r.state r.error.message
  | none, s, r, h => by simp [visitOptStatement] at h
  | some st, s, r, h => by
    rw [visitOptStatement] at h
    exact visitStatement_error_at st s r h
theorem visitStatementList_error_at : ∀ (sts : List Statement) (s : SemanticAnalyser)
    (r : Raised), visitStatementList sts s = .error r →
      Within s r.state ∧ StatementErrorAt r.state r.error.message
  | [], s, r, h => by simp [visitStatementList] at h
  | st :: rest, s, r, h => by
    rw [visitStatementList] at h
    rcases outcome_andThen_eq_error _ _ _ h with h1 | ⟨s1, hs1, h1⟩
    · exact visitStatement_error_at st s r h1
    · obtain ⟨hw, he⟩ := visitStatementList_error_at rest s1 r h1
      exact ⟨(visitStatement_extends st _ _ hs1).within.chain hw, he⟩
end

/-! ## Return statements -/

theorem ExpressionError.not_return_message {s : SemanticAnalyser} {m : String}
    (hm : ExpressionError s m) :
    m ≠ "Void function cannot return a value" ∧ m ≠ "Non-void function must return a value" := by
  rcases hm with ⟨y, _, rfl⟩ | ⟨y, _, _, rfl⟩ | rfl | ⟨n, k, rfl⟩ | ⟨i, n, t, rfl⟩
  · constructor
    · intro h
      have := congrArg (fun m => m.data.take 2) h
      simp [String.data_append] at this
    · intro h
      have := congrArg (fun m => m.data.head?) h
      simp [String.data_append] at this
  all_goals
    constructor <;>
    · intro h
      have := congrArg (fun m => m.data.head?) h
      simp [String.data_append, argumentTypeMessage] at this

/-- A throw of one of the two return messages agrees with the return-type context at the
throw. -/
theorem StatementErrorAt.return_message {a : SemanticAnalyser} {m : String}
    (hm : StatementErrorAt a m) :
    (m = "Void function cannot return a value" → a.m_currentReturnType = some Ty.void) ∧
      (m = "Non-void function must return a value" → a.m_currentReturnType ≠ some Ty.void) := by
  rcases hm with he | ⟨y, _, rfl⟩ | ⟨hv, rfl⟩ | ⟨hv, rfl⟩
  · exact ⟨fun h => absurd h he.not_return_message.1, fun h => absurd h he.not_return_message.2⟩
  · constructor
    · intro h
      have := congrArg (fun m => m.data.take 2) h
      simp [String.data_append] at this
    · intro h
      have := congrArg (fun m => m.data.head?) h
      simp [String.data_append] at this
  · exact ⟨fun _ => hv, fun h => absurd h (by decide)⟩
  · exact ⟨fun h => absurd h (by decide), fun _ => hv⟩

theorem declareParams_extends : ∀ (params : List Parameter) (s s' : SemanticAnalyser),
    declareParams params s = .ok s' → Extends s s'
  | [], s, s', h => by
    rw [declareParams] at h
    cases h
    exact Extends.refl s
  | param :: rest, s, s', h => by
    rw [declareParams] at h
    split at h
    · cases h
    · have hd : isDeclared s param.name = false := by
        simpa using ‹¬isDeclared s param.name = true›
      exact (declare_extends s _ _ _ hd).trans (declareParams_extends rest _ _ h)

theorem declareParams_error : ∀ (params : List Parameter) (s : SemanticAnalyser) (r : Raised),
    declareParams params s = .error r →
      Within s r.state ∧ ∃ p ∈ params, isDeclared r.state p.name = true ∧
        r.error = semanticError p.line p.column ("Parameter '" ++ p.name ++ "' redeclared")
  | [], s, r, h => by simp [declareParams] at h
  | param :: rest, s, r, h => by
    rw [declareParams] at h
    split at h
    · cases h
      exact ⟨Within.self s, param, List.mem_cons_self _ _, ‹isDeclared s param.name = true›, rfl⟩
    · have hd : isDeclared s param.name = false := by
        simpa using ‹¬isDeclared s param.name = true›
      obtain ⟨hw, p, hp, hdp, he⟩ := declareParams_error rest _ r h
      exact ⟨(declare_extends s _ _ _ hd).within.chain hw, p, List.mem_cons_of_mem _ hp, hdp, he⟩

theorem visitBody_error_at (body : Option (List Statement)) (s : SemanticAnalyser) (r : Raised)
    (h : visitBody body s = .error r) :
    Within s r.state ∧ StatementErrorAt r.state r.error.message := by
  cases body with
  | none => simp [visitBody] at h
  | some statements =>
    rw [visitBody] at h
    rcases outcome_andThen_eq_error _ _ _ h with h1 | ⟨s1, _, h1⟩
    · obtain ⟨hw, he⟩ := visitStatementList_error_at statements _ r h1
      exact ⟨(within_beginScope s).chain hw, he⟩
    · cases h1

/-- The state in which `visit(FunctionDeclaration&)` opens the scope of the function. -/
theorem visitFunctionDeclaration_error (node : FunctionDeclaration) (s : SemanticAnalyser)
    (r : Raised) (h : visitFunctionDeclaration node s = .error r) :
    (r.state = s ∧ r.error = semanticError node.line node.column
        "@quantum functions must return 'bit' or 'void'") ∨
      (r.state.m_currentReturnType = node.returnType ∧
        ((∃ p ∈ node.params, r.error =
            semanticError p.line p.column ("Parameter '" ++ p.name ++ "' redeclared")) ∨
          ∃ s2, declareParams node.params (beginScope { s with
              m_currentReturnType := node.returnType,
              m_functionInfo := mapSet s.m_functionInfo node.name (functionInfoOf node) }) =
                .ok s2 ∧
            Within s2 r.state ∧ StatementErrorAt r.state r.error.message)) := by
  unfold visitFunctionDeclaration at h
  split at h
  · cases h
    exact Or.inl ⟨rfl, rfl⟩
  · right
    simp only at h
    rcases outcome_andThen_eq_error _ _ _ h with h1 | ⟨s2, hs2, h1⟩
    · obtain ⟨hw, p, hp, _, he⟩ := declareParams_error _ _ r h1
      exact ⟨hw.2.2.1, Or.inl ⟨p, hp, he⟩⟩
    · rcases outcome_andThen_eq_error _ _ _ h1 with h2 | ⟨s3, _, h2⟩
      · obtain ⟨hw, he⟩ := visitBody_error_at _ _ r h2
        have hctx := (declareParams_extends _ _ _ hs2).2.2.1
        exact ⟨hw.2.2.1.trans hctx, Or.inr ⟨s2, hs2, hw, he⟩⟩
      · cases h2

theorem visitFunctionDeclaration_restores (node : FunctionDeclaration) (s s' : SemanticAnalyser)
    (h : visitFunctionDeclaration node s = .ok s') :
    s'.m_currentReturnType = s.m_currentReturnType := by
  unfold visitFunctionDeclaration at h
  split at h
  · cases h
  · simp only at h
    rw [outcome_andThen_eq_ok] at h
    obtain ⟨s2, _, h⟩ := h
    rw [outcome_andThen_eq_ok] at h
    obtain ⟨s3, _, h⟩ := h
    cases h
    rfl

/-- C11: a return statement with a value throws "Void function cannot return a value" exactly
when the return-type context is the void type, and a return statement without a value throws
"Non-void function must return a value" exactly when the context is not the void type (the throw
has the position of the statement; otherwise the value, if any, is visited).  While a function
declaration is visited the context is the return type of that function: a throw of one of the
two messages from anywhere inside the declaration agrees with the function's own return type.
When the visit of the declaration returns, the context is the one from before the visit. -/
theorem return_type_check (s : SemanticAnalyser) (line column : Nat) (e : Expression)
    (node : FunctionDeclaration) (s0 : SemanticAnalyser) :
    ((∃ r, visitStatement (.ret line column (some e)) s = .error r ∧
        r.error.message = "Void function cannot return a value") ↔
      s.m_currentReturnType = some Ty.void) ∧
    (s.m_currentReturnType = some Ty.void →
      visitStatement (.ret line column (some e)) s =
        .error ⟨semanticError line column "Void function cannot return a value", s⟩) ∧
    (s.m_currentReturnType ≠ some Ty.void →
      visitStatement (.ret line column (some e)) s = (visitExpression s e).toOutcome s) ∧
    ((∃ r, visitStatement (.ret line column none) s = .error r ∧
        r.error.message = "Non-void function must return a value") ↔
      s.m_currentReturnType ≠ some Ty.void) ∧
    (s.m_currentReturnType ≠ some Ty.void →
      visitStatement (.ret line column none) s =
        .error ⟨semanticError line column "Non-void function must return a value", s⟩) ∧
    (s.m_currentReturnType = some Ty.void →
      visitStatement (.ret line column none) s = .ok s) ∧
    (∀ r, visitFunctionDeclaration node s0 = .error r →
      (r.error.message = "Void function cannot return a value" →
        node.returnType = some Ty.void) ∧
      (r.error.message = "Non-void function must return a value" →
        node.returnType ≠ some Ty.void)) ∧
    (∀ s', visitFunctionDeclaration node s0 = .ok s' →
      s'.m_currentReturnType = s0.m_currentReturnType) := by
  have hv1 : s.m_currentReturnType = some Ty.void →
      visitStatement (.ret line column (some e)) s =
        .error ⟨semanticError line column "Void function cannot return a value", s⟩ := by
    intro h
    simp [visitStatement, visitReturn, h]
  have hv2 : s.m_currentReturnType ≠ some Ty.void →
      visitStatement (.ret line column (some e)) s = (visitExpression s e).toOutcome s := by
    intro h
    simp [visitStatement, visitReturn, h, visitOptExpression]
  have hn1 : s.m_currentReturnType ≠ some Ty.void →
      visitStatement (.ret line column none) s =
        .error ⟨semanticError line column "Non-void function must return a value", s⟩ := by
    intro h
    simp [visitStatement, visitReturn, h]
  have hn2 : s.m_currentReturnType = some Ty.void →
      visitStatement (.ret line column none) s = .ok s := by
    intro h
    simp [visitStatement, visitReturn, h, visitOptExpression, Check.toOutcome]
  refine ⟨⟨?_, fun h => ⟨_, hv1 h, rfl⟩⟩, hv1, hv2, ⟨?_, fun h => ⟨_, hn1 h, rfl⟩⟩, hn1, hn2,
    ?_, visitFunctionDeclaration_restores node s0⟩
  · rintro ⟨r, hr, hm⟩
    obtain ⟨hw, he⟩ := visitStatement_error_at _ _ _ hr
    exact (he.return_message.1 hm).symm ▸ hw.2.2.1.symm ▸ rfl
  · rintro ⟨r, hr, hm⟩
    obtain ⟨hw, he⟩ := visitStatement_error_at _ _ _ hr
    rw [← hw.2.2.1]
    exact he.return_message.2 hm
  · intro r hr
    rcases visitFunctionDeclaration_error node s0 r hr with ⟨_, he⟩ | ⟨hctx, ⟨p, _, he⟩ | ⟨s2, _, _, he⟩⟩
    · rw [he]
      constructor <;>
      · intro h
        have := congrArg (fun m => m.data.head?) h
        simp [semanticError] at this
    · rw [he]
      constructor <;>
      · intro h
        have := congrArg (fun m => m.data.head?) h
        simp [semanticError, String.data_append] at this
    · rw [← hctx]
      exact he.return_message

theorem return_type_check_witness :
    visitFunctionDeclaration voidFunctionReturningValue topLevel =
      .error ⟨semanticError 1 26 "Void function cannot return a value",
        beginScope (beginScope { topLevel with
          m_currentReturnType := some Ty.void,
          m_functionInfo := [("foo", ⟨some Ty.void, []⟩)] })⟩ ∧
    thrownError (visitFunctionDeclaration intFunctionReturningNothing topLevel) =
      some (semanticError 1 25 "Non-void function must return a value") ∧
    thrownError (visitFunctionDeclaration intFunctionNestedReturn topLevel) =
      some (semanticError 1 34 "Non-void function must return a value") ∧
    voidFunctionReturningValue.returnType = some Ty.void :=
  ⟨by decide, by decide, by decide,
    ((return_type_check topLevel 1 1 (intLit "1") voidFunctionReturningValue topLevel).2.2.2.2.2.2.1
      ⟨semanticError 1 26 "Void function cannot return a value",
        beginScope (beginScope { topLevel with
          m_currentReturnType := some Ty.void,
          m_functionInfo := [("foo", ⟨some Ty.void, []⟩)] })⟩ (by decide)).1 rfl⟩

/-! ## Argument types -/

theorem checkArgumentType_eq (s : SemanticAnalyser) (f : String) (i : Nat) (t : String)
    (arg : Expression) :
    checkArgumentType s f i t arg =
      if argumentMismatch s t arg = true then
        .error (semanticError arg.position.1 arg.position.2 (argumentTypeMessage i f t))
      else .ok () := by
  cases arg <;> simp [checkArgumentType, argumentMismatch, Expression.position]

/-- The loop over the arguments stops at the first position with a known expected type that the
argument does not fit. -/
theorem checkArgumentTypes_first_mismatch (s : SemanticAnalyser) (f : String) :
    ∀ (args : List Expression) (types : List String) (k : Nat),
      (∃ (i : Nat) (t : String) (a : Expression), args[i]? = some a ∧ types[i]? = some t ∧ t ≠ "" ∧
        argumentMismatch s t a = true) →
      ∃ (j : Nat) (tj : String) (aj : Expression), args[j]? = some aj ∧ types[j]? = some tj ∧ tj ≠ "" ∧
        argumentMismatch s tj aj = true ∧
        (∀ (j' : Nat) (t' : String) (a' : Expression), j' < j → args[j']? = some a' → types[j']? = some t' →
          t' = "" ∨ argumentMismatch s t' a' = false) ∧
        checkArgumentTypes s f k args types =
          .error (semanticError aj.position.1 aj.position.2 (argumentTypeMessage (k + j) f tj))
  | [], _, _, h => by
    obtain ⟨i, t, a, ha, _⟩ := h
    simp at ha
  | _ :: _, [], _, h => by
    obtain ⟨i, t, a, _, ht, _⟩ := h
    simp at ht
  | arg :: args, t0 :: types, k, h => by
    by_cases hbad : t0 ≠ "" ∧ argumentMismatch s t0 arg = true
    · refine ⟨0, t0, arg, by simp, by simp, hbad.1, hbad.2, ?_, ?_⟩
      · intro j' t' a' hlt
        omega
      · simp [checkArgumentTypes, hbad.1, checkArgumentType_eq, hbad.2, Check.andThen]
    · have hok : t0 = "" ∨ argumentMismatch s t0 arg = false := by
        by_cases h0 : t0 = ""
        · exact Or.inl h0
        · right
          cases hm : argumentMismatch s t0 arg with
          | false => rfl
          | true => exact absurd ⟨h0, hm⟩ hbad
      obtain ⟨i, t, a, ha, ht, hne, hm⟩ := h
      cases i with
      | zero =>
        simp only [List.getElem?_cons_zero, Option.some.injEq] at ha ht
        subst ha ht
        exact absurd ⟨hne, hm⟩ hbad
      | succ i' =>
        simp only [List.getElem?_cons_succ] at ha ht
        obtain ⟨j, tj, aj, haj, htj, hnej, hmj, hmin, hres⟩ :=
          checkArgumentTypes_first_mismatch s f args types (k + 1) ⟨i', t, a, ha, ht, hne, hm⟩
        refine ⟨j + 1, tj, aj, by simpa using haj, by simpa using htj, hnej, hmj, ?_, ?_⟩
        · intro j' t' a' hlt ha' ht'
          cases j' with
          | zero =>
            simp only [List.getElem?_cons_zero, Option.some.injEq] at ha' ht'
            subst ha' ht'
            exact hok
          | succ m =>
            simp only [List.getElem?_cons_succ] at ha' ht'
            exact hmin m t' a' (by omega) ha' ht'
        · have hidx : k + (j + 1) = k + 1 + j := by omega
          rw [hidx, ← hres, checkArgumentTypes]
          rcases hok with h0 | h0
          · simp [h0]
          · by_cases h1 : t0 = ""
            · simp [h1]
            · simp [h1, checkArgumentType_eq, h0, Check.andThen]

/-- An error of the loop over the arguments comes from a position that does not fit. -/
theorem checkArgumentTypes_error_position (s : SemanticAnalyser) (f : String) :
    ∀ (args : List Expression) (types : List String) (k : Nat) (err : BlochRuntimeError),
      checkArgumentTypes s f k args types = .error err →
      ∃ (j : Nat) (tj : String) (aj : Expression), args[j]? = some aj ∧ types[j]? = some tj ∧ tj ≠ "" ∧
        argumentMismatch s tj aj = true ∧
        err = semanticError aj.position.1 aj.position.2 (argumentTypeMessage (k + j) f tj)
  | [], _, _, _, h => by simp [checkArgumentTypes] at h
  | _ :: _, [], _, _, h => by simp [checkArgumentTypes] at h
  | arg :: args, t0 :: types, k, err, h => by
    rw [checkArgumentTypes] at h
    have hrest : checkArgumentTypes s f (k + 1) args types = .error err →
        ∃ (j : Nat) (tj : String) (aj : Expression), (arg :: args)[j]? = some aj ∧ (t0 :: types)[j]? = some tj ∧ tj ≠ "" ∧
          argumentMismatch s tj aj = true ∧
          err = semanticError aj.position.1 aj.position.2
            (argumentTypeMessage (k + j) f tj) := by
      intro h1
      obtain ⟨j, tj, aj, haj, htj, hne, hm, he⟩ :=
        checkArgumentTypes_error_position s f args types (k + 1) err h1
      refine ⟨j + 1, tj, aj, by simpa using haj, by simpa using htj, hne, hm, ?_⟩
      have hidx : k + (j + 1) = k + 1 + j := by omega
      rw [hidx]
      exact he
    split at h
    · exact hrest h
    · rcases check_andThen_eq_error _ _ _ h with h1 | h1
      · rw [checkArgumentType_eq] at h1
        split at h1
        · cases h1
          exact ⟨0, t0, arg, by simp, by simp, ‹¬t0 = ""›, ‹argumentMismatch s t0 arg = true›,
            rfl⟩
        · cases h1
      · exact hrest h1

/-- C12 (amended): in a call with the correct argument count to a declared function or gate `f`,
let the registered parameter type at position `i` be a non-empty name `t`.  If argument `i` does
not fit `t` (a bare variable of known, different type, or a literal with a non-empty, different
tag), the visit of the call throws an argument-type error for the first position `j` not after
`i` whose argument does not fit its expected type, at that argument: "Argument j+1 of 'f'
expects type 't_j'"; it is "Argument i+1 of 'f' expects type 't'" when no position before `i`
fails.  If argument `i` fits, the check of position `i` passes and any error of the loop over
the arguments is for another position. -/
theorem argument_type_check (s : SemanticAnalyser) (f : String)
    (line column vline vcolumn : Nat) (args : List Expression) (i : Nat) (t : String)
    (arg : Expression)
    (hdecl : isFunctionDeclared s f = true)
    (hcount : getFunctionParamCount s f = args.length)
    (ht : (getFunctionParamTypes s f)[i]? = some t) (hne : t ≠ "")
    (harg : args[i]? = some arg) :
    (argumentMismatch s t arg = true →
      ∃ (j : Nat) (tj : String) (aj : Expression), j ≤ i ∧ args[j]? = some aj ∧ (getFunctionParamTypes s f)[j]? = some tj ∧
        tj ≠ "" ∧ argumentMismatch s tj aj = true ∧
        (∀ (j' : Nat) (t' : String) (a' : Expression), j' < j → args[j']? = some a' → (getFunctionParamTypes s f)[j']? = some t' →
          t' = "" ∨ argumentMismatch s t' a' = false) ∧
        visitExpression s (.call line column (some (.variable vline vcolumn f)) args) =
          .error (semanticError aj.position.1 aj.position.2 (argumentTypeMessage j f tj))) ∧
    (argumentMismatch s t arg = true →
      (∀ (j' : Nat) (t' : String) (a' : Expression), j' < i → args[j']? = some a' → (getFunctionParamTypes s f)[j']? = some t' →
        t' = "" ∨ argumentMismatch s t' a' = false) →
      visitExpression s (.call line column (some (.variable vline vcolumn f)) args) =
        .error (semanticError arg.position.1 arg.position.2 (argumentTypeMessage i f t))) ∧
    (argumentMismatch s t arg = false →
      checkArgumentType s f i t arg = .ok () ∧
      ∀ err, checkArgumentTypes s f 0 args (getFunctionParamTypes s f) = .error err →
        ∃ (j : Nat) (tj : String) (aj : Expression), j ≠ i ∧ args[j]? = some aj ∧ (getFunctionParamTypes s f)[j]? = some tj ∧
          argumentMismatch s tj aj = true ∧
          err = semanticError aj.position.1 aj.position.2 (argumentTypeMessage j f tj)) := by
  have hfirst : argumentMismatch s t arg = true →
      ∃ (j : Nat) (tj : String) (aj : Expression), j ≤ i ∧ args[j]? = some aj ∧ (getFunctionParamTypes s f)[j]? = some tj ∧
        tj ≠ "" ∧ argumentMismatch s tj aj = true ∧
        (∀ (j' : Nat) (t' : String) (a' : Expression), j' < j → args[j']? = some a' → (getFunctionParamTypes s f)[j']? = some t' →
          t' = "" ∨ argumentMismatch s t' a' = false) ∧
        visitExpression s (.call line column (some (.variable vline vcolumn f)) args) =
          .error (semanticError aj.position.1 aj.position.2 (argumentTypeMessage j f tj)) := by
    intro hm
    obtain ⟨j, tj, aj, haj, htj, hnej, hmj, hmin, hres⟩ :=
      checkArgumentTypes_first_mismatch s f args (getFunctionParamTypes s f) 0
        ⟨i, t, arg, harg, ht, hne, hm⟩
    refine ⟨j, tj, aj, ?_, haj, htj, hnej, hmj, hmin, ?_⟩
    · by_contra hlt
      rcases hmin i t arg (by omega) harg ht with h0 | h0
      · exact hne h0
      · rw [hm] at h0
        cases h0
    · rw [Nat.zero_add] at hres
      simp [visitExpression, asVariable, checkCall, hdecl, hcount, hres, Check.andThen]
  refine ⟨hfirst, ?_, ?_⟩
  · intro hm hbefore
    obtain ⟨j, tj, aj, hle, haj, htj, hnej, hmj, _, hres⟩ := hfirst hm
    have hji : j = i := by
      by_contra hneq
      rcases hbefore j tj aj (by omega) haj htj with h0 | h0
      · exact hnej h0
      · rw [hmj] at h0
        cases h0
    subst hji
    rw [harg] at haj
    rw [ht] at htj
    cases haj
    cases htj
    exact hres
  · intro hm
    refine ⟨by simp [checkArgumentType_eq, hm], ?_⟩
    intro err herr
    obtain ⟨j, tj, aj, haj, htj, _, hmj, he⟩ :=
      checkArgumentTypes_error_position s f args _ 0 err herr
    rw [Nat.zero_add] at he
    refine ⟨j, tj, aj, ?_, haj, htj, hmj, he⟩
    rintro rfl
    rw [harg] at haj
    rw [ht] at htj
    cases haj
    cases htj
    rw [hm] at hmj
    cases hmj

theorem argument_type_check_witness :
    visitExpression afterStringS callCxSS =
      .error (semanticError 1 25 (argumentTypeMessage 0 "cx" "qubit")) ∧
    visitExpression afterQubitQ (.call 1 12 (some (.variable 1 10 "rx"))
        [.variable 1 13 "q", .literal 1 16 "1" "int"]) =
      .error (semanticError 1 16 "Argument 2 of 'rx' expects type 'float'") ∧
    visitExpression afterQubitQ (.call 1 12 (some (.variable 1 10 "rx"))
        [.variable 1 13 "q", .literal 1 16 "1.0f" "float"]) = .ok () :=
  ⟨(argument_type_check afterStringS "cx" 1 24 1 22
      [.variable 1 25 "s", .variable 1 28 "s"] 0 "qubit" (.variable 1 25 "s")
      (by decide) (by decide) (by decide) (by decide) rfl).2.1 (by decide)
        (fun j' _ _ h => absurd h (Nat.not_lt_zero j')),
    (argument_type_check afterQubitQ "rx" 1 12 1 10
      [.variable 1 13 "q", .literal 1 16 "1" "int"] 1 "float" (.literal 1 16 "1" "int")
      (by decide) (by decide) (by decide) (by decide) rfl).2.1 (by decide)
        (by
          intro j' t' a' hlt ha ht
          have hj : j' = 0 := by omega
          subst hj
          simp only [getFunctionParamTypes, mapFind, builtInGates] at ht
          simp at ha ht
          subst ha ht
          right; decide),
    by decide⟩

/-- C12 as stated fails: in `string s = "hello"; cx(s, s);` the second argument is a bare
variable of type string where cx expects a qubit, yet the error thrown is for the first
argument, "Argument 1 of 'cx' expects type 'qubit'", not "Argument 2 of 'cx' ...". -/
theorem argument_type_second_position_counterexample :
    getFunctionParamCount afterStringS "cx" = 2 ∧
    (getFunctionParamTypes afterStringS "cx")[1]? = some "qubit" ∧
    argumentMismatch afterStringS "qubit" (.variable 1 28 "s") = true ∧
    visitExpression afterStringS callCxSS =
      .error (semanticError 1 25 "Argument 1 of 'cx' expects type 'qubit'") ∧
    visitExpression afterStringS callCxSS ≠
      .error (semanticError 1 28 "Argument 2 of 'cx' expects type 'qubit'") := by
  decide

/-! ## Parameters -/

theorem findVariable_declare_self (s : SemanticAnalyser) (x : String) (fin : Bool) (ty : String)
    (hs : s.m_scopes ≠ []) :
    findVariable (declare s x fin ty).m_scopes x = some ⟨fin, ty⟩ := by
  cases h : s.m_scopes with
  | nil => exact absurd h hs
  | cons top rest => simp [declare, h, findVariable, mapFind_mapSet_self]

theorem findVariable_declare_ne (s : SemanticAnalyser) (x n : String) (fin : Bool) (ty : String)
    (hn : n ≠ x) :
    findVariable (declare s x fin ty).m_scopes n = findVariable s.m_scopes n := by
  cases h : s.m_scopes with
  | nil => simp [declare, h]
  | cons top rest => simp [declare, h, findVariable, mapFind_mapSet_ne top x n _ hn]

theorem declare_scopes_ne_nil (s : SemanticAnalyser) (x : String) (fin : Bool) (ty : String)
    (hs : s.m_scopes ≠ []) : (declare s x fin ty).m_scopes ≠ [] := by
  cases h : s.m_scopes with
  | nil => exact absurd h hs
  | cons top rest => simp [declare, h]

/-- Parameters with pairwise distinct names that are not visible yet are all declared, each as a
non-final variable with its type name. -/
theorem declareParams_of_distinct : ∀ (params : List Parameter) (s : SemanticAnalyser),
    s.m_scopes ≠ [] → (params.map fun p => p.name).Nodup →
    (∀ p ∈ params, isDeclared s p.name = false) →
    ∃ s2, declareParams params s = .ok s2 ∧
      ∀ p ∈ params, findVariable s2.m_scopes p.name = some ⟨false, typeNameOf p.type⟩
  | [], s, _, _, _ => ⟨s, rfl, fun p hp => by simp at hp⟩
  | param :: rest, s, hs, hnd, hnew => by
    have hd : isDeclared s param.name = false := hnew param (List.mem_cons_self _ _)
    rw [List.map_cons, List.nodup_cons] at hnd
    have hrest : ∀ p ∈ rest,
        isDeclared (declare s param.name false (typeNameOf param.type)) p.name = false := by
      intro p hp
      have hne : p.name ≠ param.name := by
        intro he
        exact hnd.1 (he ▸ List.mem_map.2 ⟨p, hp, rfl⟩)
      have := hnew p (List.mem_cons_of_mem _ hp)
      simp only [isDeclared] at this ⊢
      rw [findVariable_declare_ne _ _ _ _ _ hne]
      exact this
    obtain ⟨s2, hs2, hfound⟩ := declareParams_of_distinct rest _
      (declare_scopes_ne_nil s _ _ _ hs) hnd.2 hrest
    refine ⟨s2, by simp [declareParams, hd, hs2], ?_⟩
    intro p hp
    rcases List.mem_cons.1 hp with rfl | hp
    · exact (declareParams_extends rest _ _ hs2).2.2.2.2.2 _ _
        (findVariable_declare_self s _ _ _ hs)
    · exact hfound p hp

theorem StatementErrorAt.not_for_visible {a : SemanticAnalyser} {m : String}
    (hm : StatementErrorAt a m) (x : String)
    (hd : isDeclared a x = true) (hf : isFinal a x = false) :
    m ≠ "Variable '" ++ x ++ "' not declared" ∧
      m ≠ "Cannot assign to final variable '" ++ x ++ "'" := by
  rcases hm with he | ⟨y, _, rfl⟩ | ⟨_, rfl⟩ | ⟨_, rfl⟩
  · exact he.not_for_assignable x hd hf
  · constructor
    · intro h
      have := congrArg (fun m => m.data.reverse.take 9) h
      simp [String.data_append] at this
    · intro h
      have := congrArg (fun m => m.data.head?) h
      simp [String.data_append] at this
  · constructor
    · intro h
      have := congrArg (fun m => m.data.take 2) h
      simp [String.data_append] at this
    · intro h
      have := congrArg (fun m => m.data.head?) h
      simp [String.data_append] at this
  · constructor <;>
    · intro h
      have := congrArg (fun m => m.data.head?) h
      simp [String.data_append] at this

/-- C13: for a function declaration whose parameter names are pairwise distinct and not visible
yet, the parameter loop returns: in the scope opened for the function (one frame on top of the
stack from before) every parameter is an entry that is not final and carries its type name.
The body is visited in that state, so no throw of the visit carries "Variable 'p' not declared"
or "Cannot assign to final variable 'p'" for a parameter `p`. -/
theorem parameters_declared (node : FunctionDeclaration) (s : SemanticAnalyser)
    (hdistinct : (node.params.map fun p => p.name).Nodup)
    (hnew : ∀ p ∈ node.params, isDeclared s p.name = false) :
    ∃ s2, declareParams node.params (beginScope { s with
          m_currentReturnType := node.returnType,
          m_functionInfo := mapSet s.m_functionInfo node.name (functionInfoOf node) }) = .ok s2 ∧
      s2.m_scopes.tail = s.m_scopes ∧
      (∀ p ∈ node.params,
        findVariable s2.m_scopes p.name = some ⟨false, typeNameOf p.type⟩ ∧
        isDeclared s2 p.name = true ∧ isFinal s2 p.name = false) ∧
      ((node.hasQuantumAnnotation && !quantumReturnValid node.returnType) = false →
        visitFunctionDeclaration node s = (visitBody node.body s2).andThen fun s3 =>
          .ok { endScope s3 with m_currentReturnType := s.m_currentReturnType }) ∧
      (∀ r, visitFunctionDeclaration node s = .error r → ∀ p ∈ node.params,
        r.error.message ≠ "Variable '" ++ p.name ++ "' not declared" ∧
        r.error.message ≠ "Cannot assign to final variable '" ++ p.name ++ "'") := by
  obtain ⟨s2, hs2, hfound⟩ := declareParams_of_distinct node.params
    (beginScope { s with
      m_currentReturnType := node.returnType,
      m_functionInfo := mapSet s.m_functionInfo node.name (functionInfoOf node) })
    (by simp [beginScope]) hdistinct
    (fun p hp => by
      have := hnew p hp
      simpa [isDeclared, beginScope, findVariable, mapFind] using this)
  have hparam : ∀ p ∈ node.params,
      findVariable s2.m_scopes p.name = some ⟨false, typeNameOf p.type⟩ ∧
        isDeclared s2 p.name = true ∧ isFinal s2 p.name = false := by
    intro p hp
    have := hfound p hp
    exact ⟨this, by simp [isDeclared, this], by simp [isFinal, this]⟩
  refine ⟨s2, hs2, ?_, hparam, ?_, ?_⟩
  · have := (declareParams_extends _ _ _ hs2).2.2.2.2.1
    simpa [beginScope] using this
  · intro hq
    simp [visitFunctionDeclaration, hq, hs2, Outcome.andThen]
  · intro r hr p hp
    rcases visitFunctionDeclaration_error node s r hr with
      ⟨_, he⟩ | ⟨_, ⟨q, _, he⟩ | ⟨s2', hs2', hw, he⟩⟩
    · rw [he]
      constructor <;>
      · intro h
        have := congrArg (fun m => m.data.head?) h
        simp [semanticError, String.data_append] at this
    · rw [he]
      constructor <;>
      · intro h
        have := congrArg (fun m => m.data.head?) h
        simp [semanticError, String.data_append] at this
    · rw [hs2] at hs2'
      cases hs2'
      have hf := hw.2.2.2 _ _ (hfound p hp)
      exact he.not_for_visible p.name (by simp [isDeclared, hf]) (by simp [isFinal, hf])

theorem parameters_declared_witness :
    (∃ s2, declareParams functionAssigningParameter.params (beginScope { topLevel with
          m_currentReturnType := functionAssigningParameter.returnType,
          m_functionInfo := mapSet topLevel.m_functionInfo functionAssigningParameter.name
            (functionInfoOf functionAssigningParameter) }) = .ok s2 ∧
      s2.m_scopes.tail = topLevel.m_scopes ∧
      (∀ p ∈ functionAssigningParameter.params,
        findVariable s2.m_scopes p.name = some ⟨false, typeNameOf p.type⟩ ∧
        isDeclared s2 p.name = true ∧ isFinal s2 p.name = false) ∧
      ((functionAssigningParameter.hasQuantumAnnotation &&
          !quantumReturnValid functionAssigningParameter.returnType) = false →
        visitFunctionDeclaration functionAssigningParameter topLevel =
          (visitBody functionAssigningParameter.body s2).andThen fun s3 =>
            .ok { endScope s3 with m_currentReturnType := topLevel.m_currentReturnType }) ∧
      (∀ r, visitFunctionDeclaration functionAssigningParameter topLevel = .error r →
        ∀ p ∈ functionAssigningParameter.params,
          r.error.message ≠ "Variable '" ++ p.name ++ "' not declared" ∧
          r.error.message ≠ "Cannot assign to final variable '" ++ p.name ++ "'")) ∧
    thrownError (visitFunctionDeclaration functionAssigningParameter topLevel) = none :=
  ⟨parameters_declared functionAssigningParameter topLevel (by decide) (by decide), by decide⟩

/-! ## The environment across a run -/

theorem assignFrames_length : ∀ (env : List EnvFrame) (name : String) (v : Value)
    (env' : List EnvFrame), assignFrames env name v = some env' → env'.length = env.length
  | [], _, _, _, h => by simp [assignFrames] at h
  | frame :: rest, name, v, env', h => by
    rw [assignFrames] at h
    split at h
    · cases h
      rfl
    · cases hr : assignFrames rest name v with
      | none => simp [hr] at h
      | some rest' =>
        simp only [hr, Option.map_some', Option.some.injEq] at h
        subst h
        simp [assignFrames_length rest name v rest' hr]

theorem bindInnermost_length (σ σ' : RuntimeEvaluator) (name : String) (v : Value)
    (h : σ.bindInnermost name v = .ok σ') : σ'.m_env.length = σ.m_env.length := by
  unfold RuntimeEvaluator.bindInnermost at h
  split at h
  · cases h
  · cases h
    simp [*]

theorem assign_length (σ σ' : RuntimeEvaluator) (name : String) (v : Value)
    (h : σ.assign name v = .ok σ') : σ'.m_env.length = σ.m_env.length := by
  unfold RuntimeEvaluator.assign at h
  split at h
  · cases h
    exact assignFrames_length _ _ _ _ ‹_›
  · exact bindInnermost_length σ σ' name v h

theorem applyGate_env (σ σ' : RuntimeEvaluator) (name : String) (args : List Value)
    (h : σ.applyGate name args = .ok σ') : σ'.m_env = σ.m_env := by
  unfold RuntimeEvaluator.applyGate at h
  split at h <;> cases h <;> rfl

theorem markMeasured_env (σ : RuntimeEvaluator) (index : Int) :
    (σ.markMeasured index).m_env = σ.m_env := by
  unfold RuntimeEvaluator.markMeasured
  split <;> rfl

theorem declaredDefault_env (answers : SimulatorAnswers) (σ : RuntimeEvaluator) (name : String)
    (t : Option Ty) : (declaredDefault answers σ name t).2.m_env = σ.m_env := by
  unfold declaredDefault
  split
  · split
    · rfl
    · split
      · rfl
      · split
        · rfl
        · split <;> rfl
  · rfl

theorem execStatements_length
    (step : Option Statement → RuntimeEvaluator → Run RuntimeEvaluator)
    (hstep : ∀ st σ σ', step st σ = .ok σ' → σ'.m_env.length = σ.m_env.length) :
    ∀ (sts : List Statement) (σ σ' : RuntimeEvaluator),
      execStatements step sts σ = .ok σ' → σ'.m_env.length = σ.m_env.length
  | [], σ, σ', h => by
    rw [execStatements] at h
    cases h
    rfl
  | st :: rest, σ, σ', h => by
    rw [execStatements] at h
    split at h
    · cases h
    · have h1 := hstep _ _ _ ‹_›
      split at h
      · cases h
        exact h1
      · exact (execStatements_length step hstep rest _ _ h).trans h1

theorem evalArguments_length
    (step : Option Expression → RuntimeEvaluator → Run (Value × RuntimeEvaluator))
    (hstep : ∀ e σ v σ', step e σ = .ok (v, σ') → σ'.m_env.length = σ.m_env.length) :
    ∀ (es : List Expression) (σ : RuntimeEvaluator) (vs : List Value) (σ' : RuntimeEvaluator),
      evalArguments step es σ = .ok (vs, σ') → σ'.m_env.length = σ.m_env.length
  | [], σ, vs, σ', h => by
    rw [evalArguments] at h
    cases h
    rfl
  | e :: rest, σ, vs, σ', h => by
    rw [evalArguments] at h
    split at h
    · cases h
    · have h1 := hstep _ _ _ _ ‹_›
      split at h
      · cases h
      · cases h
        exact (evalArguments_length step hstep rest _ _ _ ‹_›).trans h1

/-- The evaluator keeps the number of environment frames: every run of `eval`, `exec`, the loop
of a for statement and `call` that returns leaves as many frames as it found. -/
theorem run_keeps_frames (answers : SimulatorAnswers) : ∀ (fuel : Nat),
    (∀ e σ v σ', eval answers fuel e σ = .ok (v, σ') → σ'.m_env.length = σ.m_env.length) ∧
    (∀ st σ σ', exec answers fuel st σ = .ok σ' → σ'.m_env.length = σ.m_env.length) ∧
    (∀ c i b σ σ', forLoop answers fuel c i b σ = .ok σ' →
      σ'.m_env.length = σ.m_env.length) ∧
    (∀ fn args σ v σ', call answers fuel fn args σ = .ok (v, σ') →
      σ'.m_env.length = σ.m_env.length)
  | 0 => by
    refine ⟨?_, ?_, ?_, ?_⟩
    · intro e σ v σ' h
      simp [eval] at h
    · intro st σ σ' h
      simp [exec] at h
    · intro c i b σ σ' h
      simp [forLoop] at h
    · intro fn args σ v σ' h
      simp [call] at h
  | fuel + 1 => by
    obtain ⟨ihe, ihx, ihl, ihc⟩ := run_keeps_frames answers fuel
    refine ⟨?_, ?_, ?_, ?_⟩
    · intro e σ v σ' h
      cases e with
      | none =>
        simp only [eval, Except.ok.injEq, Prod.mk.injEq] at h
        rw [← h.2]
      | some e =>
        cases e with
        | literal l c value lt =>
          simp only [eval] at h
          split at h
          · cases h
          · split at h <;> cases h <;> rfl
        | «variable» l c name =>
          simp only [eval, Except.ok.injEq, Prod.mk.injEq] at h
          rw [← h.2]
        | binary l c op left right =>
          simp only [eval] at h
          split at h
          · cases h
          · have h1 := ihe _ _ _ _ ‹_›
            split at h
            · cases h
            · have h2 := ihe _ _ _ _ ‹_›
              split at h
              · cases h
              · cases h
                exact h2.trans h1
        | unary l c op right =>
          simp only [eval] at h
          split at h
          · cases h
          · have h1 := ihe _ _ _ _ ‹_›
            split at h <;> cases h <;> exact h1
        | call l c callee arguments =>
          simp only [eval] at h
          split at h
          · cases h
            rfl
          · split at h
            · cases h
            · have h1 := evalArguments_length _ ihe _ _ _ _ ‹_›
              split at h
              · split at h
                · cases h
                · cases h
                  exact (congrArg List.length (applyGate_env _ _ _ _ ‹_›)).trans h1
              · split at h
                · cases h
                  exact h1
                · split at h
                  · cases h
                  · have h2 := ihc _ _ _ _ _ ‹_›
                    split at h <;> cases h <;> exact h2.trans h1
        | measure l c qubit =>
          simp only [eval] at h
          split at h
          · cases h
          · have h1 := ihe _ _ _ _ ‹_›
            cases h
            exact (congrArg List.length (markMeasured_env _ _)).trans h1
        | assignment l c name value =>
          simp only [eval] at h
          split at h
          · cases h
          · have h1 := ihe _ _ _ _ ‹_›
            split at h
            · cases h
            · cases h
              exact (assign_length _ _ _ _ ‹_›).trans h1
        | index l c a b => simp only [eval, Except.ok.injEq, Prod.mk.injEq] at h; rw [← h.2]
        | parenthesized l c a => simp only [eval, Except.ok.injEq, Prod.mk.injEq] at h; rw [← h.2]
        | constructorCall l c n a =>
          simp only [eval, Except.ok.injEq, Prod.mk.injEq] at h; rw [← h.2]
        | memberAccess l c a m => simp only [eval, Except.ok.injEq, Prod.mk.injEq] at h; rw [← h.2]
    · intro st σ σ' h
      cases st with
      | none =>
        simp only [exec, Except.ok.injEq] at h
        rw [← h]
      | some st =>
        cases st with
        | variableDeclaration node =>
          simp only [exec] at h
          have hd := declaredDefault_env answers σ node.name node.varType
          split at h
          · exact (bindInnermost_length _ _ _ _ h).trans (congrArg List.length hd)
          · split at h
            · cases h
            · have h1 := ihe _ _ _ _ ‹_›
              exact ((bindInnermost_length _ _ _ _ h).trans h1).trans (congrArg List.length hd)
        | block l c statements =>
          simp only [exec] at h
          split at h
          · cases h
          · have h1 := execStatements_length _ ihx _ _ _ ‹_›
            cases h
            simp only [List.length_tail, h1, List.length_cons, Nat.add_sub_cancel]
        | expression l c e =>
          simp only [exec] at h
          split at h
          · cases h
          · have h1 := ihe _ _ _ _ ‹_›
            cases h
            exact h1
        | ret l c value =>
          simp only [exec] at h
          split at h
          · cases h
            rfl
          · split at h
            · cases h
            · have h1 := ihe _ _ _ _ ‹_›
              cases h
              exact h1
        | ifStatement l c cond t e =>
          simp only [exec] at h
          split at h
          · cases h
          · have h1 := ihe _ _ _ _ ‹_›
            split at h
            · exact (ihx _ _ _ h).trans h1
            · exact (ihx _ _ _ h).trans h1
        | forStatement l c init cond inc body =>
          simp only [exec] at h
          split at h
          · cases h
          · have h1 := ihx _ _ _ ‹_›
            split at h
            · cases h
            · have h2 := ihl _ _ _ _ _ ‹_›
              cases h
              simp only [List.length_tail, h2, h1, List.length_cons, Nat.add_sub_cancel]
        | echo l c value =>
          simp only [exec] at h
          split at h
          · cases h
          · have h1 := ihe _ _ _ _ ‹_›
            cases h
            exact h1
        | reset l c target =>
          simp only [exec, Except.ok.injEq] at h
          rw [← h]
        | measure l c qubit =>
          simp only [exec] at h
          split at h
          · cases h
          · have h1 := ihe _ _ _ _ ‹_›
            cases h
            exact (congrArg List.length (markMeasured_env _ _)).trans h1
        | assignment l c name value =>
          simp only [exec] at h
          split at h
          · cases h
          · exact (assign_length _ _ _ _ h).trans (ihe _ _ _ _ ‹_›)
    · intro c i b σ σ' h
      simp only [forLoop] at h
      split at h
      · cases h
      · rename_i cv σ1 hc
        have h1 : σ1.m_env.length = σ.m_env.length := by
          cases c with
          | none =>
            simp only [Except.ok.injEq, Prod.mk.injEq] at hc
            rw [← hc.2]
          | some c => exact ihe _ _ _ _ hc
        split at h
        · cases h
          exact h1
        · split at h
          · cases h
          · rename_i σ2 hb
            have h2 := ihx _ _ _ hb
            split at h
            · cases h
              exact h2.trans h1
            · split at h
              · cases h
              · rename_i σ3 hi
                have h3 : σ3.m_env.length = σ2.m_env.length := by
                  cases i with
                  | none =>
                    simp only [Except.ok.injEq] at hi
                    rw [← hi]
                  | some i =>
                    simp only at hi
                    split at hi
                    · cases hi
                    · have h4 := ihe _ _ _ _ ‹_›
                      cases hi
                      exact h4
                exact ((ihl _ _ _ _ _ h).trans h3).trans (h2.trans h1)
    · intro fn args σ v σ' h
      simp only [call] at h
      split at h
      · cases h
      · rename_i σ2 hb
        have h2 : σ2.m_env.length = σ.m_env.length + 1 := by
          cases hbody : fn.body with
          | none =>
            simp only [hbody, Except.ok.injEq] at hb
            rw [← hb]
            rfl
          | some statements =>
            simp only [hbody] at hb
            exact execStatements_length _ ihx _ _ _ hb
        cases h
        simp only [List.length_tail, h2, Nat.add_sub_cancel]

/-! ## For statements -/

/-- C14: when the initializer of a for statement without condition returns (in the frame pushed
for the statement), the statement returns the state the initializer left, with that frame
popped: the body and the increment play no part in the result, so they are run zero times.
The number of environment frames is the one from before the statement.  Without initializer
the state is unchanged. -/
theorem for_without_condition (answers : SimulatorAnswers) (fuel line column : Nat)
    (initializer : Option Statement) (increment : Option Expression) (body : Option Statement)
    (σ σ1 : RuntimeEvaluator)
    (hinit : exec answers fuel initializer { σ with m_env := [] :: σ.m_env } = .ok σ1) :
    exec answers (fuel + 1)
        (some (.forStatement line column initializer none increment body)) σ =
      .ok { σ1 with m_env := σ1.m_env.tail } ∧
    ({ σ1 with m_env := σ1.m_env.tail } : RuntimeEvaluator).m_env.length = σ.m_env.length ∧
    (initializer = none → ({ σ1 with m_env := σ1.m_env.tail } : RuntimeEvaluator) = σ) := by
  have hlen := (run_keeps_frames answers fuel).2.1 _ _ _ hinit
  cases fuel with
  | zero => simp [exec] at hinit
  | succ k =>
    refine ⟨?_, ?_, ?_⟩
    · simp [exec, hinit, forLoop, Value.truthy]
    · simp only [List.length_tail, hlen, List.length_cons, Nat.add_sub_cancel]
    · rintro rfl
      simp only [exec, Except.ok.injEq] at hinit
      rw [← hinit]
      cases σ
      rfl

theorem for_without_condition_witness :
    exec countingSimulator 3 (some forWithoutCondition) insideCall =
      .ok { afterDeclI with m_env := afterDeclI.m_env.tail } ∧
    ({ afterDeclI with m_env := afterDeclI.m_env.tail } : RuntimeEvaluator).m_env.length =
      insideCall.m_env.length ∧
    ({ afterDeclI with m_env := afterDeclI.m_env.tail } : RuntimeEvaluator).output = [] :=
  have h := for_without_condition countingSimulator 2 1 1 (some (.variableDeclaration declIntI))
    (some (.assignment 1 18 "i" (some (.binary 1 24 "+" (some (.variable 1 22 "i"))
      (some (intLit "1"))))))
    (some (.block 1 29 [.echo 1 31 (some (intLit "1"))])) insideCall afterDeclI rfl
  ⟨h.1, h.2.1, rfl⟩

/-! ## The return value and the return flag across calls -/

/-- C15 fails on the code: `call` resets the return flag but not `m_returnValue`, so a function
whose body reaches no return statement yields the value left by the last return executed
before.  For an empty body the value of the call is the `m_returnValue` of the state the call
started in, whatever it is; in the program below `nothing()` yields the 5 returned by `five()`
and `echo(five() + nothing())` prints 10. -/
theorem call_without_return_yields_stale_value :
    (∀ (answers : SimulatorAnswers) (fuel : Nat) (fn : FunctionDeclaration) (args : List Value)
        (σ : RuntimeEvaluator), fn.body = some [] →
      (call answers (fuel + 1) fn args σ).map (fun r => r.1) = .ok σ.m_returnValue) ∧
    (call countingSimulator 1 functionNothing []
        { insideCall with m_returnValue := { type := .Int, intValue := 5 } }).map (fun r => r.1) =
      .ok { type := .Int, intValue := 5 } ∧
    thrownError (analyse progStaleReturnValue SemanticAnalyser.fresh) = none ∧
    outputOf (execute countingSimulator 10 progStaleReturnValue RuntimeEvaluator.fresh) =
      .ok ["10"] := by
  refine ⟨?_, by decide, by decide, by decide⟩
  intro answers fuel fn args σ hbody
  simp [call, hbody, execStatements, Except.map]

/-- C16 fails on the code: `call` leaves `m_hasReturn` set when the callee executed a return, and
the loop of the caller tests that flag after each statement.  In
`function main() -> void { int x = five(); echo(x); }` the statement `echo(x);` is never
executed: nothing is printed, whereas `int x = 5; echo(x);` prints 5. -/
theorem callee_return_stops_caller :
    thrownError (analyse progCallThenEcho SemanticAnalyser.fresh) = none ∧
    outputOf (execute countingSimulator 10 progCallThenEcho RuntimeEvaluator.fresh) = .ok [] ∧
    (execute countingSimulator 10 progCallThenEcho RuntimeEvaluator.fresh).map
      (fun σ => σ.m_hasReturn) = .ok true ∧
    outputOf (execute countingSimulator 10 progAssignThenEcho RuntimeEvaluator.fresh) =
      .ok ["5"] := by
  decide

/-! ## The entry point `execute` -/

theorem mapFind_registerFunctions : ∀ (fns : List FunctionDeclaration)
    (registry : List (String × FunctionDeclaration)) (name : String),
    mapFind (registerFunctions fns registry) name =
      match lastNamed fns name with
      | some fn => some fn
      | none => mapFind registry name
  | [], registry, name => by simp [registerFunctions, lastNamed]
  | fn :: rest, registry, name => by
    rw [registerFunctions, mapFind_registerFunctions rest _ name, lastNamed]
    cases hl : lastNamed rest name with
    | some later => rfl
    | none =>
      by_cases hn : fn.name = name
      · subst hn
        simp [mapFind_mapSet_self]
      · simp [hn, mapFind_mapSet_ne registry fn.name name fn (Ne.symm hn)]

theorem lastNamed_eq_none_iff : ∀ (fns : List FunctionDeclaration) (name : String),
    lastNamed fns name = none ↔ ∀ fn ∈ fns, fn.name ≠ name
  | [], name => by simp [lastNamed]
  | fn :: rest, name => by
    rw [lastNamed]
    cases hl : lastNamed rest name with
    | some later =>
      have := (lastNamed_eq_none_iff rest name).not.1 (by simp [hl])
      simp only [reduceCtorEq, false_iff]
      intro hall
      exact this fun f hf => hall f (List.mem_cons_of_mem _ hf)
    | none =>
      have := (lastNamed_eq_none_iff rest name).1 hl
      by_cases hn : fn.name = name
      · simp [hn]
      · simp only [hn, ↓reduceIte, List.mem_cons, forall_eq_or_imp, true_iff]
        exact ⟨hn, this⟩

theorem lastNamed_of_nodup : ∀ (fns : List FunctionDeclaration),
    (fns.map fun f => f.name).Nodup → ∀ fn ∈ fns, lastNamed fns fn.name = some fn
  | [], _, fn, h => by simp at h
  | f :: rest, hnd, fn, h => by
    rw [List.map_cons, List.nodup_cons] at hnd
    rw [lastNamed]
    rcases List.mem_cons.1 h with rfl | hmem
    · have : lastNamed rest fn.name = none := by
        rw [lastNamed_eq_none_iff]
        intro g hg he
        exact hnd.1 (he ▸ List.mem_map.2 ⟨g, hg, rfl⟩)
      simp [this]
    · simp [lastNamed_of_nodup rest hnd.2 fn hmem]

/-- C17: `execute` records the top-level functions under their names (for a name borne by
several functions the last one stays; with pairwise distinct names each function is recorded
under its own name) and then calls the function recorded under "main" with no arguments, giving
back the state that call leaves.  When no top-level function is named main (and the evaluator
has none recorded from before, as a new evaluator has not), `execute` returns with only the
function table changed: the environment, the qubit table, the measurement trace, the return flag
and value, the simulator and the output are untouched. -/
theorem execute_calls_main (answers : SimulatorAnswers) (fuel : Nat) (program : Program)
    (σ : RuntimeEvaluator) :
    (∀ name, mapFind (registerFunctions program.functions σ.m_functions) name =
      match lastNamed program.functions name with
      | some fn => some fn
      | none => mapFind σ.m_functions name) ∧
    ((program.functions.map fun f => f.name).Nodup → ∀ fn ∈ program.functions,
      mapFind (registerFunctions program.functions σ.m_functions) fn.name = some fn) ∧
    (∀ main, lastNamed program.functions "main" = some main →
      execute answers fuel program σ =
        (call answers fuel main []
          { σ with m_functions := registerFunctions program.functions σ.m_functions }).map
            fun r => r.2) ∧
    ((∀ fn ∈ program.functions, fn.name ≠ "main") → mapFind σ.m_functions "main" = none →
      execute answers fuel program σ =
        .ok { σ with m_functions := registerFunctions program.functions σ.m_functions }) := by
  refine ⟨mapFind_registerFunctions _ _, ?_, ?_, ?_⟩
  · intro hnd fn hfn
    rw [mapFind_registerFunctions, lastNamed_of_nodup _ hnd fn hfn]
  · intro main hmain
    simp only [execute, mapFind_registerFunctions, hmain]
    cases call answers fuel main []
      { σ with m_functions := registerFunctions program.functions σ.m_functions } with
    | error f => rfl
    | ok r => rfl
  · intro hno hσ
    have := (lastNamed_eq_none_iff program.functions "main").2 hno
    simp only [execute, mapFind_registerFunctions, this, hσ]

theorem execute_calls_main_witness :
    execute countingSimulator 10 progAssignThenEcho RuntimeEvaluator.fresh =
      (call countingSimulator 10 (⟨3, 1, "main", [], some .void,
        some [ .variableDeclaration ⟨3, 27, "x", some (.primitive "int"),
                 some (intLit "5"), false⟩,
               .echo 3 38 (some (.variable 3 43 "x")) ], false⟩ : FunctionDeclaration) []
        { RuntimeEvaluator.fresh with
          m_functions := registerFunctions progAssignThenEcho.functions [] }).map (fun r => r.2) ∧
    execute countingSimulator 10 progQubitH RuntimeEvaluator.fresh =
      .ok { RuntimeEvaluator.fresh with m_functions := registerFunctions [] [] } :=
  ⟨(execute_calls_main countingSimulator 10 progAssignThenEcho RuntimeEvaluator.fresh).2.2.1 _ rfl,
    (execute_calls_main countingSimulator 10 progQubitH RuntimeEvaluator.fresh).2.2.2
      (fun fn h => by simp [progQubitH] at h) rfl⟩

/-! ## The program `qubit q; h(q);` -/

/-- C18 (amended): the program `qubit q; h(q);` (two top-level statements, no functions) is
accepted by `analyse`, and `execute` on it executes nothing, as it only calls a function named
main: no qubit is allocated and no gate dispatched.  When the two statements are the body of
`function main() -> void`, `execute` allocates exactly one qubit in the tracking table (entry
`q`, not measured) and dispatches the simulator's h operation once, on the index the simulator
handed out; the gate call yields the default Void value, nothing is recorded in the measurement
trace and nothing is printed. -/
theorem qubit_h_program (answers : SimulatorAnswers) (fuel : Nat) :
    analyse progQubitH SemanticAnalyser.fresh = .ok SemanticAnalyser.fresh ∧
    execute answers fuel progQubitH RuntimeEvaluator.fresh = .ok RuntimeEvaluator.fresh ∧
    execute answers (fuel + 4) progMainQubitH RuntimeEvaluator.fresh =
      .ok { RuntimeEvaluator.fresh with
        m_functions := [("main", mainQubitH)],
        m_qubits := [⟨"q", false⟩],
        m_sim := [.allocateQubit, .h (answers.allocateQubit [])] } ∧
    ∀ σ : RuntimeEvaluator,
      (eval answers (fuel + 2) (some callHQ) σ).map (fun r => r.1) = .ok {} := by
  refine ⟨by decide, rfl, rfl, ?_⟩
  intro σ
  simp [eval, callHQ, asVariable, evalArguments, builtInGates, mapFind,
    RuntimeEvaluator.applyGate, dispatchGate, argumentAt, Except.map, bind, Except.bind, pure,
    Except.pure]

/-- C18 as stated fails: `execute` on the program `qubit q; h(q);` allocates no qubit and
dispatches nothing to the simulator. -/
theorem qubit_h_program_not_executed_counterexample :
    (execute countingSimulator 10 progQubitH RuntimeEvaluator.fresh).map
      (fun σ => (σ.m_qubits, σ.m_sim)) = .ok ([], []) := by
  decide

/-! ## Qubit declarations and measurements -/

theorem declaredDefault_qubit (answers : SimulatorAnswers) (σ : RuntimeEvaluator)
    (name : String) :
    declaredDefault answers σ name (some (.primitive "qubit")) =
      ({ type := .Qubit, qubit := answers.allocateQubit σ.m_sim },
        { σ with m_sim := σ.m_sim ++ [.allocateQubit],
                 m_qubits := σ.m_qubits ++ [⟨name, false⟩] }) := by
  simp [declaredDefault, RuntimeEvaluator.allocateTrackedQubit]

theorem declaredDefault_other (answers : SimulatorAnswers) (σ : RuntimeEvaluator)
    (name : String) (t : Option Ty) (h : t ≠ some (.primitive "qubit")) :
    (declaredDefault answers σ name t).2 = σ := by
  unfold declaredDefault
  split
  · rename_i typeName
    have hq : typeName ≠ "qubit" := fun he => h (by rw [he])
    split
    · rfl
    · split
      · rfl
      · split
        · rfl
        · simp [hq]
  · rfl

/-- C19 (amended): in a non-empty environment, a variable declaration whose type is the
primitive type qubit requests one index from the simulator and appends the entry
{name, measured = false} to the qubit table, leaving the earlier entries as they are, before its
initializer (if any) is evaluated; without an initializer that is all it does to the table and
the simulator, and the variable is bound in the innermost frame to a Qubit-tagged value holding
that index.  A declaration of any other type allocates nothing by itself: without an initializer
it leaves the table and the simulator unchanged, with an initializer they change only as the
evaluation of the initializer changes them. -/
theorem qubit_declaration_allocates (answers : SimulatorAnswers) (fuel : Nat)
    (node : VariableDeclaration) (σ : RuntimeEvaluator) (top : EnvFrame) (rest : List EnvFrame)
    (henv : σ.m_env = top :: rest) :
    (node.varType = some (.primitive "qubit") →
      (node.initializer = none →
        exec answers (fuel + 1) (some (.variableDeclaration node)) σ =
          .ok { σ with
            m_sim := σ.m_sim ++ [.allocateQubit],
            m_qubits := σ.m_qubits ++ [⟨node.name, false⟩],
            m_env := mapSet top node.name
              { type := .Qubit, qubit := answers.allocateQubit σ.m_sim } :: rest }) ∧
      (∀ init, node.initializer = some init →
        exec answers (fuel + 1) (some (.variableDeclaration node)) σ =
          match eval answers fuel (some init)
              { σ with m_sim := σ.m_sim ++ [.allocateQubit],
                       m_qubits := σ.m_qubits ++ [⟨node.name, false⟩] } with
          | .error f => .error f
          | .ok (v, σ2) => σ2.bindInnermost node.name v)) ∧
    (node.varType ≠ some (.primitive "qubit") →
      (node.initializer = none →
        ∃ v, exec answers (fuel + 1) (some (.variableDeclaration node)) σ =
          .ok { σ with m_env := mapSet top node.name v :: rest }) ∧
      (∀ init, node.initializer = some init →
        exec answers (fuel + 1) (some (.variableDeclaration node)) σ =
          match eval answers fuel (some init) σ with
          | .error f => .error f
          | .ok (v, σ2) => σ2.bindInnermost node.name v)) := by
  refine ⟨fun hq => ⟨?_, ?_⟩, fun hq => ⟨?_, ?_⟩⟩
  · intro hnone
    simp [exec, hq, hnone, declaredDefault_qubit, RuntimeEvaluator.bindInnermost, henv]
  · intro init hinit
    simp [exec, hq, hinit, declaredDefault_qubit]
  · intro hnone
    have h2 := declaredDefault_other answers σ node.name node.varType hq
    refine ⟨(declaredDefault answers σ node.name node.varType).1, ?_⟩
    simp [exec, hnone, h2, RuntimeEvaluator.bindInnermost, henv]
  · intro init hinit
    have h2 := declaredDefault_other answers σ node.name node.varType hq
    simp [exec, hinit, h2]

theorem qubit_declaration_allocates_witness :
    exec countingSimulator 1 (some (.variableDeclaration declQubitQ)) insideCall =
      .ok { insideCall with
        m_sim := insideCall.m_sim ++ [.allocateQubit],
        m_qubits := insideCall.m_qubits ++ [⟨declQubitQ.name, false⟩],
        m_env := mapSet [] declQubitQ.name
          { type := .Qubit, qubit := countingSimulator.allocateQubit insideCall.m_sim } :: [] } :=
  ((qubit_declaration_allocates countingSimulator 0 declQubitQ insideCall [] [] rfl).1 rfl).1 rfl

/-- C19 as stated fails: the declaration `bit b = measure q;` is not of type qubit, yet
executing it changes the qubit table: the entry of `q` goes from not measured to measured. -/
theorem bit_declaration_changes_table_counterexample :
    declBitMeasure.varType ≠ some (.primitive "qubit") ∧
    afterQubitDeclaration.m_qubits = [⟨"q", false⟩] ∧
    (exec countingSimulator 3 (some (.variableDeclaration declBitMeasure))
      afterQubitDeclaration).map (fun σ => σ.m_qubits) = .ok [⟨"q", true⟩] := by
  decide

theorem getElem?_setMeasured_self : ∀ (qs : List QubitInfo) (i : Nat) (info : QubitInfo),
    qs[i]? = some info → (setMeasured qs i)[i]? = some { info with measured := true }
  | [], _, _, h => by simp at h
  | q :: rest, 0, info, h => by
    simp only [List.getElem?_cons_zero, Option.some.injEq] at h
    subst h
    simp [setMeasured]
  | q :: rest, i + 1, info, h => by
    simp only [List.getElem?_cons_succ] at h
    simp [setMeasured, getElem?_setMeasured_self rest i info h]

theorem getElem?_setMeasured_ne : ∀ (qs : List QubitInfo) (i j : Nat),
    j ≠ i → (setMeasured qs i)[j]? = qs[j]?
  | [], _, _, _ => by simp [setMeasured]
  | q :: rest, 0, j, h => by
    cases j with
    | zero => exact absurd rfl h
    | succ j => simp [setMeasured]
  | q :: rest, i + 1, j, h => by
    cases j with
    | zero => simp [setMeasured]
    | succ j =>
      simp only [setMeasured, List.getElem?_cons_succ]
      exact getElem?_setMeasured_ne rest i j (fun he => h (by rw [he]))

theorem length_setMeasured : ∀ (qs : List QubitInfo) (i : Nat),
    (setMeasured qs i).length = qs.length
  | [], _ => rfl
  | q :: rest, 0 => rfl
  | q :: rest, i + 1 => by simp [setMeasured, length_setMeasured rest i]

theorem markMeasured_of_entry (σ : RuntimeEvaluator) (i : Nat) (info : QubitInfo)
    (hi : σ.m_qubits[i]? = some info) :
    σ.markMeasured (i : Int) = { σ with m_qubits := setMeasured σ.m_qubits i } := by
  have hlt : i < σ.m_qubits.length := by
    by_contra hge
    rw [List.getElem?_eq_none (by omega)] at hi
    cases hi
  unfold RuntimeEvaluator.markMeasured
  rw [if_pos ⟨by omega, by omega⟩]
  simp

/-- C20 (amended): let the variable `q` hold a qubit value whose index `i` is the position of an
entry of the qubit table (as a declaration of `q` leaves it when the simulator hands out the
position of the new entry as its index).  Measuring `q` by a measure statement or by a measure
expression sends one `measure(i)` to the simulator and sets the measured flag of entry `i`,
leaving the name of that entry and all other entries as they are.  The measure expression yields
the observed bit as a Bit-tagged value and records it in the measurement trace under its node;
the measure statement discards the bit and leaves the measurement trace as it was. -/
theorem measuring_marks_qubit (answers : SimulatorAnswers) (fuel : Nat) (σ : RuntimeEvaluator)
    (q : String) (i : Nat) (info : QubitInfo) (line column vline vcolumn : Nat)
    (hq : (σ.lookup q).qubit = (i : Int)) (hi : σ.m_qubits[i]? = some info) :
    exec answers (fuel + 2) (some (.measure line column (some (.variable vline vcolumn q)))) σ =
      .ok { σ with m_sim := σ.m_sim ++ [.measure i],
                   m_qubits := setMeasured σ.m_qubits i } ∧
    eval answers (fuel + 2) (some (.measure line column (some (.variable vline vcolumn q)))) σ =
      .ok ({ type := .Bit, bitValue := answers.measure σ.m_sim i },
        { σ with m_sim := σ.m_sim ++ [.measure i],
                 m_qubits := setMeasured σ.m_qubits i,
                 m_measurements := σ.m_measurements ++
                   [(.measure line column (some (.variable vline vcolumn q)),
                     answers.measure σ.m_sim i)] }) ∧
    (setMeasured σ.m_qubits i)[i]? = some { info with measured := true } ∧
    (∀ j, j ≠ i → (setMeasured σ.m_qubits i)[j]? = σ.m_qubits[j]?) ∧
    (setMeasured σ.m_qubits i).length = σ.m_qubits.length ∧
    (∀ (σ0 : RuntimeEvaluator) (top : EnvFrame) (rest : List EnvFrame) (l c : Nat) (isFin : Bool),
      σ0.m_env = top :: rest → answers.allocateQubit σ0.m_sim = (σ0.m_qubits.length : Int) →
      ∃ σ1, exec answers (fuel + 1)
          (some (.variableDeclaration ⟨l, c, q, some (.primitive "qubit"), none, isFin⟩)) σ0 =
            .ok σ1 ∧
        (σ1.lookup q).qubit = (σ0.m_qubits.length : Int) ∧
        σ1.m_qubits[σ0.m_qubits.length]? = some ⟨q, false⟩) := by
  have hm : ∀ τ : RuntimeEvaluator, τ.m_qubits = σ.m_qubits →
      τ.markMeasured (i : Int) = { τ with m_qubits := setMeasured σ.m_qubits i } := by
    intro τ hτ
    rw [markMeasured_of_entry τ i info (by rw [hτ]; exact hi), hτ]
  refine ⟨?_, ?_, getElem?_setMeasured_self _ _ _ hi, getElem?_setMeasured_ne _ _,
    length_setMeasured _ _, ?_⟩
  · simp only [exec, eval, hq, RuntimeEvaluator.simMeasure]
    rw [hm { σ with m_sim := σ.m_sim ++ [SimCall.measure (i : Int)] } rfl]
  · simp only [eval, hq, RuntimeEvaluator.simMeasure]
    rw [hm { σ with m_sim := σ.m_sim ++ [SimCall.measure (i : Int)] } rfl]
  · intro σ0 top rest l c isFin henv halloc
    refine ⟨_, ((qubit_declaration_allocates answers fuel
      ⟨l, c, q, some (.primitive "qubit"), none, isFin⟩ σ0 top rest henv).1 rfl).1 rfl, ?_, ?_⟩
    · simp [RuntimeEvaluator.lookup, findValue, mapFind_mapSet_self, halloc]
    · simp

theorem measuring_marks_qubit_witness :
    exec countingSimulator 2 (some (.measure 1 10 (some (.variable 1 18 "q"))))
        afterQubitDeclaration =
      .ok { afterQubitDeclaration with
        m_sim := afterQubitDeclaration.m_sim ++ [.measure (0 : Nat)],
        m_qubits := setMeasured afterQubitDeclaration.m_qubits 0 } ∧
    (setMeasured afterQubitDeclaration.m_qubits 0)[0]? = some ⟨"q", true⟩ :=
  have h := measuring_marks_qubit countingSimulator 0 afterQubitDeclaration "q" 0 ⟨"q", false⟩
    1 10 1 18 (by decide) (by decide)
  ⟨h.1, h.2.2.1⟩

/-- C20 as stated fails: after `qubit q;`, executing the statement `measure q;` marks the entry
of `q` measured and sends the measurement to the simulator, but records nothing in the
measurement trace. -/
theorem measure_statement_records_nothing_counterexample :
    (exec countingSimulator 2 (some (.measure 1 10 (some (.variable 1 18 "q"))))
      afterQubitDeclaration).map
        (fun σ => (σ.m_qubits, σ.m_sim, σ.m_measurements.length)) =
      .ok ([⟨"q", true⟩], [.allocateQubit, .measure 0], 0) ∧
    afterQubitDeclaration.m_measurements.length = 0 := by
  decide

/-! ## Measure statement, measure expression, reset statement -/

theorem markMeasured_fields (σ : RuntimeEvaluator) (index : Int) :
    (σ.markMeasured index).m_sim = σ.m_sim ∧
      (σ.markMeasured index).m_functions = σ.m_functions ∧
      (σ.markMeasured index).m_returnValue = σ.m_returnValue ∧
      (σ.markMeasured index).m_hasReturn = σ.m_hasReturn ∧
      (σ.markMeasured index).m_measurements = σ.m_measurements ∧
      (σ.markMeasured index).output = σ.output := by
  unfold RuntimeEvaluator.markMeasured
  split <;> exact ⟨rfl, rfl, rfl, rfl, rfl, rfl⟩

/-- C21: executing a measure statement whose operand is the bare variable `q` sends one
`measure` call with the qubit index of the value of `q` to the simulator and calls
`markMeasured` on that index (which sets the measured flag of the entry at that index when there
is one); the measurement trace, the environment, the return flag and value and the output are
as before.  Evaluating the measure expression on the same operand does the same to the
simulator and the table, appends the entry (this expression node, observed bit) to the trace
and yields a Bit-tagged value with that bit; so does a measure expression on any operand whose
evaluation returns. -/
theorem measure_statement_and_expression (answers : SimulatorAnswers) (fuel : Nat)
    (σ : RuntimeEvaluator) (q : String) (line column vline vcolumn : Nat) :
    exec answers (fuel + 2) (some (.measure line column (some (.variable vline vcolumn q)))) σ =
      .ok (RuntimeEvaluator.markMeasured
        { σ with m_sim := σ.m_sim ++ [.measure (σ.lookup q).qubit] } (σ.lookup q).qubit) ∧
    (RuntimeEvaluator.markMeasured
        { σ with m_sim := σ.m_sim ++ [.measure (σ.lookup q).qubit] }
        (σ.lookup q).qubit).m_measurements = σ.m_measurements ∧
    (RuntimeEvaluator.markMeasured
        { σ with m_sim := σ.m_sim ++ [.measure (σ.lookup q).qubit] }
        (σ.lookup q).qubit).m_sim = σ.m_sim ++ [.measure (σ.lookup q).qubit] ∧
    (RuntimeEvaluator.markMeasured
        { σ with m_sim := σ.m_sim ++ [.measure (σ.lookup q).qubit] }
        (σ.lookup q).qubit).m_env = σ.m_env ∧
    (∀ (i : Nat) (info : QubitInfo), (σ.lookup q).qubit = (i : Int) →
      σ.m_qubits[i]? = some info →
      (RuntimeEvaluator.markMeasured
        { σ with m_sim := σ.m_sim ++ [.measure (σ.lookup q).qubit] }
        (σ.lookup q).qubit).m_qubits[i]? = some { info with measured := true }) ∧
    eval answers (fuel + 2) (some (.measure line column (some (.variable vline vcolumn q)))) σ =
      .ok ({ type := .Bit, bitValue := answers.measure σ.m_sim (σ.lookup q).qubit },
        { RuntimeEvaluator.markMeasured
            { σ with m_sim := σ.m_sim ++ [.measure (σ.lookup q).qubit] } (σ.lookup q).qubit with
          m_measurements := σ.m_measurements ++
            [(.measure line column (some (.variable vline vcolumn q)),
              answers.measure σ.m_sim (σ.lookup q).qubit)] }) ∧
    (∀ (operand : Option Expression) (v : Value) (σ1 : RuntimeEvaluator),
      eval answers fuel operand σ = .ok (v, σ1) →
      eval answers (fuel + 1) (some (.measure line column operand)) σ =
        .ok ({ type := .Bit, bitValue := answers.measure σ1.m_sim v.qubit },
          { RuntimeEvaluator.markMeasured
              { σ1 with m_sim := σ1.m_sim ++ [.measure v.qubit] } v.qubit with
            m_measurements := σ1.m_measurements ++
              [(.measure line column operand, answers.measure σ1.m_sim v.qubit)] })) := by
  refine ⟨?_, ?_, ?_, ?_, ?_, ?_, ?_⟩
  · simp only [exec, eval, RuntimeEvaluator.simMeasure]
  · exact (markMeasured_fields _ _).2.2.2.2.1
  · exact (markMeasured_fields _ _).1
  · exact markMeasured_env _ _
  · intro i info hq hi
    rw [hq, markMeasured_of_entry
      { σ with m_sim := σ.m_sim ++ [SimCall.measure (i : Int)] } i info hi]
    exact getElem?_setMeasured_self _ _ _ hi
  · simp only [eval, RuntimeEvaluator.simMeasure, (markMeasured_fields _ _).2.2.2.2.1]
  · intro operand v σ1 h
    simp only [eval, h, RuntimeEvaluator.simMeasure, (markMeasured_fields _ _).2.2.2.2.1]

/-- C23: executing a reset statement returns the evaluator state it started in, unchanged in
every component, whatever the target expression is: the target is not evaluated.  With the target
`measure q` after `qubit q;`, the expression statement on that target changes the simulator, the
qubit table and the measurement trace, the reset statement changes none. -/
theorem reset_is_no_op (answers : SimulatorAnswers) (fuel : Nat) (line column : Nat)
    (target : Option Expression) (σ : RuntimeEvaluator) :
    exec answers (fuel + 1) (some (.reset line column target)) σ = .ok σ ∧
    (exec countingSimulator 3 (some (.expression 1 1 (some measureQ))) afterQubitDeclaration).map
        (fun τ => (τ.m_sim, τ.m_qubits, τ.m_measurements.length)) =
      .ok ([.allocateQubit, .measure 0], [⟨"q", true⟩], 1) ∧
    (exec countingSimulator 3 (some (.reset 1 1 (some measureQ))) afterQubitDeclaration).map
        (fun τ => (τ.m_sim, τ.m_qubits, τ.m_measurements.length)) =
      .ok ([.allocateQubit], [⟨"q", false⟩], 0) := by
  refine ⟨rfl, by decide, by decide⟩

/-! ## Binary expressions -/

theorem wrapInt_of_range (n : Int) (h1 : -2147483648 ≤ n) (h2 : n ≤ 2147483647) :
    wrapInt n = n := by
  unfold wrapInt
  rw [Int.emod_eq_of_lt (by omega) (by omega)]
  omega

theorem eval_binary (answers : SimulatorAnswers) (fuel line column : Nat)
    (op : String) (left right : Option Expression) (σ σ1 σ2 : RuntimeEvaluator) (lv rv : Value)
    (hl : eval answers fuel left σ = .ok (lv, σ1))
    (hr : eval answers fuel right σ1 = .ok (rv, σ2)) :
    eval answers (fuel + 1) (some (.binary line column op left right)) σ =
      (binaryResult op lv.intValue rv.intValue).map (fun v => (v, σ2)) := by
  simp only [eval, hl, hr]
  cases binaryResult op lv.intValue rv.intValue <;> rfl

/-- C25 (amended): when the operands of a binary expression evaluate to values with integer
fields `a` and `b`, the result is computed from `a` and `b` alone (tags and bit fields of the
operands play no part) and the state is the one after the right operand: with +, -, * it is
Int-tagged with the sum, difference, product reduced to the range of `int` (the number itself
when it is in range); with / or %, `b` non-zero and the pair not the least `int` with -1, it is
Int-tagged with the truncated quotient or remainder; with >, <, >=, <=, ==, != it is Bit-tagged
with bit field 1 if the comparison holds and 0 otherwise, and integer field 0; with any other
operator it is the default Void value. -/
theorem binary_expression_result (answers : SimulatorAnswers) (fuel line column : Nat)
    (op : String) (left right : Option Expression) (σ σ1 σ2 : RuntimeEvaluator) (lv rv : Value)
    (hl : eval answers fuel left σ = .ok (lv, σ1))
    (hr : eval answers fuel right σ1 = .ok (rv, σ2)) :
    eval answers (fuel + 1) (some (.binary line column op left right)) σ =
      (binaryResult op lv.intValue rv.intValue).map (fun v => (v, σ2)) ∧
    (∀ a b : Int,
      binaryResult "+" a b = .ok { type := .Int, intValue := wrapInt (a + b) } ∧
      binaryResult "-" a b = .ok { type := .Int, intValue := wrapInt (a - b) } ∧
      binaryResult "*" a b = .ok { type := .Int, intValue := wrapInt (a * b) } ∧
      (b ≠ 0 → ¬ (a = -2147483648 ∧ b = -1) →
        binaryResult "/" a b = .ok { type := .Int, intValue := Int.tdiv a b } ∧
        binaryResult "%" a b = .ok { type := .Int, intValue := Int.tmod a b }) ∧
      binaryResult ">" a b = .ok { type := .Bit, bitValue := if a > b then 1 else 0 } ∧
      binaryResult "<" a b = .ok { type := .Bit, bitValue := if a < b then 1 else 0 } ∧
      binaryResult ">=" a b = .ok { type := .Bit, bitValue := if a ≥ b then 1 else 0 } ∧
      binaryResult "<=" a b = .ok { type := .Bit, bitValue := if a ≤ b then 1 else 0 } ∧
      binaryResult "==" a b = .ok { type := .Bit, bitValue := if a = b then 1 else 0 } ∧
      binaryResult "!=" a b = .ok { type := .Bit, bitValue := if a ≠ b then 1 else 0 } ∧
      (∀ other, other ∉ ["+", "-", "*", "/", "%", ">", "<", ">=", "<=", "==", "!="] →
        binaryResult other a b = .ok {})) ∧
    (∀ n : Int, -2147483648 ≤ n → n ≤ 2147483647 → wrapInt n = n) := by
  refine ⟨eval_binary answers fuel line column op left right σ σ1 σ2 lv rv hl hr, ?_,
    wrapInt_of_range⟩
  · intro a b
    refine ⟨by simp [binaryResult], by simp [binaryResult], by simp [binaryResult], ?_,
      ?_, ?_, ?_, ?_, ?_, ?_, ?_⟩
    · intro hb hmin
      have hcond : ¬ (b = 0 ∨ (a = -2147483648 ∧ b = -1)) := by
        rintro (h | h)
        · exact hb h
        · exact hmin h
      constructor
      · simp [binaryResult, hcond]
      · simp [binaryResult, hcond]
    · by_cases h : a > b <;> simp [binaryResult, boolToInt, h]
    · by_cases h : a < b <;> simp [binaryResult, boolToInt, h]
    · by_cases h : a ≥ b <;> simp [binaryResult, boolToInt, h]
    · by_cases h : a ≤ b <;> simp [binaryResult, boolToInt, h]
    · by_cases h : a = b <;> simp [binaryResult, boolToInt, h]
    · by_cases h : a = b <;> simp [binaryResult, boolToInt, h]
    · intro other hother
      simp only [List.mem_cons, List.mem_singleton, List.not_mem_nil, or_false, not_or] at hother
      obtain ⟨h1, h2, h3, h4, h5, h6, h7, h8, h9, h10, h11⟩ := hother
      simp [binaryResult, h1, h2, h3, h4, h5, h6, h7, h8, h9, h10, h11]

theorem binary_expression_result_witness :
    (eval countingSimulator 3 (some (.binary 1 3 "/" (some (intLit "7")) (some (intLit "2"))))
        insideCall).map (fun r => r.1) = .ok { type := .Int, intValue := 3 } ∧
    (eval countingSimulator 3 (some oneLessThanTwo) insideCall).map (fun r => r.1) =
      .ok { type := .Bit, bitValue := 1 } ∧
    eval countingSimulator 3 (some (.binary 1 3 "^" (some (intLit "7")) (some (intLit "2"))))
        insideCall =
      (binaryResult "^" ({ type := .Int, intValue := 7 } : Value).intValue
        ({ type := .Int, intValue := 2 } : Value).intValue).map (fun v => (v, insideCall)) :=
  ⟨by decide, by decide,
    (binary_expression_result countingSimulator 2 1 3 "^" (some (intLit "7")) (some (intLit "2"))
      insideCall insideCall insideCall _ _ rfl rfl).1⟩

/-- C25 as stated fails: in `(0 - 2147483647 - 1) / (0 - 1)` the right operand is -1, not zero,
and the left operand is the least `int`; the quotient is no `int` and the division is undefined,
so the evaluation yields no Int-tagged value. -/
theorem division_of_least_int_counterexample :
    (eval countingSimulator 5 (some (.binary 1 16 "-"
        (some (.binary 1 4 "-" (some (intLit "0")) (some (intLit "2147483647"))))
        (some (intLit "1")))) insideCall).map (fun r => r.1) =
      .ok { type := .Int, intValue := -2147483648 } ∧
    (eval countingSimulator 5 (some (.binary 1 27 "-" (some (intLit "0")) (some (intLit "1"))))
        insideCall).map (fun r => r.1) = .ok { type := .Int, intValue := -1 } ∧
    (eval countingSimulator 5 (some leastIntDividedByMinusOne) insideCall).map (fun r => r.1) =
      .error .undefinedBehaviour := by
  decide

/-! ## Integer field of comparisons and measurements -/

theorem comparison_or_measure_value (answers : SimulatorAnswers) (fuel : Nat) (e : Expression)
    (σ σ' : RuntimeEvaluator) (v : Value)
    (h : eval answers fuel (some e) σ = .ok (v, σ')) (he : isComparisonOrMeasure e = true) :
    v.intValue = 0 ∧ v.type = .Bit := by
  cases fuel with
  | zero => simp [eval] at h
  | succ k =>
    cases e with
    | binary l c op left right =>
      simp only [isComparisonOrMeasure, decide_eq_true_eq, List.mem_cons, List.mem_singleton,
        List.not_mem_nil, or_false] at he
      simp only [eval] at h
      split at h
      · cases h
      · split at h
        · cases h
        · split at h
          · cases h
          · rename_i res hres
            cases h
            rcases he with rfl | rfl | rfl | rfl | rfl | rfl <;>
              · simp only [binaryResult, String.reduceEq, ↓reduceIte, Except.ok.injEq] at hres
                subst hres
                exact ⟨rfl, rfl⟩
    | measure l c q =>
      simp only [eval] at h
      split at h
      · cases h
      · cases h
        exact ⟨rfl, rfl⟩
    | literal _ _ _ _ => simp [isComparisonOrMeasure] at he
    | «variable» _ _ _ => simp [isComparisonOrMeasure] at he
    | unary _ _ _ _ => simp [isComparisonOrMeasure] at he
    | call _ _ _ _ => simp [isComparisonOrMeasure] at he
    | index _ _ _ _ => simp [isComparisonOrMeasure] at he
    | parenthesized _ _ _ => simp [isComparisonOrMeasure] at he
    | assignment _ _ _ _ => simp [isComparisonOrMeasure] at he
    | constructorCall _ _ _ _ => simp [isComparisonOrMeasure] at he
    | memberAccess _ _ _ _ => simp [isComparisonOrMeasure] at he

/-- C30: a value produced by a comparison or by a measure expression is Bit-tagged with integer
field 0, whatever its bit field.  So when `c1` and `c2` are comparisons or measure expressions
whose evaluations return, `c1 == c2` evaluates to the bit 1 and `c1 == 1` evaluates to the
bit 0, whatever the outcomes of `c1` and `c2` are. -/
theorem comparison_results_have_zero_int (answers : SimulatorAnswers) (fuel : Nat)
    (c1 c2 : Expression) (σ σ1 σ2 : RuntimeEvaluator) (v1 v2 : Value)
    (line column lline lcolumn : Nat) (literalType : String)
    (hc1 : isComparisonOrMeasure c1 = true) (hc2 : isComparisonOrMeasure c2 = true)
    (h1 : eval answers fuel (some c1) σ = .ok (v1, σ1))
    (h2 : eval answers fuel (some c2) σ1 = .ok (v2, σ2)) :
    v1.intValue = 0 ∧ v2.intValue = 0 ∧
    eval answers (fuel + 1) (some (.binary line column "==" (some c1) (some c2))) σ =
      .ok ({ type := .Bit, bitValue := 1 }, σ2) ∧
    eval answers (fuel + 1) (some (.binary line column "==" (some c1)
        (some (.literal lline lcolumn "1" literalType)))) σ =
      .ok ({ type := .Bit, bitValue := 0 }, σ1) := by
  have hv1 := (comparison_or_measure_value answers fuel c1 σ σ1 v1 h1 hc1).1
  have hv2 := (comparison_or_measure_value answers fuel c2 σ1 σ2 v2 h2 hc2).1
  refine ⟨hv1, hv2, ?_, ?_⟩
  · rw [eval_binary answers fuel line column "==" _ _ σ σ1 σ2 v1 v2 h1 h2, hv1, hv2]
    rfl
  · cases fuel with
    | zero => simp [eval] at h1
    | succ k =>
      have hs : stoi "1" = .ok 1 := by decide
      have hlit : ∃ v : Value, eval answers (k + 1)
          (some (.literal lline lcolumn "1" literalType)) σ1 = .ok (v, σ1) ∧ v.intValue = 1 := by
        by_cases hb : literalType = "bit"
        · exact ⟨_, by simp only [eval, hs, hb]; rfl, rfl⟩
        · exact ⟨_, by simp only [eval, hs, hb]; rfl, rfl⟩
      obtain ⟨v, hv, hvi⟩ := hlit
      rw [eval_binary answers (k + 1) line column "==" _ _ σ σ1 σ1 v1 v h1 hv, hv1, hvi]
      rfl

theorem comparison_results_have_zero_int_witness :
    isComparisonOrMeasure measureQ = true ∧ isComparisonOrMeasure oneLessThanTwo = true ∧
    countingSimulator.measure afterQubitDeclaration.m_sim 0 = 1 ∧
    eval countingSimulator 4 (some (.binary 1 11 "==" (some measureQ) (some oneLessThanTwo)))
        afterQubitDeclaration =
      .ok ({ type := .Bit, bitValue := 1 },
        { RuntimeEvaluator.markMeasured
            { afterQubitDeclaration with
              m_sim := afterQubitDeclaration.m_sim ++ [.measure 0] } 0 with
          m_measurements := afterQubitDeclaration.m_measurements ++ [(measureQ, 1)] }) ∧
    eval countingSimulator 4 (some (.binary 1 11 "==" (some measureQ)
        (some (.literal 1 1 "1" "int")))) afterQubitDeclaration =
      .ok ({ type := .Bit, bitValue := 0 },
        { RuntimeEvaluator.markMeasured
            { afterQubitDeclaration with
              m_sim := afterQubitDeclaration.m_sim ++ [.measure 0] } 0 with
          m_measurements := afterQubitDeclaration.m_measurements ++ [(measureQ, 1)] }) :=
  ⟨rfl, rfl, rfl,
    (comparison_results_have_zero_int countingSimulator 3 measureQ oneLessThanTwo
      afterQubitDeclaration _ _ { type := .Bit, bitValue := 1 } { type := .Bit, bitValue := 1 }
      1 11 1 1 "int" rfl rfl rfl rfl).2.2⟩

/-! ## Stacks of frames -/

theorem findValue_eq_findInnermost (env : List EnvFrame) (name : String) :
    findValue env name = findInnermost env name := by
  induction env with
  | nil => rfl
  | cons frame rest ih =>
    simp only [findValue, findInnermost, ih]
    cases mapFind frame name <;> rfl

theorem findVariable_eq_findInnermost (frames : List Frame) (name : String) :
    findVariable frames name = findInnermost frames name := by
  induction frames with
  | nil => rfl
  | cons frame rest ih =>
    simp only [findVariable, findInnermost, ih]
    cases mapFind frame name <;> rfl

theorem findSymbol_eq_findInnermost (frames : List (List (String × SymbolInfo)))
    (name : String) : findSymbol frames name = findInnermost frames name := by
  induction frames with
  | nil => rfl
  | cons frame rest ih =>
    simp only [findSymbol, findInnermost, ih]
    cases mapFind frame name <;> rfl

theorem findInnermost_eq_none_iff {β : Type} (frames : List (List (String × β)))
    (name : String) :
    findInnermost frames name = none ↔ ∀ f ∈ frames, mapFind f name = none := by
  induction frames with
  | nil => simp [findInnermost]
  | cons frame rest ih =>
    cases h : mapFind frame name with
    | none => simp [findInnermost, h, ih]
    | some b => simp [findInnermost, h]

theorem findInnermost_isSome_iff {β : Type} (frames : List (List (String × β)))
    (name : String) :
    (findInnermost frames name).isSome = true ↔
      ∃ f ∈ frames, (mapFind f name).isSome = true := by
  induction frames with
  | nil => simp [findInnermost]
  | cons frame rest ih =>
    cases h : mapFind frame name with
    | none => simp [findInnermost, h, ih]
    | some b => simp [findInnermost, h]

theorem findInnermost_of_innermost {β : Type} (pre : List (List (String × β)))
    (frame : List (String × β)) (post : List (List (String × β))) (name : String)
    (hpre : ∀ f ∈ pre, mapFind f name = none) :
    findInnermost (pre ++ frame :: post) name =
      match mapFind frame name with
      | some b => some b
      | none => findInnermost post name := by
  induction pre with
  | nil => rfl
  | cons f rest ih =>
    have hf : mapFind f name = none := hpre f (List.mem_cons_self _ _)
    simp only [List.cons_append, findInnermost, hf]
    exact ih (fun g hg => hpre g (List.mem_cons_of_mem _ hg))

theorem findInnermost_other {β : Type} (pre : List (List (String × β)))
    (frame : List (String × β)) (post : List (List (String × β))) (name other : String) (b : β)
    (h : other ≠ name) :
    findInnermost (pre ++ mapSet frame name b :: post) other =
      findInnermost (pre ++ frame :: post) other := by
  induction pre with
  | nil => simp only [List.nil_append, findInnermost, mapFind_mapSet_ne frame name other b h]
  | cons f rest ih =>
    show (match mapFind f other with
      | some b => some b
      | none => findInnermost (rest ++ mapSet frame name b :: post) other) = _
    rw [ih]
    rfl

theorem innermost_exists {β : Type} (frames : List (List (String × β))) (name : String) :
    (∀ f ∈ frames, mapFind f name = none) ∨
      ∃ pre frame post, InnermostWith frames pre frame post name := by
  induction frames with
  | nil => exact Or.inl (by simp)
  | cons frame rest ih =>
    cases h : mapFind frame name with
    | some b => exact Or.inr ⟨[], frame, rest, rfl, by simp, by simp [h]⟩
    | none =>
      rcases ih with hnone | ⟨pre, fr, post, heq, hpre, hfr⟩
      · left
        intro f hf
        rcases List.mem_cons.mp hf with rfl | hf
        · exact h
        · exact hnone f hf
      · right
        refine ⟨frame :: pre, fr, post, by rw [heq]; rfl, ?_, hfr⟩
        intro f hf
        rcases List.mem_cons.mp hf with rfl | hf
        · exact h
        · exact hpre f hf

theorem assignFrames_of_innermost (pre : List EnvFrame) (frame : EnvFrame)
    (post : List EnvFrame) (name : String) (v : Value)
    (hpre : ∀ f ∈ pre, mapFind f name = none) (hframe : (mapFind frame name).isSome = true) :
    assignFrames (pre ++ frame :: post) name v = some (pre ++ mapSet frame name v :: post) := by
  induction pre with
  | nil => simp [assignFrames, hframe]
  | cons f rest ih =>
    have hf : mapFind f name = none := hpre f (List.mem_cons_self _ _)
    simp [assignFrames, hf, ih (fun g hg => hpre g (List.mem_cons_of_mem _ hg))]

theorem assignFrames_of_unbound (env : List EnvFrame) (name : String) (v : Value)
    (h : ∀ f ∈ env, mapFind f name = none) : assignFrames env name v = none := by
  induction env with
  | nil => rfl
  | cons f rest ih =>
    have hf : mapFind f name = none := h f (List.mem_cons_self _ _)
    simp [assignFrames, hf, ih (fun g hg => h g (List.mem_cons_of_mem _ hg))]

/-! ## Runtime environment -/

/-- C24: for every non-empty runtime environment, name `n` and value `v`, `assign(n, v)`
returns; afterwards `lookup(n)` is `v`, `lookup` of every other name is what it was, and the
number of frames is unchanged; no other component of the state changes.  If `n` was bound in
some frame, exactly the innermost frame binding `n` is replaced, by the same frame with `n`
set to `v`; otherwise `n` is set in the innermost frame.  `lookup` of a name bound in no frame
is the default Void value. -/
theorem assign_then_lookup (σ : RuntimeEvaluator) (n : String) (v : Value)
    (hne : σ.m_env ≠ []) :
    ∃ σ', σ.assign n v = .ok σ' ∧ σ' = { σ with m_env := σ'.m_env } ∧
      σ'.lookup n = v ∧
      (∀ other, other ≠ n → σ'.lookup other = σ.lookup other) ∧
      σ'.m_env.length = σ.m_env.length ∧
      (∀ pre frame post, InnermostWith σ.m_env pre frame post n →
        σ'.m_env = pre ++ mapSet frame n v :: post) ∧
      ((∀ f ∈ σ.m_env, mapFind f n = none) →
        ∀ top rest, σ.m_env = top :: rest → σ'.m_env = mapSet top n v :: rest) ∧
      (∀ (frame : EnvFrame) (other : String),
        mapFind (mapSet frame n v) n = some v ∧
        (other ≠ n → mapFind (mapSet frame n v) other = mapFind frame other)) ∧
      (∀ (τ : RuntimeEvaluator) (name : String),
        (∀ f ∈ τ.m_env, mapFind f name = none) → τ.lookup name = {}) := by
  have hmap : ∀ (frame : EnvFrame) (other : String),
      mapFind (mapSet frame n v) n = some v ∧
      (other ≠ n → mapFind (mapSet frame n v) other = mapFind frame other) :=
    fun frame other => ⟨mapFind_mapSet_self frame n v, mapFind_mapSet_ne frame n other v⟩
  have hdefault : ∀ (τ : RuntimeEvaluator) (name : String),
      (∀ f ∈ τ.m_env, mapFind f name = none) → τ.lookup name = {} := by
    intro τ name h
    have : findValue τ.m_env name = none := by
      rw [findValue_eq_findInnermost]
      exact (findInnermost_eq_none_iff _ _).mpr h
    simp [RuntimeEvaluator.lookup, this]
  rcases innermost_exists σ.m_env n with hnone | ⟨pre, frame, post, heq, hpre, hframe⟩
  · obtain ⟨top, rest, henv⟩ := List.exists_cons_of_ne_nil hne
    · have hassign : assignFrames σ.m_env n v = none := assignFrames_of_unbound _ _ _ hnone
      refine ⟨{ σ with m_env := mapSet top n v :: rest }, ?_, rfl, ?_, ?_, ?_, ?_, ?_, hmap,
        hdefault⟩
      · have hassign' := hassign
        rw [henv] at hassign'
        simp only [RuntimeEvaluator.assign, RuntimeEvaluator.bindInnermost, henv, hassign']
      · simp [RuntimeEvaluator.lookup, findValue, mapFind_mapSet_self]
      · intro other ho
        simp [RuntimeEvaluator.lookup, findValue, henv, mapFind_mapSet_ne top n other v ho]
      · simp [henv]
      · rintro pre frame post ⟨heq, hpre, hframe⟩
        have hf : mapFind frame n = none := hnone frame (by rw [heq]; simp)
        simp [hf] at hframe
      · intro _ top' rest' h'
        rw [henv] at h'
        cases h'
        rfl
  · have hassign : assignFrames σ.m_env n v = some (pre ++ mapSet frame n v :: post) := by
      rw [heq]
      exact assignFrames_of_innermost pre frame post n v hpre hframe
    refine ⟨{ σ with m_env := pre ++ mapSet frame n v :: post }, ?_, rfl, ?_, ?_, ?_, ?_, ?_,
      hmap, hdefault⟩
    · simp [RuntimeEvaluator.assign, hassign]
    · simp only [RuntimeEvaluator.lookup, findValue_eq_findInnermost,
        findInnermost_of_innermost pre _ post n hpre, mapFind_mapSet_self]
    · intro other ho
      simp only [RuntimeEvaluator.lookup, findValue_eq_findInnermost, heq,
        findInnermost_other pre frame post n other v ho]
    · simp [heq]
    · rintro pre' frame' post' ⟨heq', hpre', hframe'⟩
      have := assignFrames_of_innermost pre' frame' post' n v hpre' hframe'
      rw [← heq', hassign] at this
      exact Option.some.inj this
    · intro hnone
      have hf : mapFind frame n = none := hnone frame (by rw [heq]; simp)
      simp [hf] at hframe

theorem assign_then_lookup_witness :
    RuntimeEvaluator.assign twoFrames "b" { type := .Int, intValue := 9 } =
        .ok { twoFrames with
          m_env := [[("a", { type := .Int, intValue := 1 })],
            [("a", { type := .Int, intValue := 2 }), ("b", { type := .Int, intValue := 9 })]] } ∧
    ∃ σ', RuntimeEvaluator.assign twoFrames "b" { type := .Int, intValue := 9 } = .ok σ' ∧
      σ'.lookup "b" = { type := .Int, intValue := 9 } ∧
      σ'.lookup "a" = twoFrames.lookup "a" ∧ σ'.m_env.length = 2 :=
  ⟨rfl,
    have h := assign_then_lookup twoFrames "b" { type := .Int, intValue := 9 }
      (by simp [twoFrames])
    h.elim fun σ' hσ => ⟨σ', hσ.1, hσ.2.2.1, hσ.2.2.2.1 "a" (by decide), hσ.2.2.2.2.1⟩⟩

/-! ## Scope stack queries -/

/-- C27: for every scope stack and name, `isDeclared(name)` is true if and only if some frame
on the stack contains the name; `isFinal` and the type query return the metadata of the
innermost frame containing the name, and false / the empty type name (`SemanticAnalyser`) or
`Unknown` (`SymbolTable`) when no frame contains it; `declare` replaces the top frame by the
same frame with the name set to the new metadata (the name then maps to it, every other name
maps to what it did), touches no other frame, and is a no-op on an empty stack.  Stated for the
scope stack of `SemanticAnalyser` and for `SymbolTable`, and evaluated on a stack of two
frames. -/
theorem scope_stack_queries (s : SemanticAnalyser) (t : SymbolTable) (name : String) :
    ((isDeclared s name = true ↔ ∃ f ∈ s.m_scopes, (mapFind f name).isSome = true) ∧
      (∀ pre frame post info, InnermostWith s.m_scopes pre frame post name →
        mapFind frame name = some info →
        isFinal s name = info.isFinal ∧ getVariableType s name = info.typeName) ∧
      ((∀ f ∈ s.m_scopes, mapFind f name = none) →
        isFinal s name = false ∧ getVariableType s name = "") ∧
      (∀ fin ty top rest, s.m_scopes = top :: rest →
        declare s name fin ty = { s with m_scopes := mapSet top name ⟨fin, ty⟩ :: rest }) ∧
      (∀ fin ty, s.m_scopes = [] → declare s name fin ty = s)) ∧
    ((t.isDeclared name = true ↔ ∃ f ∈ t.m_scopes, (mapFind f name).isSome = true) ∧
      (∀ pre frame post info, InnermostWith t.m_scopes pre frame post name →
        mapFind frame name = some info →
        t.isFinal name = info.isFinal ∧ t.getType name = info.type) ∧
      ((∀ f ∈ t.m_scopes, mapFind f name = none) →
        t.isFinal name = false ∧ t.getType name = .Unknown) ∧
      (∀ fin ty custom top rest, t.m_scopes = top :: rest →
        t.declare name fin ty custom =
          { t with m_scopes := mapSet top name ⟨fin, ty, custom⟩ :: rest }) ∧
      (∀ fin ty custom, t.m_scopes = [] → t.declare name fin ty custom = t)) ∧
    (∀ (β : Type) (frame : List (String × β)) (b : β) (other : String),
      mapFind (mapSet frame name b) name = some b ∧
      (other ≠ name → mapFind (mapSet frame name b) other = mapFind frame other)) ∧
    (isDeclared twoScopes "a" = true ∧ isFinal twoScopes "a" = true ∧
      getVariableType twoScopes "a" = "int" ∧ isFinal twoScopes "b" = false ∧
      getVariableType twoScopes "b" = "bit" ∧ isDeclared twoScopes "c" = false ∧
      (declare twoScopes "b" true "int").m_scopes =
        [[("a", ⟨true, "int"⟩), ("b", ⟨true, "int"⟩)],
          [("a", ⟨false, "bit"⟩), ("b", ⟨false, "bit"⟩)]] ∧
      twoSymbolScopes.isFinal "a" = true ∧ twoSymbolScopes.getType "a" = .Int ∧
      twoSymbolScopes.getType "b" = .Bit ∧ twoSymbolScopes.getType "c" = .Unknown ∧
      twoSymbolScopes.declare "a" false .Qubit "" =
        { m_scopes := [[("a", ⟨false, .Qubit, ""⟩)],
          [("a", ⟨false, .Bit, ""⟩), ("b", ⟨false, .Bit, ""⟩)]] }) := by
  refine ⟨⟨?_, ?_, ?_, ?_, ?_⟩, ⟨?_, ?_, ?_, ?_, ?_⟩, ?_, by decide⟩
  · rw [isDeclared, findVariable_eq_findInnermost]
    exact findInnermost_isSome_iff _ _
  · rintro pre frame post info ⟨heq, hpre, -⟩ hinfo
    have : findVariable s.m_scopes name = some info := by
      rw [findVariable_eq_findInnermost, heq, findInnermost_of_innermost pre frame post name hpre,
        hinfo]
    simp [isFinal, getVariableType, this]
  · intro h
    have : findVariable s.m_scopes name = none := by
      rw [findVariable_eq_findInnermost]
      exact (findInnermost_eq_none_iff _ _).mpr h
    simp [isFinal, getVariableType, this]
  · intro fin ty top rest h
    simp only [declare, h]
  · intro fin ty h
    simp only [declare, h]
  · rw [SymbolTable.isDeclared, findSymbol_eq_findInnermost]
    exact findInnermost_isSome_iff _ _
  · rintro pre frame post info ⟨heq, hpre, -⟩ hinfo
    have : findSymbol t.m_scopes name = some info := by
      rw [findSymbol_eq_findInnermost, heq, findInnermost_of_innermost pre frame post name hpre,
        hinfo]
    simp [SymbolTable.isFinal, SymbolTable.getType, this]
  · intro h
    have : findSymbol t.m_scopes name = none := by
      rw [findSymbol_eq_findInnermost]
      exact (findInnermost_eq_none_iff _ _).mpr h
    simp [SymbolTable.isFinal, SymbolTable.getType, this]
  · intro fin ty custom top rest h
    simp only [SymbolTable.declare, h]
  · intro fin ty custom h
    simp only [SymbolTable.declare, h]
  · intro β frame b other
    exact ⟨mapFind_mapSet_self frame name b, mapFind_mapSet_ne frame name other b⟩

/-! ## Arguments whose type is not compared -/

theorem visitExpressionList_error_of_argument (s : SemanticAnalyser) (err : BlochRuntimeError) :
    ∀ (args : List Expression) (i : Nat) (arg : Expression), args[i]? = some arg →
      (∀ (j : Nat) (a : Expression), j < i → args[j]? = some a → visitExpression s a = .ok ()) →
      visitExpression s arg = .error err → visitExpressionList s args = .error err
  | [], _, _, h, _, _ => by simp at h
  | a0 :: rest, 0, arg, h, _, herr => by
    simp only [List.getElem?_cons_zero, Option.some.injEq] at h
    subst h
    simp [visitExpressionList, herr, Check.andThen]
  | a0 :: rest, i + 1, arg, h, hbefore, herr => by
    simp only [List.getElem?_cons_succ] at h
    have h0 : visitExpression s a0 = .ok () := hbefore 0 a0 (by omega) (by simp)
    have ih := visitExpressionList_error_of_argument s err rest i arg h
      (fun j a hj ha => hbefore (j + 1) a (by omega) (by simpa using ha)) herr
    simp [visitExpressionList, h0, ih, Check.andThen]

theorem not_mismatch_of_not_compared (s : SemanticAnalyser) (t : String) (arg : Expression)
    (h : typeNotCompared s t arg = true) : t = "" ∨ argumentMismatch s t arg = false := by
  by_cases ht : t = ""
  · exact Or.inl ht
  · right
    cases arg <;> simp_all [typeNotCompared, argumentMismatch]

/-- C26: in a call with the correct argument count, let argument `i` be neither a bare variable
nor a literal, or let the expected parameter type name, the variable's declared type name or
the literal's type tag be empty.  Then no argument-type error is raised for position `i`: the
position is skipped or its check passes, and any error of the loop over the arguments is the
error of another position whose argument does not fit.  The argument is still visited: the
visit of the call runs the checks of the call (which, the name being declared and the count
correct, are the loop over the arguments) and then visits every argument, so when the checks
pass and the arguments before `i` are accepted, an error of the visit of argument `i`
is the error of the call. -/
theorem unchecked_argument_position (s : SemanticAnalyser) (f : String)
    (line column vline vcolumn : Nat) (args : List Expression) (i : Nat) (t : String)
    (arg : Expression)
    (hcount : getFunctionParamCount s f = args.length)
    (ht : (getFunctionParamTypes s f)[i]? = some t)
    (harg : args[i]? = some arg)
    (hskip : typeNotCompared s t arg = true) :
    (t = "" ∨ checkArgumentType s f i t arg = .ok ()) ∧
    (∀ err, checkArgumentTypes s f 0 args (getFunctionParamTypes s f) = .error err →
      ∃ (j : Nat) (tj : String) (aj : Expression), j ≠ i ∧ args[j]? = some aj ∧
        (getFunctionParamTypes s f)[j]? = some tj ∧ tj ≠ "" ∧
        argumentMismatch s tj aj = true ∧
        err = semanticError aj.position.1 aj.position.2 (argumentTypeMessage j f tj)) ∧
    visitExpression s (.call line column (some (.variable vline vcolumn f)) args) =
      (checkCall s line column vline vcolumn f args).andThen (visitExpressionList s args) ∧
    (isDeclared s f = true ∨ isFunctionDeclared s f = true →
      checkCall s line column vline vcolumn f args =
        checkArgumentTypes s f 0 args (getFunctionParamTypes s f)) ∧
    (checkCall s line column vline vcolumn f args = .ok () →
      (∀ (j : Nat) (a : Expression), j < i → args[j]? = some a →
        visitExpression s a = .ok ()) →
      ∀ err, visitExpression s arg = .error err →
        visitExpression s (.call line column (some (.variable vline vcolumn f)) args) =
          .error err) := by
  have hfit := not_mismatch_of_not_compared s t arg hskip
  refine ⟨?_, ?_, ?_, ?_, ?_⟩
  · rcases hfit with h | h
    · exact Or.inl h
    · right
      simp [checkArgumentType_eq, h]
  · intro err herr
    obtain ⟨j, tj, aj, haj, htj, hne, hmj, he⟩ :=
      checkArgumentTypes_error_position s f args _ 0 err herr
    rw [Nat.zero_add] at he
    refine ⟨j, tj, aj, ?_, haj, htj, hne, hmj, he⟩
    rintro rfl
    rw [harg] at haj
    rw [ht] at htj
    cases haj
    cases htj
    rcases hfit with h | h
    · exact hne h
    · rw [h] at hmj
      cases hmj
  · simp only [visitExpression, asVariable]
  · intro hdecl
    have hnot : (!isDeclared s f && !isFunctionDeclared s f) = false := by
      rcases hdecl with h | h <;> simp [h]
    simp [checkCall, hnot, hcount]
  · intro hcheck hbefore err herr
    have := visitExpressionList_error_of_argument s err args i arg harg hbefore herr
    simp only [visitExpression, asVariable, hcheck, this, Check.andThen]

theorem unchecked_argument_position_witness :
    visitExpression afterQubitQ callRxParenthesized = .ok () ∧
    visitExpression afterQubitQ callRxUndeclared =
      .error (semanticError 1 17 "Variable 'y' not declared") :=
  ⟨by decide,
    (unchecked_argument_position afterQubitQ "rx" 1 12 1 10
      [.variable 1 13 "q", .parenthesized 1 16 (some (.variable 1 17 "y"))] 1 "float"
      (.parenthesized 1 16 (some (.variable 1 17 "y"))) rfl rfl rfl rfl).2.2.2.2
      (by decide)
      (fun j a hj ha => by
        have hj0 : j = 0 := by omega
        subst hj0
        simp only [List.getElem?_cons_zero, Option.some.injEq] at ha
        subst ha
        decide)
      _ rfl⟩

/-! ## Scope stack discipline -/

theorem visitBody_ok (body : Option (List Statement)) (s s' : SemanticAnalyser)
    (h : visitBody body s = .ok s') : s' = s := by
  cases body with
  | none =>
    rw [visitBody] at h
    cases h
    rfl
  | some statements =>
    rw [visitBody, outcome_andThen_eq_ok] at h
    obtain ⟨s1, h1, h2⟩ := h
    have := visitStatementList_extends statements _ _ h1
    cases h2
    exact endScope_of_extends_beginScope this

theorem visitFunctionDeclaration_scopes (node : FunctionDeclaration) (s s' : SemanticAnalyser)
    (h : visitFunctionDeclaration node s = .ok s') :
    s'.m_scopes = s.m_scopes ∧ s'.m_functions = s.m_functions := by
  unfold visitFunctionDeclaration at h
  split at h
  · cases h
  · simp only at h
    rw [outcome_andThen_eq_ok] at h
    obtain ⟨s2, h2, h⟩ := h
    rw [outcome_andThen_eq_ok] at h
    obtain ⟨s3, h3, h⟩ := h
    have hs3 := visitBody_ok _ _ _ h3
    obtain ⟨hf, _, _, _, ht, _⟩ := declareParams_extends _ _ _ h2
    cases h
    subst hs3
    exact ⟨by simpa [endScope, beginScope] using ht, by simpa [endScope, beginScope] using hf⟩

theorem visitFunctions_scopes : ∀ (fns : List FunctionDeclaration) (s s' : SemanticAnalyser),
    visitFunctions fns s = .ok s' → s'.m_scopes = s.m_scopes
  | [], s, s', h => by
    rw [visitFunctions] at h
    cases h
    rfl
  | fn :: rest, s, s', h => by
    rw [visitFunctions, outcome_andThen_eq_ok] at h
    obtain ⟨s1, h1, h2⟩ := h
    rw [visitFunctions_scopes rest s1 s' h2, (visitFunctionDeclaration_scopes fn s s1 h1).1]

theorem hoistFunctions_scopes : ∀ (fns : List FunctionDeclaration) (s s' : SemanticAnalyser),
    hoistFunctions fns s = .ok s' → s'.m_scopes = s.m_scopes
  | [], s, s', h => by
    rw [hoistFunctions] at h
    cases h
    rfl
  | fn :: rest, s, s', h => by
    rw [hoistFunctions] at h
    split at h
    · cases h
    · exact hoistFunctions_scopes rest (declareFunction s fn.name) s' h

theorem SameBelow.same (s : SemanticAnalyser) : SameBelow s s := ⟨Eq.refl _, Eq.refl _⟩

theorem SameBelow.step {a b c : SemanticAnalyser} (h1 : SameBelow a b) (h2 : SameBelow b c) :
    SameBelow a c := ⟨h2.1.trans h1.1, h2.2.trans h1.2⟩

theorem SameBelow.of_extends {s s' : SemanticAnalyser} (h : Extends s s') : SameBelow s s' :=
  ⟨h.2.2.2.1, h.2.2.2.2.1⟩

theorem SameBelow.of_scopes_eq {s s' : SemanticAnalyser} (h : s'.m_scopes = s.m_scopes) :
    SameBelow s s' := ⟨by rw [h], by rw [h]⟩

theorem visitMembers_sameBelow : ∀ (members : List VariableDeclaration)
    (s s' : SemanticAnalyser), visitMembers members s = .ok s' → SameBelow s s'
  | [], s, s', h => by
    rw [visitMembers] at h
    cases h
    exact SameBelow.same s
  | member :: rest, s, s', h => by
    rw [visitMembers, outcome_andThen_eq_ok] at h
    obtain ⟨s1, h1, h2⟩ := h
    exact (SameBelow.of_extends (visitVariableDeclaration_extends member s s1 h1)).step
      (visitMembers_sameBelow rest s1 s' h2)

theorem visitClasses_sameBelow : ∀ (classes : List ClassDeclaration) (s s' : SemanticAnalyser),
    visitClasses classes s = .ok s' → SameBelow s s'
  | [], s, s', h => by
    rw [visitClasses] at h
    cases h
    exact SameBelow.same s
  | cls :: rest, s, s', h => by
    rw [visitClasses, outcome_andThen_eq_ok] at h
    obtain ⟨s1, h1, h2⟩ := h
    rw [visitClassDeclaration, outcome_andThen_eq_ok] at h1
    obtain ⟨s0, h0, h1⟩ := h1
    exact ((visitMembers_sameBelow _ s s0 h0).step
      (SameBelow.of_scopes_eq (visitFunctions_scopes _ s0 s1 h1))).step
      (visitClasses_sameBelow rest s1 s' h2)

theorem visitProgram_sameBelow (p : Program) (s s' : SemanticAnalyser)
    (h : visitProgram p s = .ok s') : SameBelow s s' := by
  rw [visitProgram_eq, outcome_andThen_eq_ok] at h
  obtain ⟨s2, h2, h⟩ := h
  rw [outcome_andThen_eq_ok] at h
  obtain ⟨s3, h3, h⟩ := h
  rw [outcome_andThen_eq_ok] at h
  obtain ⟨s4, h4, h⟩ := h
  exact (((SameBelow.of_scopes_eq (hoistFunctions_scopes _ s s2 h2)).step
    (SameBelow.of_scopes_eq (visitFunctions_scopes _ s2 s3 h3))).step
    (visitClasses_sameBelow _ s3 s4 h4)).step
    (SameBelow.of_extends (visitStatementList_extends _ s4 s' h))

/-- C28: for every analyser state `s`, a visit of a block statement or of a for statement that
returns gives back `s` itself, so the scope stack is identical to what it was (same frames, same
names and metadata in each); a visit of a function declaration that returns leaves the scope
stack (and the set of function names) as it was; and `analyse`, when it accepts a program,
leaves the scope stack as it found it.  The visits of a program with a variable, a function and
a loop are evaluated on the fresh analyser. -/
theorem scope_stack_discipline (s s' : SemanticAnalyser) :
    (∀ line column statements,
      visitStatement (.block line column statements) s = .ok s' → s' = s) ∧
    (∀ line column initializer condition increment body,
      visitStatement (.forStatement line column initializer condition increment body) s =
        .ok s' → s' = s) ∧
    (∀ node, visitFunctionDeclaration node s = .ok s' →
      s'.m_scopes = s.m_scopes ∧ s'.m_functions = s.m_functions ∧
      s'.m_currentReturnType = s.m_currentReturnType) ∧
    (∀ program, analyse program s = .ok s' → s'.m_scopes = s.m_scopes) ∧
    (visitStatement forWithoutCondition afterIntX = .ok afterIntX ∧
      (visitFunctionDeclaration functionAssigningParameter afterIntX).map
        (fun r => r.m_scopes) = .ok afterIntX.m_scopes ∧
      (analyse progFunctionAndLoop
          { SemanticAnalyser.fresh with m_scopes := [[("b", ⟨false, "bit"⟩)]] }).map
        (fun r => r.m_scopes) = .ok [[("b", ⟨false, "bit"⟩)]]) := by
  refine ⟨?_, ?_, ?_, ?_, by decide⟩
  · intro line column statements h
    rw [visitStatement, outcome_andThen_eq_ok] at h
    obtain ⟨s1, h1, h2⟩ := h
    have := visitStatementList_extends statements _ _ h1
    cases h2
    exact endScope_of_extends_beginScope this
  · intro line column i c inc b h
    rw [visitStatement, outcome_andThen_eq_ok] at h
    obtain ⟨s1, h1, h2⟩ := h
    rw [outcome_andThen_eq_ok] at h2
    obtain ⟨s2, h2, h3⟩ := h2
    rw [Check.toOutcome_eq_ok] at h2
    rw [outcome_andThen_eq_ok] at h3
    obtain ⟨s3, h3, h4⟩ := h3
    rw [Check.toOutcome_eq_ok] at h3
    rw [outcome_andThen_eq_ok] at h4
    obtain ⟨s4, h4, h5⟩ := h4
    rw [h3.2, h2.2] at h4
    have := (visitOptStatement_extends i _ _ h1).trans (visitOptStatement_extends b _ _ h4)
    cases h5
    exact endScope_of_extends_beginScope this
  · intro node h
    exact ⟨(visitFunctionDeclaration_scopes node s s' h).1,
      (visitFunctionDeclaration_scopes node s s' h).2,
      visitFunctionDeclaration_restores node s s' h⟩
  · intro program h
    rw [analyse, outcome_andThen_eq_ok] at h
    obtain ⟨s1, h1, h2⟩ := h
    have := (visitProgram_sameBelow program _ s1 h1).2
    cases h2
    simpa [endScope, beginScope] using this

/-! ## Names a function body cannot see -/

theorem Check.fails_andThen (a b : Check) : (a.andThen b).fails = (a.fails || b.fails) := by
  cases a <;> rfl

theorem Outcome.rejects_toOutcome (c : Check) (s : SemanticAnalyser) :
    (c.toOutcome s).rejects = c.fails := by
  cases c <;> rfl

theorem Outcome.rejects_andThen (a : Outcome) (k : SemanticAnalyser → Outcome)
    (h : ∀ s1, a = .ok s1 → (k s1).rejects = true) : (a.andThen k).rejects = true := by
  cases a with
  | error r => rfl
  | ok s1 => exact h s1 rfl

theorem Outcome.rejects_iff (a : Outcome) : a.rejects = true ↔ ∃ r, a = .error r := by
  cases a with
  | error r => simp [Outcome.rejects]
  | ok s1 => simp [Outcome.rejects]

theorem isDeclared_beginScope (s : SemanticAnalyser) (x : String) :
    isDeclared (beginScope s) x = isDeclared s x := by
  simp [isDeclared, beginScope, findVariable, mapFind]

theorem isDeclared_declare_ne (s : SemanticAnalyser) (n x : String) (fin : Bool) (ty : String)
    (h : x ≠ n) : isDeclared (declare s n fin ty) x = isDeclared s x := by
  simp only [isDeclared, findVariable_declare_ne s n x fin ty h]

theorem isDeclared_of_scopes_eq {s s' : SemanticAnalyser} (h : s'.m_scopes = s.m_scopes)
    (x : String) : isDeclared s' x = isDeclared s x := by
  simp only [isDeclared, h]

mutual
theorem visitExpression_fails_of_read (s : SemanticAnalyser) (x : String)
    (hd : isDeclared s x = false) :
    ∀ (e : Expression), readsName x e = true → (visitExpression s e).fails = true
  | .literal _ _ _ _, h => by simp [readsName] at h
  | .variable line column name, h => by
    simp only [readsName, decide_eq_true_eq] at h
    subst h
    rw [(undeclared_use_raises_aux s _ hd line column none).1]
    rfl
  | .binary _ _ _ left right, h => by
    simp only [readsName, Bool.or_eq_true] at h
    rw [visitExpression, Check.fails_andThen, Bool.or_eq_true]
    exact h.imp (visitOptExpression_fails_of_read s x hd left)
      (visitOptExpression_fails_of_read s x hd right)
  | .unary _ _ _ right, h => by
    simp only [readsName] at h
    rw [visitExpression]
    exact visitOptExpression_fails_of_read s x hd right h
  | .call line column callee arguments, h => by
    simp only [readsName, Bool.or_eq_true, Bool.and_eq_true] at h
    rw [visitExpression]
    cases hc : asVariable callee with
    | none =>
      simp only [Check.fails_andThen, Bool.or_eq_true]
      rcases h with ⟨_, h⟩ | h
      · exact Or.inl (visitOptExpression_fails_of_read s x hd callee h)
      · exact Or.inr (visitExpressionList_fails_of_read s x hd arguments h)
    | some v =>
      obtain ⟨vline, vcolumn, name⟩ := v
      simp only [Check.fails_andThen, Bool.or_eq_true]
      rcases h with ⟨h0, _⟩ | h
      · simp [hc] at h0
      · exact Or.inr (visitExpressionList_fails_of_read s x hd arguments h)
  | .index _ _ collection index, h => by
    simp only [readsName, Bool.or_eq_true] at h
    rw [visitExpression, Check.fails_andThen, Bool.or_eq_true]
    exact h.imp (visitOptExpression_fails_of_read s x hd collection)
      (visitOptExpression_fails_of_read s x hd index)
  | .parenthesized _ _ expression, h => by
    simp only [readsName] at h
    rw [visitExpression]
    exact visitOptExpression_fails_of_read s x hd expression h
  | .measure _ _ qubit, h => by
    simp only [readsName] at h
    rw [visitExpression]
    exact visitOptExpression_fails_of_read s x hd qubit h
  | .assignment line column name value, h => by
    simp only [readsName, Bool.or_eq_true, decide_eq_true_eq] at h
    rw [visitExpression, Check.fails_andThen, Bool.or_eq_true]
    rcases h with h | h
    · subst h
      left
      simp [checkAssignment, hd, Check.fails]
    · exact Or.inr (visitOptExpression_fails_of_read s x hd value h)
  | .constructorCall _ _ _ arguments, h => by
    simp only [readsName] at h
    rw [visitExpression]
    exact visitExpressionList_fails_of_read s x hd arguments h
  | .memberAccess _ _ object _, h => by
    simp only [readsName] at h
    rw [visitExpression]
    exact visitOptExpression_fails_of_read s x hd object h
theorem visitOptExpression_fails_of_read (s : SemanticAnalyser) (x : String)
    (hd : isDeclared s x = false) :
    ∀ (e : Option Expression), readsNameOpt x e = true → (visitOptExpression s e).fails = true
  | none, h => by simp [readsNameOpt] at h
  | some e, h => by
    simp only [readsNameOpt] at h
    rw [visitOptExpression]
    exact visitExpression_fails_of_read s x hd e h
theorem visitExpressionList_fails_of_read (s : SemanticAnalyser) (x : String)
    (hd : isDeclared s x = false) :
    ∀ (es : List Expression), readsNameList x es = true → (visitExpressionList s es).fails = true
  | [], h => by simp [readsNameList] at h
  | e :: rest, h => by
    simp only [readsNameList, Bool.or_eq_true] at h
    rw [visitExpressionList, Check.fails_andThen, Bool.or_eq_true]
    exact h.imp (visitExpression_fails_of_read s x hd e)
      (visitExpressionList_fails_of_read s x hd rest)
end
theorem Outcome.rejects_andThen_left (a : Outcome) (k : SemanticAnalyser → Outcome)
    (h : a.rejects = true) : (a.andThen k).rejects = true := by
  cases a with
  | error r => rfl
  | ok s1 => cases h

theorem Outcome.rejects_toOutcome_andThen (c : Check) (s : SemanticAnalyser)
    (k : SemanticAnalyser → Outcome) :
    ((c.toOutcome s).andThen k).rejects = (c.fails || (k s).rejects) := by
  cases c <;> rfl

theorem block_visit_ok (line column : Nat) (statements : List Statement)
    (s s' : SemanticAnalyser)
    (h : visitStatement (.block line column statements) s = .ok s') : s' = s := by
  rw [visitStatement, outcome_andThen_eq_ok] at h
  obtain ⟨s1, h1, h2⟩ := h
  have := visitStatementList_extends statements _ _ h1
  cases h2
  exact endScope_of_extends_beginScope this

theorem for_visit_ok (line column : Nat) (i : Option Statement) (c inc : Option Expression)
    (b : Option Statement) (s s' : SemanticAnalyser)
    (h : visitStatement (.forStatement line column i c inc b) s = .ok s') : s' = s := by
  rw [visitStatement, outcome_andThen_eq_ok] at h
  obtain ⟨s1, h1, h2⟩ := h
  rw [outcome_andThen_eq_ok] at h2
  obtain ⟨s2, h2, h3⟩ := h2
  rw [Check.toOutcome_eq_ok] at h2
  rw [outcome_andThen_eq_ok] at h3
  obtain ⟨s3, h3, h4⟩ := h3
  rw [Check.toOutcome_eq_ok] at h3
  rw [outcome_andThen_eq_ok] at h4
  obtain ⟨s4, h4, h5⟩ := h4
  rw [h3.2, h2.2] at h4
  have := (visitOptStatement_extends i _ _ h1).trans (visitOptStatement_extends b _ _ h4)
  cases h5
  exact endScope_of_extends_beginScope this

theorem expression_statement_of_undeclared (x : String) (e : Option Expression)
    (s : SemanticAnalyser) (hd : isDeclared s x = false) :
    (readsNameOpt x e = true → ((visitOptExpression s e).toOutcome s).rejects = true) ∧
      (∀ s', (visitOptExpression s e).toOutcome s = .ok s' → isDeclared s' x = false) := by
  refine ⟨fun h => ?_, fun s' h => ?_⟩
  · rw [Outcome.rejects_toOutcome]
    exact visitOptExpression_fails_of_read s x hd e h
  · rw [Check.toOutcome_eq_ok] at h
    rw [h.2]
    exact hd

mutual
theorem visitStatement_of_undeclared (x : String) :
    ∀ (st : Statement) (s : SemanticAnalyser), isDeclared s x = false →
      declaresName x st = false →
      (usesName x st = true → (visitStatement st s).rejects = true) ∧
        (∀ s', visitStatement st s = .ok s' → isDeclared s' x = false)
  | .variableDeclaration node, s, hd, hdecl => by
    simp only [declaresName, decide_eq_false_iff_not] at hdecl
    have hne : x ≠ node.name := fun h => hdecl h.symm
    have hd1 : isDeclared (declare s node.name node.isFinal (typeNameOf node.varType)) x =
        false := by
      rw [isDeclared_declare_ne s node.name x _ _ hne]
      exact hd
    refine ⟨fun h => ?_, fun s' h => ?_⟩
    · simp only [usesName] at h
      rw [visitStatement]
      unfold visitVariableDeclaration
      split
      · rfl
      · cases hi : node.initializer with
        | none => simp [hi, readsNameOpt] at h
        | some e =>
          simp only
          split
          · rfl
          · rw [Outcome.rejects_toOutcome]
            rw [hi] at h
            exact visitExpression_fails_of_read _ x hd1 e h
    · rw [visitStatement] at h
      rw [(visitVariableDeclaration_ok node s s' h).2]
      exact hd1
  | .block line column statements, s, hd, hdecl => by
    simp only [declaresName] at hdecl
    refine ⟨fun h => ?_, fun s' h => ?_⟩
    · simp only [usesName] at h
      rw [visitStatement]
      apply Outcome.rejects_andThen_left
      exact (visitStatementList_of_undeclared x statements (beginScope s)
        (by rw [isDeclared_beginScope]; exact hd) hdecl).1 h
    · rw [block_visit_ok line column statements s s' h]
      exact hd
  | .expression _ _ e, s, hd, _ => by
    simp only [usesName, visitStatement]
    exact expression_statement_of_undeclared x e s hd
  | .ret line column value, s, hd, _ => by
    refine ⟨fun h => ?_, fun s' h => ?_⟩
    · simp only [usesName] at h
      rw [visitStatement]
      unfold visitReturn
      simp only
      split
      · rfl
      · split
        · rfl
        · exact (expression_statement_of_undeclared x value s hd).1 h
    · rw [visitStatement] at h
      have := visitReturn_extends line column value s s' h
      unfold visitReturn at h
      simp only at h
      split at h
      · cases h
      · split at h
        · cases h
        · exact (expression_statement_of_undeclared x value s hd).2 s' h
  | .ifStatement _ _ c t e, s, hd, hdecl => by
    simp only [declaresName, Bool.or_eq_false_iff] at hdecl
    have iht := visitOptStatement_of_undeclared x t s hd hdecl.1
    refine ⟨fun h => ?_, fun s' h => ?_⟩
    · simp only [usesName, Bool.or_eq_true] at h
      rw [visitStatement, Outcome.rejects_toOutcome_andThen, Bool.or_eq_true]
      rcases h with (h | h) | h
      · exact Or.inl (visitOptExpression_fails_of_read s x hd c h)
      · exact Or.inr (Outcome.rejects_andThen_left _ _ (iht.1 h))
      · right
        apply Outcome.rejects_andThen
        intro s2 h2
        exact (visitOptStatement_of_undeclared x e s2 (iht.2 s2 h2) hdecl.2).1 h
    · rw [visitStatement, outcome_andThen_eq_ok] at h
      obtain ⟨s1, h1, h2⟩ := h
      rw [Check.toOutcome_eq_ok] at h1
      rw [outcome_andThen_eq_ok] at h2
      obtain ⟨s2, h2, h3⟩ := h2
      rw [h1.2] at h2
      exact (visitOptStatement_of_undeclared x e s2 (iht.2 s2 h2) hdecl.2).2 s' h3
  | .forStatement line column i c inc b, s, hd, hdecl => by
    simp only [declaresName, Bool.or_eq_false_iff] at hdecl
    have ihi := visitOptStatement_of_undeclared x i (beginScope s)
      (by rw [isDeclared_beginScope]; exact hd) hdecl.1
    refine ⟨fun h => ?_, fun s' h => ?_⟩
    · simp only [usesName, Bool.or_eq_true] at h
      rw [visitStatement]
      rcases h with ((h | h) | h) | h
      · exact Outcome.rejects_andThen_left _ _ (ihi.1 h)
      · apply Outcome.rejects_andThen
        intro s1 h1
        rw [Outcome.rejects_toOutcome_andThen, Bool.or_eq_true]
        exact Or.inl (visitOptExpression_fails_of_read s1 x (ihi.2 s1 h1) c h)
      · apply Outcome.rejects_andThen
        intro s1 h1
        rw [Outcome.rejects_toOutcome_andThen, Outcome.rejects_toOutcome_andThen,
          Bool.or_eq_true, Bool.or_eq_true]
        exact Or.inr (Or.inl (visitOptExpression_fails_of_read s1 x (ihi.2 s1 h1) inc h))
      · apply Outcome.rejects_andThen
        intro s1 h1
        rw [Outcome.rejects_toOutcome_andThen, Outcome.rejects_toOutcome_andThen,
          Bool.or_eq_true, Bool.or_eq_true]
        exact Or.inr (Or.inr (Outcome.rejects_andThen_left _ _
          ((visitOptStatement_of_undeclared x b s1 (ihi.2 s1 h1) hdecl.2).1 h)))
    · rw [for_visit_ok line column i c inc b s s' h]
      exact hd
  | .echo _ _ e, s, hd, _ => by
    simp only [usesName, visitStatement]
    exact expression_statement_of_undeclared x e s hd
  | .reset _ _ e, s, hd, _ => by
    simp only [usesName, visitStatement]
    exact expression_statement_of_undeclared x e s hd
  | .measure _ _ e, s, hd, _ => by
    simp only [usesName, visitStatement]
    exact expression_statement_of_undeclared x e s hd
  | .assignment line column name value, s, hd, _ => by
    refine ⟨fun h => ?_, fun s' h => ?_⟩
    · simp only [usesName, Bool.or_eq_true, decide_eq_true_eq] at h
      rw [visitStatement, Outcome.rejects_toOutcome, Check.fails_andThen, Bool.or_eq_true]
      rcases h with h | h
      · subst h
        left
        simp [checkAssignment, hd, Check.fails]
      · exact Or.inr (visitOptExpression_fails_of_read s x hd value h)
    · rw [visitStatement, Check.toOutcome_eq_ok] at h
      rw [h.2]
      exact hd
theorem visitOptStatement_of_undeclared (x : String) :
    ∀ (st : Option Statement) (s : SemanticAnalyser), isDeclared s x = false →
      declaresNameOpt x st = false →
      (usesNameOpt x st = true → (visitOptStatement st s).rejects = true) ∧
        (∀ s', visitOptStatement st s = .ok s' → isDeclared s' x = false)
  | none, s, hd, _ => by
    refine ⟨fun h => ?_, fun s' h => ?_⟩
    · simp [usesNameOpt] at h
    · rw [visitOptStatement] at h
      cases h
      exact hd
  | some st, s, hd, hdecl => by
    simp only [declaresNameOpt] at hdecl
    simp only [usesNameOpt, visitOptStatement]
    exact visitStatement_of_undeclared x st s hd hdecl
theorem visitStatementList_of_undeclared (x : String) :
    ∀ (sts : List Statement) (s : SemanticAnalyser), isDeclared s x = false →
      declaresNameList x sts = false →
      (usesNameList x sts = true → (visitStatementList sts s).rejects = true) ∧
        (∀ s', visitStatementList sts s = .ok s' → isDeclared s' x = false)
  | [], s, hd, _ => by
    refine ⟨fun h => ?_, fun s' h => ?_⟩
    · simp [usesNameList] at h
    · rw [visitStatementList] at h
      cases h
      exact hd
  | st :: rest, s, hd, hdecl => by
    simp only [declaresNameList, Bool.or_eq_false_iff] at hdecl
    have ih := visitStatement_of_undeclared x st s hd hdecl.1
    refine ⟨fun h => ?_, fun s' h => ?_⟩
    · simp only [usesNameList, Bool.or_eq_true] at h
      rw [visitStatementList]
      rcases h with h | h
      · exact Outcome.rejects_andThen_left _ _ (ih.1 h)
      · apply Outcome.rejects_andThen
        intro s1 h1
        exact (visitStatementList_of_undeclared x rest s1 (ih.2 s1 h1) hdecl.2).1 h
    · rw [visitStatementList, outcome_andThen_eq_ok] at h
      obtain ⟨s1, h1, h2⟩ := h
      exact (visitStatementList_of_undeclared x rest s1 (ih.2 s1 h1) hdecl.2).2 s' h2
end
theorem declareParams_undeclared (x : String) : ∀ (params : List Parameter)
    (s s' : SemanticAnalyser), declareParams params s = .ok s' →
      (∀ q ∈ params, q.name ≠ x) → isDeclared s x = false → isDeclared s' x = false
  | [], s, s', h, _, hd => by
    rw [declareParams] at h
    cases h
    exact hd
  | param :: rest, s, s', h, hparam, hd => by
    rw [declareParams] at h
    split at h
    · cases h
    · refine declareParams_undeclared x rest _ s' h
        (fun q hq => hparam q (List.mem_cons_of_mem _ hq)) ?_
      rw [isDeclared_declare_ne s param.name x _ _
        (fun hx => hparam param (List.mem_cons_self _ _) hx.symm)]
      exact hd

theorem visitFunctionDeclaration_rejects (x : String) (fn : FunctionDeclaration)
    (body : List Statement) (s : SemanticAnalyser) (hd : isDeclared s x = false)
    (hbody : fn.body = some body) (hparam : ∀ q ∈ fn.params, q.name ≠ x)
    (hdecl : declaresNameList x body = false) (huse : usesNameList x body = true) :
    (visitFunctionDeclaration fn s).rejects = true := by
  unfold visitFunctionDeclaration
  split
  · rfl
  · simp only
    apply Outcome.rejects_andThen
    intro s2 h2
    have hd2 : isDeclared s2 x = false :=
      declareParams_undeclared x fn.params _ s2 h2 hparam
        (by rw [isDeclared_beginScope]; exact hd)
    apply Outcome.rejects_andThen_left
    rw [hbody, visitBody]
    apply Outcome.rejects_andThen_left
    exact (visitStatementList_of_undeclared x body (beginScope s2)
      (by rw [isDeclared_beginScope]; exact hd2) hdecl).1 huse

theorem visitFunctions_rejects (x : String) (fn : FunctionDeclaration) (body : List Statement)
    (hbody : fn.body = some body) (hparam : ∀ q ∈ fn.params, q.name ≠ x)
    (hdecl : declaresNameList x body = false) (huse : usesNameList x body = true) :
    ∀ (fns : List FunctionDeclaration) (s : SemanticAnalyser), isDeclared s x = false →
      fn ∈ fns → (visitFunctions fns s).rejects = true
  | [], _, _, hmem => by simp at hmem
  | f0 :: rest, s, hd, hmem => by
    rw [visitFunctions]
    rcases List.mem_cons.mp hmem with h | h
    · subst h
      exact Outcome.rejects_andThen_left _ _
        (visitFunctionDeclaration_rejects x fn body s hd hbody hparam hdecl huse)
    · apply Outcome.rejects_andThen
      intro s1 h1
      refine visitFunctions_rejects x fn body hbody hparam hdecl huse rest s1 ?_ h
      rw [isDeclared_of_scopes_eq (visitFunctionDeclaration_scopes f0 s s1 h1).1]
      exact hd

theorem analyse_rejects (x : String) (p : Program) (fn : FunctionDeclaration)
    (body : List Statement) (s : SemanticAnalyser) (hd : isDeclared s x = false)
    (hfn : fn ∈ p.functions) (hbody : fn.body = some body)
    (hparam : ∀ q ∈ fn.params, q.name ≠ x)
    (hdecl : declaresNameList x body = false) (huse : usesNameList x body = true) :
    (analyse p s).rejects = true := by
  rw [analyse]
  apply Outcome.rejects_andThen_left
  rw [visitProgram_eq]
  apply Outcome.rejects_andThen
  intro s2 h2
  apply Outcome.rejects_andThen_left
  refine visitFunctions_rejects x fn body hbody hparam hdecl huse p.functions s2 ?_ hfn
  rw [isDeclared_of_scopes_eq (hoistFunctions_scopes _ _ s2 h2), isDeclared_beginScope]
  exact hd

theorem directUse_error (x : String) (st : Statement) (line column : Nat)
    (s : SemanticAnalyser) (h : directUse x st = some (line, column))
    (hd : isDeclared s x = false) :
    visitStatement st s =
      .error ⟨semanticError line column ("Variable '" ++ x ++ "' not declared"), s⟩ := by
  unfold directUse at h
  split at h
  all_goals first
    | cases h
    | (split at h
       · cases h
         subst_vars
         simp [visitStatement, visitOptExpression, visitExpression, checkAssignment, hd,
           Check.andThen, Check.toOutcome]
       · cases h)

theorem visitStatementList_append (a b : List Statement) (s : SemanticAnalyser) :
    visitStatementList (a ++ b) s = (visitStatementList a s).andThen (visitStatementList b) := by
  induction a generalizing s with
  | nil => simp [visitStatementList, Outcome.andThen]
  | cons st rest ih =>
    simp only [List.cons_append, visitStatementList, Outcome.andThen_assoc]
    congr 1
    funext s1
    exact ih s1

theorem visitFunctions_append (a b : List FunctionDeclaration) (s : SemanticAnalyser) :
    visitFunctions (a ++ b) s = (visitFunctions a s).andThen (visitFunctions b) := by
  induction a generalizing s with
  | nil => simp [visitFunctions, Outcome.andThen]
  | cons fn rest ih =>
    simp only [List.cons_append, visitFunctions, Outcome.andThen_assoc]
    congr 1
    funext s1
    exact ih s1

theorem declaresNameList_append (x : String) (a b : List Statement) :
    declaresNameList x (a ++ b) = (declaresNameList x a || declaresNameList x b) := by
  induction a with
  | nil => simp [declaresNameList]
  | cons st rest ih => simp [declaresNameList, ih, Bool.or_assoc]

/-! ## The first use of a name a visit reaches -/

theorem firstAfterCheck_eq_some (found : Option (Nat × Nat)) (visit : Check)
    (next : Option (Nat × Nat)) (p : Nat × Nat) :
    firstAfterCheck found visit next = some p ↔
      found = some p ∨ (found = none ∧ visit = .ok () ∧ next = some p) := by
  cases found with
  | some q => simp [firstAfterCheck]
  | none =>
    cases visit with
    | error e => simp [firstAfterCheck]
    | ok u => simp [firstAfterCheck]

theorem firstAfterVisit_eq_some (found : Option (Nat × Nat)) (visit : Outcome)
    (next : SemanticAnalyser → Option (Nat × Nat)) (p : Nat × Nat) :
    firstAfterVisit found visit next = some p ↔
      found = some p ∨ (found = none ∧ ∃ s1, visit = .ok s1 ∧ next s1 = some p) := by
  cases found with
  | some q => simp [firstAfterVisit]
  | none =>
    cases visit with
    | error e => simp [firstAfterVisit]
    | ok s1 => simp [firstAfterVisit]

mutual
theorem firstRead_error (x : String) (s : SemanticAnalyser) (hd : isDeclared s x = false) :
    ∀ (e : Expression) (p : Nat × Nat), firstRead x s e = some p →
      visitExpression s e =
        .error (semanticError p.1 p.2 ("Variable '" ++ x ++ "' not declared"))
  | .literal _ _ _ _, p, h => by simp [firstRead] at h
  | .variable line column name, p, h => by
    rw [firstRead] at h
    split at h
    · subst_vars
      cases h
      exact (undeclared_use_raises_aux s _ hd line column none).1
    · cases h
  | .binary _ _ _ left right, p, h => by
    rw [firstRead, firstAfterCheck_eq_some] at h
    rw [visitExpression]
    rcases h with h | ⟨_, hok, h⟩
    · rw [firstReadOpt_error x s hd left p h]
      rfl
    · rw [hok, firstReadOpt_error x s hd right p h]
      rfl
  | .unary _ _ _ right, p, h => by
    rw [firstRead] at h
    rw [visitExpression]
    exact firstReadOpt_error x s hd right p h
  | .call line column callee arguments, p, h => by
    rw [firstRead] at h
    rw [visitExpression]
    cases hc : asVariable callee with
    | none =>
      rw [hc] at h
      simp only at h
      rw [firstAfterCheck_eq_some] at h
      rcases h with h | ⟨_, hok, h⟩
      · rw [firstReadOpt_error x s hd callee p h]
        rfl
      · rw [hok, firstReadList_error x s hd arguments p h]
        rfl
    | some v =>
      obtain ⟨vline, vcolumn, name⟩ := v
      rw [hc] at h
      simp only at h
      split at h
      · rename_i hx
        cases h
        obtain ⟨hname, hfn⟩ := hx
        subst hname
        simp [checkCall, hd, hfn, Check.andThen]
      · rw [firstAfterCheck_eq_some] at h
        rcases h with h | ⟨_, hok, h⟩
        · cases h
        · simp only
          rw [hok, firstReadList_error x s hd arguments p h]
          rfl
  | .index _ _ collection index, p, h => by
    rw [firstRead, firstAfterCheck_eq_some] at h
    rw [visitExpression]
    rcases h with h | ⟨_, hok, h⟩
    · rw [firstReadOpt_error x s hd collection p h]
      rfl
    · rw [hok, firstReadOpt_error x s hd index p h]
      rfl
  | .parenthesized _ _ expression, p, h => by
    rw [firstRead] at h
    rw [visitExpression]
    exact firstReadOpt_error x s hd expression p h
  | .measure _ _ qubit, p, h => by
    rw [firstRead] at h
    rw [visitExpression]
    exact firstReadOpt_error x s hd qubit p h
  | .assignment line column name value, p, h => by
    rw [firstRead] at h
    split at h
    · subst_vars
      cases h
      exact (undeclared_use_raises_aux s _ hd line column value).2.2
    · rw [firstAfterCheck_eq_some] at h
      rcases h with h | ⟨_, hok, h⟩
      · cases h
      · rw [visitExpression, hok, firstReadOpt_error x s hd value p h]
        rfl
  | .constructorCall _ _ _ arguments, p, h => by
    rw [firstRead] at h
    rw [visitExpression]
    exact firstReadList_error x s hd arguments p h
  | .memberAccess _ _ object _, p, h => by
    rw [firstRead] at h
    rw [visitExpression]
    exact firstReadOpt_error x s hd object p h
theorem firstReadOpt_error (x : String) (s : SemanticAnalyser) (hd : isDeclared s x = false) :
    ∀ (e : Option Expression) (p : Nat × Nat), firstReadOpt x s e = some p →
      visitOptExpression s e =
        .error (semanticError p.1 p.2 ("Variable '" ++ x ++ "' not declared"))
  | none, p, h => by simp [firstReadOpt] at h
  | some e, p, h => by
    rw [firstReadOpt] at h
    rw [visitOptExpression]
    exact firstRead_error x s hd e p h
theorem firstReadList_error (x : String) (s : SemanticAnalyser) (hd : isDeclared s x = false) :
    ∀ (es : List Expression) (p : Nat × Nat), firstReadList x s es = some p →
      visitExpressionList s es =
        .error (semanticError p.1 p.2 ("Variable '" ++ x ++ "' not declared"))
  | [], p, h => by simp [firstReadList] at h
  | e :: rest, p, h => by
    rw [firstReadList, firstAfterCheck_eq_some] at h
    rw [visitExpressionList]
    rcases h with h | ⟨_, hok, h⟩
    · rw [firstRead_error x s hd e p h]
      rfl
    · rw [hok, firstReadList_error x s hd rest p h]
      rfl
end

theorem outcome_error_andThen (a : Outcome) (k : SemanticAnalyser → Outcome)
    (e : BlochRuntimeError) (h : ∃ st, a = .error ⟨e, st⟩) :
    ∃ st, a.andThen k = .error ⟨e, st⟩ := by
  obtain ⟨st, rfl⟩ := h
  exact ⟨st, rfl⟩

theorem firstReadOpt_statement_error (x : String) (s : SemanticAnalyser)
    (hd : isDeclared s x = false) (e : Option Expression) (p : Nat × Nat)
    (h : firstReadOpt x s e = some p) :
    ∃ a, (visitOptExpression s e).toOutcome s =
      .error ⟨semanticError p.1 p.2 ("Variable '" ++ x ++ "' not declared"), a⟩ := by
  rw [firstReadOpt_error x s hd e p h]
  exact ⟨s, rfl⟩

mutual
theorem firstUse_error (x : String) :
    ∀ (st : Statement) (s : SemanticAnalyser) (p : Nat × Nat), isDeclared s x = false →
      declaresName x st = false → firstUse x st s = some p →
      ∃ a, visitStatement st s =
        .error ⟨semanticError p.1 p.2 ("Variable '" ++ x ++ "' not declared"), a⟩
  | .variableDeclaration node, s, p, hd, hdecl, h => by
    simp only [declaresName, decide_eq_false_iff_not] at hdecl
    have hd1 : isDeclared (declare s node.name node.isFinal (typeNameOf node.varType)) x =
        false := by
      rw [isDeclared_declare_ne s node.name x _ _ (fun hx => hdecl hx.symm)]
      exact hd
    rw [firstUse] at h
    split at h
    · cases h
    · rename_i hnot
      cases hi : node.initializer with
      | none => simp [hi] at h
      | some e =>
        rw [hi] at h
        simp only at h
        split at h
        · cases h
        · rename_i hvoid
          rw [visitStatement]
          unfold visitVariableDeclaration
          simp only [hnot, Bool.false_eq_true, ↓reduceIte, hi, hvoid,
            firstRead_error x _ hd1 e p h]
          exact ⟨_, rfl⟩
  | .block _ _ statements, s, p, hd, hdecl, h => by
    simp only [declaresName] at hdecl
    rw [firstUse] at h
    rw [visitStatement]
    exact outcome_error_andThen _ _ _
      (firstUseList_error x statements (beginScope s) p
        (by rw [isDeclared_beginScope]; exact hd) hdecl h)
  | .expression _ _ e, s, p, hd, _, h => by
    rw [firstUse] at h
    rw [visitStatement]
    exact firstReadOpt_statement_error x s hd e p h
  | .ret line column value, s, p, hd, _, h => by
    rw [firstUse] at h
    split at h
    · cases h
    · rename_i hvoid
      cases value with
      | none => simp [firstReadOpt] at h
      | some e =>
        rw [visitStatement]
        unfold visitReturn
        simp only [hvoid, decide_False, Bool.and_false, Bool.false_eq_true, ↓reduceIte,
          Option.isSome_some, Bool.not_true, Bool.false_and]
        exact firstReadOpt_statement_error x s hd (some e) p h
  | .ifStatement _ _ c t e, s, p, hd, hdecl, h => by
    simp only [declaresName, Bool.or_eq_false_iff] at hdecl
    rw [firstUse, firstAfterVisit_eq_some] at h
    rw [visitStatement]
    rcases h with h | ⟨_, s1, hc, h⟩
    · exact outcome_error_andThen _ _ _ (firstReadOpt_statement_error x s hd c p h)
    · rw [hc]
      rw [Check.toOutcome_eq_ok] at hc
      obtain ⟨_, rfl⟩ := hc
      simp only [Outcome.andThen]
      rw [firstAfterVisit_eq_some] at h
      rcases h with h | ⟨_, s2, ht, h⟩
      · exact outcome_error_andThen _ _ _ (firstUseOpt_error x t s1 p hd hdecl.1 h)
      · have hd2 := (visitOptStatement_of_undeclared x t s1 hd hdecl.1).2 s2 ht
        rw [ht]
        exact firstUseOpt_error x e s2 p hd2 hdecl.2 h
  | .forStatement _ _ i c inc b, s, p, hd, hdecl, h => by
    simp only [declaresName, Bool.or_eq_false_iff] at hdecl
    have hd0 : isDeclared (beginScope s) x = false := by
      rw [isDeclared_beginScope]
      exact hd
    rw [firstUse, firstAfterVisit_eq_some] at h
    rw [visitStatement]
    rcases h with h | ⟨_, s1, hi, h⟩
    · exact outcome_error_andThen _ _ _ (firstUseOpt_error x i _ p hd0 hdecl.1 h)
    · have hd1 := (visitOptStatement_of_undeclared x i _ hd0 hdecl.1).2 s1 hi
      rw [hi]
      simp only [Outcome.andThen]
      rw [firstAfterVisit_eq_some] at h
      rcases h with h | ⟨_, s2, hc, h⟩
      · exact outcome_error_andThen _ _ _ (firstReadOpt_statement_error x s1 hd1 c p h)
      · rw [hc]
        rw [Check.toOutcome_eq_ok] at hc
        obtain ⟨_, rfl⟩ := hc
        simp only
        rw [firstAfterVisit_eq_some] at h
        rcases h with h | ⟨_, s3, hinc, h⟩
        · exact outcome_error_andThen _ _ _ (firstReadOpt_statement_error x s2 hd1 inc p h)
        · rw [hinc]
          rw [Check.toOutcome_eq_ok] at hinc
          obtain ⟨_, rfl⟩ := hinc
          simp only
          exact outcome_error_andThen _ _ _ (firstUseOpt_error x b s3 p hd1 hdecl.2 h)
  | .echo _ _ e, s, p, hd, _, h => by
    rw [firstUse] at h
    rw [visitStatement]
    exact firstReadOpt_statement_error x s hd e p h
  | .reset _ _ e, s, p, hd, _, h => by
    rw [firstUse] at h
    rw [visitStatement]
    exact firstReadOpt_statement_error x s hd e p h
  | .measure _ _ e, s, p, hd, _, h => by
    rw [firstUse] at h
    rw [visitStatement]
    exact firstReadOpt_statement_error x s hd e p h
  | .assignment line column name value, s, p, hd, _, h => by
    rw [firstUse] at h
    split at h
    · subst_vars
      cases h
      exact ⟨s, (undeclared_use_raises_aux s _ hd line column value).2.1⟩
    · rw [firstAfterCheck_eq_some] at h
      rcases h with h | ⟨_, hok, h⟩
      · cases h
      · rw [visitStatement, hok, firstReadOpt_error x s hd value p h]
        exact ⟨s, rfl⟩
theorem firstUseOpt_error (x : String) :
    ∀ (st : Option Statement) (s : SemanticAnalyser) (p : Nat × Nat), isDeclared s x = false →
      declaresNameOpt x st = false → firstUseOpt x st s = some p →
      ∃ a, visitOptStatement st s =
        .error ⟨semanticError p.1 p.2 ("Variable '" ++ x ++ "' not declared"), a⟩
  | none, s, p, _, _, h => by simp [firstUseOpt] at h
  | some st, s, p, hd, hdecl, h => by
    simp only [declaresNameOpt] at hdecl
    rw [firstUseOpt] at h
    rw [visitOptStatement]
    exact firstUse_error x st s p hd hdecl h
theorem firstUseList_error (x : String) :
    ∀ (sts : List Statement) (s : SemanticAnalyser) (p : Nat × Nat), isDeclared s x = false →
      declaresNameList x sts = false → firstUseList x sts s = some p →
      ∃ a, visitStatementList sts s =
        .error ⟨semanticError p.1 p.2 ("Variable '" ++ x ++ "' not declared"), a⟩
  | [], s, p, _, _, h => by simp [firstUseList] at h
  | st :: rest, s, p, hd, hdecl, h => by
    simp only [declaresNameList, Bool.or_eq_false_iff] at hdecl
    rw [firstUseList, firstAfterVisit_eq_some] at h
    rw [visitStatementList]
    rcases h with h | ⟨_, s1, hst, h⟩
    · exact outcome_error_andThen _ _ _ (firstUse_error x st s p hd hdecl.1 h)
    · have hd1 := (visitStatement_of_undeclared x st s hd hdecl.1).2 s1 hst
      rw [hst]
      exact firstUseList_error x rest s1 p hd1 hdecl.2 h
end

theorem notDeclared_message_inj (y x : String)
    (h : "Variable '" ++ y ++ "' not declared" = "Variable '" ++ x ++ "' not declared") :
    y = x :=
  str_append_left_cancel _ _ _ (str_append_right_cancel _ _ _ h)

theorem firstAfterCheck_eq_none (found : Option (Nat × Nat)) (visit : Check)
    (next : Option (Nat × Nat)) :
    firstAfterCheck found visit next = none ↔
      found = none ∧ (visit = .ok () → next = none) := by
  cases found with
  | some q => simp [firstAfterCheck]
  | none =>
    cases visit with
    | error e => simp [firstAfterCheck]
    | ok u => simp [firstAfterCheck]

theorem firstAfterVisit_eq_none (found : Option (Nat × Nat)) (visit : Outcome)
    (next : SemanticAnalyser → Option (Nat × Nat)) :
    firstAfterVisit found visit next = none ↔
      found = none ∧ ∀ s1, visit = .ok s1 → next s1 = none := by
  cases found with
  | some q => simp [firstAfterVisit]
  | none =>
    cases visit with
    | error e => simp [firstAfterVisit]
    | ok s1 => simp [firstAfterVisit]

/-- Errors of two expression visits in sequence, when no use is reached in either. -/
theorem check_sequence_none (a b : Check) (fa fb : Option (Nat × Nat))
    (P : BlochRuntimeError → Prop) (h : firstAfterCheck fa a fb = none)
    (ha : fa = none → ∀ err, a = .error err → P err)
    (hb : fb = none → ∀ err, b = .error err → P err) :
    ∀ err, a.andThen b = .error err → P err := by
  rw [firstAfterCheck_eq_none] at h
  intro err herr
  cases a with
  | error e =>
    simp only [Check.andThen, Except.error.injEq] at herr
    subst herr
    exact ha h.1 e rfl
  | ok u => exact hb (h.2 rfl) err (by simpa [Check.andThen] using herr)

/-- Errors of two statement visits in sequence, when no use is reached in either. -/
theorem outcome_sequence_none (a : Outcome) (k : SemanticAnalyser → Outcome)
    (fa : Option (Nat × Nat)) (fk : SemanticAnalyser → Option (Nat × Nat))
    (P : Raised → Prop) (h : firstAfterVisit fa a fk = none)
    (ha : fa = none → ∀ r, a = .error r → P r)
    (hk : ∀ s1, a = .ok s1 → fk s1 = none → ∀ r, k s1 = .error r → P r) :
    ∀ r, a.andThen k = .error r → P r := by
  rw [firstAfterVisit_eq_none] at h
  intro r herr
  cases a with
  | error e =>
    simp only [Outcome.andThen, Except.error.injEq] at herr
    subst herr
    exact ha h.1 e rfl
  | ok s1 => exact hk s1 rfl (h.2 s1 rfl) r (by simpa [Outcome.andThen] using herr)

theorem checkCall_not_undeclared (x : String) (s : SemanticAnalyser)
    (line column vline vcolumn : Nat) (name : String) (arguments : List Expression)
    (hneg : ¬ (name = x ∧ isFunctionDeclared s x = false)) (err : BlochRuntimeError)
    (h : checkCall s line column vline vcolumn name arguments = .error err) :
    err.message ≠ "Variable '" ++ x ++ "' not declared" := by
  unfold checkCall at h
  split at h
  · rename_i hcond
    cases h
    intro hm
    have hname := notDeclared_message_inj _ _ hm
    subst hname
    simp only [Bool.and_eq_true, Bool.not_eq_true'] at hcond
    exact hneg ⟨rfl, hcond.2⟩
  · split at h
    · cases h
      intro hm
      have := congrArg (fun m => m.data.head?) hm
      simp [semanticError, String.data_append] at this
    · obtain ⟨j, t, hm⟩ := checkArgumentTypes_error s name _ _ _ _ h
      rw [hm]
      intro hm2
      have := congrArg (fun m => m.data.head?) hm2
      simp [String.data_append, argumentTypeMessage] at this

theorem checkAssignment_not_undeclared (x : String) (s : SemanticAnalyser)
    (line column : Nat) (name : String) (value : Option Expression) (hne : ¬ name = x)
    (err : BlochRuntimeError) (h : checkAssignment s line column name value = .error err) :
    err.message ≠ "Variable '" ++ x ++ "' not declared" := by
  unfold checkAssignment at h
  split at h
  · cases h
    intro hm
    exact hne (notDeclared_message_inj _ _ hm)
  · split at h
    · cases h
      intro hm
      have := congrArg (fun m => m.data.head?) hm
      simp [semanticError, String.data_append] at this
    · split at h
      · cases h
        intro hm
        have := congrArg (fun m => m.data.head?) hm
        simp [semanticError, String.data_append] at this
      · cases h

mutual
theorem firstRead_none (x : String) (s : SemanticAnalyser) :
    ∀ (e : Expression) (err : BlochRuntimeError), firstRead x s e = none →
      visitExpression s e = .error err →
      err.message ≠ "Variable '" ++ x ++ "' not declared"
  | .literal _ _ _ _, err, _, h => by simp [visitExpression] at h
  | .variable line column name, err, hf, h => by
    rw [firstRead] at hf
    rw [visitExpression] at h
    split at hf
    · cases hf
    · rename_i hne
      split at h
      · cases h
        intro hm
        exact hne (notDeclared_message_inj _ _ hm)
      · cases h
  | .binary _ _ _ left right, err, hf, h => by
    rw [firstRead] at hf
    rw [visitExpression] at h
    exact check_sequence_none _ _ _ _ _ hf
      (fun h1 e he => firstReadOpt_none x s left e h1 he)
      (fun h1 e he => firstReadOpt_none x s right e h1 he) err h
  | .unary _ _ _ right, err, hf, h => by
    rw [firstRead] at hf
    rw [visitExpression] at h
    exact firstReadOpt_none x s right err hf h
  | .call line column callee arguments, err, hf, h => by
    rw [firstRead] at hf
    rw [visitExpression] at h
    cases hc : asVariable callee with
    | none =>
      rw [hc] at hf h
      simp only at hf h
      exact check_sequence_none _ _ _ _ _ hf
        (fun h1 e he => firstReadOpt_none x s callee e h1 he)
        (fun h1 e he => firstReadList_none x s arguments e h1 he) err h
    | some v =>
      obtain ⟨vline, vcolumn, name⟩ := v
      rw [hc] at hf h
      simp only at hf h
      split at hf
      · cases hf
      · rename_i hneg
        exact check_sequence_none _ _ _ _ _ hf
          (fun _ e he => checkCall_not_undeclared x s line column vline vcolumn name arguments
            hneg e he)
          (fun h1 e he => firstReadList_none x s arguments e h1 he) err h
  | .index _ _ collection index, err, hf, h => by
    rw [firstRead] at hf
    rw [visitExpression] at h
    exact check_sequence_none _ _ _ _ _ hf
      (fun h1 e he => firstReadOpt_none x s collection e h1 he)
      (fun h1 e he => firstReadOpt_none x s index e h1 he) err h
  | .parenthesized _ _ expression, err, hf, h => by
    rw [firstRead] at hf
    rw [visitExpression] at h
    exact firstReadOpt_none x s expression err hf h
  | .measure _ _ qubit, err, hf, h => by
    rw [firstRead] at hf
    rw [visitExpression] at h
    exact firstReadOpt_none x s qubit err hf h
  | .assignment line column name value, err, hf, h => by
    rw [firstRead] at hf
    rw [visitExpression] at h
    split at hf
    · cases hf
    · rename_i hne
      exact check_sequence_none _ _ _ _ _ hf
        (fun _ e he => checkAssignment_not_undeclared x s line column name value hne e he)
        (fun h1 e he => firstReadOpt_none x s value e h1 he) err h
  | .constructorCall _ _ _ arguments, err, hf, h => by
    rw [firstRead] at hf
    rw [visitExpression] at h
    exact firstReadList_none x s arguments err hf h
  | .memberAccess _ _ object _, err, hf, h => by
    rw [firstRead] at hf
    rw [visitExpression] at h
    exact firstReadOpt_none x s object err hf h
theorem firstReadOpt_none (x : String) (s : SemanticAnalyser) :
    ∀ (e : Option Expression) (err : BlochRuntimeError), firstReadOpt x s e = none →
      visitOptExpression s e = .error err →
      err.message ≠ "Variable '" ++ x ++ "' not declared"
  | none, err, _, h => by simp [visitOptExpression] at h
  | some e, err, hf, h => by
    rw [firstReadOpt] at hf
    rw [visitOptExpression] at h
    exact firstRead_none x s e err hf h
theorem firstReadList_none (x : String) (s : SemanticAnalyser) :
    ∀ (es : List Expression) (err : BlochRuntimeError), firstReadList x s es = none →
      visitExpressionList s es = .error err →
      err.message ≠ "Variable '" ++ x ++ "' not declared"
  | [], err, _, h => by simp [visitExpressionList] at h
  | e :: rest, err, hf, h => by
    rw [firstReadList] at hf
    rw [visitExpressionList] at h
    exact check_sequence_none _ _ _ _ _ hf
      (fun h1 e' he => firstRead_none x s e e' h1 he)
      (fun h1 e' he => firstReadList_none x s rest e' h1 he) err h
end

theorem firstReadOpt_statement_none (x : String) (s : SemanticAnalyser)
    (e : Option Expression) (r : Raised) (hf : firstReadOpt x s e = none)
    (h : (visitOptExpression s e).toOutcome s = .error r) :
    r.error.message ≠ "Variable '" ++ x ++ "' not declared" :=
  firstReadOpt_none x s e r.error hf (Check.toOutcome_eq_error _ _ _ h).1

mutual
theorem firstUse_none (x : String) :
    ∀ (st : Statement) (s : SemanticAnalyser) (r : Raised), firstUse x st s = none →
      visitStatement st s = .error r →
      r.error.message ≠ "Variable '" ++ x ++ "' not declared"
  | .variableDeclaration node, s, r, hf, h => by
    rw [firstUse] at hf
    rw [visitStatement] at h
    unfold visitVariableDeclaration at h
    split at h
    · cases h
      intro hm
      have := congrArg (fun m => m.data.reverse.take 9) hm
      simp [semanticError, String.data_append] at this
    · rename_i hnot
      simp only [hnot, Bool.false_eq_true, ↓reduceIte] at hf
      simp only at h
      cases hi : node.initializer with
      | none =>
        rw [hi] at h
        cases h
      | some e =>
        rw [hi] at h hf
        simp only at h hf
        split at h
        · cases h
          intro hm
          have := congrArg (fun m => m.data.head?) hm
          simp [semanticError, String.data_append] at this
        · rename_i hvoid
          simp only [hvoid, Bool.false_eq_true, ↓reduceIte] at hf
          exact firstRead_none x _ e r.error hf (Check.toOutcome_eq_error _ _ _ h).1
  | .block _ _ statements, s, r, hf, h => by
    rw [firstUse] at hf
    rw [visitStatement] at h
    rcases outcome_andThen_eq_error _ _ _ h with h1 | ⟨s1, _, h1⟩
    · exact firstUseList_none x statements (beginScope s) r hf h1
    · cases h1
  | .expression _ _ e, s, r, hf, h => by
    rw [firstUse] at hf
    rw [visitStatement] at h
    exact firstReadOpt_statement_none x s e r hf h
  | .ret line column value, s, r, hf, h => by
    rw [firstUse] at hf
    rw [visitStatement] at h
    unfold visitReturn at h
    simp only at h
    split at h
    · cases h
      intro hm
      have := congrArg (fun m => m.data.take 2) hm
      simp [semanticError, String.data_append] at this
    · split at h
      · cases h
        intro hm
        have := congrArg (fun m => m.data.head?) hm
        simp [semanticError, String.data_append] at this
      · split at hf
        · rename_i hfirst _ hvoid
          cases value with
          | none =>
            simp [visitOptExpression, Check.toOutcome] at h
          | some e =>
            simp [hvoid] at hfirst
        · exact firstReadOpt_statement_none x s value r hf h
  | .ifStatement _ _ c t e, s, r, hf, h => by
    rw [firstUse] at hf
    rw [visitStatement] at h
    exact outcome_sequence_none _ _ _ _ _ hf
      (fun h1 r1 hr1 => firstReadOpt_statement_none x s c r1 h1 hr1)
      (fun s1 _ hf1 => outcome_sequence_none _ _ _ _ _ hf1
        (fun h2 r2 hr2 => firstUseOpt_none x t s1 r2 h2 hr2)
        (fun s2 _ hf2 r2 hr2 => firstUseOpt_none x e s2 r2 hf2 hr2)) r h
  | .forStatement _ _ i c inc b, s, r, hf, h => by
    rw [firstUse] at hf
    rw [visitStatement] at h
    exact outcome_sequence_none _ _ _ _ _ hf
      (fun h1 r1 hr1 => firstUseOpt_none x i (beginScope s) r1 h1 hr1)
      (fun s1 _ hf1 => outcome_sequence_none _ _ _ _ _ hf1
        (fun h2 r2 hr2 => firstReadOpt_statement_none x s1 c r2 h2 hr2)
        (fun s2 _ hf2 => outcome_sequence_none _ _ _ _ _ hf2
          (fun h3 r3 hr3 => firstReadOpt_statement_none x s2 inc r3 h3 hr3)
          (fun s3 _ hf3 r3 hr3 => by
            rcases outcome_andThen_eq_error _ _ _ hr3 with h4 | ⟨s4, _, h4⟩
            · exact firstUseOpt_none x b s3 r3 hf3 h4
            · cases h4))) r h
  | .echo _ _ e, s, r, hf, h => by
    rw [firstUse] at hf
    rw [visitStatement] at h
    exact firstReadOpt_statement_none x s e r hf h
  | .reset _ _ e, s, r, hf, h => by
    rw [firstUse] at hf
    rw [visitStatement] at h
    exact firstReadOpt_statement_none x s e r hf h
  | .measure _ _ e, s, r, hf, h => by
    rw [firstUse] at hf
    rw [visitStatement] at h
    exact firstReadOpt_statement_none x s e r hf h
  | .assignment line column name value, s, r, hf, h => by
    rw [firstUse] at hf
    rw [visitStatement] at h
    split at hf
    · cases hf
    · rename_i hne
      exact check_sequence_none _ _ _ _ _ hf
        (fun _ e he => checkAssignment_not_undeclared x s line column name value hne e he)
        (fun h1 e he => firstReadOpt_none x s value e h1 he) r.error
        (Check.toOutcome_eq_error _ _ _ h).1
theorem firstUseOpt_none (x : String) :
    ∀ (st : Option Statement) (s : SemanticAnalyser) (r : Raised), firstUseOpt x st s = none →
      visitOptStatement st s = .error r →
      r.error.message ≠ "Variable '" ++ x ++ "' not declared"
  | none, s, r, _, h => by simp [visitOptStatement] at h
  | some st, s, r, hf, h => by
    rw [firstUseOpt] at hf
    rw [visitOptStatement] at h
    exact firstUse_none x st s r hf h
theorem firstUseList_none (x : String) :
    ∀ (sts : List Statement) (s : SemanticAnalyser) (r : Raised), firstUseList x sts s = none →
      visitStatementList sts s = .error r →
      r.error.message ≠ "Variable '" ++ x ++ "' not declared"
  | [], s, r, _, h => by simp [visitStatementList] at h
  | st :: rest, s, r, hf, h => by
    rw [firstUseList] at hf
    rw [visitStatementList] at h
    exact outcome_sequence_none _ _ _ _ _ hf
      (fun h1 r1 hr1 => firstUse_none x st s r1 h1 hr1)
      (fun s1 _ hf1 r1 hr1 => firstUseList_none x rest s1 r1 hf1 hr1) r h
end

theorem firstUse_of_directUse (x : String) (st : Statement) (s : SemanticAnalyser)
    (p : Nat × Nat) (h : directUse x st = some p) : firstUse x st s = some p := by
  unfold directUse at h
  split at h
  all_goals first
    | cases h
    | (split at h
       · cases h
         subst_vars
         simp [firstUse, firstReadOpt, firstRead]
       · cases h)

/-- When hoisting, the functions before `fn`, the `@quantum` check and the parameters of `fn`
are accepted, an error of the statements of the body of `fn` is the error of `analyse`. -/
theorem analyse_of_body_error (p : Program) (s : SemanticAnalyser) (fn : FunctionDeclaration)
    (body : List Statement) (before after : List FunctionDeclaration)
    (s2 s3 s4 : SemanticAnalyser) (r : Raised)
    (hbody : fn.body = some body) (hfns : p.functions = before ++ fn :: after)
    (hhoist : hoistFunctions (hoistedEntries p) (beginScope s) = .ok s2)
    (hbefore : visitFunctions before s2 = .ok s3)
    (hq : (fn.hasQuantumAnnotation && !quantumReturnValid fn.returnType) = false)
    (hparams : declareParams fn.params (beginScope { s3 with
      m_currentReturnType := fn.returnType,
      m_functionInfo := mapSet s3.m_functionInfo fn.name (functionInfoOf fn) }) = .ok s4)
    (hr : visitStatementList body (beginScope s4) = .error r) :
    analyse p s = .error r := by
  have hfnv : visitFunctionDeclaration fn s3 = .error r := by
    unfold visitFunctionDeclaration
    simp only [hq, Bool.false_eq_true, ↓reduceIte, hparams, hbody, visitBody, hr,
      Outcome.andThen]
  simp only [analyse, visitProgram_eq, hhoist, hfns, visitFunctions_append, hbefore,
    visitFunctions, hfnv, Outcome.andThen]

/-- C29 (amended): let the body of a top-level function read or assign, at any depth, a name
`x` that is not a parameter of the function and is not declared inside the body, and let `x` be
invisible when `analyse` starts (as on a fresh analyser), so that `x` is declared at most by
top-level declarations of the program.  Then `analyse` throws: the program is never accepted,
wherever the top-level declaration of `x` is written, because the bodies are visited before any
top-level statement.  When hoisting, the visits of the functions before this one, the `@quantum`
check and the parameters of the function pass, the error is "Variable 'x' not declared", at the
node that names `x`, exactly when the visit of the body reaches a use of `x` (at any depth)
before any other check fails (`firstUseList`); when another check of the body fails first, the
error is not that message.  A statement that names `x` directly (`directUse`) after accepted
statements is the first use, and the throw happens in the state those statements left. -/
theorem function_body_cannot_use_top_level_name (p : Program) (s : SemanticAnalyser)
    (x : String) (fn : FunctionDeclaration) (body : List Statement)
    (hs : isDeclared s x = false)
    (hfn : fn ∈ p.functions) (hbody : fn.body = some body)
    (hparam : ∀ q ∈ fn.params, q.name ≠ x)
    (hdecl : declaresNameList x body = false) (huse : usesNameList x body = true) :
    (∃ r, analyse p s = .error r) ∧
    (∀ (before after : List FunctionDeclaration) (s2 s3 s4 : SemanticAnalyser),
      p.functions = before ++ fn :: after →
      hoistFunctions (hoistedEntries p) (beginScope s) = .ok s2 →
      visitFunctions before s2 = .ok s3 →
      (fn.hasQuantumAnnotation && !quantumReturnValid fn.returnType) = false →
      declareParams fn.params (beginScope { s3 with
        m_currentReturnType := fn.returnType,
        m_functionInfo := mapSet s3.m_functionInfo fn.name (functionInfoOf fn) }) = .ok s4 →
      (∀ (line column : Nat), firstUseList x body (beginScope s4) = some (line, column) →
        ∃ a, analyse p s =
          .error ⟨semanticError line column ("Variable '" ++ x ++ "' not declared"), a⟩) ∧
      (firstUseList x body (beginScope s4) = none →
        ∀ r, analyse p s = .error r →
          r.error.message ≠ "Variable '" ++ x ++ "' not declared")) ∧
    (∀ (before after : List FunctionDeclaration) (pre rest : List Statement) (st : Statement)
        (line column : Nat) (s2 s3 s4 s5 : SemanticAnalyser),
      p.functions = before ++ fn :: after → body = pre ++ st :: rest →
      hoistFunctions (hoistedEntries p) (beginScope s) = .ok s2 →
      visitFunctions before s2 = .ok s3 →
      (fn.hasQuantumAnnotation && !quantumReturnValid fn.returnType) = false →
      declareParams fn.params (beginScope { s3 with
        m_currentReturnType := fn.returnType,
        m_functionInfo := mapSet s3.m_functionInfo fn.name (functionInfoOf fn) }) = .ok s4 →
      visitStatementList pre (beginScope s4) = .ok s5 →
      directUse x st = some (line, column) →
      firstUseList x body (beginScope s4) = some (line, column) ∧
      analyse p s =
        .error ⟨semanticError line column ("Variable '" ++ x ++ "' not declared"), s5⟩) := by
  have hstate : ∀ (before : List FunctionDeclaration) (s2 s3 s4 : SemanticAnalyser),
      hoistFunctions (hoistedEntries p) (beginScope s) = .ok s2 →
      visitFunctions before s2 = .ok s3 →
      declareParams fn.params (beginScope { s3 with
        m_currentReturnType := fn.returnType,
        m_functionInfo := mapSet s3.m_functionInfo fn.name (functionInfoOf fn) }) = .ok s4 →
      isDeclared (beginScope s4) x = false := by
    intro before s2 s3 s4 hhoist hbefore hparams
    have hd2 : isDeclared s2 x = false := by
      rw [isDeclared_of_scopes_eq (hoistFunctions_scopes _ _ s2 hhoist), isDeclared_beginScope]
      exact hs
    have hd3 : isDeclared s3 x = false := by
      rw [isDeclared_of_scopes_eq (visitFunctions_scopes before s2 s3 hbefore)]
      exact hd2
    rw [isDeclared_beginScope]
    exact declareParams_undeclared x fn.params _ s4 hparams hparam
      (by rw [isDeclared_beginScope]; exact hd3)
  refine ⟨(Outcome.rejects_iff _).mp
    (analyse_rejects x p fn body s hs hfn hbody hparam hdecl huse), ?_, ?_⟩
  · intro before after s2 s3 s4 hfns hhoist hbefore hq hparams
    have hd4 := hstate before s2 s3 s4 hhoist hbefore hparams
    constructor
    · intro line column hfirst
      obtain ⟨a, ha⟩ := firstUseList_error x body (beginScope s4) (line, column) hd4 hdecl hfirst
      exact ⟨a, analyse_of_body_error p s fn body before after s2 s3 s4 _ hbody hfns hhoist
        hbefore hq hparams ha⟩
    · intro hnone r hr
      obtain ⟨r0, hr0⟩ := (Outcome.rejects_iff _).mp
        ((visitStatementList_of_undeclared x body (beginScope s4) hd4 hdecl).1 huse)
      have := analyse_of_body_error p s fn body before after s2 s3 s4 r0 hbody hfns hhoist
        hbefore hq hparams hr0
      rw [this] at hr
      have hsame : r0 = r := by
        injection hr
      rw [← hsame]
      exact firstUseList_none x body (beginScope s4) r0 hnone hr0
  · intro before after pre rest st line column s2 s3 s4 s5 hfns hsplit hhoist hbefore hq
      hparams hpre hdirect
    have hd4 := hstate before s2 s3 s4 hhoist hbefore hparams
    have hdpre : declaresNameList x pre = false := by
      rw [hsplit, declaresNameList_append, Bool.or_eq_false_iff] at hdecl
      exact hdecl.1
    have hd5 : isDeclared s5 x = false :=
      (visitStatementList_of_undeclared x pre (beginScope s4) hd4 hdpre).2 s5 hpre
    have hst := directUse_error x st line column s5 hdirect hd5
    have hlist : visitStatementList body (beginScope s4) =
        .error ⟨semanticError line column ("Variable '" ++ x ++ "' not declared"), s5⟩ := by
      rw [hsplit, visitStatementList_append, hpre]
      simp only [Outcome.andThen, visitStatementList, hst]
    refine ⟨?_, analyse_of_body_error p s fn body before after s2 s3 s4 _ hbody hfns hhoist
      hbefore hq hparams hlist⟩
    cases hfirst : firstUseList x body (beginScope s4) with
    | some q =>
      obtain ⟨a, ha⟩ := firstUseList_error x body (beginScope s4) q hd4 hdecl hfirst
      rw [hlist] at ha
      simp only [Except.error.injEq, Raised.mk.injEq] at ha
      have hq1 := congrArg BlochRuntimeError.line ha.1
      have hq2 := congrArg BlochRuntimeError.column ha.1
      simp only [semanticError] at hq1 hq2
      rw [hq1, hq2]
    | none =>
      exact absurd rfl (firstUseList_none x body (beginScope s4) _ hfirst hlist)

theorem function_body_cannot_use_top_level_name_witness :
    (∃ r, analyse (progWithBody .void bodyEchoSum) SemanticAnalyser.fresh = .error r) ∧
    firstUseList "x" bodyEchoSum (insideBodyOfF .void) = some (2, 33) ∧
    (∃ a, analyse (progWithBody .void bodyEchoSum) SemanticAnalyser.fresh =
      .error ⟨semanticError 2 33 ("Variable '" ++ "x" ++ "' not declared"), a⟩) ∧
    (firstUseList "x" bodyDeclarationFromX (insideBodyOfF .void) = some (2, 32) ∧
      thrownError (analyse (progWithBody .void bodyDeclarationFromX) SemanticAnalyser.fresh) =
        some (semanticError 2 32 "Variable 'x' not declared")) ∧
    (firstUseList "x" bodyNestedAssignment (insideBodyOfF .void) = some (2, 26) ∧
      thrownError (analyse (progWithBody .void bodyNestedAssignment) SemanticAnalyser.fresh) =
        some (semanticError 2 26 "Variable 'x' not declared")) ∧
    (firstUseList "x" bodyIfX (insideBodyOfF .void) = some (2, 28) ∧
      thrownError (analyse (progWithBody .void bodyIfX) SemanticAnalyser.fresh) =
        some (semanticError 2 28 "Variable 'x' not declared")) ∧
    (firstUseList "x" bodyReturnX (insideBodyOfF (.primitive "int")) = some (2, 31) ∧
      thrownError (analyse (progWithBody (.primitive "int") bodyReturnX)
          SemanticAnalyser.fresh) =
        some (semanticError 2 31 "Variable 'x' not declared")) ∧
    (firstUseList "x" bodyReturnX (insideBodyOfF .void) = none ∧
      thrownError (analyse (progWithBody .void bodyReturnX) SemanticAnalyser.fresh) =
        some (semanticError 2 24 "Void function cannot return a value")) ∧
    analyse progTopLevelNameInFunction SemanticAnalyser.fresh =
      .error ⟨semanticError 2 24 ("Variable '" ++ "x" ++ "' not declared"),
        insideBodyOfF .void⟩ ∧
    thrownError (analyse progDeclareAssign SemanticAnalyser.fresh) = none :=
  have h := function_body_cannot_use_top_level_name (progWithBody .void bodyEchoSum)
    SemanticAnalyser.fresh "x" (functionWithBody .void bodyEchoSum) bodyEchoSum rfl
    (by simp [progWithBody]) rfl (by simp [functionWithBody]) rfl rfl
  have h2 := function_body_cannot_use_top_level_name progTopLevelNameInFunction
    SemanticAnalyser.fresh "x" functionAssigningX
    [.assignment 2 24 "x" (some (intLit "1"))] rfl (by simp [progTopLevelNameInFunction]) rfl
    (by simp [functionAssigningX]) rfl rfl
  ⟨h.1, by decide,
    (h.2.1 [] [] { topLevel with m_functions := ["f"] } { topLevel with m_functions := ["f"] }
      { m_scopes := [[], []], m_functions := ["f"],
        m_functionInfo := [("f", ⟨some .void, []⟩)], m_currentReturnType := some .void }
      rfl rfl rfl rfl rfl).1 2 33 (by decide),
    by decide, by decide, by decide, by decide, by decide,
    (h2.2.2 [] [] [] [] (.assignment 2 24 "x" (some (intLit "1"))) 2 24
      { topLevel with m_functions := ["f"] }
      { topLevel with m_functions := ["f"] }
      { m_scopes := [[], []], m_functions := ["f"],
        m_functionInfo := [("f", ⟨some .void, []⟩)], m_currentReturnType := some .void }
      (insideBodyOfF .void)
      rfl rfl rfl rfl rfl rfl rfl rfl).2,
    by decide⟩

/-- C29 as stated fails: in both programs a function body assigns `x`, which is declared only
by the top-level `int x;` on line 1, and `analyse` throws another error than "Variable 'x' not
declared".  With a second function of the same name the hoisting loop throws "Function 'f'
redeclared" before any body is visited; with `y = 1;` written before `x = 2;` in the body the
error is the one for `y`. -/
theorem top_level_name_other_error_counterexample :
    (usesNameList "x" [.assignment 2 24 "x" (some (intLit "1"))] = true ∧
      functionAssigningX ∈ progTopLevelNameAndDuplicate.functions ∧
      thrownError (analyse progTopLevelNameAndDuplicate SemanticAnalyser.fresh) =
        some (semanticError 3 1 "Function 'f' redeclared")) ∧
    (usesNameList "x" [.assignment 2 24 "y" (some (intLit "1")),
        .assignment 2 31 "x" (some (intLit "2"))] = true ∧
      thrownError (analyse progOtherNameFirst SemanticAnalyser.fresh) =
        some (semanticError 2 24 "Variable 'y' not declared")) := by
  refine ⟨⟨by decide, by simp [progTopLevelNameAndDuplicate], by decide⟩, by decide, by decide⟩

/-! ## Qubit lifecycle -/

theorem TableGrows.unchanged (qs : List QubitInfo) : TableGrows qs qs :=
  fun _ info h => ⟨info, h, rfl, id⟩

theorem TableGrows.next {a b c : List QubitInfo} (h1 : TableGrows a b) (h2 : TableGrows b c) :
    TableGrows a c := by
  intro i info h
  obtain ⟨info1, hb, hn1, hm1⟩ := h1 i info h
  obtain ⟨info2, hc, hn2, hm2⟩ := h2 i info1 hb
  exact ⟨info2, hc, hn2.trans hn1, fun hm => hm2 (hm1 hm)⟩

theorem TableGrows.length_le {qs qs' : List QubitInfo} (h : TableGrows qs qs') :
    qs.length ≤ qs'.length := by
  by_contra hlt
  have hpos : qs'.length < qs.length := by omega
  obtain ⟨info', h', _⟩ := h qs'.length (qs.get ⟨qs'.length, hpos⟩)
    (List.getElem?_eq_getElem hpos)
  simp at h'

theorem tableGrows_append (qs : List QubitInfo) (q : QubitInfo) : TableGrows qs (qs ++ [q]) := by
  intro i info h
  have hi : i < qs.length := by
    by_contra hge
    rw [List.getElem?_eq_none (by omega)] at h
    cases h
  exact ⟨info, by rw [List.getElem?_append_left hi]; exact h, rfl, id⟩

theorem tableGrows_setMeasured : ∀ (qs : List QubitInfo) (n : Nat),
    TableGrows qs (setMeasured qs n)
  | [], _ => by
    rw [setMeasured]
    exact TableGrows.unchanged _
  | q :: rest, 0 => by
    rw [setMeasured]
    intro i info h
    cases i with
    | zero =>
      simp only [List.getElem?_cons_zero, Option.some.injEq] at h
      exact ⟨{ q with measured := true }, by simp, by rw [← h], fun _ => rfl⟩
    | succ j => exact ⟨info, by simpa using h, rfl, id⟩
  | q :: rest, n + 1 => by
    rw [setMeasured]
    intro i info h
    cases i with
    | zero => exact ⟨info, by simpa using h, rfl, id⟩
    | succ j =>
      simp only [List.getElem?_cons_succ] at h
      obtain ⟨info', h', hn, hm⟩ := tableGrows_setMeasured rest n j info h
      exact ⟨info', by simpa using h', hn, hm⟩

theorem markMeasured_grows (σ : RuntimeEvaluator) (index : Int) :
    TableGrows σ.m_qubits (σ.markMeasured index).m_qubits := by
  unfold RuntimeEvaluator.markMeasured
  split
  · exact tableGrows_setMeasured _ _
  · exact TableGrows.unchanged _

theorem measure_grows (answers : SimulatorAnswers) (σ : RuntimeEvaluator) (index : Int) :
    TableGrows σ.m_qubits ((σ.simMeasure answers index).2.markMeasured index).m_qubits :=
  markMeasured_grows (σ.simMeasure answers index).2 index

theorem applyGate_qubits (σ σ' : RuntimeEvaluator) (name : String) (args : List Value)
    (h : σ.applyGate name args = .ok σ') : σ'.m_qubits = σ.m_qubits := by
  unfold RuntimeEvaluator.applyGate at h
  split at h <;> cases h <;> rfl

theorem bindInnermost_qubits (σ σ' : RuntimeEvaluator) (name : String) (v : Value)
    (h : σ.bindInnermost name v = .ok σ') : σ'.m_qubits = σ.m_qubits := by
  unfold RuntimeEvaluator.bindInnermost at h
  split at h <;> cases h
  rfl

theorem assign_qubits (σ σ' : RuntimeEvaluator) (name : String) (v : Value)
    (h : σ.assign name v = .ok σ') : σ'.m_qubits = σ.m_qubits := by
  unfold RuntimeEvaluator.assign at h
  split at h
  · cases h
    rfl
  · exact bindInnermost_qubits σ σ' name v h

theorem TableGrows.of_eq {qs qs' : List QubitInfo} (h : qs' = qs) : TableGrows qs qs' := by
  rw [h]
  exact TableGrows.unchanged qs

theorem declaredDefault_grows (answers : SimulatorAnswers) (σ : RuntimeEvaluator)
    (name : String) (t : Option Ty) :
    TableGrows σ.m_qubits (declaredDefault answers σ name t).2.m_qubits := by
  unfold declaredDefault
  split
  · split
    · exact TableGrows.unchanged _
    · split
      · exact TableGrows.unchanged _
      · split
        · exact TableGrows.unchanged _
        · split
          · exact tableGrows_append _ _
          · exact TableGrows.unchanged _
  · exact TableGrows.unchanged _

theorem execStatements_grows
    (step : Option Statement → RuntimeEvaluator → Run RuntimeEvaluator)
    (hstep : ∀ st σ σ', step st σ = .ok σ' → TableGrows σ.m_qubits σ'.m_qubits) :
    ∀ (sts : List Statement) (σ σ' : RuntimeEvaluator),
      execStatements step sts σ = .ok σ' → TableGrows σ.m_qubits σ'.m_qubits
  | [], σ, σ', h => by
    rw [execStatements] at h
    cases h
    exact TableGrows.unchanged _
  | st :: rest, σ, σ', h => by
    rw [execStatements] at h
    split at h
    · cases h
    · have h1 := hstep _ _ _ ‹_›
      split at h
      · cases h
        exact h1
      · exact h1.next (execStatements_grows step hstep rest _ _ h)

theorem evalArguments_grows
    (step : Option Expression → RuntimeEvaluator → Run (Value × RuntimeEvaluator))
    (hstep : ∀ e σ v σ', step e σ = .ok (v, σ') → TableGrows σ.m_qubits σ'.m_qubits) :
    ∀ (es : List Expression) (σ : RuntimeEvaluator) (vs : List Value) (σ' : RuntimeEvaluator),
      evalArguments step es σ = .ok (vs, σ') → TableGrows σ.m_qubits σ'.m_qubits
  | [], σ, vs, σ', h => by
    rw [evalArguments] at h
    cases h
    exact TableGrows.unchanged _
  | e :: rest, σ, vs, σ', h => by
    rw [evalArguments] at h
    split at h
    · cases h
    · have h1 := hstep _ _ _ _ ‹_›
      split at h
      · cases h
      · cases h
        exact h1.next (evalArguments_grows step hstep rest _ _ _ ‹_›)

/-- Every run of `eval`, `exec`, the loop of a for statement and `call` that returns keeps every
entry of the qubit table. -/
theorem run_keeps_qubits (answers : SimulatorAnswers) : ∀ (fuel : Nat),
    (∀ e σ v σ', eval answers fuel e σ = .ok (v, σ') → TableGrows σ.m_qubits σ'.m_qubits) ∧
    (∀ st σ σ', exec answers fuel st σ = .ok σ' → TableGrows σ.m_qubits σ'.m_qubits) ∧
    (∀ c i b σ σ', forLoop answers fuel c i b σ = .ok σ' →
      TableGrows σ.m_qubits σ'.m_qubits) ∧
    (∀ fn args σ v σ', call answers fuel fn args σ = .ok (v, σ') →
      TableGrows σ.m_qubits σ'.m_qubits)
  | 0 => by
    refine ⟨?_, ?_, ?_, ?_⟩
    · intro e σ v σ' h
      simp [eval] at h
    · intro st σ σ' h
      simp [exec] at h
    · intro c i b σ σ' h
      simp [forLoop] at h
    · intro fn args σ v σ' h
      simp [call] at h
  | fuel + 1 => by
    obtain ⟨ihe, ihx, ihl, ihc⟩ := run_keeps_qubits answers fuel
    refine ⟨?_, ?_, ?_, ?_⟩
    · intro e σ v σ' h
      cases e with
      | none =>
        simp only [eval, Except.ok.injEq, Prod.mk.injEq] at h
        rw [← h.2]
        exact TableGrows.unchanged _
      | some e =>
        cases e with
        | literal l c value lt =>
          simp only [eval] at h
          split at h
          · cases h
          · split at h <;> cases h <;> exact TableGrows.unchanged _
        | «variable» l c name =>
          simp only [eval, Except.ok.injEq, Prod.mk.injEq] at h
          rw [← h.2]
          exact TableGrows.unchanged _
        | binary l c op left right =>
          simp only [eval] at h
          split at h
          · cases h
          · have h1 := ihe _ _ _ _ ‹_›
            split at h
            · cases h
            · have h2 := ihe _ _ _ _ ‹_›
              split at h
              · cases h
              · cases h
                exact h1.next h2
        | unary l c op right =>
          simp only [eval] at h
          split at h
          · cases h
          · have h1 := ihe _ _ _ _ ‹_›
            split at h <;> cases h <;> exact h1
        | call l c callee arguments =>
          simp only [eval] at h
          split at h
          · cases h
            exact TableGrows.unchanged _
          · split at h
            · cases h
            · have h1 := evalArguments_grows _ ihe _ _ _ _ ‹_›
              split at h
              · split at h
                · cases h
                · cases h
                  exact h1.next (TableGrows.of_eq (applyGate_qubits _ _ _ _ ‹_›))
              · split at h
                · cases h
                  exact h1
                · split at h
                  · cases h
                  · have h2 := ihc _ _ _ _ _ ‹_›
                    split at h <;> cases h <;> exact h1.next h2
        | measure l c qubit =>
          simp only [eval] at h
          split at h
          · cases h
          · have h1 := ihe _ _ _ _ ‹_›
            cases h
            exact h1.next (measure_grows answers _ _)
        | assignment l c name value =>
          simp only [eval] at h
          split at h
          · cases h
          · have h1 := ihe _ _ _ _ ‹_›
            split at h
            · cases h
            · cases h
              exact h1.next (TableGrows.of_eq (assign_qubits _ _ _ _ ‹_›))
        | index l c a b =>
          simp only [eval, Except.ok.injEq, Prod.mk.injEq] at h
          rw [← h.2]
          exact TableGrows.unchanged _
        | parenthesized l c a =>
          simp only [eval, Except.ok.injEq, Prod.mk.injEq] at h
          rw [← h.2]
          exact TableGrows.unchanged _
        | constructorCall l c n a =>
          simp only [eval, Except.ok.injEq, Prod.mk.injEq] at h
          rw [← h.2]
          exact TableGrows.unchanged _
        | memberAccess l c a m =>
          simp only [eval, Except.ok.injEq, Prod.mk.injEq] at h
          rw [← h.2]
          exact TableGrows.unchanged _
    · intro st σ σ' h
      cases st with
      | none =>
        simp only [exec, Except.ok.injEq] at h
        rw [← h]
        exact TableGrows.unchanged _
      | some st =>
        cases st with
        | variableDeclaration node =>
          simp only [exec] at h
          have hd := declaredDefault_grows answers σ node.name node.varType
          split at h
          · exact hd.next (TableGrows.of_eq (bindInnermost_qubits _ _ _ _ h))
          · split at h
            · cases h
            · have h1 := ihe _ _ _ _ ‹_›
              exact (hd.next h1).next (TableGrows.of_eq (bindInnermost_qubits _ _ _ _ h))
        | block l c statements =>
          simp only [exec] at h
          split at h
          · cases h
          · have h1 := execStatements_grows _ ihx _ _ _ ‹_›
            cases h
            exact h1
        | expression l c e =>
          simp only [exec] at h
          split at h
          · cases h
          · have h1 := ihe _ _ _ _ ‹_›
            cases h
            exact h1
        | ret l c value =>
          simp only [exec] at h
          split at h
          · cases h
            exact TableGrows.unchanged _
          · split at h
            · cases h
            · have h1 := ihe _ _ _ _ ‹_›
              cases h
              exact h1
        | ifStatement l c cond t e =>
          simp only [exec] at h
          split at h
          · cases h
          · have h1 := ihe _ _ _ _ ‹_›
            split at h
            · exact h1.next (ihx _ _ _ h)
            · exact h1.next (ihx _ _ _ h)
        | forStatement l c init cond inc body =>
          simp only [exec] at h
          split at h
          · cases h
          · have h1 := ihx _ _ _ ‹_›
            split at h
            · cases h
            · have h2 := ihl _ _ _ _ _ ‹_›
              cases h
              exact h1.next h2
        | echo l c value =>
          simp only [exec] at h
          split at h
          · cases h
          · have h1 := ihe _ _ _ _ ‹_›
            cases h
            exact h1
        | reset l c target =>
          simp only [exec, Except.ok.injEq] at h
          rw [← h]
          exact TableGrows.unchanged _
        | measure l c qubit =>
          simp only [exec] at h
          split at h
          · cases h
          · have h1 := ihe _ _ _ _ ‹_›
            cases h
            exact h1.next (measure_grows answers _ _)
        | assignment l c name value =>
          simp only [exec] at h
          split at h
          · cases h
          · exact (ihe _ _ _ _ ‹_›).next (TableGrows.of_eq (assign_qubits _ _ _ _ h))
    · intro c i b σ σ' h
      simp only [forLoop] at h
      split at h
      · cases h
      · rename_i cv σ1 hc
        have h1 : TableGrows σ.m_qubits σ1.m_qubits := by
          cases c with
          | none =>
            simp only [Except.ok.injEq, Prod.mk.injEq] at hc
            rw [← hc.2]
            exact TableGrows.unchanged _
          | some c => exact ihe _ _ _ _ hc
        split at h
        · cases h
          exact h1
        · split at h
          · cases h
          · rename_i σ2 hb
            have h2 := ihx _ _ _ hb
            split at h
            · cases h
              exact h1.next h2
            · split at h
              · cases h
              · rename_i σ3 hi
                have h3 : TableGrows σ2.m_qubits σ3.m_qubits := by
                  cases i with
                  | none =>
                    simp only [Except.ok.injEq] at hi
                    rw [← hi]
                    exact TableGrows.unchanged _
                  | some i =>
                    simp only at hi
                    split at hi
                    · cases hi
                    · have h4 := ihe _ _ _ _ ‹_›
                      cases hi
                      exact h4
                exact ((h1.next h2).next h3).next (ihl _ _ _ _ _ h)
    · intro fn args σ v σ' h
      simp only [call] at h
      split at h
      · cases h
      · rename_i σ2 hb
        have h2 : TableGrows σ.m_qubits σ2.m_qubits := by
          cases hbody : fn.body with
          | none =>
            simp only [hbody, Except.ok.injEq] at hb
            rw [← hb]
            exact TableGrows.unchanged _
          | some statements =>
            simp only [hbody] at hb
            have := execStatements_grows _ ihx _ _ _ hb
            exact this
        cases h
        exact h2

/-- C22: across every statement execution and expression evaluation that returns (and so
across every call and every run of `execute`), the qubit table keeps every entry: at each index
that had an entry there is still one, with the same source name, and measured if it was
measured before; so no entry is lost, no name changes and no measured flag goes back to false.
A reset statement returns the state it was given, so it changes no entry.  On the state after
`qubit q;` a measure statement takes the entry from not measured to measured, and a further
reset and measure leave it measured. -/
theorem qubit_table_only_grows (answers : SimulatorAnswers) (fuel : Nat) :
    (∀ st σ σ', exec answers fuel st σ = .ok σ' → TableGrows σ.m_qubits σ'.m_qubits) ∧
    (∀ e σ v σ', eval answers fuel e σ = .ok (v, σ') → TableGrows σ.m_qubits σ'.m_qubits) ∧
    (∀ fn args σ v σ', call answers fuel fn args σ = .ok (v, σ') →
      TableGrows σ.m_qubits σ'.m_qubits) ∧
    (∀ program σ σ', execute answers fuel program σ = .ok σ' →
      TableGrows σ.m_qubits σ'.m_qubits) ∧
    (∀ qs qs', TableGrows qs qs' → qs.length ≤ qs'.length) ∧
    (∀ line column target σ,
      exec answers (fuel + 1) (some (.reset line column target)) σ = .ok σ) ∧
    (afterQubitDeclaration.m_qubits = [⟨"q", false⟩] ∧
      (exec countingSimulator 3 (some (.measure 1 10 (some (.variable 1 18 "q"))))
          afterQubitDeclaration).map (fun r => r.m_qubits) = .ok [⟨"q", true⟩] ∧
      (exec countingSimulator 4 (some (.block 1 1
          [.measure 1 10 (some (.variable 1 18 "q")), .reset 2 1 (some (.variable 2 7 "q")),
            .measure 3 1 (some (.variable 3 9 "q")), .variableDeclaration declQubitQ]))
          afterQubitDeclaration).map (fun r => r.m_qubits) =
        .ok [⟨"q", true⟩, ⟨"q", false⟩]) := by
  obtain ⟨he, hx, _, hc⟩ := run_keeps_qubits answers fuel
  refine ⟨hx, he, hc, ?_, fun _ _ h => h.length_le, fun _ _ _ _ => rfl, rfl, by decide,
    by decide⟩
  intro program σ σ' h
  unfold execute at h
  simp only at h
  split at h
  · cases h
    exact TableGrows.unchanged _
  · split at h
    · cases h
    · rename_i hcall
      cases h
      have := hc _ _ _ _ _ hcall
      exact this

/-! ## Functions named like a built-in gate -/

/-- C32: a program in which an entry of the hoisted sequence (top-level functions, then the
methods of all classes) has a built-in gate name (one of h, x, y, z, rx, ry, rz, cx, the keys
of `builtInGates`) is rejected by `analyse` on a fresh analyser with a "Function '<name>'
redeclared" error thrown by the hoisting loop: at the throw no signature is registered and the
scope stack is the bare top-level scope.  The error is thrown at the first entry that clashes,
which is at or before the gate-named entry; it is the gate-named entry itself when no entry
before it clashes, in particular when it is the only function of the program. -/
theorem gate_named_function_rejected (p : Program) (j : Nat) (b : FunctionDeclaration)
    (hb : (hoistedEntries p)[j]? = some b)
    (hgate : b.name ∈ ["h", "x", "y", "z", "rx", "ry", "rz", "cx"]) :
    (mapFind builtInGates b.name).isSome = true ∧
    (∃ k e st, k ≤ j ∧ (hoistedEntries p)[k]? = some e ∧
      analyse p SemanticAnalyser.fresh = .error ⟨semanticError e.line e.column
        ("Function '" ++ e.name ++ "' redeclared"), st⟩ ∧
      st.m_functionInfo = [] ∧ st.m_scopes = [[]]) ∧
    ((∀ k' e', k' < j → (hoistedEntries p)[k']? = some e' →
        ¬ Clash [] ((hoistedEntries p).take k') e'.name) →
      ∃ st, analyse p SemanticAnalyser.fresh = .error ⟨semanticError b.line b.column
        ("Function '" ++ b.name ++ "' redeclared"), st⟩ ∧
        st.m_functionInfo = [] ∧ st.m_scopes = [[]]) := by
  have hkey : (mapFind builtInGates b.name).isSome = true := by
    simp only [List.mem_cons, List.mem_singleton, List.not_mem_nil, or_false] at hgate
    rcases hgate with h | h | h | h | h | h | h | h <;> rw [h] <;> decide
  have hclash : Clash [] ((hoistedEntries p).take j) b.name := Or.inr (Or.inl hkey)
  obtain ⟨k, e, st, hk, hck, hmin, hres, hfi, hsc⟩ :=
    hoistFunctions_first_clash (hoistedEntries p) (beginScope SemanticAnalyser.fresh)
      ⟨j, b, hb, hclash⟩
  have hkj : k ≤ j := by
    by_contra hlt
    exact hmin j b (by omega) hb hclash
  refine ⟨hkey, ⟨k, e, st, hkj, hk, analyse_of_hoist_error p _ _ hres, hfi, hsc⟩, ?_⟩
  intro hfirst
  have hkeq : k = j := by
    by_contra hne
    exact hfirst k e (by omega) hk hck
  subst hkeq
  rw [hb] at hk
  cases hk
  exact ⟨st, analyse_of_hoist_error p _ _ hres, hfi, hsc⟩

theorem gate_named_function_rejected_witness :
    ∃ st, analyse progGateNamedFunction SemanticAnalyser.fresh =
        .error ⟨semanticError 1 1 ("Function '" ++ "rx" ++ "' redeclared"), st⟩ ∧
      st.m_functionInfo = [] ∧ st.m_scopes = [[]] :=
  (gate_named_function_rejected progGateNamedFunction 0 (emptyVoidFunction 1 "rx") rfl
    (by decide)).2.2 (fun k' e' hk _ => absurd hk (Nat.not_lt_zero k'))

/-! ## The name of a declaration inside its initializer -/

theorem ExpressionError.not_undeclared_for_visible {s : SemanticAnalyser} {m : String}
    (hm : ExpressionError s m) (x : String) (hd : isDeclared s x = true) :
    m ≠ "Variable '" ++ x ++ "' not declared" := by
  rcases hm with ⟨y, hy, rfl⟩ | ⟨y, _, hy, rfl⟩ | rfl | ⟨n, k, rfl⟩ | ⟨i, n, t, rfl⟩
  · intro h
    have := str_append_left_cancel _ _ _ (str_append_right_cancel _ _ _ h)
    subst this
    rw [hd] at hy
    cases hy
  all_goals
    intro h
    have := congrArg (fun m => m.data.head?) h
    simp [String.data_append, argumentTypeMessage] at this

/-- C33: let `x` be invisible in a state with a top frame.  A variable declaration of `x` puts
`x` into the top frame (with its final flag and type name) before it looks at the initializer:
every throw of the visit happens in that state, so `x` is in the top frame already, and no throw
carries "Variable 'x' not declared".  With the initializer `x` itself (`int x = x;`) the visit
returns that state; with an initializer that is a call of a void function it throws "Cannot
assign result of void function" in that state. -/
theorem declaration_visible_in_initializer (s : SemanticAnalyser) (node : VariableDeclaration)
    (top : Frame) (rest : List Frame)
    (hs : s.m_scopes = top :: rest) (hx : isDeclared s node.name = false) :
    (declare s node.name node.isFinal (typeNameOf node.varType)).m_scopes =
      mapSet top node.name ⟨node.isFinal, typeNameOf node.varType⟩ :: rest ∧
    mapFind (mapSet top node.name ⟨node.isFinal, typeNameOf node.varType⟩) node.name =
      some ⟨node.isFinal, typeNameOf node.varType⟩ ∧
    isDeclared (declare s node.name node.isFinal (typeNameOf node.varType)) node.name = true ∧
    (∀ r, visitVariableDeclaration node s = .error r →
      r.state = declare s node.name node.isFinal (typeNameOf node.varType) ∧
      r.error.message ≠ "Variable '" ++ node.name ++ "' not declared") ∧
    (∀ line column, node.initializer = some (.variable line column node.name) →
      visitVariableDeclaration node s =
        .ok (declare s node.name node.isFinal (typeNameOf node.varType))) ∧
    (isVoidCall (declare s node.name node.isFinal (typeNameOf node.varType)) node.initializer =
        true →
      visitVariableDeclaration node s =
        .error ⟨semanticError node.line node.column "Cannot assign result of void function",
          declare s node.name node.isFinal (typeNameOf node.varType)⟩) := by
  have hfound := findVariable_declare_self s node.name node.isFinal (typeNameOf node.varType)
    (by rw [hs]; simp)
  have hd1 : isDeclared (declare s node.name node.isFinal (typeNameOf node.varType))
      node.name = true := by
    simp [isDeclared, hfound]
  refine ⟨by simp [declare, hs], mapFind_mapSet_self _ _ _, hd1, ?_, ?_, ?_⟩
  · intro r h
    unfold visitVariableDeclaration at h
    simp only [hx, Bool.false_eq_true, ↓reduceIte] at h
    split at h
    · cases h
    · split at h
      · cases h
        refine ⟨rfl, ?_⟩
        intro hmsg
        have := congrArg (fun m => m.data.head?) hmsg
        simp [semanticError, String.data_append] at this
      · obtain ⟨h1, h2⟩ := Check.toOutcome_eq_error _ _ _ h
        exact ⟨h2, (visitExpression_error _ _ _ h1).not_undeclared_for_visible node.name hd1⟩
  · intro line column hinit
    unfold visitVariableDeclaration
    simp only [hx, Bool.false_eq_true, ↓reduceIte, hinit, isVoidCall, visitExpression, hd1,
      Bool.not_true, Check.toOutcome]
  · intro hvoid
    unfold visitVariableDeclaration
    simp only [hx, Bool.false_eq_true, ↓reduceIte]
    cases hinit : node.initializer with
    | none => simp [hinit, isVoidCall] at hvoid
    | some e =>
      rw [hinit] at hvoid
      simp only [hvoid, ↓reduceIte]

theorem declaration_visible_in_initializer_witness :
    visitVariableDeclaration declIntXFromX topLevel = .ok afterIntX ∧
    visitVariableDeclaration declIntXFromCall afterVoidFunctionV =
      .error ⟨semanticError 1 1 "Cannot assign result of void function",
        { afterVoidFunctionV with m_scopes := [[("x", ⟨false, "int"⟩)]] }⟩ :=
  ⟨(declaration_visible_in_initializer topLevel declIntXFromX [] [] rfl (by decide)).2.2.2.2.1
      1 9 rfl,
    (declaration_visible_in_initializer afterVoidFunctionV declIntXFromCall [] [] rfl
      (by decide)).2.2.2.2.2 (by decide)⟩

/-! ## Division and modulo -/

theorem tdiv_in_range (a b : Int) (ha1 : -2147483648 ≤ a) (ha2 : a ≤ 2147483647)
    (hb : b ≠ 0) (hmin : ¬ (a = -2147483648 ∧ b = -1)) :
    -2147483648 ≤ Int.tdiv a b ∧ Int.tdiv a b ≤ 2147483647 := by
  have habs := Int.natAbs_tdiv a b
  have hle : (Int.tdiv a b).natAbs ≤ a.natAbs := by
    rw [habs]
    exact Nat.div_le_self _ _
  by_cases h1 : b = -1
  · subst h1
    have : Int.tdiv a (-1) = -a := by
      rw [show (-1 : Int) = -(1 : Int) from rfl, Int.tdiv_neg, Int.tdiv_one]
    rw [this]
    have : a ≠ -2147483648 := fun h => hmin ⟨h, rfl⟩
    omega
  · by_cases h2 : b = 1
    · subst h2
      rw [Int.tdiv_one]
      omega
    · have hb2 : 2 ≤ b.natAbs := by omega
      have hdiv : (Int.tdiv a b).natAbs ≤ a.natAbs / 2 := by
        rw [habs]
        exact Nat.div_le_div_left hb2 (by omega)
      omega

theorem tmod_in_range (a b : Int) (ha1 : -2147483648 ≤ a) (ha2 : a ≤ 2147483647) :
    -2147483648 ≤ Int.tmod a b ∧ Int.tmod a b ≤ 2147483647 := by
  rcases Int.le_total 0 a with h | h
  · have h1 := Int.tmod_nonneg b h
    have h2 : Int.tmod a b ≤ a := by
      have := Int.natAbs_tdiv a b
      have hq := Int.tdiv_add_tmod a b
      have hq0 : 0 ≤ b * Int.tdiv a b := by
        rcases Int.le_total 0 b with hb | hb
        · exact Int.mul_nonneg hb (Int.tdiv_nonneg h hb)
        · have : Int.tdiv a b ≤ 0 := by
            have h3 : Int.tdiv a (-(-b)) = -(Int.tdiv a (-b)) := Int.tdiv_neg a (-b)
            rw [Int.neg_neg] at h3
            have := Int.tdiv_nonneg h (show (0 : Int) ≤ -b by omega)
            omega
          exact Int.mul_nonneg_of_nonpos_of_nonpos hb this
      omega
    omega
  · have hneg : 0 ≤ -a := by omega
    have h1 := Int.tmod_nonneg b hneg
    have h0 : Int.tmod (-a) b = -Int.tmod a b := by
      rw [Int.tmod_def, Int.tmod_def, Int.neg_tdiv]
      ring
    have h2 : Int.tmod (-a) b ≤ -a := by
      have hq := Int.tdiv_add_tmod (-a) b
      have hq0 : 0 ≤ b * Int.tdiv (-a) b := by
        rcases Int.le_total 0 b with hb | hb
        · exact Int.mul_nonneg hb (Int.tdiv_nonneg hneg hb)
        · have : Int.tdiv (-a) b ≤ 0 := by
            have h3 : Int.tdiv (-a) (-(-b)) = -(Int.tdiv (-a) (-b)) := Int.tdiv_neg (-a) (-b)
            rw [Int.neg_neg] at h3
            have := Int.tdiv_nonneg hneg (show (0 : Int) ≤ -b by omega)
            omega
          exact Int.mul_nonneg_of_nonpos_of_nonpos hb this
      omega
    omega

/-- C34: when the operands of a binary expression with operator / or % evaluate to values with
integer fields `a` and `b`, the evaluation is the machine operation on `a` and `b` and nothing
else.  If `b` is not zero and the pair is not the least `int` with -1, it returns the Int-tagged
truncated quotient (for /) or remainder (for %), which is again an `int` when `a` is one: under
that precondition it does not fail.  If `b` is zero, or the pair is the least `int` with -1, the
operation is undefined: the evaluation does not return and throws no exception either (the
fault is `undefinedBehaviour`, not one of the exceptions `invalidArgument`, `outOfRange`). -/
theorem division_without_guard (answers : SimulatorAnswers) (fuel line column : Nat)
    (op : String) (left right : Option Expression) (σ σ1 σ2 : RuntimeEvaluator) (lv rv : Value)
    (hop : op = "/" ∨ op = "%")
    (hl : eval answers fuel left σ = .ok (lv, σ1))
    (hr : eval answers fuel right σ1 = .ok (rv, σ2)) :
    (rv.intValue ≠ 0 → ¬ (lv.intValue = -2147483648 ∧ rv.intValue = -1) →
      eval answers (fuel + 1) (some (.binary line column op left right)) σ =
        .ok ({ type := .Int,
               intValue := if op = "/" then Int.tdiv lv.intValue rv.intValue
                 else Int.tmod lv.intValue rv.intValue }, σ2) ∧
      (-2147483648 ≤ lv.intValue → lv.intValue ≤ 2147483647 →
        -2147483648 ≤ Int.tdiv lv.intValue rv.intValue ∧
        Int.tdiv lv.intValue rv.intValue ≤ 2147483647 ∧
        -2147483648 ≤ Int.tmod lv.intValue rv.intValue ∧
        Int.tmod lv.intValue rv.intValue ≤ 2147483647)) ∧
    (rv.intValue = 0 ∨ (lv.intValue = -2147483648 ∧ rv.intValue = -1) →
      eval answers (fuel + 1) (some (.binary line column op left right)) σ =
        .error .undefinedBehaviour) ∧
    (eval answers (fuel + 1) (some (.binary line column op left right)) σ ≠
        .error .invalidArgument ∧
      eval answers (fuel + 1) (some (.binary line column op left right)) σ ≠
        .error .outOfRange ∧
      eval answers (fuel + 1) (some (.binary line column op left right)) σ ≠
        .error .outOfFuel) := by
  have heval := eval_binary answers fuel line column op left right σ σ1 σ2 lv rv hl hr
  have hgood : rv.intValue ≠ 0 → ¬ (lv.intValue = -2147483648 ∧ rv.intValue = -1) →
      eval answers (fuel + 1) (some (.binary line column op left right)) σ =
        .ok ({ type := .Int,
               intValue := if op = "/" then Int.tdiv lv.intValue rv.intValue
                 else Int.tmod lv.intValue rv.intValue }, σ2) := by
    intro hb hmin
    have hcond : ¬ (rv.intValue = 0 ∨ (lv.intValue = -2147483648 ∧ rv.intValue = -1)) := by
      rintro (h | h)
      · exact hb h
      · exact hmin h
    rw [heval]
    rcases hop with rfl | rfl
    · simp [binaryResult, hcond, Except.map]
    · simp [binaryResult, hcond, Except.map]
  have hbad : rv.intValue = 0 ∨ (lv.intValue = -2147483648 ∧ rv.intValue = -1) →
      eval answers (fuel + 1) (some (.binary line column op left right)) σ =
        .error .undefinedBehaviour := by
    intro hcond
    rw [heval]
    rcases hop with rfl | rfl
    · simp [binaryResult, hcond, Except.map]
    · simp [binaryResult, hcond, Except.map]
  refine ⟨fun hb hmin => ⟨hgood hb hmin, fun h1 h2 => ?_⟩, hbad, ?_⟩
  · have hd := tdiv_in_range lv.intValue rv.intValue h1 h2 hb hmin
    have hm := tmod_in_range lv.intValue rv.intValue h1 h2
    exact ⟨hd.1, hd.2, hm.1, hm.2⟩
  · by_cases hcond : rv.intValue = 0 ∨ (lv.intValue = -2147483648 ∧ rv.intValue = -1)
    · rw [hbad hcond]
      exact ⟨fun h => (by cases h), fun h => (by cases h), fun h => (by cases h)⟩
    · rw [hgood (fun h => hcond (Or.inl h)) (fun h => hcond (Or.inr h))]
      exact ⟨fun h => (by cases h), fun h => (by cases h), fun h => (by cases h)⟩

theorem division_without_guard_witness :
    eval countingSimulator 3 (some (.binary 1 3 "/" (some (intLit "7")) (some (intLit "0"))))
        insideCall = .error .undefinedBehaviour ∧
    eval countingSimulator 3 (some (.binary 1 3 "%" (some (intLit "7")) (some (intLit "0"))))
        insideCall = .error .undefinedBehaviour ∧
    (eval countingSimulator 3 (some (.binary 1 3 "%" (some (.unary 1 1 "-" (some (intLit "7"))))
        (some (intLit "2")))) insideCall).map (fun r => r.1) =
      .ok { type := .Int, intValue := -1 } :=
  ⟨(division_without_guard countingSimulator 2 1 3 "/" (some (intLit "7")) (some (intLit "0"))
      insideCall insideCall insideCall { type := .Int, intValue := 7 }
      { type := .Int, intValue := 0 } (Or.inl rfl) rfl rfl).2.1 (Or.inl rfl),
    (division_without_guard countingSimulator 2 1 3 "%" (some (intLit "7")) (some (intLit "0"))
      insideCall insideCall insideCall { type := .Int, intValue := 7 }
      { type := .Int, intValue := 0 } (Or.inr rfl) rfl rfl).2.1 (Or.inl rfl),
    by decide⟩

/-! ## Float fields -/

theorem mapSet_values {β : Type} (P : β → Prop) (m : List (String × β)) (k : String) (v : β)
    (hm : ∀ e ∈ m, P e.2) (hv : P v) : ∀ e ∈ mapSet m k v, P e.2 := by
  induction m with
  | nil =>
    intro e he
    simp only [mapSet, List.mem_singleton] at he
    rw [he]
    exact hv
  | cons p rest ih =>
    obtain ⟨k', v'⟩ := p
    intro e he
    by_cases hk : k' = k
    · simp only [mapSet, hk, ↓reduceIte, List.mem_cons] at he
      rcases he with rfl | he
      · exact hv
      · exact hm e (List.mem_cons_of_mem _ he)
    · simp only [mapSet, hk, ↓reduceIte, List.mem_cons] at he
      rcases he with rfl | he
      · exact hm _ (List.mem_cons_self _ _)
      · exact ih (fun e' he' => hm e' (List.mem_cons_of_mem _ he')) e he

theorem mapFind_value {β : Type} (P : β → Prop) (m : List (String × β)) (k : String) (v : β)
    (hm : ∀ e ∈ m, P e.2) (h : mapFind m k = some v) : P v := by
  induction m with
  | nil => simp [mapFind] at h
  | cons p rest ih =>
    obtain ⟨k', v'⟩ := p
    by_cases hk : k' = k
    · simp only [mapFind, hk, ↓reduceIte, Option.some.injEq] at h
      rw [← h]
      exact hm _ (List.mem_cons_self _ _)
    · simp only [mapFind, hk, ↓reduceIte] at h
      exact ih (fun e' he' => hm e' (List.mem_cons_of_mem _ he')) h

theorem lookup_float (σ : RuntimeEvaluator) (name : String) (h : FloatsZero σ) :
    (σ.lookup name).floatValue = 0 := by
  have hfind : ∀ (env : List EnvFrame), (∀ frame ∈ env, ∀ entry ∈ frame, entry.2.floatValue = 0) →
      ∀ v, findValue env name = some v → v.floatValue = 0 := by
    intro env
    induction env with
    | nil =>
      intro _ v hv
      simp [findValue] at hv
    | cons frame rest ih =>
      intro henv v hv
      rw [findValue] at hv
      cases hf : mapFind frame name with
      | some w =>
        rw [hf] at hv
        simp only [Option.some.injEq] at hv
        rw [← hv]
        exact mapFind_value (fun v => v.floatValue = 0) frame name w
          (henv frame (List.mem_cons_self _ _)) hf
      | none =>
        rw [hf] at hv
        exact ih (fun f hfr => henv f (List.mem_cons_of_mem _ hfr)) v hv
  unfold RuntimeEvaluator.lookup
  cases hv : findValue σ.m_env name with
  | none => rfl
  | some v => exact hfind σ.m_env h.1 v hv

theorem assignFrames_floats (name : String) (v : Value) (hv : v.floatValue = 0) :
    ∀ (env env' : List EnvFrame), (∀ frame ∈ env, ∀ entry ∈ frame, entry.2.floatValue = 0) →
      assignFrames env name v = some env' →
      ∀ frame ∈ env', ∀ entry ∈ frame, entry.2.floatValue = 0
  | [], _, _, h => by simp [assignFrames] at h
  | frame :: rest, env', henv, h => by
    rw [assignFrames] at h
    split at h
    · cases h
      intro f hf
      rcases List.mem_cons.mp hf with rfl | hf
      · exact mapSet_values (fun v => v.floatValue = 0) frame name v
          (henv frame (List.mem_cons_self _ _)) hv
      · exact henv f (List.mem_cons_of_mem _ hf)
    · cases hr : assignFrames rest name v with
      | none => simp [hr] at h
      | some rest' =>
        simp only [hr, Option.map_some', Option.some.injEq] at h
        subst h
        intro f hf
        rcases List.mem_cons.mp hf with rfl | hf
        · exact henv _ (List.mem_cons_self _ _)
        · exact assignFrames_floats name v hv rest rest'
            (fun f' hf' => henv f' (List.mem_cons_of_mem _ hf')) hr f hf

theorem bindInnermost_floats (σ σ' : RuntimeEvaluator) (name : String) (v : Value)
    (hσ : FloatsZero σ) (hv : v.floatValue = 0) (h : σ.bindInnermost name v = .ok σ') :
    FloatsZero σ' := by
  unfold RuntimeEvaluator.bindInnermost at h
  split at h
  · cases h
  · rename_i top rest henv
    cases h
    refine ⟨?_, hσ.2.1, hσ.2.2⟩
    intro f hf
    rcases List.mem_cons.mp hf with rfl | hf
    · exact mapSet_values (fun v => v.floatValue = 0) top name v
        (hσ.1 top (by rw [henv]; exact List.mem_cons_self _ _)) hv
    · exact hσ.1 f (by rw [henv]; exact List.mem_cons_of_mem _ hf)

theorem assign_floats (σ σ' : RuntimeEvaluator) (name : String) (v : Value)
    (hσ : FloatsZero σ) (hv : v.floatValue = 0) (h : σ.assign name v = .ok σ') :
    FloatsZero σ' := by
  unfold RuntimeEvaluator.assign at h
  split at h
  · cases h
    exact ⟨assignFrames_floats name v hv _ _ hσ.1 ‹_›, hσ.2.1, hσ.2.2⟩
  · exact bindInnermost_floats σ σ' name v hσ hv h

theorem bindParams_floats : ∀ (params : List Parameter) (args : List Value) (frame : EnvFrame),
    (∀ a ∈ args, a.floatValue = 0) → (∀ entry ∈ frame, entry.2.floatValue = 0) →
    ∀ entry ∈ bindParams params args frame, entry.2.floatValue = 0
  | [], _, frame, _, hf => by
    simp only [bindParams]
    exact hf
  | _ :: _, [], frame, _, hf => by
    simp only [bindParams]
    exact hf
  | param :: params, arg :: args, frame, ha, hf => by
    rw [bindParams]
    exact bindParams_floats params args _ (fun a h => ha a (List.mem_cons_of_mem _ h))
      (mapSet_values (fun v => v.floatValue = 0) frame param.name arg hf
        (ha arg (List.mem_cons_self _ _)))

theorem argumentAt_float (args : List Value) (i : Nat) (v : Value)
    (ha : ∀ a ∈ args, a.floatValue = 0) (h : argumentAt args i = .ok v) : v.floatValue = 0 := by
  unfold argumentAt at h
  split at h
  · rename_i w hw
    cases h
    exact ha _ (List.mem_iff_getElem?.mpr ⟨i, hw⟩)
  · cases h

theorem dispatchGate_angle (name : String) (args : List Value) (c : SimCall)
    (ha : ∀ a ∈ args, a.floatValue = 0) (h : dispatchGate name args = .ok (some c)) :
    c.angle = 0 := by
  unfold dispatchGate at h
  have hbind : ∀ (i : Nat) (k : Value → Run (Option SimCall)),
      (argumentAt args i >>= k) = .ok (some c) →
      ∃ v, v.floatValue = 0 ∧ k v = .ok (some c) := by
    intro i k hk
    cases hv : argumentAt args i with
    | error f =>
      rw [hv] at hk
      cases hk
    | ok v =>
      rw [hv] at hk
      exact ⟨v, argumentAt_float args i v ha hv, hk⟩
  split at h
  · obtain ⟨a, _, h⟩ := hbind _ _ h
    cases h
    rfl
  · split at h
    · obtain ⟨a, _, h⟩ := hbind _ _ h
      cases h
      rfl
    · split at h
      · obtain ⟨a, _, h⟩ := hbind _ _ h
        cases h
        rfl
      · split at h
        · obtain ⟨a, _, h⟩ := hbind _ _ h
          cases h
          rfl
        · split at h
          · obtain ⟨a, _, h⟩ := hbind _ _ h
            obtain ⟨b, hb, h⟩ := hbind _ _ h
            cases h
            exact hb
          · split at h
            · obtain ⟨a, _, h⟩ := hbind _ _ h
              obtain ⟨b, hb, h⟩ := hbind _ _ h
              cases h
              exact hb
            · split at h
              · obtain ⟨a, _, h⟩ := hbind _ _ h
                obtain ⟨b, hb, h⟩ := hbind _ _ h
                cases h
                exact hb
              · split at h
                · obtain ⟨a, _, h⟩ := hbind _ _ h
                  obtain ⟨b, _, h⟩ := hbind _ _ h
                  cases h
                  rfl
                · cases h

theorem applyGate_floats (σ σ' : RuntimeEvaluator) (name : String) (args : List Value)
    (hσ : FloatsZero σ) (ha : ∀ a ∈ args, a.floatValue = 0)
    (h : σ.applyGate name args = .ok σ') : FloatsZero σ' := by
  unfold RuntimeEvaluator.applyGate at h
  split at h
  · cases h
  · rename_i c hc
    cases h
    refine ⟨hσ.1, hσ.2.1, ?_⟩
    intro c' hc'
    rcases List.mem_append.mp hc' with h1 | h1
    · exact hσ.2.2 c' h1
    · rw [List.mem_singleton] at h1
      rw [h1]
      exact dispatchGate_angle name args c ha hc
  · cases h
    exact hσ

theorem sim_append_floats (σ : RuntimeEvaluator) (c : SimCall) (hc : c.angle = 0)
    (hσ : FloatsZero σ) : FloatsZero { σ with m_sim := σ.m_sim ++ [c] } := by
  refine ⟨hσ.1, hσ.2.1, ?_⟩
  intro c' hc'
  rcases List.mem_append.mp hc' with h1 | h1
  · exact hσ.2.2 c' h1
  · rw [List.mem_singleton] at h1
    rw [h1]
    exact hc

theorem markMeasured_floats (σ : RuntimeEvaluator) (index : Int) (hσ : FloatsZero σ) :
    FloatsZero (σ.markMeasured index) := by
  unfold RuntimeEvaluator.markMeasured
  split
  · exact hσ
  · exact hσ

theorem measure_floats (answers : SimulatorAnswers) (σ : RuntimeEvaluator) (index : Int)
    (hσ : FloatsZero σ) : FloatsZero ((σ.simMeasure answers index).2.markMeasured index) :=
  markMeasured_floats _ index (sim_append_floats σ (.measure index) rfl hσ)

theorem declaredDefault_floats (answers : SimulatorAnswers) (σ : RuntimeEvaluator)
    (name : String) (t : Option Ty) (hσ : FloatsZero σ) :
    (declaredDefault answers σ name t).1.floatValue = 0 ∧
      FloatsZero (declaredDefault answers σ name t).2 := by
  unfold declaredDefault
  split
  · split
    · exact ⟨rfl, hσ⟩
    · split
      · exact ⟨rfl, hσ⟩
      · split
        · exact ⟨rfl, hσ⟩
        · split
          · exact ⟨rfl, sim_append_floats σ .allocateQubit rfl hσ⟩
          · exact ⟨rfl, hσ⟩
  · exact ⟨rfl, hσ⟩

theorem pushFrame_floats (σ : RuntimeEvaluator) (frame : EnvFrame) (hσ : FloatsZero σ)
    (hf : ∀ entry ∈ frame, entry.2.floatValue = 0) :
    FloatsZero { σ with m_env := frame :: σ.m_env } := by
  refine ⟨?_, hσ.2.1, hσ.2.2⟩
  intro f hmem
  rcases List.mem_cons.mp hmem with rfl | hmem
  · exact hf
  · exact hσ.1 f hmem

theorem popFrame_floats (σ : RuntimeEvaluator) (hσ : FloatsZero σ) :
    FloatsZero { σ with m_env := σ.m_env.tail } :=
  ⟨fun f hmem => hσ.1 f (List.mem_of_mem_tail hmem), hσ.2.1, hσ.2.2⟩

theorem binaryResult_float (op : String) (a b : Int) (v : Value)
    (h : binaryResult op a b = .ok v) : v.floatValue = 0 := by
  unfold binaryResult at h
  by_cases h0 : op = "+"
  · rw [if_pos h0] at h
    cases h
    rfl
  rw [if_neg h0] at h
  by_cases h1 : op = "-"
  · rw [if_pos h1] at h
    cases h
    rfl
  rw [if_neg h1] at h
  by_cases h2 : op = "*"
  · rw [if_pos h2] at h
    cases h
    rfl
  rw [if_neg h2] at h
  by_cases h3 : op = "/"
  · rw [if_pos h3] at h
    by_cases hc : b = 0 ∨ (a = -2147483648 ∧ b = -1)
    · rw [if_pos hc] at h
      cases h
    · rw [if_neg hc] at h
      cases h
      rfl
  rw [if_neg h3] at h
  by_cases h4 : op = "%"
  · rw [if_pos h4] at h
    by_cases hc : b = 0 ∨ (a = -2147483648 ∧ b = -1)
    · rw [if_pos hc] at h
      cases h
    · rw [if_neg hc] at h
      cases h
      rfl
  rw [if_neg h4] at h
  by_cases h5 : op = ">"
  · rw [if_pos h5] at h
    cases h
    rfl
  rw [if_neg h5] at h
  by_cases h6 : op = "<"
  · rw [if_pos h6] at h
    cases h
    rfl
  rw [if_neg h6] at h
  by_cases h7 : op = ">="
  · rw [if_pos h7] at h
    cases h
    rfl
  rw [if_neg h7] at h
  by_cases h8 : op = "<="
  · rw [if_pos h8] at h
    cases h
    rfl
  rw [if_neg h8] at h
  by_cases h9 : op = "=="
  · rw [if_pos h9] at h
    cases h
    rfl
  rw [if_neg h9] at h
  by_cases h10 : op = "!="
  · rw [if_pos h10] at h
    cases h
    rfl
  rw [if_neg h10] at h
  cases h
  rfl
theorem execStatements_floats
    (step : Option Statement → RuntimeEvaluator → Run RuntimeEvaluator)
    (hstep : ∀ st σ σ', FloatsZero σ → step st σ = .ok σ' → FloatsZero σ') :
    ∀ (sts : List Statement) (σ σ' : RuntimeEvaluator), FloatsZero σ →
      execStatements step sts σ = .ok σ' → FloatsZero σ'
  | [], σ, σ', hσ, h => by
    rw [execStatements] at h
    cases h
    exact hσ
  | st :: rest, σ, σ', hσ, h => by
    rw [execStatements] at h
    split at h
    · cases h
    · have h1 := hstep _ _ _ hσ ‹_›
      split at h
      · cases h
        exact h1
      · exact execStatements_floats step hstep rest _ _ h1 h

theorem evalArguments_floats
    (step : Option Expression → RuntimeEvaluator → Run (Value × RuntimeEvaluator))
    (hstep : ∀ e σ v σ', FloatsZero σ → step e σ = .ok (v, σ') →
      v.floatValue = 0 ∧ FloatsZero σ') :
    ∀ (es : List Expression) (σ : RuntimeEvaluator) (vs : List Value) (σ' : RuntimeEvaluator),
      FloatsZero σ → evalArguments step es σ = .ok (vs, σ') →
      (∀ v ∈ vs, v.floatValue = 0) ∧ FloatsZero σ'
  | [], σ, vs, σ', hσ, h => by
    rw [evalArguments] at h
    cases h
    exact ⟨fun v hv => by simp at hv, hσ⟩
  | e :: rest, σ, vs, σ', hσ, h => by
    rw [evalArguments] at h
    split at h
    · cases h
    · have h1 := hstep _ _ _ _ hσ ‹_›
      split at h
      · cases h
      · have h2 := evalArguments_floats step hstep rest _ _ _ h1.2 ‹_›
        cases h
        refine ⟨?_, h2.2⟩
        intro v hv
        rcases List.mem_cons.mp hv with rfl | hv
        · exact h1.1
        · exact h2.1 v hv

/-- Every run of `eval`, `exec`, the loop of a for statement and `call` that returns keeps the
float fields at 0. -/
theorem run_keeps_floats (answers : SimulatorAnswers) : ∀ (fuel : Nat),
    (∀ e σ v σ', FloatsZero σ → eval answers fuel e σ = .ok (v, σ') →
      v.floatValue = 0 ∧ FloatsZero σ') ∧
    (∀ st σ σ', FloatsZero σ → exec answers fuel st σ = .ok σ' → FloatsZero σ') ∧
    (∀ c i b σ σ', FloatsZero σ → forLoop answers fuel c i b σ = .ok σ' → FloatsZero σ') ∧
    (∀ fn args σ v σ', FloatsZero σ → (∀ a ∈ args, a.floatValue = 0) →
      call answers fuel fn args σ = .ok (v, σ') → v.floatValue = 0 ∧ FloatsZero σ')
  | 0 => by
    refine ⟨?_, ?_, ?_, ?_⟩
    · intro e σ v σ' _ h
      simp [eval] at h
    · intro st σ σ' _ h
      simp [exec] at h
    · intro c i b σ σ' _ h
      simp [forLoop] at h
    · intro fn args σ v σ' _ _ h
      simp [call] at h
  | fuel + 1 => by
    obtain ⟨ihe, ihx, ihl, ihc⟩ := run_keeps_floats answers fuel
    refine ⟨?_, ?_, ?_, ?_⟩
    · intro e σ v σ' hσ h
      cases e with
      | none =>
        simp only [eval, Except.ok.injEq, Prod.mk.injEq] at h
        rw [← h.1, ← h.2]
        exact ⟨rfl, hσ⟩
      | some e =>
        cases e with
        | literal l c value lt =>
          simp only [eval] at h
          split at h
          · cases h
          · split at h <;> cases h <;> exact ⟨rfl, hσ⟩
        | «variable» l c name =>
          simp only [eval, Except.ok.injEq, Prod.mk.injEq] at h
          rw [← h.1, ← h.2]
          exact ⟨lookup_float σ name hσ, hσ⟩
        | binary l c op left right =>
          simp only [eval] at h
          split at h
          · cases h
          · have h1 := ihe _ _ _ _ hσ ‹_›
            split at h
            · cases h
            · have h2 := ihe _ _ _ _ h1.2 ‹_›
              split at h
              · cases h
              · have h3 := binaryResult_float _ _ _ _ ‹_›
                cases h
                exact ⟨h3, h2.2⟩
        | unary l c op right =>
          simp only [eval] at h
          split at h
          · cases h
          · have h1 := ihe _ _ _ _ hσ ‹_›
            split at h
            · cases h
              exact ⟨rfl, h1.2⟩
            · cases h
              exact h1
        | call l c callee arguments =>
          simp only [eval] at h
          split at h
          · cases h
            exact ⟨rfl, hσ⟩
          · split at h
            · cases h
            · have h1 := evalArguments_floats _ ihe _ _ _ _ hσ ‹_›
              split at h
              · split at h
                · cases h
                · have h2 := applyGate_floats _ _ _ _ h1.2 h1.1 ‹_›
                  cases h
                  exact ⟨rfl, h2⟩
              · split at h
                · cases h
                  exact ⟨rfl, h1.2⟩
                · split at h
                  · cases h
                  · have h2 := ihc _ _ _ _ _ h1.2 h1.1 ‹_›
                    split at h
                    · cases h
                      exact ⟨h2.1, h2.2⟩
                    · cases h
                      exact h2
        | measure l c qubit =>
          simp only [eval] at h
          split at h
          · cases h
          · have h1 := ihe _ _ _ _ hσ ‹_›
            cases h
            exact ⟨rfl, measure_floats answers _ _ h1.2⟩
        | assignment l c name value =>
          simp only [eval] at h
          split at h
          · cases h
          · have h1 := ihe _ _ _ _ hσ ‹_›
            split at h
            · cases h
            · have h2 := assign_floats _ _ _ _ h1.2 h1.1 ‹_›
              cases h
              exact ⟨h1.1, h2⟩
        | index l c a b =>
          simp only [eval, Except.ok.injEq, Prod.mk.injEq] at h
          rw [← h.1, ← h.2]
          exact ⟨rfl, hσ⟩
        | parenthesized l c a =>
          simp only [eval, Except.ok.injEq, Prod.mk.injEq] at h
          rw [← h.1, ← h.2]
          exact ⟨rfl, hσ⟩
        | constructorCall l c n a =>
          simp only [eval, Except.ok.injEq, Prod.mk.injEq] at h
          rw [← h.1, ← h.2]
          exact ⟨rfl, hσ⟩
        | memberAccess l c a m =>
          simp only [eval, Except.ok.injEq, Prod.mk.injEq] at h
          rw [← h.1, ← h.2]
          exact ⟨rfl, hσ⟩
    · intro st σ σ' hσ h
      cases st with
      | none =>
        simp only [exec, Except.ok.injEq] at h
        rw [← h]
        exact hσ
      | some st =>
        cases st with
        | variableDeclaration node =>
          simp only [exec] at h
          have hd := declaredDefault_floats answers σ node.name node.varType hσ
          split at h
          · exact bindInnermost_floats _ _ _ _ hd.2 hd.1 h
          · split at h
            · cases h
            · have h1 := ihe _ _ _ _ hd.2 ‹_›
              exact bindInnermost_floats _ _ _ _ h1.2 h1.1 h
        | block l c statements =>
          simp only [exec] at h
          split at h
          · cases h
          · have h1 := execStatements_floats _ ihx _ _ _
              (pushFrame_floats σ [] hσ (fun e he => by simp at he)) ‹_›
            cases h
            exact popFrame_floats _ h1
        | expression l c e =>
          simp only [exec] at h
          split at h
          · cases h
          · have h1 := ihe _ _ _ _ hσ ‹_›
            cases h
            exact h1.2
        | ret l c value =>
          simp only [exec] at h
          split at h
          · cases h
            exact hσ
          · split at h
            · cases h
            · have h1 := ihe _ _ _ _ hσ ‹_›
              cases h
              exact ⟨h1.2.1, h1.1, h1.2.2.2⟩
        | ifStatement l c cond t e =>
          simp only [exec] at h
          split at h
          · cases h
          · have h1 := ihe _ _ _ _ hσ ‹_›
            split at h
            · exact ihx _ _ _ h1.2 h
            · exact ihx _ _ _ h1.2 h
        | forStatement l c init cond inc body =>
          simp only [exec] at h
          split at h
          · cases h
          · have h1 := ihx _ _ _ (pushFrame_floats σ [] hσ (fun e he => by simp at he)) ‹_›
            split at h
            · cases h
            · have h2 := ihl _ _ _ _ _ h1 ‹_›
              cases h
              exact popFrame_floats _ h2
        | echo l c value =>
          simp only [exec] at h
          split at h
          · cases h
          · have h1 := ihe _ _ _ _ hσ ‹_›
            cases h
            exact h1.2
        | reset l c target =>
          simp only [exec, Except.ok.injEq] at h
          rw [← h]
          exact hσ
        | measure l c qubit =>
          simp only [exec] at h
          split at h
          · cases h
          · have h1 := ihe _ _ _ _ hσ ‹_›
            cases h
            exact measure_floats answers _ _ h1.2
        | assignment l c name value =>
          simp only [exec] at h
          split at h
          · cases h
          · have h1 := ihe _ _ _ _ hσ ‹_›
            exact assign_floats _ _ _ _ h1.2 h1.1 h
    · intro c i b σ σ' hσ h
      simp only [forLoop] at h
      split at h
      · cases h
      · rename_i cv σ1 hc
        have h1 : FloatsZero σ1 := by
          cases c with
          | none =>
            simp only [Except.ok.injEq, Prod.mk.injEq] at hc
            rw [← hc.2]
            exact hσ
          | some c => exact (ihe _ _ _ _ hσ hc).2
        split at h
        · cases h
          exact h1
        · split at h
          · cases h
          · rename_i σ2 hb
            have h2 := ihx _ _ _ h1 hb
            split at h
            · cases h
              exact h2
            · split at h
              · cases h
              · rename_i σ3 hi
                have h3 : FloatsZero σ3 := by
                  cases i with
                  | none =>
                    simp only [Except.ok.injEq] at hi
                    rw [← hi]
                    exact h2
                  | some i =>
                    simp only at hi
                    split at hi
                    · cases hi
                    · have h4 := ihe _ _ _ _ h2 ‹_›
                      cases hi
                      exact h4.2
                exact ihl _ _ _ _ _ h3 h
    · intro fn args σ v σ' hσ hargs h
      simp only [call] at h
      split at h
      · cases h
      · rename_i σ2 hb
        have hσ1 : FloatsZero { σ with m_env := bindParams fn.params args [] :: σ.m_env,
                                       m_hasReturn := false } :=
          pushFrame_floats σ _ hσ
            (bindParams_floats fn.params args [] hargs (fun e he => by simp at he))
        have h2 : FloatsZero σ2 := by
          cases hbody : fn.body with
          | none =>
            simp only [hbody, Except.ok.injEq] at hb
            rw [← hb]
            exact hσ1
          | some statements =>
            simp only [hbody] at hb
            exact execStatements_floats _ ihx _ _ _ hσ1 hb
        cases h
        exact ⟨h2.2.1, popFrame_floats _ h2⟩

/-- C31: call a state float-free when every value stored in an environment frame and the kept
return value have float field 0 and every call the simulator received has angle 0 (the fresh
evaluator is such a state).  From a float-free state every evaluation that returns yields a
value with float field 0 and a float-free state, every statement execution that returns yields
a float-free state, and so does every call with arguments of float field 0, whose result has
float field 0 too; `execute` on the fresh evaluator ends float-free.  So every rx, ry, rz the
simulator receives has angle 0, whatever angle the program wrote: after `qubit q;` the call
`rx(q, 1.5f)` sends `rx(0, 0)`. -/
theorem float_field_stays_zero (answers : SimulatorAnswers) (fuel : Nat) :
    (∀ e σ v σ', FloatsZero σ → eval answers fuel e σ = .ok (v, σ') →
      v.floatValue = 0 ∧ FloatsZero σ') ∧
    (∀ st σ σ', FloatsZero σ → exec answers fuel st σ = .ok σ' → FloatsZero σ') ∧
    (∀ fn args σ v σ', FloatsZero σ → (∀ a ∈ args, a.floatValue = 0) →
      call answers fuel fn args σ = .ok (v, σ') → v.floatValue = 0 ∧ FloatsZero σ') ∧
    FloatsZero RuntimeEvaluator.fresh ∧
    (∀ program σ', execute answers fuel program RuntimeEvaluator.fresh = .ok σ' →
      FloatsZero σ') ∧
    (∀ (σ : RuntimeEvaluator) (q : Int) (angle : Rat), FloatsZero σ →
      (SimCall.rx q angle ∈ σ.m_sim ∨ SimCall.ry q angle ∈ σ.m_sim ∨
        SimCall.rz q angle ∈ σ.m_sim) → angle = 0) ∧
    (eval countingSimulator 3 (some callRxQ) afterQubitDeclaration).map
        (fun r => (r.1, r.2.m_sim)) = .ok ({}, [.allocateQubit, .rx 0 0]) := by
  obtain ⟨he, hx, _, hc⟩ := run_keeps_floats answers fuel
  have hfresh : FloatsZero RuntimeEvaluator.fresh :=
    ⟨fun f hf => by simp [RuntimeEvaluator.fresh] at hf, rfl,
      fun c hc => by simp [RuntimeEvaluator.fresh] at hc⟩
  refine ⟨he, hx, hc, hfresh, ?_, ?_, by decide⟩
  · intro program σ' h
    unfold execute at h
    simp only at h
    split at h
    · cases h
      exact hfresh
    · split at h
      · cases h
      · rename_i hcall
        cases h
        have := hc _ _ _ _ _ (show FloatsZero { RuntimeEvaluator.fresh with
            m_functions := registerFunctions program.functions
              RuntimeEvaluator.fresh.m_functions } from hfresh)
          (fun a ha => by simp at ha) hcall
        exact this.2
  · intro σ q angle hσ hmem
    rcases hmem with h | h | h
    · exact hσ.2.2 _ h
    · exact hσ.2.2 _ h
    · exact hσ.2.2 _ h

/-! ## Lexer -/

theorem Lexer.advance_eq (l : Lexer) (h : l.m_position < l.m_source.length) :
    l.advance = .ok (l.peek,
      { l with m_position := l.m_position + 1, m_column := l.m_column + 1 }) := by
  simp [Lexer.advance, Lexer.peek, List.getD_eq_getElem?_getD, List.getElem?_eq_getElem h]

theorem Lexer.peek_of_le (l : Lexer) (h : l.m_source.length ≤ l.m_position) :
    l.peek = Char.ofNat 0 := by
  simp [Lexer.peek, List.getD_eq_getElem?_getD, List.getElem?_eq_none h]

theorem Lexer.peek_of_getElem? (l : Lexer) (c : Char)
    (h : l.m_source[l.m_position]? = some c) : l.peek = c := by
  simp [Lexer.peek, List.getD_eq_getElem?_getD, h]

theorem Lexer.Ahead.here (l : Lexer) (h : l.m_position ≤ l.m_source.length) : l.Ahead l :=
  ⟨rfl, Nat.le_refl _, h⟩

theorem Lexer.Ahead.onward {a b c : Lexer} (h1 : a.Ahead b) (h2 : b.Ahead c) : a.Ahead c :=
  ⟨h2.1.trans h1.1, Nat.le_trans h1.2.1 h2.2.1, h2.2.2⟩

theorem Lexer.Ahead.advanced (l : Lexer) (h : l.m_position < l.m_source.length) :
    l.Ahead { l with m_position := l.m_position + 1, m_column := l.m_column + 1 } :=
  ⟨rfl, Nat.le_succ _, h⟩

theorem Lexer.advanceWhile_ok (test : Char → Bool) (h0 : test (Char.ofNat 0) = false) :
    ∀ (fuel : Nat) (l : Lexer), l.m_position ≤ l.m_source.length →
      l.m_source.length - l.m_position < fuel →
      ∃ l', l.advanceWhile test fuel = .ok l' ∧ l.Ahead l'
  | 0, _, _, h => by omega
  | fuel + 1, l, hb, h => by
    rw [Lexer.advanceWhile]
    by_cases ht : test l.peek = true
    · have hlt : l.m_position < l.m_source.length := by
        by_contra hge
        rw [l.peek_of_le (by omega), h0] at ht
        cases ht
      rw [if_pos ht, l.advance_eq hlt]
      obtain ⟨l', h1, h2⟩ := Lexer.advanceWhile_ok test h0 fuel
        { l with m_position := l.m_position + 1, m_column := l.m_column + 1 }
        hlt (by simp only; omega)
      exact ⟨l', h1, (Lexer.Ahead.advanced l hlt).onward h2⟩
    · rw [if_neg ht]
      exact ⟨l, rfl, Lexer.Ahead.here l hb⟩

theorem Lexer.skipComment_ok : ∀ (fuel : Nat) (l : Lexer),
    l.m_position ≤ l.m_source.length → l.m_source.length - l.m_position < fuel →
    ∃ l', l.skipComment fuel = .ok l' ∧ l.Ahead l'
  | 0, _, _, h => by omega
  | fuel + 1, l, hb, h => by
    rw [Lexer.skipComment]
    by_cases ht : l.m_position < l.m_source.length ∧ l.peek ≠ '\n'
    · rw [if_pos ht, l.advance_eq ht.1]
      obtain ⟨l', h1, h2⟩ := Lexer.skipComment_ok fuel
        { l with m_position := l.m_position + 1, m_column := l.m_column + 1 }
        ht.1 (by simp only; omega)
      exact ⟨l', h1, (Lexer.Ahead.advanced l ht.1).onward h2⟩
    · rw [if_neg ht]
      exact ⟨l, rfl, Lexer.Ahead.here l hb⟩

theorem Lexer.scanStringLoop_ok : ∀ (fuel : Nat) (l : Lexer),
    l.m_position ≤ l.m_source.length → l.m_source.length - l.m_position < fuel →
    ∃ l', l.scanStringLoop fuel = .ok l' ∧ l.Ahead l'
  | 0, _, _, h => by omega
  | fuel + 1, l, hb, h => by
    rw [Lexer.scanStringLoop]
    by_cases ht : l.m_position < l.m_source.length ∧ l.peek ≠ doubleQuote
    · rw [if_pos ht]
      by_cases hn : l.peek = '\n'
      · rw [if_pos hn, Lexer.advance_eq _ (by exact ht.1)]
        obtain ⟨l', h1, h2⟩ := Lexer.scanStringLoop_ok fuel
          { l with m_line := l.m_line + 1, m_position := l.m_position + 1,
                   m_column := l.m_column + 1 }
          ht.1 (by simp only; omega)
        exact ⟨l', h1, ⟨h2.1, by have := h2.2.1; simp only at this; omega, h2.2.2⟩⟩
      · rw [if_neg hn, l.advance_eq ht.1]
        obtain ⟨l', h1, h2⟩ := Lexer.scanStringLoop_ok fuel
          { l with m_position := l.m_position + 1, m_column := l.m_column + 1 }
          ht.1 (by simp only; omega)
        exact ⟨l', h1, (Lexer.Ahead.advanced l ht.1).onward h2⟩
    · rw [if_neg ht]
      exact ⟨l, rfl, Lexer.Ahead.here l hb⟩

theorem Lexer.skipWhitespace_ok (fuel : Nat) : ∀ (rounds : Nat) (l : Lexer),
    l.m_position ≤ l.m_source.length → l.m_source.length - l.m_position < fuel →
    l.m_source.length - l.m_position < rounds →
    ∃ l', l.skipWhitespace fuel rounds = .ok l' ∧ l.Ahead l'
  | 0, _, _, _, h => by omega
  | rounds + 1, l, hb, hf, h => by
    rw [Lexer.skipWhitespace]
    by_cases hlt : l.m_position < l.m_source.length
    · rw [if_pos hlt]
      by_cases hs : isSpace l.peek = true
      · rw [if_pos hs]
        by_cases hn : l.peek = '\n'
        · rw [if_pos hn, l.advance_eq hlt]
          obtain ⟨l', h1, h2⟩ := Lexer.skipWhitespace_ok fuel rounds
            { l with m_position := l.m_position + 1, m_line := l.m_line + 1, m_column := 1 }
            hlt (by simp only; omega) (by simp only; omega)
          exact ⟨l', h1, ⟨h2.1, by have := h2.2.1; simp only at this; omega, h2.2.2⟩⟩
        · rw [if_neg hn, l.advance_eq hlt]
          obtain ⟨l', h1, h2⟩ := Lexer.skipWhitespace_ok fuel rounds
            { l with m_position := l.m_position + 1, m_column := l.m_column + 1 }
            hlt (by simp only; omega) (by simp only; omega)
          exact ⟨l', h1, (Lexer.Ahead.advanced l hlt).onward h2⟩
      · rw [if_neg hs]
        by_cases hc : l.peek = '/' ∧ l.peekNext = '/'
        · rw [if_pos hc, l.advance_eq hlt]
          have hlt2 : l.m_position + 1 < l.m_source.length := by
            by_contra hge
            have : l.peekNext = Char.ofNat 0 := by
              simp [Lexer.peekNext, List.getD_eq_getElem?_getD,
                List.getElem?_eq_none (show l.m_source.length ≤ l.m_position + 1 by omega)]
            rw [this] at hc
            exact absurd hc.2 (by decide)
          simp only
          rw [Lexer.advance_eq _ (by exact hlt2)]
          simp only
          obtain ⟨l3, h3, ha3⟩ := Lexer.skipComment_ok fuel
            { l with m_position := l.m_position + 1 + 1, m_column := l.m_column + 1 + 1 }
            (by exact hlt2) (by simp only; omega)
          rw [h3]
          simp only
          have hs3 : l3.m_source = l.m_source := ha3.1
          have hp3 : l.m_position + 1 + 1 ≤ l3.m_position := ha3.2.1
          obtain ⟨l', h1, h2⟩ := Lexer.skipWhitespace_ok fuel rounds l3 ha3.2.2
            (by rw [hs3]; omega) (by rw [hs3]; omega)
          exact ⟨l', h1, ⟨h2.1.trans hs3, by have := h2.2.1; omega, h2.2.2⟩⟩
        · rw [if_neg hc]
          exact ⟨l, rfl, Lexer.Ahead.here l hb⟩
    · rw [if_neg hlt]
      exact ⟨l, rfl, Lexer.Ahead.here l hb⟩
theorem Lexer.lt_of_peek (l : Lexer) (h : l.peek ≠ Char.ofNat 0) :
    l.m_position < l.m_source.length := by
  by_contra hge
  exact h (l.peek_of_le (by omega))

theorem scans_token (l : Lexer) (hb : l.m_position ≤ l.m_source.length) (type : TokenType)
    (value : String) (ht : type ≠ .Eof) : ScansFrom l (.ok (l.makeToken type value, l)) :=
  Or.inr ⟨_, _, rfl, ht, Lexer.Ahead.here l hb⟩

theorem ScansFrom.ite {l : Lexer} {P : Prop} [Decidable P] {a b : Lex (Token × Lexer)}
    (ha : P → ScansFrom l a) (hb : ¬ P → ScansFrom l b) :
    ScansFrom l (if P then a else b) := by
  by_cases h : P
  · rw [if_pos h]
    exact ha h
  · rw [if_neg h]
    exact hb h

theorem ScansFrom.after {l l1 : Lexer} {r : Lex (Token × Lexer)} (h1 : l.Ahead l1)
    (h : ScansFrom l1 r) : ScansFrom l r := by
  rcases h with h | ⟨t, l', hr, ht, ha⟩
  · exact Or.inl h
  · exact Or.inr ⟨t, l', hr, ht, h1.onward ha⟩

theorem Lexer.scanNumber_scans (fuel : Nat) (l : Lexer)
    (hb : l.m_position ≤ l.m_source.length) (hf : l.m_source.length - l.m_position < fuel) :
    ScansFrom l (l.scanNumber fuel) := by
  unfold Lexer.scanNumber
  simp only
  obtain ⟨l1, h1, a1⟩ := Lexer.advanceWhile_ok Char.isDigit (by decide) fuel l hb hf
  rw [h1]
  simp only
  by_cases hdot : l1.peek = '.'
  · have hlt1 : l1.m_position < l1.m_source.length :=
      l1.lt_of_peek (by rw [hdot]; decide)
    rw [if_pos hdot, l1.advance_eq hlt1]
    simp only
    have hs1 : l1.m_source = l.m_source := a1.1
    have hp1 : l.m_position ≤ l1.m_position := a1.2.1
    obtain ⟨l3, h3, a3⟩ := Lexer.advanceWhile_ok Char.isDigit (by decide) fuel
      { l1 with m_position := l1.m_position + 1, m_column := l1.m_column + 1 }
      hlt1 (by show l1.m_source.length - (l1.m_position + 1) < fuel; rw [hs1]; omega)
    rw [h3]
    simp only
    have a13 : l.Ahead l3 := (a1.onward (Lexer.Ahead.advanced l1 hlt1)).onward a3
    by_cases hfl : l3.peek = 'f'
    · have hlt3 : l3.m_position < l3.m_source.length :=
        l3.lt_of_peek (by rw [hfl]; decide)
      rw [if_pos hfl, l3.advance_eq hlt3]
      exact Or.inr ⟨_, _, rfl, by simp [Lexer.makeToken], a13.onward (Lexer.Ahead.advanced l3 hlt3)⟩
    · rw [if_neg hfl]
      exact Or.inl ⟨_, rfl⟩
  · rw [if_neg hdot]
    exact Or.inr ⟨_, _, rfl, by simp [Lexer.makeToken], a1⟩

theorem Lexer.scanIdentifierOrKeyword_scans (fuel : Nat) (l : Lexer)
    (hb : l.m_position ≤ l.m_source.length) (hf : l.m_source.length - l.m_position < fuel) :
    ScansFrom l (l.scanIdentifierOrKeyword fuel) := by
  unfold Lexer.scanIdentifierOrKeyword
  simp only
  obtain ⟨l1, h1, a1⟩ := Lexer.advanceWhile_ok (fun c => c.isAlphanum || c = '_')
    (by decide) fuel l hb hf
  rw [h1]
  simp only
  cases hk : mapFind keywords (l1.substr (l.m_position - 1) (l1.m_position - (l.m_position - 1)))
    with
  | none => exact Or.inr ⟨_, _, rfl, by simp [Lexer.makeToken], a1⟩
  | some type =>
    refine Or.inr ⟨_, _, rfl, ?_, a1⟩
    exact mapFind_value (fun ty => ty ≠ TokenType.Eof) keywords _ type (by decide) hk

theorem Lexer.scanString_scans (fuel : Nat) (l : Lexer)
    (hb : l.m_position ≤ l.m_source.length) (hf : l.m_source.length - l.m_position < fuel) :
    ScansFrom l (l.scanString fuel) := by
  unfold Lexer.scanString
  simp only
  obtain ⟨l1, h1, a1⟩ := Lexer.scanStringLoop_ok fuel l hb hf
  rw [h1]
  simp only
  by_cases hq : l1.peek = doubleQuote
  · have hlt1 : l1.m_position < l1.m_source.length :=
      l1.lt_of_peek (by rw [hq]; decide)
    rw [if_pos hq, l1.advance_eq hlt1]
    exact Or.inr ⟨_, _, rfl, by simp [Lexer.makeToken], a1.onward (Lexer.Ahead.advanced l1 hlt1)⟩
  · rw [if_neg hq]
    exact Or.inl ⟨_, rfl⟩

theorem Lexer.scanChar_scans (l : Lexer) (hb : l.m_position ≤ l.m_source.length) :
    ScansFrom l l.scanChar := by
  unfold Lexer.scanChar
  simp only
  have hfirst : ∃ l1, (if l.m_position < l.m_source.length then
        match l.advance with
        | .error f => (.error f : Lex Lexer)
        | .ok (_, l1) => .ok l1
      else .ok l) = .ok l1 ∧ l.Ahead l1 := by
    by_cases hlt : l.m_position < l.m_source.length
    · rw [if_pos hlt, l.advance_eq hlt]
      exact ⟨_, rfl, Lexer.Ahead.advanced l hlt⟩
    · rw [if_neg hlt]
      exact ⟨l, rfl, Lexer.Ahead.here l hb⟩
  obtain ⟨l1, h1, a1⟩ := hfirst
  rw [h1]
  simp only
  by_cases hq : l1.peek = singleQuote
  · have hlt1 : l1.m_position < l1.m_source.length :=
      l1.lt_of_peek (by rw [hq]; decide)
    rw [if_pos hq, l1.advance_eq hlt1]
    exact Or.inr ⟨_, _, rfl, by simp [Lexer.makeToken], a1.onward (Lexer.Ahead.advanced l1 hlt1)⟩
  · rw [if_neg hq]
    exact Or.inl ⟨_, rfl⟩

theorem Lexer.matchChar_ahead (l : Lexer) (hb : l.m_position ≤ l.m_source.length)
    (expected : Char) : l.Ahead (l.matchChar expected).2 := by
  unfold Lexer.matchChar
  split
  · exact Lexer.Ahead.here l hb
  · rename_i h
    exact Lexer.Ahead.advanced l (by omega)

theorem Lexer.matchOr_scans (l : Lexer) (hb : l.m_position ≤ l.m_source.length)
    (expected : Char) (both : TokenType) (bothText : String) (single : TokenType)
    (singleText : String) (h1 : both ≠ .Eof) (h2 : single ≠ .Eof) :
    ScansFrom l (.ok (l.matchOr expected both bothText single singleText)) := by
  unfold Lexer.matchOr
  split
  · exact Or.inr ⟨_, _, rfl, h1, l.matchChar_ahead hb expected⟩
  · exact Or.inr ⟨_, _, rfl, h2, l.matchChar_ahead hb expected⟩

theorem Lexer.scanPunctuation_scans (fuel : Nat) (c : Char) (l : Lexer)
    (hb : l.m_position ≤ l.m_source.length) (hf : l.m_source.length - l.m_position < fuel) :
    ScansFrom l (l.scanPunctuation fuel c) := by
  unfold Lexer.scanPunctuation
  repeat' (apply ScansFrom.ite <;> intro _)
  all_goals first
    | exact scans_token l hb _ _ (by decide)
    | exact l.matchOr_scans hb _ _ _ _ _ (by decide) (by decide)
    | exact l.scanString_scans fuel hb hf
    | exact l.scanChar_scans hb

/-- What `scanToken` does on a lexer that has a character left: it throws, or it returns a
token that is not `Eof` and has read at least one character. -/
theorem Lexer.scanToken_scans (fuel : Nat) (l : Lexer)
    (hlt : l.m_position < l.m_source.length) (hf : l.m_source.length - l.m_position < fuel) :
    (∃ e, l.scanToken fuel = .error (.thrown e)) ∨
      ∃ t l', l.scanToken fuel = .ok (t, l') ∧ t.type ≠ .Eof ∧ l'.m_source = l.m_source ∧
        l.m_position < l'.m_position ∧ l'.m_position ≤ l'.m_source.length := by
  have hscan : ScansFrom
      { l with m_position := l.m_position + 1, m_column := l.m_column + 1 }
      (l.scanToken fuel) := by
    unfold Lexer.scanToken
    rw [l.advance_eq hlt]
    simp only
    split
    · exact Lexer.scanNumber_scans fuel _ hlt (by simp only; omega)
    · split
      · exact Lexer.scanIdentifierOrKeyword_scans fuel _ hlt (by simp only; omega)
      · exact Lexer.scanPunctuation_scans fuel _ _ hlt (by simp only; omega)
  rcases hscan with h | ⟨t, l', hr, ht, ha⟩
  · exact Or.inl h
  · exact Or.inr ⟨t, l', hr, ht, ha.1, ha.2.1, ha.2.2⟩

theorem Lexer.scanToken_unknown (fuel : Nat) (l : Lexer) (c : Char)
    (hc : l.m_source[l.m_position]? = some c) (hu : startsKnownToken c = false) :
    l.scanToken fuel =
      .ok ({ type := .Unknown, value := String.singleton c, line := l.m_line,
             column := l.m_column + 1 - 1 },
        { l with m_position := l.m_position + 1, m_column := l.m_column + 1 }) := by
  have hlt : l.m_position < l.m_source.length := by
    by_contra hge
    rw [List.getElem?_eq_none (by omega)] at hc
    cases hc
  have hpeek := l.peek_of_getElem? c hc
  simp only [startsKnownToken, Bool.or_eq_false_iff, decide_eq_false_iff_not, List.mem_cons,
    List.mem_singleton, List.not_mem_nil, or_false, not_or] at hu
  obtain ⟨⟨⟨hd, ha⟩, hus⟩, h1, h2, h3, h4, h5, h6, h7, h8, h9, h10, h11, h12, h13, h14, h15,
    h16, h17, h18, h19, h20, h21, h22⟩ := hu
  unfold Lexer.scanToken
  rw [l.advance_eq hlt, hpeek]
  simp only [hd, ha, hus, Bool.false_eq_true, ↓reduceIte, false_or, Lexer.scanPunctuation,
    h1, h2, h3, h4, h5, h6, h7, h8, h9, h10, h11, h12, h13, h14, h15, h16, h17, h18, h19, h20,
    h21, h22, Lexer.makeToken]
  simp [String.singleton, String.length]

theorem Lexer.tokenizeLoop_ok (fuel : Nat) : ∀ (rounds : Nat) (l : Lexer) (tokens : List Token),
    l.m_position ≤ l.m_source.length → l.m_source.length - l.m_position < fuel →
    l.m_source.length - l.m_position < rounds → (∀ t ∈ tokens, t.type ≠ .Eof) →
    (∃ e, l.tokenizeLoop fuel rounds tokens = .error (.thrown e)) ∨
      ∃ tokens' l', l.tokenizeLoop fuel rounds tokens = .ok (tokens', l') ∧
        (∀ t ∈ tokens', t.type ≠ .Eof) ∧ l'.m_source = l.m_source ∧
        l'.m_position = l'.m_source.length
  | 0, _, _, _, _, h, _ => by omega
  | rounds + 1, l, tokens, hb, hf, hr, htok => by
    rw [Lexer.tokenizeLoop]
    by_cases hlt : l.m_position < l.m_source.length
    · rw [if_pos hlt]
      obtain ⟨l1, h1, a1⟩ := Lexer.skipWhitespace_ok fuel fuel l hb hf hf
      rw [h1]
      simp only
      have hs1 : l1.m_source = l.m_source := a1.1
      have hp1 : l.m_position ≤ l1.m_position := a1.2.1
      by_cases hlt1 : l1.m_position < l1.m_source.length
      · rw [if_pos hlt1]
        rcases Lexer.scanToken_scans fuel l1 hlt1 (by rw [hs1]; omega) with
          ⟨e, he⟩ | ⟨t, l2, h2, ht, hs2, hp2, hb2⟩
        · rw [he]
          exact Or.inl ⟨e, rfl⟩
        · rw [h2]
          simp only
          rcases Lexer.tokenizeLoop_ok fuel rounds l2 (tokens ++ [t]) hb2
              (by rw [hs2, hs1]; omega) (by rw [hs2, hs1]; omega)
              (by
                intro t' ht'
                rcases List.mem_append.mp ht' with h | h
                · exact htok t' h
                · rw [List.mem_singleton] at h
                  rw [h]
                  exact ht) with
            h | ⟨tokens', l', h, hall, hs, hend⟩
          · exact Or.inl h
          · exact Or.inr ⟨tokens', l', h, hall, hs.trans (hs2.trans hs1), hend⟩
      · rw [if_neg hlt1]
        have hend1 : l1.m_position = l1.m_source.length := by
          have := a1.2.2
          omega
        cases rounds with
        | zero => omega
        | succ k =>
          rw [Lexer.tokenizeLoop, if_neg (by omega)]
          exact Or.inr ⟨tokens, l1, rfl, htok, hs1, hend1⟩
    · rw [if_neg hlt]
      exact Or.inr ⟨tokens, l, rfl, htok, rfl, by omega⟩
/-- C35: with a bound above the length of the source on the rounds of each loop, `tokenize`
never runs out of rounds and never reads past the end of the source: it throws an exception of
the lexer, or it returns.  When it returns, the token list is some tokens, none of type `Eof`,
followed by one `Eof` token, so it is non-empty, ends with `Eof` and has no other `Eof`; the
whole source has been read.  Every call of `scanToken` on a lexer that has a character left
throws or returns a token with the position advanced by at least one character.  On a character
that starts no known token `scanToken` returns an `Unknown` token holding that character, having
read just it. -/
theorem tokenize_ends_with_eof (source : String) (fuel : Nat) (hfuel : source.length < fuel) :
    ((∃ e, (Lexer.create source).tokenize fuel = .error (.thrown e)) ∨
      ∃ tokens l', (Lexer.create source).tokenize fuel =
          .ok (tokens ++ [{ type := .Eof, value := "", line := l'.m_line,
                            column := l'.m_column - 0 }], l') ∧
        (∀ t ∈ tokens, t.type ≠ .Eof) ∧ l'.m_position = source.length) ∧
    (∀ l : Lexer, l.m_position < l.m_source.length →
      l.m_source.length - l.m_position < fuel →
      (∃ e, l.scanToken fuel = .error (.thrown e)) ∨
        ∃ t l', l.scanToken fuel = .ok (t, l') ∧ t.type ≠ .Eof ∧
          l'.m_source = l.m_source ∧ l.m_position < l'.m_position ∧
          l'.m_position ≤ l'.m_source.length) ∧
    (∀ (l : Lexer) (c : Char), l.m_source[l.m_position]? = some c →
      startsKnownToken c = false →
      l.scanToken fuel =
        .ok ({ type := .Unknown, value := String.singleton c, line := l.m_line,
               column := l.m_column + 1 - 1 },
          { l with m_position := l.m_position + 1, m_column := l.m_column + 1 })) := by
  refine ⟨?_, fun l hlt hf => Lexer.scanToken_scans fuel l hlt hf,
    fun l c hc hu => Lexer.scanToken_unknown fuel l c hc hu⟩
  have hlen : source.data.length < fuel := hfuel
  rcases Lexer.tokenizeLoop_ok fuel fuel (Lexer.create source) [] (Nat.zero_le _)
      (by simpa [Lexer.create] using hlen) (by simpa [Lexer.create] using hlen)
      (fun t ht => by simp at ht) with ⟨e, he⟩ | ⟨tokens, l', h, hall, hs, hend⟩
  · left
    refine ⟨e, ?_⟩
    unfold Lexer.tokenize
    rw [he]
  · right
    refine ⟨tokens, l', ?_, hall, ?_⟩
    · unfold Lexer.tokenize
      rw [h]
      rfl
    · rw [hend, hs]
      rfl

theorem tokenize_ends_with_eof_witness :
    ((Lexer.create sourceWithUnknown).tokenize 12).map
        (fun r => r.1.map fun t => (t.type, t.value)) =
      .ok [(.Identifier, "h"), (.LParen, "("), (.Identifier, "q"), (.RParen, ")"),
        (.Unknown, "#"), (.FloatLiteral, "1.5f"), (.Eof, "")] ∧
    ((∃ e, (Lexer.create sourceWithUnknown).tokenize 12 = .error (.thrown e)) ∨
      ∃ tokens l', (Lexer.create sourceWithUnknown).tokenize 12 =
          .ok (tokens ++ [{ type := .Eof, value := "", line := l'.m_line,
                            column := l'.m_column - 0 }], l') ∧
        (∀ t ∈ tokens, t.type ≠ .Eof) ∧ l'.m_position = sourceWithUnknown.length) ∧
    ((Lexer.create "1.5").tokenize 4).map (fun r => r.1) =
      .error (.thrown ⟨"Bloch Lexer Error", 1, 4, "Float literal must end with 'f'"⟩) :=
  ⟨by decide, (tokenize_ends_with_eof sourceWithUnknown 12 (by decide)).1, by decide⟩

end Bloch
